import Mathlib

/-!
# Word of Wisdom: the server-side Proof-of-Work subsystem

A shallow embedding of the Go sources of `opravdin/word-of-wisdom`:

* `server/internal/configuration/env/config.go` (`PowConfig`, `DefaultConfig`),
* `server/internal/pow/utils.go` (`CalculateDifficultyLevel`, `GenerateRandomSeed`,
  `VerifySolution`),
* `server/internal/repository/pow/repository.go` (`DefaultRepository` over a model of the
  Redis commands it issues),
* `server/internal/pow/service.go` (`CreateChallenge`, `ValidateChallenge`).

Conventions.

* Go `int`/`int64` values are Lean `Int`; where Go arithmetic can wrap, the wrap is explicit
  (`wrapInt64`).
* A Go function returning `(T, error)` returns `Except String T`, the `String` being the text of
  the error (`err.Error()`); `fmt.Errorf("...: %w", err)` is string concatenation.
* A runtime panic is a separate outcome (`none` for the pure helpers, `Outcome.panicked` for the
  service).
* Library code that is not part of the repository (scrypt, SHA-256, UUID parsing) is a
  parameter, bundled in `Lib`.
* Values the environment supplies (the fresh UUID, the bytes read from the entropy source, the
  random draw, the clock, failures of the connection to the store) are explicit inputs.
* `time.Duration` is counted in milliseconds, the unit of the store's clock; the configuration
  loader reads a duration in nanoseconds, as Go holds it, and converts it.
* `encoding/json` is a parameter of the handlers and of the connection loop (`protocol.Json`);
  `encodingJson` is a model of it for the messages of the protocol.
-/

set_option maxRecDepth 100000

namespace WordOfWisdom

/-! ## Go runtime and standard library helpers -/

/-- Two's-complement wrap of a mathematical integer into the range of Go's `int64`. -/
def wrapInt64 (x : Int) : Int := (x + 2 ^ 63) % 2 ^ 64 - 2 ^ 63

/-- The largest `int64`. -/
def maxInt64 : Int := 2 ^ 63 - 1

/-- Go `time.Second`; a `time.Duration` is an integer number of milliseconds. -/
def Second : Int := 1000

/-- Go `time.Minute`. -/
def Minute : Int := 60 * Second

/-- One digit of `encoding/hex`: the table `"0123456789abcdef"`. -/
def hexDigit (n : Nat) : Char := "0123456789abcdef".data.getD n '0'

/-- Go `hex.EncodeToString`: two lowercase hex digits per byte, high nibble first. -/
def hexEncodeToString (src : List UInt8) : String :=
  String.mk (src.flatMap fun b => [hexDigit (b.toNat / 16), hexDigit (b.toNat % 16)])

/-- Go `strings.Repeat` for a non-negative count (a negative count panics; callers test it). -/
def stringsRepeat (s : String) (count : Nat) : String :=
  String.mk (List.replicate count s.data).flatten

/-- Go `strings.HasPrefix`. -/
def stringsHasPrefix (s pfx : String) : Bool := pfx.data.isPrefixOf s.data

/-- Go `[]byte(s)`: the UTF-8 bytes of a string. -/
def bytesOf (s : String) : List UInt8 := s.toUTF8.data.toList

/-- Library functions the server calls that are not part of the repository.

* `scryptKey password salt N r p keyLen` is `golang.org/x/crypto/scrypt.Key`; it returns an error
  for parameters it rejects (for instance an `N` that is not a power of two greater than 1).
* `sha256Sum256` is `crypto/sha256.Sum256`, whose result type is `[32]byte`.
* `uuidParse s` is `true` when `github.com/google/uuid.Parse(s)` returns no error. -/
structure Lib where
  scryptKey : List UInt8 → List UInt8 → Int → Int → Int → Int → Except String (List UInt8)
  sha256Sum256 : List UInt8 → List UInt8
  sha256_size : ∀ b, (sha256Sum256 b).length = 32
  uuidParse : String → Bool

/-! ## Configuration (`configuration/env/config.go`) -/

/-- Go `env.PowConfig`. -/
structure PowConfig where
  ScryptN : Int
  ScryptR : Int
  ScryptP : Int
  KeyLen : Int
  ChallengeTTL : Int
  RequestsPerDifficultyIncrease : Int
  MaxDifficultyLevel : Int
  MaxUnsolvedChallenges : Int
  BucketCapacity : Int

/-- The `Pow` part of Go `env.DefaultConfig()`. -/
def DefaultConfig : PowConfig where
  ScryptN := 16384
  ScryptR := 8
  ScryptP := 1
  KeyLen := 32
  ChallengeTTL := 5 * Minute
  RequestsPerDifficultyIncrease := 10
  MaxDifficultyLevel := 8
  MaxUnsolvedChallenges := 10
  BucketCapacity := 10

/-! ## PoW primitives (`pow/utils.go`) -/

/-- Go `PoWUtils.CalculateDifficultyLevel`. The quotient is Go's truncated `int64` division;
`none` is the run-time panic of an integer division by zero. -/
def CalculateDifficultyLevel (config : PowConfig) (requestCount : Int) : Option Int :=
  if config.RequestsPerDifficultyIncrease = 0 then none
  else
    let level := wrapInt64 (Int.tdiv requestCount config.RequestsPerDifficultyIncrease)
    if level > config.MaxDifficultyLevel then some config.MaxDifficultyLevel
    else some level

/-- Go `PoWUtils.GenerateRandomSeed`; `entropy` is the outcome of `rand.Read` on a buffer of
`randomSeedLength = 16` bytes. -/
def GenerateRandomSeed (entropy : Except String (List UInt8)) : Except String String :=
  match entropy with
  | .error err => .error err
  | .ok randomBytes => .ok (hexEncodeToString randomBytes)

/-- Go `PoWUtils.VerifySolution`. `none` is the panic of `strings.Repeat` on a negative
count. -/
def VerifySolution (lib : Lib) (config : PowConfig) (challengeID seed nonce : String)
    (difficultyLevel : Int) : Option Bool :=
  let input := bytesOf (challengeID ++ seed ++ nonce)
  match lib.scryptKey input (bytesOf challengeID) config.ScryptN config.ScryptR config.ScryptP
      config.KeyLen with
  | .error _ => some false
  | .ok hash =>
    let hashHex := hexEncodeToString hash
    if difficultyLevel < 0 then none
    else
      let pfx := stringsRepeat "0" difficultyLevel.toNat
      some (stringsHasPrefix hashHex pfx)

/-! ## Records (`repository/pow/contracts.go`, `protocol/interfaces.go`) -/

/-- Go `powrepo.Task`. -/
structure Task where
  ID : String
  Seed : String
  DifficultyLevel : Int
  Result : String
deriving DecidableEq, Repr

/-- Go `protocol.Challenge`. -/
structure Challenge where
  ID : String
  Seed : String
  DifficultyLevel : Int
  Result : String
  ScryptN : Int
  ScryptR : Int
  ScryptP : Int
  KeyLen : Int
deriving DecidableEq, Repr

/-- Go `powrepo.ErrTaskAlreadyExists`. -/
def ErrTaskAlreadyExists : String := "task already exists"

/-- Go `powrepo.ErrTaskNotFound`. -/
def ErrTaskNotFound : String := "task not found"

/-- Go `powrepo.ErrRedisOperation`. -/
def ErrRedisOperation : String := "redis operation failed"

/-! ## The store: a model of the Redis commands the repository issues

A key holds a string payload (written by `SETNX`), an integer counter (written by `INCR` or by
the decrement script, which writes a result above `2 ^ 62` as a string, see `luaNumberValue`)
or a sorted set of `(member, score)` pairs with pairwise different members. An entry whose
expiry time has been reached is absent for every command. The three kinds live under keys of
different namespaces (`task:`, `unsolved:`, `difficulty:`); a command applied to a key of
another kind fails, as Redis does for a value that is not of the type the command needs. -/

/-- A value stored under a key. -/
inductive RedisValue where
  | str (s : String)
  | int (n : Int)
  | zset (members : List (Int × Int))
deriving DecidableEq, Repr

/-- A stored value with the time (milliseconds) at which it expires, if any. -/
structure RedisEntry where
  value : RedisValue
  expireAt : Option Int
deriving DecidableEq, Repr

/-- An error of a Redis command as the client reports it: `Nil` is go-redis `redis.Nil`; every
other error carries its text. -/
inductive RedisError where
  | Nil
  | failure (text : String)
deriving DecidableEq, Repr

/-- The store and its environment: the keyspace, the clock in milliseconds (read both by the
store for expiry and by `time.Now().UnixMilli()`), and for each coming round trip to the store
whether the connection fails (`some text`) or not; an exhausted list means no failure. A failed
round trip applies none of its commands. -/
structure Redis where
  data : String → Option RedisEntry
  now : Int
  faults : List (Option String)

namespace Redis

/-- The store with no key, at time `now`, and no connection failure ahead. -/
def empty (now : Int) : Redis := ⟨fun _ => none, now, []⟩

/-- The entry under `key`, unless it is absent or has expired. -/
def live (r : Redis) (key : String) : Option RedisEntry :=
  match r.data key with
  | none => none
  | some e =>
    match e.expireAt with
    | none => some e
    | some t => if r.now < t then some e else none

/-- Write `e` under `key`. -/
def put (r : Redis) (key : String) (e : RedisEntry) : Redis :=
  { r with data := fun k => if k = key then some e else r.data k }

/-- Drop `key`. -/
def remove (r : Redis) (key : String) : Redis :=
  { r with data := fun k => if k = key then none else r.data k }

/-- The clock moves forward by `d` milliseconds. -/
def advance (r : Redis) (d : Nat) : Redis := { r with now := r.now + d }

/-- One round trip to the store: the next connection outcome is consumed; on a failure the
commands `cmd` are not applied. -/
def call {α : Type} (r : Redis) (cmd : Redis → Except RedisError α × Redis) :
    Except RedisError α × Redis :=
  match r.faults with
  | [] => cmd r
  | none :: rest => cmd { r with faults := rest }
  | some text :: rest => (.error (.failure text), { r with faults := rest })

/-- The error of a command applied to a key holding another kind of value. -/
def wrongType : RedisError :=
  .failure "WRONGTYPE Operation against a key holding the wrong kind of value"

/-- Redis `SET key value NX` with a time to live (go-redis `SetNX`): `true` when the key was
written; a zero `ttl` sets no expiry, a negative one is rejected by the store. -/
def setNX (r : Redis) (key value : String) (ttl : Int) : Except RedisError Bool × Redis :=
  if ttl < 0 then (.error (.failure "ERR invalid expire time in 'set' command"), r)
  else
    match r.live key with
    | some _ => (.ok false, r)
    | none => (.ok true, r.put key ⟨.str value, if ttl = 0 then none else some (r.now + ttl)⟩)

/-- Redis `GET`. -/
def get (r : Redis) (key : String) : Except RedisError String × Redis :=
  match r.live key with
  | none => (.error .Nil, r)
  | some e =>
    match e.value with
    | .str s => (.ok s, r)
    | .int n => (.ok (toString n), r)
    | .zset _ => (.error wrongType, r)

/-- Redis `GET` read through go-redis `.Int64()`. -/
def getInt64 (r : Redis) (key : String) : Except RedisError Int × Redis :=
  match r.live key with
  | none => (.error .Nil, r)
  | some e =>
    match e.value with
    | .int n => (.ok n, r)
    | .str _ => (.error (.failure "strconv.ParseInt: invalid syntax"), r)
    | .zset _ => (.error wrongType, r)

/-- Redis `DEL`: the number of keys removed. -/
def del (r : Redis) (key : String) : Except RedisError Int × Redis :=
  match r.live key with
  | none => (.ok 0, r)
  | some _ => (.ok 1, r.remove key)

/-- Redis `EXPIRE`: `true` when the key exists and its time to live was set. -/
def expire (r : Redis) (key : String) (d : Int) : Except RedisError Bool × Redis :=
  match r.live key with
  | none => (.ok false, r)
  | some e =>
    if d ≤ 0 then (.ok true, r.remove key)
    else (.ok true, r.put key { e with expireAt := some (r.now + d) })

/-- Redis `INCR`: an absent key counts as 0; the time to live is kept. -/
def incr (r : Redis) (key : String) : Except RedisError Int × Redis :=
  match r.live key with
  | none => (.ok 1, r.put key ⟨.int 1, none⟩)
  | some e =>
    match e.value with
    | .int n =>
      if n = maxInt64 then (.error (.failure "ERR increment or decrement would overflow"), r)
      else (.ok (n + 1), r.put key { e with value := .int (n + 1) })
    | .str _ => (.error (.failure "ERR value is not an integer or out of range"), r)
    | .zset _ => (.error wrongType, r)

/-- Redis `ZADD key score member`: the number of members added; a member already present only
has its score updated. -/
def zadd (r : Redis) (key : String) (score member : Int) : Except RedisError Int × Redis :=
  match r.live key with
  | none => (.ok 1, r.put key ⟨.zset [(member, score)], none⟩)
  | some e =>
    match e.value with
    | .zset ms =>
      if ms.any (fun m => m.1 == member) then
        (.ok 0, r.put key { e with
          value := .zset (ms.map fun m => if m.1 = member then (member, score) else m) })
      else (.ok 1, r.put key { e with value := .zset ((member, score) :: ms) })
    | _ => (.error wrongType, r)

/-- Redis `ZREMRANGEBYSCORE key min max` (both bounds inclusive): the number of members
removed; a set left empty is deleted. -/
def zremRangeByScore (r : Redis) (key : String) (min max : Int) :
    Except RedisError Int × Redis :=
  match r.live key with
  | none => (.ok 0, r)
  | some e =>
    match e.value with
    | .zset ms =>
      let keep := ms.filter fun m => !(decide (min ≤ m.2) && decide (m.2 ≤ max))
      if keep.isEmpty then (.ok ms.length, r.remove key)
      else (.ok (ms.length - keep.length : Nat), r.put key { e with value := .zset keep })
    | _ => (.error wrongType, r)

/-- Redis `ZCOUNT key min max` (both bounds inclusive). -/
def zcount (r : Redis) (key : String) (min max : Int) : Except RedisError Int × Redis :=
  match r.live key with
  | none => (.ok 0, r)
  | some e =>
    match e.value with
    | .zset ms => (.ok (ms.filter fun m => decide (min ≤ m.2) && decide (m.2 ≤ max)).length, r)
    | _ => (.error wrongType, r)

/-- The number of low binary digits a `float64` drops from the natural number `n`: the least
`k` with `n / 2 ^ k < 2 ^ 53`, searched in `fuel` steps (`n` steps always suffice). -/
def float64Shift : Nat → Nat → Nat
  | 0, _ => 0
  | fuel + 1, n => if n < 2 ^ 53 then 0 else float64Shift fuel (n / 2) + 1

/-- The `float64` nearest to the natural number `n`, as the natural number it equals: the
leading 53 binary digits of `n`, rounded to nearest and on a tie to the even significand. A
number below `2 ^ 53` is kept. -/
def float64OfNat (n : Nat) : Nat :=
  let k := float64Shift n n
  let q := n / 2 ^ k
  let rest := n % 2 ^ k
  if 2 * rest < 2 ^ k then q * 2 ^ k
  else if 2 * rest = 2 ^ k ∧ q % 2 = 0 then q * 2 ^ k
  else (q + 1) * 2 ^ k

/-- The number Lua (whose numbers are `float64`) holds for the integer `x`, as the integer it
equals: what `tonumber` returns for the decimal text of `x`, and the rounded result of an
arithmetic operation whose exact result is `x`. Infinite results (beyond `1.8e308`) are not
modelled. -/
def float64OfInt (x : Int) : Int :=
  if x < 0 then -(float64OfNat x.natAbs : Int) else (float64OfNat x.natAbs : Int)

/-- The decimal digits of `n`, most significant first, in at most `fuel` digits. -/
def decimalDigits : Nat → Nat → List Char
  | 0, _ => []
  | fuel + 1, n =>
    if n < 10 then [Char.ofNat (48 + n)]
    else decimalDigits fuel (n / 10) ++ [Char.ofNat (48 + n % 10)]

/-- The number a list of decimal digits writes, after the digits read so far wrote `acc`;
`none` when a character is no decimal digit. -/
def decimalValue : Nat → List Char → Option Nat
  | acc, [] => some acc
  | acc, c :: cs =>
    if 48 ≤ c.toNat ∧ c.toNat ≤ 57 then decimalValue (acc * 10 + (c.toNat - 48)) cs else none

/-- Lua `tonumber` on a stored text that is not an integer of the store: the `float64` of a
decimal integer text with an optional sign, as the integer it equals; `none` stands for Lua
`nil`, the result for a text that is no number. Only texts of integers are read as numbers:
they are the texts the script writes. -/
def luaToNumber (s : String) : Option Int :=
  match s.data with
  | [] => none
  | c :: cs =>
    if c = '-' then
      match cs with
      | [] => none
      | _ :: _ => (decimalValue 0 cs).map fun n => float64OfInt (-(n : Int))
    else (decimalValue 0 (c :: cs)).map fun n => float64OfInt (n : Int)

/-- The value `SET` stores for a Lua number `d ≥ 0` that equals an integer. The server prints a
number of at most `2 ^ 62` as an integer (Redis `double2ll`, `ll2string`, from Redis 7.2 on;
an earlier server does so below `1e17`), which the store holds as an integer counter. It
prints a larger one in floating-point form: a text that is no integer for `INCR` and for `GET`
read as an `int64`, and that `tonumber` reads back as `d`; the decimal digits of `d` stand for
that text here. -/
def luaNumberValue (d : Int) : RedisValue :=
  if d ≤ 2 ^ 62 then .int d else .str (String.mk (decimalDigits d.natAbs d.natAbs))

/-- The script from the point where `tonumber(count)` is the number `x`: a positive number is
replaced by `math.max(0, x - tonumber(ARGV[1]))`, the subtraction rounded to a `float64`;
`SET` writes the key without a time to live. -/
def luaDecrement (r : Redis) (key : String) (x count : Int) : Except RedisError Unit × Redis :=
  if x > 0 then
    (.ok (), r.put key ⟨luaNumberValue (max 0 (float64OfInt (x - float64OfInt count))), none⟩)
  else (.ok (), r)

/-- The Lua script of `DecrementUnsolvedCountBy`, run by `EVAL` with `KEYS[1] = key` and
`ARGV[1] = count`:
```
local count = redis.call('get', KEYS[1])
if count and tonumber(count) > 0 then
  local newCount = math.max(0, tonumber(count) - tonumber(ARGV[1]))
  return redis.call('set', KEYS[1], newCount)
end
return 0
```
Lua computes in `float64`: the stored integer and the argument are rounded by `tonumber`, and
so is their difference. -/
def evalDecrement (r : Redis) (key : String) (count : Int) : Except RedisError Unit × Redis :=
  match r.live key with
  | none => (.ok (), r)
  | some e =>
    match e.value with
    | .int n => r.luaDecrement key (float64OfInt n) count
    | .str s =>
      match luaToNumber s with
      | some x => r.luaDecrement key x count
      | none => (.error (.failure "ERR user_script: attempt to compare nil with number"), r)
    | .zset _ => (.error wrongType, r)

/-- The key is absent or holds a value the decrement script reads as a number: an integer
counter, or a text `tonumber` accepts. -/
def Numeric (r : Redis) (key : String) : Prop :=
  r.live key = none ∨ (∃ c t, r.live key = some ⟨.int c, t⟩) ∨
    ∃ s t x, r.live key = some ⟨.str s, t⟩ ∧ luaToNumber s = some x

end Redis

/-! ## The repository (`repository/pow/repository.go`) -/

/-- Go `slidingWindowDuration`. -/
def slidingWindowDuration : Int := Minute

/-- Go `unsolvedCountTTL`. -/
def unsolvedCountTTL : Int := Minute

/-- Go `hashLength`. -/
def hashLength : Nat := 16

/-- Go `hashIPAddress`: the first `hashLength` characters of the hex SHA-256 of the address
(the hex string has 64 characters, so the slice is within bounds). -/
def hashIPAddress (lib : Lib) (ip : String) : String :=
  String.mk ((hexEncodeToString (lib.sha256Sum256 (bytesOf ip))).data.take hashLength)

/-- Go `pow.Repository` (`pow/deps.go`), over a store state `σ`: every operation returns its Go
result and the state it leaves. -/
structure Repository (σ : Type) where
  GetAndIncrementRequestCount : String → σ → Except String Int × σ
  CreateTask : Task → Int → σ → Except String Unit × σ
  GetTask : String → σ → Except String Task × σ
  DeleteTask : String → σ → Except String Unit × σ
  IncrementUnsolvedCount : String → σ → Except String Int × σ
  DecrementUnsolvedCount : String → σ → Except String Unit × σ
  DecrementUnsolvedCountBy : String → Int → σ → Except String Unit × σ
  GetUnsolvedCount : String → σ → Except String Int × σ

/-- The text of a store error (`err.Error()`). -/
def RedisError.text : RedisError → String
  | .Nil => "redis: nil"
  | .failure t => t

namespace DefaultRepository

/-- Go `DefaultRepository.CreateTask`: `SETNX task:<id>` of `task.Result` with the time to
live. -/
def CreateTask (task : Task) (ttl : Int) (r : Redis) : Except String Unit × Redis :=
  match r.call fun db => db.setNX ("task:" ++ task.ID) task.Result ttl with
  | (.error err, r1) => (.error ("failed to create task: " ++ err.text), r1)
  | (.ok false, r1) => (.error ErrTaskAlreadyExists, r1)
  | (.ok true, r1) => (.ok (), r1)

/-- Go `DefaultRepository.GetTask`: `GET task:<id>`; the record returned is
`&Task{ID: taskID, Result: result}`, its other fields being the zero values. -/
def GetTask (taskID : String) (r : Redis) : Except String Task × Redis :=
  match r.call fun db => db.get ("task:" ++ taskID) with
  | (.error .Nil, r1) => (.error ErrTaskNotFound, r1)
  | (.error (.failure _), r1) => (.error ErrRedisOperation, r1)
  | (.ok result, r1) =>
    (.ok { ID := taskID, Seed := "", DifficultyLevel := 0, Result := result }, r1)

/-- The pipeline of `GetAndIncrementRequestCount`: `ZADD`, `ZREMRANGEBYSCORE`, `ZCOUNT`,
`EXPIRE`, every command applied in turn; the result is the first error of a command (what
`pipe.Exec` returns) or the reply of `ZCOUNT`. -/
def requestCountPipeline (key : String) (now windowStart : Int) (db : Redis) :
    Except RedisError Int × Redis :=
  let (added, db1) := db.zadd key now now
  let (removed, db2) := db1.zremRangeByScore key 0 windowStart
  let (count, db3) := db2.zcount key windowStart now
  let (expired, db4) := db3.expire key (slidingWindowDuration * 2)
  match added, removed, count, expired with
  | .error e, _, _, _ => (.error e, db4)
  | .ok _, .error e, _, _ => (.error e, db4)
  | .ok _, .ok _, .error e, _ => (.error e, db4)
  | .ok _, .ok _, .ok _, .error e => (.error e, db4)
  | .ok _, .ok _, .ok c, .ok _ => (.ok c, db4)

/-- Go `DefaultRepository.GetAndIncrementRequestCount`. -/
def GetAndIncrementRequestCount (lib : Lib) (ip : String) (r : Redis) :
    Except String Int × Redis :=
  let hashedIP := hashIPAddress lib ip
  let key := "difficulty:" ++ hashedIP
  let now := r.now
  let windowStart := now - slidingWindowDuration
  match r.call (requestCountPipeline key now windowStart) with
  | (.error _, r1) => (.error ErrRedisOperation, r1)
  | (.ok count, r1) => (.ok count, r1)

/-- The pipeline of `IncrementUnsolvedCount`: `INCR`, `EXPIRE`; the result is the first error
of a command or the reply of `INCR`. -/
def incrementPipeline (key : String) (db : Redis) : Except RedisError Int × Redis :=
  let (incremented, db1) := db.incr key
  let (expired, db2) := db1.expire key unsolvedCountTTL
  match incremented, expired with
  | .error e, _ => (.error e, db2)
  | .ok _, .error e => (.error e, db2)
  | .ok n, .ok _ => (.ok n, db2)

/-- Go `DefaultRepository.IncrementUnsolvedCount`. An error equal to `redis.Nil` is let
through by both tests of the source; the count then read from the command is 0. -/
def IncrementUnsolvedCount (lib : Lib) (ip : String) (r : Redis) : Except String Int × Redis :=
  let hashedIP := hashIPAddress lib ip
  let key := "unsolved:" ++ hashedIP
  match r.call (incrementPipeline key) with
  | (.error .Nil, r1) => (.ok 0, r1)
  | (.error (.failure _), r1) => (.error ErrRedisOperation, r1)
  | (.ok count, r1) => (.ok count, r1)

/-- The pipeline of `DecrementUnsolvedCountBy`: `EVAL` of the script, `EXPIRE`. -/
def decrementPipeline (key : String) (count : Int) (db : Redis) :
    Except RedisError Unit × Redis :=
  let (evaluated, db1) := db.evalDecrement key count
  let (expired, db2) := db1.expire key unsolvedCountTTL
  match evaluated, expired with
  | .error e, _ => (.error e, db2)
  | .ok _, .error e => (.error e, db2)
  | .ok _, .ok _ => (.ok (), db2)

/-- Go `DefaultRepository.DecrementUnsolvedCountBy`. -/
def DecrementUnsolvedCountBy (lib : Lib) (ip : String) (count : Int) (r : Redis) :
    Except String Unit × Redis :=
  let hashedIP := hashIPAddress lib ip
  let key := "unsolved:" ++ hashedIP
  match r.call (decrementPipeline key count) with
  | (.error .Nil, r1) => (.ok (), r1)
  | (.error (.failure _), r1) => (.error ErrRedisOperation, r1)
  | (.ok _, r1) => (.ok (), r1)

/-- Go `DefaultRepository.DecrementUnsolvedCount`. -/
def DecrementUnsolvedCount (lib : Lib) (ip : String) (r : Redis) : Except String Unit × Redis :=
  DecrementUnsolvedCountBy lib ip 1 r

/-- Go `DefaultRepository.GetUnsolvedCount`. -/
def GetUnsolvedCount (lib : Lib) (ip : String) (r : Redis) : Except String Int × Redis :=
  let hashedIP := hashIPAddress lib ip
  let key := "unsolved:" ++ hashedIP
  match r.call fun db => db.getInt64 key with
  | (.error .Nil, r1) => (.ok 0, r1)
  | (.error (.failure _), r1) => (.error ErrRedisOperation, r1)
  | (.ok count, r1) => (.ok count, r1)

/-- Go `DefaultRepository.DeleteTask`. -/
def DeleteTask (taskID : String) (r : Redis) : Except String Unit × Redis :=
  let key := "task:" ++ taskID
  match r.call fun db => db.del key with
  | (.error _, r1) => (.error ErrRedisOperation, r1)
  | (.ok result, r1) => if result = 0 then (.error ErrTaskNotFound, r1) else (.ok (), r1)

end DefaultRepository

/-- Go `*DefaultRepository` as a `Repository` over the store. -/
def NewRepository (lib : Lib) : Repository Redis where
  GetAndIncrementRequestCount := DefaultRepository.GetAndIncrementRequestCount lib
  CreateTask := DefaultRepository.CreateTask
  GetTask := DefaultRepository.GetTask
  DeleteTask := DefaultRepository.DeleteTask
  IncrementUnsolvedCount := DefaultRepository.IncrementUnsolvedCount lib
  DecrementUnsolvedCount := DefaultRepository.DecrementUnsolvedCount lib
  DecrementUnsolvedCountBy := DefaultRepository.DecrementUnsolvedCountBy lib
  GetUnsolvedCount := DefaultRepository.GetUnsolvedCount lib

/-! ## The PoW service (`pow/service.go`) -/

/-- Go `pow.PoWUtilsInterface`. `GenerateRandomSeed` receives the outcome of reading the
entropy source. -/
structure PoWUtilsInterface where
  CalculateDifficultyLevel : Int → Option Int
  GenerateRandomSeed : Except String (List UInt8) → Except String String
  VerifySolution : String → String → String → Int → Option Bool

/-- Go `NewPoWUtils`: the utilities of `pow/utils.go` for a configuration. -/
def NewPoWUtils (lib : Lib) (config : PowConfig) : PoWUtilsInterface where
  CalculateDifficultyLevel := CalculateDifficultyLevel config
  GenerateRandomSeed := GenerateRandomSeed
  VerifySolution := VerifySolution lib config

/-- Go `pow.Service` (the logger left out). -/
structure Service (σ : Type) where
  repo : Repository σ
  config : PowConfig
  utils : PoWUtilsInterface
  maxUnsolvedChallenges : Int

/-- Go `NewService`. -/
def NewService {σ : Type} (lib : Lib) (repo : Repository σ) (config : PowConfig) : Service σ where
  repo := repo
  config := config
  utils := NewPoWUtils lib config
  maxUnsolvedChallenges := config.MaxUnsolvedChallenges

/-- A call the service makes to one of its collaborators (repository, utilities, UUID library,
random provider), with its arguments. -/
inductive Call where
  | IncrementUnsolvedCount (ip : String)
  | uuidNew
  | GetAndIncrementRequestCount (ip : String)
  | CalculateDifficultyLevel (requestCount : Int)
  | GenerateRandomSeed
  | CreateTask (task : Task) (ttl : Int)
  | uuidParse (s : String)
  | GetTask (taskID : String)
  | VerifySolution (challengeID seed nonce : String) (difficultyLevel : Int)
  | DeleteTask (taskID : String)
  | Float32
  | DecrementUnsolvedCount (ip : String)
  | DecrementUnsolvedCountBy (ip : String) (count : Int)
deriving DecidableEq, Repr

/-- How a service call ends: `ok v` is the Go return `(v, nil)`, `error text` the return
`(nil, err)` with `err.Error() = text`, `panicked` a run-time panic. -/
inductive Outcome (α : Type) where
  | ok (value : α)
  | error (text : String)
  | panicked
deriving DecidableEq, Repr

/-- A finished service call: its outcome, the store state it leaves, and the collaborator calls
it made, in order. -/
structure Run (σ α : Type) where
  result : Outcome α
  state : σ
  calls : List Call

/-- The `float32` nearest to 0.05 (bits `0x3D4CCCCD`, the fraction `13421773 / 2 ^ 28`), which
the constant of `s.random.Float32() < 0.05` denotes. -/
def forgiveThreshold : ℚ := mkRat 13421773 268435456

/-- Go `Service.CreateChallenge`. `uuid` is the string of the fresh `uuid.New()`, `entropy` the
outcome of reading the entropy source. (`uuid.New` panics when its random source fails; such a
run is not part of the model.) -/
def Service.CreateChallenge {σ : Type} (s : Service σ) (clientIP : String) (uuid : String)
    (entropy : Except String (List UInt8)) (st : σ) : Run σ Challenge :=
  match s.repo.IncrementUnsolvedCount clientIP st with
  | (.error err, st1) =>
    ⟨.error ("failed to increment unsolved count: " ++ err), st1,
      [.IncrementUnsolvedCount clientIP]⟩
  | (.ok unsolvedCount, st1) =>
    if unsolvedCount > s.maxUnsolvedChallenges then
      ⟨.error "too many unsolved challenges", st1, [.IncrementUnsolvedCount clientIP]⟩
    else
      let challengeID := uuid
      match s.repo.GetAndIncrementRequestCount clientIP st1 with
      | (.error err, st2) =>
        ⟨.error ("failed to get request count: " ++ err), st2,
          [.IncrementUnsolvedCount clientIP, .uuidNew, .GetAndIncrementRequestCount clientIP]⟩
      | (.ok requestCount, st2) =>
        match s.utils.CalculateDifficultyLevel requestCount with
        | none =>
          ⟨.panicked, st2,
            [.IncrementUnsolvedCount clientIP, .uuidNew, .GetAndIncrementRequestCount clientIP,
              .CalculateDifficultyLevel requestCount]⟩
        | some difficultyLevel =>
          match s.utils.GenerateRandomSeed entropy with
          | .error err =>
            ⟨.error ("failed to generate random seed: " ++ err), st2,
              [.IncrementUnsolvedCount clientIP, .uuidNew,
                .GetAndIncrementRequestCount clientIP,
                .CalculateDifficultyLevel requestCount, .GenerateRandomSeed]⟩
          | .ok seed =>
            let task : Task :=
              { ID := challengeID, Seed := seed, DifficultyLevel := difficultyLevel,
                Result := "" }
            match s.repo.CreateTask task s.config.ChallengeTTL st2 with
            | (.error err, st3) =>
              ⟨.error ("failed to create challenge task: " ++ err), st3,
                [.IncrementUnsolvedCount clientIP, .uuidNew,
                  .GetAndIncrementRequestCount clientIP,
                  .CalculateDifficultyLevel requestCount, .GenerateRandomSeed,
                  .CreateTask task s.config.ChallengeTTL]⟩
            | (.ok _, st3) =>
              ⟨.ok
                { ID := challengeID, Seed := seed, DifficultyLevel := difficultyLevel,
                  Result := "", ScryptN := s.config.ScryptN, ScryptR := s.config.ScryptR,
                  ScryptP := s.config.ScryptP, KeyLen := s.config.KeyLen },
                st3,
                [.IncrementUnsolvedCount clientIP, .uuidNew,
                  .GetAndIncrementRequestCount clientIP,
                  .CalculateDifficultyLevel requestCount, .GenerateRandomSeed,
                  .CreateTask task s.config.ChallengeTTL]⟩

/-- Go `Service.ValidateChallenge`. `draw` is the value of `s.random.Float32()`, as the
rational number the `float32` denotes. -/
def Service.ValidateChallenge {σ : Type} (lib : Lib) (s : Service σ)
    (clientIP challengeID nonce : String) (draw : ℚ) (st : σ) : Run σ Unit :=
  if lib.uuidParse challengeID = false then
    ⟨.error "invalid challenge ID format", st, [.uuidParse challengeID]⟩
  else
    match s.repo.GetTask challengeID st with
    | (.error err, st1) =>
      ⟨.error ("invalid challenge: " ++ err), st1,
        [.uuidParse challengeID, .GetTask challengeID]⟩
    | (.ok task, st1) =>
      match s.utils.VerifySolution challengeID task.Seed nonce task.DifficultyLevel with
      | none =>
        ⟨.panicked, st1,
          [.uuidParse challengeID, .GetTask challengeID,
            .VerifySolution challengeID task.Seed nonce task.DifficultyLevel]⟩
      | some false =>
        ⟨.error "invalid challenge solution", st1,
          [.uuidParse challengeID, .GetTask challengeID,
            .VerifySolution challengeID task.Seed nonce task.DifficultyLevel]⟩
      | some true =>
        let st2 := (s.repo.DeleteTask challengeID st1).2
        if draw < forgiveThreshold then
          match s.repo.DecrementUnsolvedCountBy clientIP 2 st2 with
          | (.error err, st3) =>
            ⟨.error ("failed to update challenge count: " ++ err), st3,
              [.uuidParse challengeID, .GetTask challengeID,
                .VerifySolution challengeID task.Seed nonce task.DifficultyLevel,
                .DeleteTask challengeID, .Float32, .DecrementUnsolvedCountBy clientIP 2]⟩
          | (.ok _, st3) =>
            ⟨.ok (), st3,
              [.uuidParse challengeID, .GetTask challengeID,
                .VerifySolution challengeID task.Seed nonce task.DifficultyLevel,
                .DeleteTask challengeID, .Float32, .DecrementUnsolvedCountBy clientIP 2]⟩
        else
          match s.repo.DecrementUnsolvedCount clientIP st2 with
          | (.error err, st3) =>
            ⟨.error ("failed to update challenge count: " ++ err), st3,
              [.uuidParse challengeID, .GetTask challengeID,
                .VerifySolution challengeID task.Seed nonce task.DifficultyLevel,
                .DeleteTask challengeID, .Float32, .DecrementUnsolvedCount clientIP]⟩
          | (.ok _, st3) =>
            ⟨.ok (), st3,
              [.uuidParse challengeID, .GetTask challengeID,
                .VerifySolution challengeID task.Seed nonce task.DifficultyLevel,
                .DeleteTask challengeID, .Float32, .DecrementUnsolvedCount clientIP]⟩

/-! ## Auxiliary notions for stating the properties -/

/-- The state `r'` differs from `r` at most in the entry under `key` and in the pending
connection outcomes. -/
def Redis.OnlyAt (key : String) (r r' : Redis) : Prop :=
  r'.now = r.now ∧ ∀ k, k ≠ key → r'.data k = r.data k

/-- Whether a collaborator call is a decrement of an outstanding counter. -/
def Call.isDecrement : Call → Bool
  | .DecrementUnsolvedCount _ => true
  | .DecrementUnsolvedCountBy _ _ => true
  | _ => false

/-- Whether a collaborator call is an operation of the repository. -/
def Call.isRepository : Call → Bool
  | .IncrementUnsolvedCount _ => true
  | .GetAndIncrementRequestCount _ => true
  | .CreateTask _ _ => true
  | .GetTask _ => true
  | .DeleteTask _ => true
  | .DecrementUnsolvedCount _ => true
  | .DecrementUnsolvedCountBy _ _ => true
  | _ => false

/-- Whether a collaborator call changes what the repository holds (every operation but the
read `GetTask`). -/
def Call.isMutation : Call → Bool
  | .GetTask _ => false
  | c => c.isRepository

/-! ## A concrete instance of the libraries

The theorems below hold for every `Lib`. To evaluate the definitions at concrete inputs a small
executable instance is used: its key derivation rejects `N ≤ 1` with the error of `scrypt.Key`
and otherwise repeats the byte sum of the password `keyLen` times; its digest repeats the byte
sum of the message 32 times; it takes the strings of 36 characters for UUIDs. -/

/-- An executable stand-in for the libraries. -/
def sampleLib : Lib where
  scryptKey := fun password _ N _ _ keyLen =>
    if N ≤ 1 then .error "scrypt: N must be > 1 and a power of 2"
    else .ok (List.replicate keyLen.toNat (password.foldl (fun a b => a + b) 0))
  sha256Sum256 := fun b => List.replicate 32 (b.foldl (fun a c => a + c) 0)
  sha256_size := by simp
  uuidParse := fun s => s.length == 36

/-! ## The server as wired by `configuration.NewDefaultConfiguration` -/

/-- The PoW service over the default repository, as `NewDefaultConfiguration` builds it. -/
def server (lib : Lib) (config : PowConfig) : Service Redis :=
  NewService lib (NewRepository lib) config

/-- The key of a source's outstanding counter. -/
def unsolvedKey (lib : Lib) (ip : String) : String := "unsolved:" ++ hashIPAddress lib ip

/-- The key of a source's request window. -/
def difficultyKey (lib : Lib) (ip : String) : String := "difficulty:" ++ hashIPAddress lib ip

/-- The key of a challenge record. -/
def taskKey (taskID : String) : String := "task:" ++ taskID

/-- The outstanding counter of a source in a store state: what `GetUnsolvedCount` reads over a
working connection (0 for an absent counter). -/
def outstanding (lib : Lib) (r : Redis) (ip : String) : Int :=
  match (DefaultRepository.GetUnsolvedCount lib ip { r with faults := [] }).1 with
  | .ok n => n
  | .error _ => 0

/-- An event at the server: a `CreateChallenge` call, a `ValidateChallenge` call (each with the
values the environment supplies), or the passing of `d` milliseconds. -/
inductive Op where
  | create (ip uuid : String) (entropy : Except String (List UInt8))
  | validate (ip challengeID nonce : String) (draw : ℚ)
  | advance (d : Nat)

/-- The store state an event leaves. -/
def Op.apply (lib : Lib) (config : PowConfig) (r : Redis) : Op → Redis
  | .create ip uuid entropy => ((server lib config).CreateChallenge ip uuid entropy r).state
  | .validate ip challengeID nonce draw =>
    ((server lib config).ValidateChallenge lib ip challengeID nonce draw r).state
  | .advance d => r.advance d

/-- The store state a sequence of events leaves. -/
def runOps (lib : Lib) (config : PowConfig) (ops : List Op) (r : Redis) : Redis :=
  ops.foldl (Op.apply lib config) r

/-! ## Sample inputs -/

/-- A sample UUID string. -/
def sampleUUID : String := "00000000-0000-0000-0000-000000000000"

/-- Sample bytes read from the entropy source (16 of them). -/
def sampleEntropy : List UInt8 := [1, 2, 3, 4, 5, 6, 7, 8, 9, 10, 11, 12, 13, 14, 15, 16]

/-- The seed `GenerateRandomSeed` makes of `sampleEntropy`. -/
def sampleSeed : String := "0102030405060708090a0b0c0d0e0f10"

/-- A sample source address. -/
def sampleSource : String := "203.0.113.7"

/-- Nine `CreateChallenge` calls of `sampleSource`, one millisecond apart, each with a UUID of
its own. -/
def sampleBurst : List Op :=
  ((List.range 9).map fun i =>
    [Op.create sampleSource
        ("00000000-0000-0000-0000-00000000000" ++ String.singleton (Nat.digitChar (i + 1)))
        (.ok sampleEntropy),
      Op.advance 1]).flatten

/-- Twelve `CreateChallenge` calls of `sampleSource` at one instant, each with a UUID of its
own, and no `ValidateChallenge`. -/
def sampleFlood : List Op :=
  (List.range 12).map fun i =>
    Op.create sampleSource
      ("00000000-0000-0000-0000-0000000000" ++ String.singleton (Nat.digitChar (i / 10)) ++
        String.singleton (Nat.digitChar (i % 10)))
      (.ok sampleEntropy)

/-! ## Events that create a record -/

/-- Whether an event creates a challenge record under the id `challengeID`: a `CreateChallenge`
whose fresh UUID is that id. -/
def Op.creates (challengeID : String) : Op → Bool
  | .create _ uuid _ => uuid == challengeID
  | _ => false

/-! ## Sample store states and events -/

/-- The store after the first `CreateChallenge` of `sampleSource`, with the fresh UUID
`sampleUUID`, on the empty store under the default configuration. -/
def sampleIssued : Redis :=
  ((server sampleLib DefaultConfig).CreateChallenge sampleSource sampleUUID (.ok sampleEntropy)
    (Redis.empty 1700000000000)).state

/-- Events after a first submission: five seconds pass, another source submits for the same
id, and `sampleSource` asks for a new challenge, which gets another UUID. -/
def sampleAftermath : List Op :=
  [Op.advance 5000, Op.validate "198.51.100.9" sampleUUID "y" (mkRat 1 2),
    Op.create sampleSource "00000000-0000-0000-0000-000000000001" (.ok sampleEntropy)]

/-- The store `sampleIssued` when the second coming round trip to the store fails with a
timeout (the first and all later ones succeed). -/
def sampleIssuedFlaky : Redis := { sampleIssued with faults := [none, some "i/o timeout"] }

/-! ## The values of the random draw -/

/-- A rational number with a significand of 24 bits, `m * 2 ^ a / 2 ^ b` with `|m| < 2 ^ 24`:
every finite `float32` value is of this form. -/
def IsFloat32 (q : ℚ) : Prop :=
  ∃ (m : Int) (a b : Nat), |m| < 2 ^ 24 ∧ q = (m : ℚ) * 2 ^ a / 2 ^ b

/-! ## Sequences of counter operations -/

/-- The integer a key holds as a counter: the value of a live integer entry, 0 otherwise. -/
def Redis.counterValue (r : Redis) (key : String) : Int :=
  match r.live key with
  | some ⟨.int c, _⟩ => c
  | _ => 0

/-- A call of one of the two operations of the repository that change an outstanding
counter. -/
inductive CounterCall where
  | increment (ip : String)
  | decrementBy (ip : String) (count : Int)

/-- The store state a counter call leaves. -/
def CounterCall.apply (lib : Lib) (r : Redis) : CounterCall → Redis
  | .increment ip => (DefaultRepository.IncrementUnsolvedCount lib ip r).2
  | .decrementBy ip count => (DefaultRepository.DecrementUnsolvedCountBy lib ip count r).2

/-- The store state a sequence of counter calls leaves. -/
def runCounterCalls (lib : Lib) (calls : List CounterCall) (r : Redis) : Redis :=
  calls.foldl (CounterCall.apply lib) r

/-! ## The request window as a list of entries -/

/-- The entries of a sorted set after `ZADD` of the member `now` with the score `now`: an entry
with that member has its score replaced, otherwise the entry is added. -/
def windowAdd (ms : List (Int × Int)) (now : Int) : List (Int × Int) :=
  if ms.any (fun m => m.1 == now) then ms.map fun m => if m.1 = now then (now, now) else m
  else (now, now) :: ms

/-- The entries left after `ZADD` of `now` and `ZREMRANGEBYSCORE` from 0 to
`now - slidingWindowDuration`. -/
def windowKeep (ms : List (Int × Int)) (now : Int) : List (Int × Int) :=
  (windowAdd ms now).filter fun m =>
    !(decide (0 ≤ m.2) && decide (m.2 ≤ now - slidingWindowDuration))

/-- The entries of the sorted set under a key; none for an absent key. -/
def Redis.entries (r : Redis) (key : String) : List (Int × Int) :=
  match r.live key with
  | some ⟨.zset ms, _⟩ => ms
  | _ => []

/-- A store in which `sampleSource` has two recorded requests, at 1700000000000 ms and one
millisecond later, read 60000 ms after the first of them. -/
def sampleWindow : Redis :=
  ((DefaultRepository.GetAndIncrementRequestCount sampleLib sampleSource
    ((DefaultRepository.GetAndIncrementRequestCount sampleLib sampleSource
      (Redis.empty 1700000000000)).2.advance 1)).2).advance 59999

/-! ## The protocol (`protocol/types.go`) -/

namespace protocol

/-- Go `protocol.TypeQuoteRequest`. -/
def TypeQuoteRequest : String := "quote_request"

/-- Go `protocol.TypePowChallenge`. -/
def TypePowChallenge : String := "pow_challenge"

/-- Go `protocol.TypePowSolution`. -/
def TypePowSolution : String := "pow_solution"

/-- Go `protocol.TypeQuoteResponse`. -/
def TypeQuoteResponse : String := "quote_response"

/-- Go `protocol.TypeError`. -/
def TypeError : String := "error"

/-- Go `protocol.ErrInvalidRequest`. -/
def ErrInvalidRequest : String := "invalid_request"

/-- Go `protocol.ErrInvalidChallenge`. -/
def ErrInvalidChallenge : String := "invalid_challenge"

/-- Go `protocol.ErrInvalidSolution`. -/
def ErrInvalidSolution : String := "invalid_solution"

/-- Go `protocol.ErrRateLimitExceeded`. -/
def ErrRateLimitExceeded : String := "rate_limit_exceeded"

/-- Go `protocol.ErrInternalError`. -/
def ErrInternalError : String := "internal_error"

/-- Go `protocol.Message`: the envelope; `data` is the `json.RawMessage`, empty when the field
is left out. -/
structure Message where
  msgType : String
  data : List UInt8
deriving DecidableEq, Repr

/-- Go `protocol.PowChallengeData`. -/
structure PowChallengeData where
  ChallengeID : String
  Seed : String
  DifficultyLevel : Int
  ScryptN : Int
  ScryptR : Int
  ScryptP : Int
  KeyLen : Int
  Task : String
deriving DecidableEq, Repr

/-- Go `protocol.PowSolutionData`. -/
structure PowSolutionData where
  ChallengeID : String
  Nonce : String
deriving DecidableEq, Repr

/-- Go `protocol.QuoteResponseData`. -/
structure QuoteResponseData where
  Text : String
  Author : String
deriving DecidableEq, Repr

/-- Go `protocol.ErrorData`. -/
structure ErrorData where
  Code : String
  Message : String
deriving DecidableEq, Repr

/-- The values the server passes to `SendMessage` as `data interface{}`. -/
inductive Payload where
  | PowChallenge (d : PowChallengeData)
  | QuoteResponse (d : QuoteResponseData)
  | Error (d : ErrorData)
deriving DecidableEq, Repr

/-- The functions of `encoding/json` the server calls, which are not part of the repository:
`marshal` is `json.Marshal` of a payload, `marshalMessage` is `json.Marshal` of the envelope,
`unmarshalMessage` and `unmarshalSolution` are `json.Unmarshal` into a `Message` and into a
`PowSolutionData`. -/
structure Json where
  marshal : Payload → Except String (List UInt8)
  marshalMessage : Message → Except String (List UInt8)
  unmarshalMessage : List UInt8 → Except String Message
  unmarshalSolution : List UInt8 → Except String PowSolutionData

/-- A `net.Conn` as the server writes to it: the byte strings of the `Write` calls that
succeeded, in order, and for each coming `Write` whether it fails (`some text`); an exhausted
list means no failure. A failed `Write` delivers nothing. -/
structure Conn where
  written : List (List UInt8)
  faults : List (Option String)
deriving DecidableEq, Repr

/-- Go `conn.Write`. -/
def Conn.Write (c : Conn) (b : List UInt8) : Except String Unit × Conn :=
  match c.faults with
  | [] => (.ok (), { c with written := c.written ++ [b] })
  | none :: rest => (.ok (), ⟨c.written ++ [b], rest⟩)
  | some text :: rest => (.error text, { c with faults := rest })

/-- Go `protocol.SendMessage`: the payload is marshalled, then the envelope, a newline (byte
10) is appended and the bytes go out in one `Write`. -/
def SendMessage (json : Json) (conn : Conn) (msgType : String) (data : Payload) :
    Except String Unit × Conn :=
  match json.marshal data with
  | .error err => (.error err, conn)
  | .ok dataBytes =>
    match json.marshalMessage { msgType := msgType, data := dataBytes } with
    | .error err => (.error err, conn)
    | .ok msgBytes => conn.Write (msgBytes ++ [10])

/-- Go `protocol.SendError`. -/
def SendError (json : Json) (conn : Conn) (code message : String) : Except String Unit × Conn :=
  SendMessage json conn TypeError (.Error { Code := code, Message := message })

end protocol

/-- Modelled from the spec: Go `domain.Quote` of the server (its package `internal/domain` is
not among the sources): a quote has a text and an author, the two fields the handler and the
quote repository use. -/
structure Quote where
  Text : String
  Author : String
deriving DecidableEq, Repr

/-- The Go return of a function of result type `error`, as an outcome. -/
def Outcome.ofExcept {α : Type} : Except String α → Outcome α
  | .ok v => .ok v
  | .error text => .error text

/-! ## The `pow_solution` handler (`api/pow_solution`) -/

/-- A call a message handler makes to a collaborator: the decoding of the payload, the PoW
service, the quote source, or `protocol.SendMessage` (`protocol.SendError` being `SendMessage`
of type `error` with the `ErrorData` payload). -/
inductive HandlerCall where
  | Unmarshal (data : List UInt8)
  | CreateChallenge (clientIP : String)
  | ValidateChallenge (clientIP challengeID solution : String)
  | Quote
  | SendMessage (msgType : String) (data : protocol.Payload)
deriving DecidableEq, Repr

/-- Whether the call sends a message. -/
def HandlerCall.isSend : HandlerCall → Bool
  | .SendMessage _ _ => true
  | _ => false

/-- A finished `HandleMessage`: what it returns, the states of the PoW service and of the quote
source it leaves, the connection, and the collaborator calls it made, in order. -/
structure HandlerRun (σ ρ : Type) where
  result : Outcome Unit
  service : σ
  quotes : ρ
  conn : protocol.Conn
  calls : List HandlerCall

namespace powsolution

/-- Go `powService` of `api/pow_solution/deps.go`, over a service state `σ`. -/
structure powService (σ : Type) where
  ValidateChallenge : String → String → String → σ → Outcome Unit × σ

/-- Go `quoteUsecase` of `api/pow_solution/deps.go`, over a state `ρ` of the quote source. -/
structure quoteUsecase (ρ : Type) where
  Quote : ρ → Quote × ρ

/-- Go `powsolution.Handler` (the logger left out). -/
structure Handler (σ ρ : Type) where
  powService : powService σ
  quoteUsecase : quoteUsecase ρ

/-- Go `Handler.HandleMessage` of `api/pow_solution/handler.go`. -/
def Handler.HandleMessage {σ ρ : Type} (json : protocol.Json) (h : Handler σ ρ)
    (conn : protocol.Conn) (clientIP : String) (msg : protocol.Message) (st : σ) (qs : ρ) :
    HandlerRun σ ρ :=
  match json.unmarshalSolution msg.data with
  | .error _ =>
    ⟨.ofExcept (protocol.SendError json conn protocol.ErrInvalidRequest
        "Invalid solution format").1,
      st, qs,
      (protocol.SendError json conn protocol.ErrInvalidRequest "Invalid solution format").2,
      [.Unmarshal msg.data,
        .SendMessage protocol.TypeError
          (.Error ⟨protocol.ErrInvalidRequest, "Invalid solution format"⟩)]⟩
  | .ok solutionData =>
    match h.powService.ValidateChallenge clientIP solutionData.ChallengeID
      solutionData.Nonce st with
    | (.panicked, st1) =>
      ⟨.panicked, st1, qs, conn,
        [.Unmarshal msg.data,
          .ValidateChallenge clientIP solutionData.ChallengeID solutionData.Nonce]⟩
    | (.error err, st1) =>
      ⟨.ofExcept (protocol.SendError json conn protocol.ErrInvalidSolution err).1,
        st1, qs,
        (protocol.SendError json conn protocol.ErrInvalidSolution err).2,
        [.Unmarshal msg.data,
          .ValidateChallenge clientIP solutionData.ChallengeID solutionData.Nonce,
          .SendMessage protocol.TypeError (.Error ⟨protocol.ErrInvalidSolution, err⟩)]⟩
    | (.ok _, st1) =>
      let quote := (h.quoteUsecase.Quote qs).1
      let quoteData : protocol.QuoteResponseData := { Text := quote.Text, Author := quote.Author }
      ⟨.ofExcept (protocol.SendMessage json conn protocol.TypeQuoteResponse
          (.QuoteResponse quoteData)).1,
        st1, (h.quoteUsecase.Quote qs).2,
        (protocol.SendMessage json conn protocol.TypeQuoteResponse (.QuoteResponse quoteData)).2,
        [.Unmarshal msg.data,
          .ValidateChallenge clientIP solutionData.ChallengeID solutionData.Nonce,
          .Quote,
          .SendMessage protocol.TypeQuoteResponse (.QuoteResponse quoteData)]⟩

end powsolution

/-- The PoW service behind the handlers as `NewDefaultConfiguration` wires it: the service over
the default repository; `draw` is the coming value of `s.random.Float32()`. -/
def serverPowService (lib : Lib) (config : PowConfig) (draw : ℚ) :
    powsolution.powService Redis where
  ValidateChallenge := fun clientIP challengeID solution st =>
    (((server lib config).ValidateChallenge lib clientIP challengeID solution draw st).result,
      ((server lib config).ValidateChallenge lib clientIP challengeID solution draw st).state)

/-! ## Sample collaborators of the handlers -/

/-- The bytes of `"name":"value"` for a string that needs no escaping. -/
def sampleField (name value : String) : List UInt8 :=
  [34] ++ bytesOf name ++ [34, 58, 34] ++ bytesOf value ++ [34]

/-- The bytes of `"name":value` for an integer. -/
def sampleIntField (name : String) (value : Int) : List UInt8 :=
  [34] ++ bytesOf name ++ [34, 58] ++ bytesOf (toString value)

/-- The bytes of an object with the given fields (byte 123 opens it, 44 separates the fields,
125 closes it). -/
def sampleObject (fields : List (List UInt8)) : List UInt8 :=
  [123] ++ (fields.intersperse [44]).flatten ++ [125]

/-- The rest of `l` after the bytes `p`, when `l` starts with them. -/
def sampleExpect (p l : List UInt8) : Option (List UInt8) :=
  if p.isPrefixOf l then some (l.drop p.length) else none

/-- A string between double quotes (byte 34) at the head of `l`, and the rest of `l`. -/
def sampleReadString (l : List UInt8) : Option (String × List UInt8) :=
  match l with
  | [] => none
  | b :: rest =>
    if b = 34 then
      match rest.dropWhile (fun c => c != 34) with
      | [] => none
      | _ :: rest2 =>
        some (String.mk ((rest.takeWhile fun c => c != 34).map fun c => Char.ofNat c.toNat),
          rest2)
    else none

/-- The bytes `l` without a newline (byte 10) at their end, which a decoder skips as white
space. -/
def sampleTrim (l : List UInt8) : List UInt8 :=
  if l.getLast? = some 10 then l.dropLast else l

/-- A stand-in for `encoding/json`, used to evaluate the handlers on concrete messages: it
writes and reads the objects of the protocol in the field order of the Go structs, for strings
that need no escaping. -/
def sampleJson : protocol.Json where
  marshal := fun
    | .PowChallenge d => .ok (sampleObject [sampleField "challenge_id" d.ChallengeID,
        sampleField "seed" d.Seed, sampleIntField "difficulty_level" d.DifficultyLevel,
        sampleIntField "scrypt_n" d.ScryptN, sampleIntField "scrypt_r" d.ScryptR,
        sampleIntField "scrypt_p" d.ScryptP, sampleIntField "key_len" d.KeyLen,
        sampleField "task" d.Task])
    | .QuoteResponse d => .ok (sampleObject [sampleField "text" d.Text,
        sampleField "author" d.Author])
    | .Error d => .ok (sampleObject [sampleField "code" d.Code,
        sampleField "message" d.Message])
  marshalMessage := fun m =>
    if m.data = [] then .ok (sampleObject [sampleField "type" m.msgType])
    else .ok (sampleObject [sampleField "type" m.msgType,
      [34] ++ bytesOf "data" ++ [34, 58] ++ m.data])
  unmarshalMessage := fun l =>
    match sampleExpect ([123, 34] ++ bytesOf "type" ++ [34, 58]) (sampleTrim l) with
    | none => .error "invalid character"
    | some l1 =>
      match sampleReadString l1 with
      | none => .error "invalid character"
      | some (t, l2) =>
        if l2 = [125] then .ok ⟨t, []⟩
        else
          match sampleExpect ([44, 34] ++ bytesOf "data" ++ [34, 58]) l2 with
          | none => .error "invalid character"
          | some l3 =>
            if l3.getLast? = some 125 then .ok ⟨t, l3.dropLast⟩
            else .error "unexpected end of JSON input"
  unmarshalSolution := fun l =>
    match sampleExpect ([123, 34] ++ bytesOf "challenge_id" ++ [34, 58]) l with
    | none => .error "invalid character"
    | some l1 =>
      match sampleReadString l1 with
      | none => .error "invalid character"
      | some (id, l2) =>
        match sampleExpect ([44, 34] ++ bytesOf "nonce" ++ [34, 58]) l2 with
        | none => .error "invalid character"
        | some l3 =>
          match sampleReadString l3 with
          | none => .error "invalid character"
          | some (nonce, l4) =>
            if l4 = [125] then .ok ⟨id, nonce⟩ else .error "invalid character"

/-- A quote source that always gives the first quote of the in-memory repository. -/
def sampleQuotes : powsolution.quoteUsecase Unit where
  Quote := fun _ => (⟨"The only true wisdom is in knowing you know nothing.", "Socrates"⟩, ())

/-- The `pow_solution` handler on the server, with the sample quote source. -/
def sampleSolutionHandler : powsolution.Handler Redis Unit :=
  ⟨serverPowService sampleLib DefaultConfig (mkRat 1 2), sampleQuotes⟩

/-- A connection on which nothing was written and no `Write` fails. -/
def sampleConn : protocol.Conn := ⟨[], []⟩

/-- The `pow_solution` message of a client that answers with the id `not-a-uuid`. -/
def sampleBadSolution : protocol.Message :=
  ⟨protocol.TypePowSolution,
    sampleObject [sampleField "challenge_id" "not-a-uuid", sampleField "nonce" "42"]⟩

/-- The `pow_solution` message for the challenge issued in `sampleIssued`. -/
def sampleSolution : protocol.Message :=
  ⟨protocol.TypePowSolution,
    sampleObject [sampleField "challenge_id" sampleUUID, sampleField "nonce" "42"]⟩

/-- The store `sampleIssued` when the third coming round trip to the store fails with a
timeout (the first two and all later ones succeed). -/
def sampleIssuedLate : Redis :=
  { sampleIssued with faults := [none, none, some "i/o timeout"] }

/-! ## Loading the configuration (`configuration/env/config.go`) -/

/-- The functions of `strconv` and `time` the configuration loader calls, which are not part of
the repository: `Itoa` is `strconv.Itoa`, `Atoi` is `strconv.Atoi`, `ParseDuration` is
`time.ParseDuration` with its result in nanoseconds, the unit of a Go `time.Duration`. -/
structure Strconv where
  Itoa : Int → String
  Atoi : String → Except String Int
  ParseDuration : String → Except String Int

namespace env

/-- Go `getEnvWithDefault`; `getenv` is `os.Getenv`, which gives the empty string for a
variable that is not set. -/
def getEnvWithDefault (getenv : String → String) (key defaultValue : String) : String :=
  if getenv key ≠ "" then getenv key else defaultValue

/-- Go `getEnvInt` of the `env` package. -/
def getEnvInt (lib : Strconv) (getenv : String → String) (key : String) (defaultValue : Int) :
    Int :=
  let valStr := getEnvWithDefault getenv key (lib.Itoa defaultValue)
  match lib.Atoi valStr with
  | .error _ => defaultValue
  | .ok val => if val < 0 then defaultValue else val

/-- Go `getEnvDuration`; the default and the result are Go durations, in nanoseconds.
`time.Duration(seconds) * time.Second` is a product of `int64` nanoseconds. -/
def getEnvDuration (lib : Strconv) (getenv : String → String) (key : String)
    (defaultValue : Int) : Int :=
  let valStr := getEnvWithDefault getenv key ""
  if valStr = "" then defaultValue
  else
    match lib.Atoi valStr with
    | .ok seconds => wrapInt64 (seconds * 1000000000)
    | .error _ =>
      match lib.ParseDuration valStr with
      | .error _ => defaultValue
      | .ok duration => duration

/-- The time to live in milliseconds, the unit of `PowConfig.ChallengeTTL` here, that the store
is given for a positive Go duration of `d` nanoseconds: go-redis sends whole seconds as seconds
and any other duration as milliseconds, rounded down, and 1 for a duration under a
millisecond (`formatMs`). -/
def durationMs (d : Int) : Int :=
  if d < 1000000 then 1 else Int.tdiv d 1000000

/-- The `Pow` part of Go `env.LoadFromEnv`: the configuration starts as `DefaultConfig` and
each variable, read with the default of its field, replaces that field when the value read is
positive. The duration read for `ChallengeTTL` is tested in nanoseconds, as the code does, and
kept in milliseconds. -/
def LoadFromEnv (lib : Strconv) (getenv : String → String) : PowConfig where
  ScryptN :=
    if getEnvInt lib getenv "POW_SCRYPT_N" DefaultConfig.ScryptN > 0 then
      getEnvInt lib getenv "POW_SCRYPT_N" DefaultConfig.ScryptN
    else DefaultConfig.ScryptN
  ScryptR :=
    if getEnvInt lib getenv "POW_SCRYPT_R" DefaultConfig.ScryptR > 0 then
      getEnvInt lib getenv "POW_SCRYPT_R" DefaultConfig.ScryptR
    else DefaultConfig.ScryptR
  ScryptP :=
    if getEnvInt lib getenv "POW_SCRYPT_P" DefaultConfig.ScryptP > 0 then
      getEnvInt lib getenv "POW_SCRYPT_P" DefaultConfig.ScryptP
    else DefaultConfig.ScryptP
  KeyLen :=
    if getEnvInt lib getenv "POW_KEY_LEN" DefaultConfig.KeyLen > 0 then
      getEnvInt lib getenv "POW_KEY_LEN" DefaultConfig.KeyLen
    else DefaultConfig.KeyLen
  ChallengeTTL :=
    if getEnvDuration lib getenv "POW_CHALLENGE_TTL"
        (DefaultConfig.ChallengeTTL * 1000000) > 0 then
      durationMs (getEnvDuration lib getenv "POW_CHALLENGE_TTL"
        (DefaultConfig.ChallengeTTL * 1000000))
    else DefaultConfig.ChallengeTTL
  RequestsPerDifficultyIncrease :=
    if getEnvInt lib getenv "POW_REQUESTS_PER_DIFFICULTY_INCREASE"
        DefaultConfig.RequestsPerDifficultyIncrease > 0 then
      getEnvInt lib getenv "POW_REQUESTS_PER_DIFFICULTY_INCREASE"
        DefaultConfig.RequestsPerDifficultyIncrease
    else DefaultConfig.RequestsPerDifficultyIncrease
  MaxDifficultyLevel :=
    if getEnvInt lib getenv "POW_MAX_DIFFICULTY_LEVEL" DefaultConfig.MaxDifficultyLevel > 0 then
      getEnvInt lib getenv "POW_MAX_DIFFICULTY_LEVEL" DefaultConfig.MaxDifficultyLevel
    else DefaultConfig.MaxDifficultyLevel
  MaxUnsolvedChallenges :=
    if getEnvInt lib getenv "POW_MAX_UNSOLVED_CHALLENGES"
        DefaultConfig.MaxUnsolvedChallenges > 0 then
      getEnvInt lib getenv "POW_MAX_UNSOLVED_CHALLENGES" DefaultConfig.MaxUnsolvedChallenges
    else DefaultConfig.MaxUnsolvedChallenges
  BucketCapacity :=
    if getEnvInt lib getenv "POW_BUCKET_CAPACITY" DefaultConfig.BucketCapacity > 0 then
      getEnvInt lib getenv "POW_BUCKET_CAPACITY" DefaultConfig.BucketCapacity
    else DefaultConfig.BucketCapacity

end env

/-- The value of a string of decimal digits, if it is one. -/
def sampleDigits (cs : List Char) : Option Nat :=
  cs.foldl (fun acc c =>
    match acc with
    | none => none
    | some n => if c.isDigit then some (n * 10 + (c.toNat - 48)) else none) (some 0)

/-- A stand-in for `strconv` and `time.ParseDuration`, used to evaluate the loader: decimal
integers with an optional sign, and no duration strings. -/
def sampleStrconv : Strconv where
  Itoa := fun n => toString n
  Atoi := fun s =>
    match s.data with
    | [] => .error "invalid syntax"
    | c :: cs =>
      if c = '-' then
        match cs, sampleDigits cs with
        | _ :: _, some n => .ok (-(n : Int))
        | _, _ => .error "invalid syntax"
      else if c = '+' then
        match cs, sampleDigits cs with
        | _ :: _, some n => .ok n
        | _, _ => .error "invalid syntax"
      else
        match sampleDigits (c :: cs) with
        | some n => .ok n
        | none => .error "invalid syntax"
  ParseDuration := fun _ => .error "invalid duration"

/-- An environment that sets the step of the difficulty ramp to 0, the level cap to a negative
number, the cap on outstanding challenges to text that is no number, and the key length
to 4. -/
def sampleEnviron : String → String := fun key =>
  if key = "POW_REQUESTS_PER_DIFFICULTY_INCREASE" then "0"
  else if key = "POW_MAX_DIFFICULTY_LEVEL" then "-3"
  else if key = "POW_MAX_UNSOLVED_CHALLENGES" then "many"
  else if key = "POW_KEY_LEN" then "4"
  else ""

/-! ## The client's solver (`client/internal/pow/solver.go`) -/

/-- Go `DefaultScryptN` of the client. -/
def DefaultScryptN : Int := 16384

/-- Go `DefaultScryptR` of the client. -/
def DefaultScryptR : Int := 8

/-- Go `DefaultScryptP` of the client. -/
def DefaultScryptP : Int := 1

/-- Go `DefaultScryptKeyLen` of the client. -/
def DefaultScryptKeyLen : Int := 32

/-- Go `MaxAttempts`. -/
def MaxAttempts : Nat := 1000000

/-- What the environment supplies to a run of the solver: for each attempt, counted from 0,
whether `ctx.Done()` is ready when the attempt begins and the eight bytes `r.Intn(256)` draws
for the nonce; and the text `%v` prints for `s.config.SolveTimeout`. -/
structure SolverEnv where
  done : Nat → Bool
  draws : Nat → List UInt8
  timeout : String

/-- Go `generateNonce`, on the bytes drawn. -/
def generateNonce (draws : List UInt8) : String := hexEncodeToString draws

/-- A finished run of the solver: what it returns and the nonces for which it computed a hash,
in order. -/
structure SolveRun where
  result : Outcome String
  hashed : List String
deriving DecidableEq, Repr

namespace solverImpl

/-- The loop of Go `SolveWithContext` with `fuel` iterations left, at the attempt `attempt`.
The panics are those of `strings.Repeat` on a negative count and of the slice `hashHex[:16]` on
a hex string of fewer than 16 characters, which is evaluated when a solution is found. -/
def attempts (lib : Lib) (env : SolverEnv) (challengeID seed : String)
    (difficultyLevel n r p keyLen : Int) : Nat → Nat → List String → SolveRun
  | 0, _, hashed => ⟨.error "failed to find solution after 1000000 attempts", hashed⟩
  | fuel + 1, attempt, hashed =>
    if env.done attempt then ⟨.error ("solving timed out after " ++ env.timeout), hashed⟩
    else
      let nonce := generateNonce (env.draws attempt)
      let input := bytesOf (challengeID ++ seed ++ nonce)
      match lib.scryptKey input (bytesOf challengeID) n r p keyLen with
      | .error err => ⟨.error ("error calculating scrypt: " ++ err), hashed ++ [nonce]⟩
      | .ok hash =>
        let hashHex := hexEncodeToString hash
        if difficultyLevel < 0 then ⟨.panicked, hashed ++ [nonce]⟩
        else if stringsHasPrefix hashHex (stringsRepeat "0" difficultyLevel.toNat) then
          if hashHex.length < 16 then ⟨.panicked, hashed ++ [nonce]⟩
          else ⟨.ok nonce, hashed ++ [nonce]⟩
        else attempts lib env challengeID seed difficultyLevel n r p keyLen fuel (attempt + 1)
          (hashed ++ [nonce])

/-- Go `solverImpl.SolveWithContext`. -/
def SolveWithContext (lib : Lib) (env : SolverEnv) (challengeID seed : String)
    (difficultyLevel n r p keyLen : Int) : SolveRun :=
  let n := if n ≤ 0 then DefaultScryptN else n
  let r := if r ≤ 0 then DefaultScryptR else r
  let p := if p ≤ 0 then DefaultScryptP else p
  let keyLen := if keyLen ≤ 0 then DefaultScryptKeyLen else keyLen
  attempts lib env challengeID seed difficultyLevel n r p keyLen MaxAttempts 0 []

end solverImpl

/-- Whether the nonce of attempt `i` is hashed without error and its hash lacks the prefix of
`difficultyLevel` zeros. -/
def solverMisses (lib : Lib) (env : SolverEnv) (challengeID seed : String)
    (difficultyLevel n r p keyLen : Int) (i : Nat) : Bool :=
  match lib.scryptKey (bytesOf (challengeID ++ seed ++ generateNonce (env.draws i)))
      (bytesOf challengeID) n r p keyLen with
  | .error _ => false
  | .ok hash =>
    !stringsHasPrefix (hexEncodeToString hash) (stringsRepeat "0" difficultyLevel.toNat)

/-- A solver environment whose context is never done and whose draws for attempt `i` are
five bytes of value `i` and three zero bytes. -/
def sampleSolverEnv : SolverEnv where
  done := fun _ => false
  draws := fun i => List.replicate 5 (UInt8.ofNat i) ++ List.replicate 3 0
  timeout := "30s"

/-- A solver environment whose context is done from the third attempt on. -/
def sampleSolverEnvTimed : SolverEnv where
  done := fun i => decide (2 ≤ i)
  draws := fun i => List.replicate 5 (UInt8.ofNat i) ++ List.replicate 3 0
  timeout := "30s"

/-- A library whose key derivation gives bytes of value 255 for every input, so that no hash
has a leading zero. -/
def stubbornLib : Lib where
  scryptKey := fun _ _ _ _ _ keyLen => .ok (List.replicate keyLen.toNat 255)
  sha256Sum256 := sampleLib.sha256Sum256
  sha256_size := sampleLib.sha256_size
  uuidParse := sampleLib.uuidParse

/-! ## The `quote_request` handler (`api/quote_request`) -/

namespace quoterequest

/-- Go `powService` of `api/quote_request/deps.go`, over a service state `σ`. -/
structure powService (σ : Type) where
  CreateChallenge : String → σ → Outcome Challenge × σ

/-- Go `quoterequest.Handler` (the logger left out). -/
structure Handler (σ : Type) where
  powService : powService σ

/-- Go `Handler.HandleMessage` of `api/quote_request/handler.go`. The handler does not use the
quote source, whose state `qs` it passes on. -/
def Handler.HandleMessage {σ ρ : Type} (json : protocol.Json) (h : Handler σ)
    (conn : protocol.Conn) (clientIP : String) (_msg : protocol.Message) (st : σ) (qs : ρ) :
    HandlerRun σ ρ :=
  match h.powService.CreateChallenge clientIP st with
  | (.panicked, st1) => ⟨.panicked, st1, qs, conn, [.CreateChallenge clientIP]⟩
  | (.error err, st1) =>
    ⟨.ofExcept (protocol.SendError json conn protocol.ErrRateLimitExceeded err).1,
      st1, qs,
      (protocol.SendError json conn protocol.ErrRateLimitExceeded err).2,
      [.CreateChallenge clientIP,
        .SendMessage protocol.TypeError (.Error ⟨protocol.ErrRateLimitExceeded, err⟩)]⟩
  | (.ok challenge, st1) =>
    let challengeData : protocol.PowChallengeData :=
      { ChallengeID := challenge.ID, Seed := challenge.Seed,
        DifficultyLevel := challenge.DifficultyLevel, ScryptN := challenge.ScryptN,
        ScryptR := challenge.ScryptR, ScryptP := challenge.ScryptP,
        KeyLen := challenge.KeyLen, Task := challenge.ID }
    ⟨.ofExcept (protocol.SendMessage json conn protocol.TypePowChallenge
        (.PowChallenge challengeData)).1,
      st1, qs,
      (protocol.SendMessage json conn protocol.TypePowChallenge
        (.PowChallenge challengeData)).2,
      [.CreateChallenge clientIP,
        .SendMessage protocol.TypePowChallenge (.PowChallenge challengeData)]⟩

end quoterequest

/-- The PoW service behind the `quote_request` handler as `NewDefaultConfiguration` wires it;
`uuid` is the string of the coming `uuid.New()` and `entropy` the outcome of the coming read
of the entropy source. -/
def serverChallengeService (lib : Lib) (config : PowConfig) (uuid : String)
    (entropy : Except String (List UInt8)) : quoterequest.powService Redis where
  CreateChallenge := fun clientIP st =>
    (((server lib config).CreateChallenge clientIP uuid entropy st).result,
      ((server lib config).CreateChallenge clientIP uuid entropy st).state)

/-- The `quote_request` handler on the server under the default configuration, with the
sample UUID and entropy. -/
def sampleRequestHandler : quoterequest.Handler Redis :=
  ⟨serverChallengeService sampleLib DefaultConfig sampleUUID (.ok sampleEntropy)⟩

/-- A `quote_request` message. -/
def sampleRequest : protocol.Message := ⟨protocol.TypeQuoteRequest, []⟩

/-- The empty store when the first coming round trip to it fails with a timeout. -/
def sampleStoreDown : Redis := { Redis.empty 1700000000000 with faults := [some "i/o timeout"] }

/-! ## The connection loop (`tcp/connection.go`, `tcp/handler.go`) -/

/-- Go `bufio.Reader.ReadBytes(delim)` on the bytes still to come from the peer: the bytes up to
and including the first delimiter, and the bytes after it; `none` is a read error (no delimiter
comes before the peer closes the connection or the deadline passes). -/
def ReadBytes (delim : UInt8) : List UInt8 → Option (List UInt8 × List UInt8)
  | [] => none
  | b :: rest =>
    if b = delim then some ([b], rest)
    else
      match ReadBytes delim rest with
      | none => none
      | some (line, rest2) => some (b :: line, rest2)

namespace tcp

/-- Go `tcp.MessageHandler`: its method `HandleMessage`, over the states of the PoW service
and of the quote source. -/
def MessageHandler (σ ρ : Type) : Type :=
  protocol.Conn → String → protocol.Message → σ → ρ → HandlerRun σ ρ

/-- Go `tcp.HandlerRegistry`. -/
structure HandlerRegistry (σ ρ : Type) where
  handlers : String → Option (MessageHandler σ ρ)

/-- Go `NewHandlerRegistry`. -/
def NewHandlerRegistry {σ ρ : Type} : HandlerRegistry σ ρ := ⟨fun _ => none⟩

/-- Go `HandlerRegistry.RegisterHandler`. -/
def HandlerRegistry.RegisterHandler {σ ρ : Type} (r : HandlerRegistry σ ρ) (msgType : String)
    (handler : MessageHandler σ ρ) : HandlerRegistry σ ρ :=
  ⟨fun t => if t = msgType then some handler else r.handlers t⟩

/-- Go `HandlerRegistry.GetHandler`. -/
def HandlerRegistry.GetHandler {σ ρ : Type} (r : HandlerRegistry σ ρ) (msgType : String) :
    Option (MessageHandler σ ρ) :=
  r.handlers msgType

/-- What the environment supplies to the loop of a connection at its iteration `i`, counted
from 0: whether `ctx.Done()` is ready, and the errors of `conn.SetReadDeadline` and
`conn.SetWriteDeadline`, if any. -/
structure LoopEnv where
  cancelled : Nat → Bool
  readDeadline : Nat → Option String
  writeDeadline : Nat → Option String

/-- Why the loop of a connection ended. -/
inductive LoopEnd where
  | cancelled
  | readDeadline
  | readError
  | writeDeadline
  | sendError
  | panicked
deriving DecidableEq, Repr

/-- The state of the loop of a connection: the states of the PoW service and of the quote
source, the connection, the bytes of the peer not read yet, and the messages handed to a
handler so far, each with what the handler returned. -/
structure LoopState (σ ρ : Type) where
  service : σ
  quotes : ρ
  conn : protocol.Conn
  input : List UInt8
  handled : List (protocol.Message × Outcome Unit)

/-- A finished loop: its last state and why it ended (the connection is then closed). -/
structure LoopRun (σ ρ : Type) where
  state : LoopState σ ρ
  ended : LoopEnd

/-- How one iteration of the loop of a connection ends: the loop goes on from a state, or it
is left. -/
inductive Step (σ ρ : Type) where
  | next (s : LoopState σ ρ)
  | stop (run : LoopRun σ ρ)

namespace ConnectionHandler

/-- The body of the `for` loop of Go `ConnectionHandler.HandleConnection`, at the iteration
`i`. An error a handler returns is logged and the loop goes on; a panic of a handler leaves the
loop. -/
def iteration {σ ρ : Type} (json : protocol.Json) (registry : HandlerRegistry σ ρ)
    (env : LoopEnv) (clientIP : String) (i : Nat) (s : LoopState σ ρ) : Step σ ρ :=
  if env.cancelled i then .stop ⟨s, .cancelled⟩
  else
    match env.readDeadline i with
    | some _ => .stop ⟨s, .readDeadline⟩
    | none =>
      match ReadBytes 10 s.input with
      | none => .stop ⟨{ s with input := [] }, .readError⟩
      | some (msgBytes, rest) =>
        match env.writeDeadline i with
        | some _ => .stop ⟨{ s with input := rest }, .writeDeadline⟩
        | none =>
          match json.unmarshalMessage msgBytes with
          | .error _ =>
            match protocol.SendError json s.conn protocol.ErrInvalidRequest
                "Invalid JSON format" with
            | (.error _, conn1) => .stop ⟨{ s with input := rest, conn := conn1 }, .sendError⟩
            | (.ok _, conn1) => .next { s with input := rest, conn := conn1 }
          | .ok msg =>
            match registry.GetHandler msg.msgType with
            | none =>
              match protocol.SendError json s.conn protocol.ErrInvalidRequest
                  "Unknown message type" with
              | (.error _, conn1) =>
                .stop ⟨{ s with input := rest, conn := conn1 }, .sendError⟩
              | (.ok _, conn1) => .next { s with input := rest, conn := conn1 }
            | some handler =>
              match (handler s.conn clientIP msg s.service s.quotes).result with
              | .panicked =>
                .stop ⟨⟨(handler s.conn clientIP msg s.service s.quotes).service,
                  (handler s.conn clientIP msg s.service s.quotes).quotes,
                  (handler s.conn clientIP msg s.service s.quotes).conn, rest,
                  s.handled ++ [(msg, .panicked)]⟩, .panicked⟩
              | .error err =>
                .next ⟨(handler s.conn clientIP msg s.service s.quotes).service,
                  (handler s.conn clientIP msg s.service s.quotes).quotes,
                  (handler s.conn clientIP msg s.service s.quotes).conn, rest,
                  s.handled ++ [(msg, .error err)]⟩
              | .ok _ =>
                .next ⟨(handler s.conn clientIP msg s.service s.quotes).service,
                  (handler s.conn clientIP msg s.service s.quotes).quotes,
                  (handler s.conn clientIP msg s.service s.quotes).conn, rest,
                  s.handled ++ [(msg, .ok ())]⟩

/-- The `for` loop of Go `ConnectionHandler.HandleConnection` with `fuel` iterations left, at
the iteration `i`. An iteration after which the loop goes on has read at least one byte, so
`fuel` above the number of bytes to come is never used up. -/
def loop {σ ρ : Type} (json : protocol.Json) (registry : HandlerRegistry σ ρ) (env : LoopEnv)
    (clientIP : String) : Nat → Nat → LoopState σ ρ → LoopRun σ ρ
  | 0, _, s => ⟨s, .readError⟩
  | fuel + 1, i, s =>
    match iteration json registry env clientIP i s with
    | .stop run => run
    | .next s1 => loop json registry env clientIP fuel (i + 1) s1

/-- Go `ConnectionHandler.HandleConnection`, on a connection whose peer sends the bytes
`input`; `clientIP` is what `getIPFromAddr` makes of the remote address. -/
def HandleConnection {σ ρ : Type} (json : protocol.Json) (registry : HandlerRegistry σ ρ)
    (env : LoopEnv) (clientIP : String) (conn : protocol.Conn) (input : List UInt8) (st : σ)
    (qs : ρ) : LoopRun σ ρ :=
  loop json registry env clientIP (input.length + 1) 0 ⟨st, qs, conn, input, []⟩

end ConnectionHandler

end tcp

/-- The registry of the server as `main` fills it, with the sample handlers. -/
def sampleRegistry : tcp.HandlerRegistry Redis Unit :=
  (tcp.NewHandlerRegistry.RegisterHandler protocol.TypeQuoteRequest
    (sampleRequestHandler.HandleMessage sampleJson)).RegisterHandler protocol.TypePowSolution
    (sampleSolutionHandler.HandleMessage sampleJson)

/-- A loop environment without cancellation or deadline errors. -/
def sampleLoopEnv : tcp.LoopEnv := ⟨fun _ => false, fun _ => none, fun _ => none⟩

/-- The line a client sends for a message: the envelope and a newline. -/
def sampleLine (msg : protocol.Message) : List UInt8 :=
  match sampleJson.marshalMessage msg with
  | .ok b => b ++ [10]
  | .error _ => []

/-- A connection on which the first coming `Write` fails and the later ones succeed. -/
def sampleConnFlaky : protocol.Conn := ⟨[], [some "write: broken pipe"]⟩

/-- A store in which the outstanding counter of `sampleSource` holds `2 ^ 53 + 1`, the least
positive integer that is no `float64`. -/
def sampleLargeCounter : Redis :=
  (Redis.empty 1700000000000).put (unsolvedKey sampleLib sampleSource)
    ⟨.int 9007199254740993, none⟩

/-! ## A model of `encoding/json` for the messages of the protocol

`json.Marshal` of the payload structs and of the envelope, and `json.Unmarshal` into a `Message`
and into a `PowSolutionData`, as Go's `encoding/json` computes them (Go 1.22 and later) on
strings that are valid UTF-8, which a Lean `String` always is. The text of a decoding error
names its kind only, not the offending character and its position. -/

namespace gojson

/-- Go `utf8.AppendRune`: the UTF-8 encoding of a character. -/
def encodeRune (c : Char) : List UInt8 :=
  if c.toNat < 0x80 then [UInt8.ofNat c.toNat]
  else if c.toNat < 0x800 then
    [UInt8.ofNat (0xC0 + c.toNat / 64), UInt8.ofNat (0x80 + c.toNat % 64)]
  else if c.toNat < 0x10000 then
    [UInt8.ofNat (0xE0 + c.toNat / 4096), UInt8.ofNat (0x80 + c.toNat / 64 % 64),
      UInt8.ofNat (0x80 + c.toNat % 64)]
  else
    [UInt8.ofNat (0xF0 + c.toNat / 262144), UInt8.ofNat (0x80 + c.toNat / 4096 % 64),
      UInt8.ofNat (0x80 + c.toNat / 64 % 64), UInt8.ofNat (0x80 + c.toNat % 64)]

/-- Go `utf8.RuneError`, the replacement character U+FFFD. -/
def RuneError : Char := Char.ofNat 0xFFFD

/-- Go `utf8.DecodeRune` on bytes that are not empty: the first character and the bytes after
it; bytes that do not start with the UTF-8 encoding of a character give `RuneError` and lose
their first byte only. -/
def decodeRune : List UInt8 → Char × List UInt8
  | [] => (RuneError, [])
  | b0 :: rest =>
    if b0.toNat < 0x80 then (Char.ofNat b0.toNat, rest)
    else if 0xC2 ≤ b0.toNat ∧ b0.toNat ≤ 0xDF then
      match rest with
      | b1 :: r1 =>
        if 0x80 ≤ b1.toNat ∧ b1.toNat ≤ 0xBF then
          (Char.ofNat ((b0.toNat - 0xC0) * 64 + (b1.toNat - 0x80)), r1)
        else (RuneError, rest)
      | [] => (RuneError, rest)
    else if 0xE0 ≤ b0.toNat ∧ b0.toNat ≤ 0xEF then
      match rest with
      | b1 :: b2 :: r2 =>
        if (if b0.toNat = 0xE0 then 0xA0 else 0x80) ≤ b1.toNat ∧
            b1.toNat ≤ (if b0.toNat = 0xED then 0x9F else 0xBF) ∧
            0x80 ≤ b2.toNat ∧ b2.toNat ≤ 0xBF then
          (Char.ofNat ((b0.toNat - 0xE0) * 4096 + (b1.toNat - 0x80) * 64 + (b2.toNat - 0x80)),
            r2)
        else (RuneError, rest)
      | _ => (RuneError, rest)
    else if 0xF0 ≤ b0.toNat ∧ b0.toNat ≤ 0xF4 then
      match rest with
      | b1 :: b2 :: b3 :: r3 =>
        if (if b0.toNat = 0xF0 then 0x90 else 0x80) ≤ b1.toNat ∧
            b1.toNat ≤ (if b0.toNat = 0xF4 then 0x8F else 0xBF) ∧
            0x80 ≤ b2.toNat ∧ b2.toNat ≤ 0xBF ∧ 0x80 ≤ b3.toNat ∧ b3.toNat ≤ 0xBF then
          (Char.ofNat ((b0.toNat - 0xF0) * 262144 + (b1.toNat - 0x80) * 4096 +
            (b2.toNat - 0x80) * 64 + (b3.toNat - 0x80)), r3)
        else (RuneError, rest)
      | _ => (RuneError, rest)
    else (RuneError, rest)

/-- The hexadecimal digit of `n < 16`, in lower case. -/
def hex (n : Nat) : UInt8 := if n < 10 then UInt8.ofNat (48 + n) else UInt8.ofNat (87 + n)

/-- What Go `appendString`, with HTML escaping as `json.Marshal` sets it, writes for one
character: `\"` and `\\`; `\b`, `\f`, `\n`, `\r`, `\t` (before Go 1.22 `\u0008` and `\u000c`
for the first two, which decode alike); `\u00XX` for the other characters below U+0020 and
for `<`, `>`, `&`; `\u2028` and `\u2029` for U+2028 and U+2029; every other character in
UTF-8. -/
def appendRune (c : Char) : List UInt8 :=
  if c.toNat = 0x22 ∨ c.toNat = 0x5C then [0x5C, UInt8.ofNat c.toNat]
  else if c.toNat = 8 then [0x5C, 0x62]
  else if c.toNat = 12 then [0x5C, 0x66]
  else if c.toNat = 10 then [0x5C, 0x6E]
  else if c.toNat = 13 then [0x5C, 0x72]
  else if c.toNat = 9 then [0x5C, 0x74]
  else if c.toNat < 0x20 ∨ c.toNat = 0x3C ∨ c.toNat = 0x3E ∨ c.toNat = 0x26 then
    [0x5C, 0x75, 0x30, 0x30, hex (c.toNat / 16), hex (c.toNat % 16)]
  else if c.toNat = 0x2028 ∨ c.toNat = 0x2029 then
    [0x5C, 0x75, 0x32, 0x30, 0x32, hex (c.toNat % 16)]
  else encodeRune c

/-- The characters of a string as `appendString` writes them between the quotes. -/
def appendRunes : List Char → List UInt8
  | [] => []
  | c :: cs => appendRune c ++ appendRunes cs

/-- Go `appendString`: a JSON string literal. -/
def appendString (s : String) : List UInt8 := 0x22 :: (appendRunes s.data ++ [0x22])

/-- The value of a hexadecimal digit, in either case. -/
def hexValue (b : UInt8) : Option Nat :=
  if 48 ≤ b.toNat ∧ b.toNat ≤ 57 then some (b.toNat - 48)
  else if 97 ≤ b.toNat ∧ b.toNat ≤ 102 then some (b.toNat - 87)
  else if 65 ≤ b.toNat ∧ b.toNat ≤ 70 then some (b.toNat - 55)
  else none

/-- Go `getu4` on the bytes after `\u`: the number four hexadecimal digits write, and the bytes
after them. -/
def getu4 : List UInt8 → Option (Nat × List UInt8)
  | a :: b :: c :: d :: rest =>
    match hexValue a, hexValue b, hexValue c, hexValue d with
    | some x, some y, some z, some w => some (((x * 16 + y) * 16 + z) * 16 + w, rest)
    | _, _, _, _ => none
  | _ => none

/-- The character of the surrogate pair that the high surrogate `u` forms with a `\uXXXX`
escape at the head of the input, and the bytes after that escape (Go `utf16.DecodeRune`);
`none` when no low surrogate follows or `u` is none of a high surrogate. -/
def surrogatePair (u : Nat) : List UInt8 → Option (Char × List UInt8)
  | b :: e :: rest =>
    if b.toNat = 0x5C ∧ e.toNat = 0x75 then
      match getu4 rest with
      | some (u2, rest2) =>
        if 0xD800 ≤ u ∧ u < 0xDC00 ∧ 0xDC00 ≤ u2 ∧ u2 < 0xE000 then
          some (Char.ofNat ((u - 0xD800) * 1024 + (u2 - 0xDC00) + 0x10000), rest2)
        else none
      | none => none
    else none
  | _ => none

/-- The body of a JSON string literal, after its opening quote: the characters it stands for
(Go `unquote`; a surrogate that is not half of a pair and a byte that is no UTF-8 give
U+FFFD) after those in `acc`, and the bytes after the closing quote. `none` is a syntax error
of the scanner: a byte below 0x20, an escape that is none, or no closing quote. Each step uses
one unit of `fuel` and at least one byte. -/
def unquoteBody : Nat → List Char → List UInt8 → Option (List Char × List UInt8)
  | 0, _, _ => none
  | _ + 1, _, [] => none
  | fuel + 1, acc, b :: rest =>
    if b.toNat = 0x22 then some (acc, rest)
    else if b.toNat = 0x5C then
      match rest with
      | [] => none
      | e :: rest1 =>
        if e.toNat = 0x22 ∨ e.toNat = 0x5C ∨ e.toNat = 0x2F then
          unquoteBody fuel (acc ++ [Char.ofNat e.toNat]) rest1
        else if e.toNat = 0x62 then unquoteBody fuel (acc ++ [Char.ofNat 8]) rest1
        else if e.toNat = 0x66 then unquoteBody fuel (acc ++ [Char.ofNat 12]) rest1
        else if e.toNat = 0x6E then unquoteBody fuel (acc ++ [Char.ofNat 10]) rest1
        else if e.toNat = 0x72 then unquoteBody fuel (acc ++ [Char.ofNat 13]) rest1
        else if e.toNat = 0x74 then unquoteBody fuel (acc ++ [Char.ofNat 9]) rest1
        else if e.toNat = 0x75 then
          match getu4 rest1 with
          | none => none
          | some (u, rest2) =>
            if 0xD800 ≤ u ∧ u < 0xE000 then
              match surrogatePair u rest2 with
              | some (c, rest3) => unquoteBody fuel (acc ++ [c]) rest3
              | none => unquoteBody fuel (acc ++ [RuneError]) rest2
            else unquoteBody fuel (acc ++ [Char.ofNat u]) rest2
        else none
    else if b.toNat < 0x20 then none
    else unquoteBody fuel (acc ++ [(decodeRune (b :: rest)).1]) (decodeRune (b :: rest)).2

/-- A JSON string literal at the head of the input (its opening quote included): the string it
stands for and the bytes after it. -/
def scanString : List UInt8 → Option (String × List UInt8)
  | [] => none
  | q :: rest =>
    if q.toNat = 0x22 then
      match unquoteBody (rest.length) [] rest with
      | some (cs, rest1) => some (String.mk cs, rest1)
      | none => none
    else none

/-- JSON white space: space, tab, carriage return, line feed. -/
def isSpace (b : UInt8) : Bool :=
  b.toNat = 0x20 || b.toNat = 0x09 || b.toNat = 0x0D || b.toNat = 0x0A

/-- The input after its leading white space. -/
def skipSpace : List UInt8 → List UInt8
  | [] => []
  | b :: rest => if isSpace b then skipSpace rest else b :: rest

/-- The input after its leading decimal digits. -/
def skipDigits : List UInt8 → List UInt8
  | [] => []
  | b :: rest => if 48 ≤ b.toNat ∧ b.toNat ≤ 57 then skipDigits rest else b :: rest

/-- The input after the exponent of a number, if one starts here. -/
def scanExponent : List UInt8 → Option (List UInt8)
  | [] => some []
  | b :: rest =>
    if b.toNat = 0x65 ∨ b.toNat = 0x45 then
      match (match rest with
        | s :: r => if s.toNat = 0x2B ∨ s.toNat = 0x2D then r else rest
        | [] => rest) with
      | d :: r => if 48 ≤ d.toNat ∧ d.toNat ≤ 57 then some (skipDigits r) else none
      | [] => none
    else some (b :: rest)

/-- The input after the fraction and the exponent of a number, if they start here. -/
def scanFraction : List UInt8 → Option (List UInt8)
  | [] => some []
  | b :: rest =>
    if b.toNat = 0x2E then
      match rest with
      | d :: r => if 48 ≤ d.toNat ∧ d.toNat ≤ 57 then scanExponent (skipDigits r) else none
      | [] => none
    else scanExponent (b :: rest)

/-- The input after the digits of a number: `0`, or a digit from 1 to 9 and more digits, then
fraction and exponent. -/
def scanDigits : List UInt8 → Option (List UInt8)
  | [] => none
  | d :: rest =>
    if d.toNat = 0x30 then scanFraction rest
    else if 0x31 ≤ d.toNat ∧ d.toNat ≤ 0x39 then scanFraction (skipDigits rest)
    else none

/-- The input after a JSON number at its head. -/
def scanNumber : List UInt8 → Option (List UInt8)
  | [] => none
  | b :: rest => if b.toNat = 0x2D then scanDigits rest else scanDigits (b :: rest)

/-- The input after the bytes `lit`, when it starts with them. -/
def expectBytes : List UInt8 → List UInt8 → Option (List UInt8)
  | [], input => some input
  | _ :: _, [] => none
  | p :: ps, b :: rest => if b = p then expectBytes ps rest else none

/-- The input after a value that is no array and no object: a string, `true`, `false`, `null`
or a number. -/
def scanLiteral : List UInt8 → Option (List UInt8)
  | [] => none
  | b :: rest =>
    if b.toNat = 0x22 then (scanString (b :: rest)).map Prod.snd
    else if b.toNat = 0x74 then expectBytes [0x72, 0x75, 0x65] rest
    else if b.toNat = 0x66 then expectBytes [0x61, 0x6C, 0x73, 0x65] rest
    else if b.toNat = 0x6E then expectBytes [0x75, 0x6C, 0x6C] rest
    else scanNumber (b :: rest)

/-- The elements of an array from the head of an element on, up to the closing bracket; `item`
scans one element. Each element uses one unit of `fuel`. -/
def scanElements (item : List UInt8 → Option (List UInt8)) :
    Nat → List UInt8 → Option (List UInt8)
  | 0, _ => none
  | fuel + 1, input =>
    match item input with
    | none => none
    | some rest =>
      match skipSpace rest with
      | [] => none
      | b :: rest1 =>
        if b.toNat = 0x2C then scanElements item fuel (skipSpace rest1)
        else if b.toNat = 0x5D then some rest1
        else none

/-- The input after an array whose opening bracket has been read. -/
def scanArray (item : List UInt8 → Option (List UInt8)) (rest : List UInt8) :
    Option (List UInt8) :=
  match skipSpace rest with
  | [] => none
  | b :: rest1 =>
    if b.toNat = 0x5D then some rest1 else scanElements item rest.length (b :: rest1)

/-- The bytes of `input` before its tail `rest`. -/
def consumed (input rest : List UInt8) : List UInt8 := input.take (input.length - rest.length)

/-- A member of an object from the quote of its key on: the key, the bytes of the value, and
the input after the value. -/
def scanMember (item : List UInt8 → Option (List UInt8)) (input : List UInt8) :
    Option ((String × List UInt8) × List UInt8) :=
  match scanString input with
  | none => none
  | some (key, rest1) =>
    match skipSpace rest1 with
    | [] => none
    | c :: rest2 =>
      if c.toNat = 0x3A then
        match item (skipSpace rest2) with
        | none => none
        | some rest3 => some ((key, consumed (skipSpace rest2) rest3), rest3)
      else none

/-- The members of an object from the head of a member on, up to the closing brace, after
those in `acc`. Each member uses one unit of `fuel`. -/
def scanMembers (item : List UInt8 → Option (List UInt8)) :
    Nat → List (String × List UInt8) → List UInt8 →
      Option (List (String × List UInt8) × List UInt8)
  | 0, _, _ => none
  | fuel + 1, acc, input =>
    match scanMember item input with
    | none => none
    | some (m, rest) =>
      match skipSpace rest with
      | [] => none
      | b :: rest1 =>
        if b.toNat = 0x2C then scanMembers item fuel (acc ++ [m]) (skipSpace rest1)
        else if b.toNat = 0x7D then some (acc ++ [m], rest1)
        else none

/-- The members of an object whose opening brace has been read, and the input after it. -/
def scanObject (item : List UInt8 → Option (List UInt8)) (rest : List UInt8) :
    Option (List (String × List UInt8) × List UInt8) :=
  match skipSpace rest with
  | [] => none
  | b :: rest1 =>
    if b.toNat = 0x7D then some ([], rest1)
    else scanMembers item rest.length [] (b :: rest1)

/-- The input after the JSON value at its head, which may nest arrays and objects `depth`
deep; `none` is a syntax error of Go's scanner. -/
def scanValue : Nat → List UInt8 → Option (List UInt8)
  | 0 => scanLiteral
  | depth + 1 => fun input =>
    match input with
    | [] => none
    | b :: rest =>
      if b.toNat = 0x7B then (scanObject (scanValue depth) rest).map Prod.snd
      else if b.toNat = 0x5B then scanArray (scanValue depth) rest
      else scanLiteral (b :: rest)

/-- Go `maxNestingDepth` of the scanner. -/
def maxNestingDepth : Nat := 10000

/-- Go `checkValid`: the input is one JSON value between optional white space. -/
def checkValid (input : List UInt8) : Bool :=
  match scanValue maxNestingDepth (skipSpace input) with
  | some rest => skipSpace rest = []
  | none => false

/-- The decimal digits of `n`, most significant first; `fuel` bounds their number and `n`
itself is always enough. -/
def natDigits : Nat → Nat → List UInt8
  | 0, _ => [48]
  | fuel + 1, n =>
    if n < 10 then [UInt8.ofNat (48 + n)]
    else natDigits fuel (n / 10) ++ [UInt8.ofNat (48 + n % 10)]

/-- Go `strconv.AppendInt` in base 10, as `json.Marshal` writes an `int`. -/
def appendInt (n : Int) : List UInt8 :=
  if n < 0 then 0x2D :: natDigits n.natAbs n.natAbs else natDigits n.natAbs n.natAbs

/-- A member of an object: the quoted name, a colon, the bytes of the value. -/
def appendMember (m : String × List UInt8) : List UInt8 :=
  appendString m.1 ++ 0x3A :: m.2

/-- Members separated by commas. -/
def appendMembers : List (String × List UInt8) → List UInt8
  | [] => []
  | [m] => appendMember m
  | m :: n :: ms => appendMember m ++ 0x2C :: appendMembers (n :: ms)

/-- The JSON object `json.Marshal` writes for a struct: its fields in the order of their
declaration, each under the name of its `json` tag with the JSON of its value, and no white
space. -/
def appendObject (members : List (String × List UInt8)) : List UInt8 :=
  0x7B :: (appendMembers members ++ [0x7D])

/-- The fields of a payload (`protocol/types.go`): the names of their `json` tags and the JSON
of their values, a string literal for a `string` and decimal digits for an `int`. -/
def fieldsOf : protocol.Payload → List (String × List UInt8)
  | .PowChallenge d =>
    [("challenge_id", appendString d.ChallengeID), ("seed", appendString d.Seed),
      ("difficulty_level", appendInt d.DifficultyLevel), ("scrypt_n", appendInt d.ScryptN),
      ("scrypt_r", appendInt d.ScryptR), ("scrypt_p", appendInt d.ScryptP),
      ("key_len", appendInt d.KeyLen), ("task", appendString d.Task)]
  | .QuoteResponse d => [("text", appendString d.Text), ("author", appendString d.Author)]
  | .Error d => [("code", appendString d.Code), ("message", appendString d.Message)]

/-- Go `json.Marshal` of a payload struct. -/
def marshal (data : protocol.Payload) : List UInt8 := appendObject (fieldsOf data)

/-- Where Go's scanner stands in valid JSON while `appendCompact` copies it: outside every
string literal, inside one, or inside one right after a backslash. -/
inductive CompactState where
  | outside
  | inString
  | escaped
deriving DecidableEq, Repr

/-- The escape `\u2028` or `\u2029` when the bytes after a byte `0xE2` complete the UTF-8
encoding of U+2028 or U+2029. -/
def separatorEscape : List UInt8 → Option (List UInt8)
  | b1 :: b2 :: _ =>
    if b1.toNat = 0x80 ∧ (b2.toNat = 0xA8 ∨ b2.toNat = 0xA9) then
      some [0x5C, 0x75, 0x32, 0x30, 0x32, hex (b2.toNat % 16)]
    else none
  | _ => none

/-- What Go `appendCompact`, with HTML escaping, copies of valid JSON: white space outside
string literals is dropped; inside them `<`, `>`, `&` become `\u003c`, `\u003e`, `\u0026` and
the UTF-8 bytes of U+2028 and U+2029 become `\u2028` and `\u2029`. The first `skip` bytes
belong to a character already written as an escape. -/
def compact : CompactState → Nat → List UInt8 → List UInt8
  | _, _, [] => []
  | st, skip + 1, _ :: rest => compact st skip rest
  | .outside, 0, b :: rest =>
    if isSpace b then compact .outside 0 rest
    else if b.toNat = 0x22 then b :: compact .inString 0 rest
    else b :: compact .outside 0 rest
  | .escaped, 0, b :: rest => b :: compact .inString 0 rest
  | .inString, 0, b :: rest =>
    if b.toNat = 0x5C then b :: compact .escaped 0 rest
    else if b.toNat = 0x22 then b :: compact .outside 0 rest
    else if b.toNat = 0x3C ∨ b.toNat = 0x3E ∨ b.toNat = 0x26 then
      [0x5C, 0x75, 0x30, 0x30, hex (b.toNat / 16), hex (b.toNat % 16)] ++
        compact .inString 0 rest
    else if b.toNat = 0xE2 then
      match separatorEscape rest with
      | some escape => escape ++ compact .inString 2 rest
      | none => b :: compact .inString 0 rest
    else b :: compact .inString 0 rest

/-- Go `json.Marshal` of a `Message`: the object of `type` and, unless the raw message is
empty (`omitempty`), of `data`, whose bytes are checked and compacted; a raw message that is
no valid JSON is an error. -/
def marshalMessage (m : protocol.Message) : Except String (List UInt8) :=
  if m.data = [] then .ok (appendObject [("type", appendString m.msgType)])
  else if checkValid m.data then
    .ok (appendObject [("type", appendString m.msgType), ("data", compact .outside 0 m.data)])
  else .error "json: error calling MarshalJSON for type json.RawMessage: invalid JSON"

/-- Go `foldName`: the name a key is matched under when no field has exactly that name; the
letters `a` to `z` become capitals. (A character outside ASCII is replaced by the least
character it folds to; no such character folds to a letter of the field names here, which
hold neither `k` nor `s`, so it is kept.) -/
def foldName (s : String) : List Char :=
  s.data.map fun c => if 0x61 ≤ c.toNat ∧ c.toNat ≤ 0x7A then Char.ofNat (c.toNat - 32) else c

/-- The kind of a JSON value, as an `UnmarshalTypeError` names it, from its first byte. -/
def kindOf : List UInt8 → String
  | [] => "number"
  | b :: _ =>
    if b.toNat = 0x7B then "object"
    else if b.toNat = 0x5B then "array"
    else if b.toNat = 0x22 then "string"
    else if b.toNat = 0x74 ∨ b.toNat = 0x66 then "bool"
    else "number"

/-- The decoding of the bytes of a value into a field of type `string`: a string literal is
stored, `null` leaves the field (`none`), a value of another kind is an `UnmarshalTypeError`
at the field `name`. -/
def stringField (name : String) (value : List UInt8) : Except String (Option String) :=
  match value with
  | [] => .ok none
  | b :: _ =>
    if b.toNat = 0x22 then
      match scanString value with
      | some (s, _) => .ok (some s)
      | none => .ok none
    else if b.toNat = 0x6E then .ok none
    else .error ("json: cannot unmarshal " ++ kindOf value ++ " into Go struct field " ++
      name ++ " of type string")

/-- The first error of a decoding, which `json.Unmarshal` returns at the end. -/
def firstError (saved : Option String) (e : String) : Option String :=
  match saved with
  | some text => some text
  | none => some e

/-- The decoding of one member into a `Message`: a key that is `type` or `data`, in any case of
the letters, names the field; other keys are skipped. `Data`, a `json.RawMessage`, takes the
bytes of any value, those of `null` too. -/
def storeMessageMember (st : protocol.Message × Option String) (m : String × List UInt8) :
    protocol.Message × Option String :=
  if foldName m.1 = "TYPE".data then
    match stringField "Message.type" m.2 with
    | .ok (some s) => ({ st.1 with msgType := s }, st.2)
    | .ok none => st
    | .error e => (st.1, firstError st.2 e)
  else if foldName m.1 = "DATA".data then ({ st.1 with data := m.2 }, st.2)
  else st

/-- The decoding of one member into a `PowSolutionData`. -/
def storeSolutionMember (st : protocol.PowSolutionData × Option String)
    (m : String × List UInt8) : protocol.PowSolutionData × Option String :=
  if foldName m.1 = "CHALLENGE_ID".data then
    match stringField "PowSolutionData.challenge_id" m.2 with
    | .ok (some s) => ({ st.1 with ChallengeID := s }, st.2)
    | .ok none => st
    | .error e => (st.1, firstError st.2 e)
  else if foldName m.1 = "NONCE".data then
    match stringField "PowSolutionData.nonce" m.2 with
    | .ok (some s) => ({ st.1 with Nonce := s }, st.2)
    | .ok none => st
    | .error e => (st.1, firstError st.2 e)
  else st

/-- Go `json.Unmarshal` into a struct that starts as `zero`: the input is checked as a whole
first; the members of an object are stored in turn by `store`, `null` leaves the struct, a
value of another kind is an `UnmarshalTypeError`. -/
def unmarshalStruct {α : Type} (typeName : String) (zero : α)
    (store : α × Option String → String × List UInt8 → α × Option String)
    (input : List UInt8) : Except String α :=
  if checkValid input then
    match skipSpace input with
    | [] => .error "unexpected end of JSON input"
    | b :: rest =>
      if b.toNat = 0x7B then
        match scanObject (scanValue (maxNestingDepth - 1)) rest with
        | none => .error "invalid character in JSON input"
        | some (members, _) =>
          match members.foldl store (zero, none) with
          | (v, none) => .ok v
          | (_, some e) => .error e
      else if b.toNat = 0x6E then .ok zero
      else .error ("json: cannot unmarshal " ++ kindOf (b :: rest) ++ " into Go value of type " ++
        typeName)
  else if skipSpace input = [] then .error "unexpected end of JSON input"
  else .error "invalid character in JSON input"

/-- The input ends here or goes on with a comma, a closing brace or a line feed: what follows
a value in the messages of the protocol. -/
def Stops (rest : List UInt8) : Prop :=
  ∀ b r, rest = b :: r → b.toNat = 0x2C ∨ b.toNat = 0x7D ∨ b.toNat = 0x0A

/-- The bytes `v` start with no white space and are a JSON value that the scanner, allowed
`depth` levels of arrays and objects, reads to its end, whenever the input stops after
them. -/
def Scans (depth : Nat) (v : List UInt8) : Prop :=
  ∀ rest, Stops rest →
    scanValue depth (v ++ rest) = some rest ∧ skipSpace (v ++ rest) = v ++ rest

/-- Go `json.Unmarshal` into a `protocol.Message`. -/
def unmarshalMessage (input : List UInt8) : Except String protocol.Message :=
  unmarshalStruct "protocol.Message" ⟨"", []⟩ storeMessageMember input

/-- Go `json.Unmarshal` into a `protocol.PowSolutionData`. -/
def unmarshalSolution (input : List UInt8) : Except String protocol.PowSolutionData :=
  unmarshalStruct "protocol.PowSolutionData" ⟨"", ""⟩ storeSolutionMember input

end gojson

/-- The functions of `encoding/json` the server calls, on the model above. -/
def encodingJson : protocol.Json where
  marshal := fun data => .ok (gojson.marshal data)
  marshalMessage := gojson.marshalMessage
  unmarshalMessage := gojson.unmarshalMessage
  unmarshalSolution := gojson.unmarshalSolution

/-! ## Lemmas on the helpers -/

theorem wrapInt64_of_range (x : Int) (h0 : -(2 ^ 63) ≤ x) (h1 : x ≤ maxInt64) :
    wrapInt64 x = x := by
  unfold wrapInt64
  unfold maxInt64 at h1
  have h : (x + 2 ^ 63) % 2 ^ 64 = x + 2 ^ 63 := by
    apply Int.emod_eq_of_lt <;> omega
  omega

theorem quotient_in_range (c step : Int) (hstep : 0 < step) (hc : 0 ≤ c) (hc64 : c ≤ maxInt64) :
    wrapInt64 (Int.tdiv c step) = c / step := by
  have h1 : Int.tdiv c step = c / step := Int.tdiv_eq_ediv hc hstep.le
  have h2 : 0 ≤ c / step := Int.ediv_nonneg hc hstep.le
  have h3 : c / step ≤ c := Int.ediv_le_self _ hc
  rw [h1]
  apply wrapInt64_of_range
  · have : (0:Int) ≤ 2 ^ 63 := by norm_num
    omega
  · omega

theorem floor_quotient (c step : Int) (hstep : 0 < step) :
    ⌊(c : ℚ) / (step : ℚ)⌋ = c / step := by
  obtain ⟨d, rfl⟩ := Int.eq_ofNat_of_zero_le hstep.le
  have h := Rat.floor_intCast_div_natCast c d
  simpa using h

theorem CalculateDifficultyLevel_of_pos (config : PowConfig) (c : Int)
    (hstep : 0 < config.RequestsPerDifficultyIncrease) (hc : 0 ≤ c) (hc64 : c ≤ maxInt64) :
    CalculateDifficultyLevel config c =
      some (min (c / config.RequestsPerDifficultyIncrease) config.MaxDifficultyLevel) := by
  unfold CalculateDifficultyLevel
  rw [if_neg (ne_of_gt hstep)]
  simp only [quotient_in_range c _ hstep hc hc64]
  split
  · rename_i h; rw [min_eq_right (le_of_lt h)]
  · rename_i h; rw [min_eq_left (not_lt.mp h)]

theorem stringsRepeat_zero_data (n : Nat) : (stringsRepeat "0" n).data = List.replicate n '0' := by
  unfold stringsRepeat
  induction n with
  | zero => rfl
  | succ k ih =>
    simp only [List.replicate_succ, List.flatten_cons] at ih ⊢
    rw [ih]
    rfl

theorem stringsHasPrefix_zeros (s : String) (n : Nat) :
    stringsHasPrefix s (stringsRepeat "0" n) = decide (s.data.take n = List.replicate n '0') := by
  unfold stringsHasPrefix
  rw [stringsRepeat_zero_data]
  rw [Bool.eq_iff_iff, List.isPrefixOf_iff_prefix, List.prefix_iff_eq_take, decide_eq_true_iff]
  simp only [List.length_replicate]
  exact eq_comm

/-! ## Lemmas on the store -/

theorem unsolved_ne_difficulty (a b : String) : "unsolved:" ++ a ≠ "difficulty:" ++ b := by
  intro h
  have h2 := congrArg String.data h
  simp [String.data_append] at h2

theorem unsolved_ne_task (a b : String) : "unsolved:" ++ a ≠ "task:" ++ b := by
  intro h
  have h2 := congrArg String.data h
  simp [String.data_append] at h2

theorem Redis.OnlyAt.refl (key : String) (r : Redis) : Redis.OnlyAt key r r :=
  ⟨rfl, fun _ _ => rfl⟩

theorem Redis.OnlyAt.trans {key : String} {a b c : Redis} (h1 : Redis.OnlyAt key a b)
    (h2 : Redis.OnlyAt key b c) : Redis.OnlyAt key a c :=
  ⟨h2.1.trans h1.1, fun k hk => (h2.2 k hk).trans (h1.2 k hk)⟩

theorem Redis.OnlyAt.live_eq {key : String} {r r' : Redis} (h : Redis.OnlyAt key r r')
    (k : String) (hk : k ≠ key) : r'.live k = r.live k := by
  unfold Redis.live
  rw [h.2 k hk, h.1]

theorem Redis.onlyAt_put (key : String) (r : Redis) (e : RedisEntry) :
    Redis.OnlyAt key r (r.put key e) :=
  ⟨rfl, fun k hk => by simp [Redis.put, hk]⟩

theorem Redis.onlyAt_remove (key : String) (r : Redis) :
    Redis.OnlyAt key r (r.remove key) :=
  ⟨rfl, fun k hk => by simp [Redis.remove, hk]⟩

theorem Redis.onlyAt_faults (key : String) (r : Redis) (fs : List (Option String)) :
    Redis.OnlyAt key r { r with faults := fs } :=
  ⟨rfl, fun _ _ => rfl⟩

theorem Redis.onlyAt_call {α : Type} (key : String) (r : Redis)
    (cmd : Redis → Except RedisError α × Redis)
    (h : ∀ db, Redis.OnlyAt key db (cmd db).2) : Redis.OnlyAt key r (r.call cmd).2 := by
  unfold Redis.call
  rcases hf : r.faults with _ | ⟨f, rest⟩
  · exact h r
  · cases f with
    | none => exact (Redis.onlyAt_faults key r rest).trans (h _)
    | some text => exact Redis.onlyAt_faults key r rest

theorem Redis.onlyAt_setNX (key value : String) (ttl : Int) (r : Redis) :
    Redis.OnlyAt key r (r.setNX key value ttl).2 := by
  unfold Redis.setNX
  split
  · exact Redis.OnlyAt.refl _ _
  · cases r.live key with
    | none => exact Redis.onlyAt_put _ _ _
    | some e => exact Redis.OnlyAt.refl _ _

theorem Redis.onlyAt_expire (key : String) (d : Int) (r : Redis) :
    Redis.OnlyAt key r (r.expire key d).2 := by
  unfold Redis.expire
  cases r.live key with
  | none => exact Redis.OnlyAt.refl _ _
  | some e =>
    simp only
    split
    · exact Redis.onlyAt_remove _ _
    · exact Redis.onlyAt_put _ _ _

theorem Redis.onlyAt_incr (key : String) (r : Redis) : Redis.OnlyAt key r (r.incr key).2 := by
  unfold Redis.incr
  cases r.live key with
  | none => exact Redis.onlyAt_put _ _ _
  | some e =>
    simp only
    cases e.value with
    | str s => exact Redis.OnlyAt.refl _ _
    | zset ms => exact Redis.OnlyAt.refl _ _
    | int n =>
      simp only
      split
      · exact Redis.OnlyAt.refl _ _
      · exact Redis.onlyAt_put _ _ _

theorem Redis.onlyAt_zadd (key : String) (score member : Int) (r : Redis) :
    Redis.OnlyAt key r (r.zadd key score member).2 := by
  unfold Redis.zadd
  cases r.live key with
  | none => exact Redis.onlyAt_put _ _ _
  | some e =>
    simp only
    cases e.value with
    | str s => exact Redis.OnlyAt.refl _ _
    | int n => exact Redis.OnlyAt.refl _ _
    | zset ms =>
      simp only
      split
      · exact Redis.onlyAt_put _ _ _
      · exact Redis.onlyAt_put _ _ _

theorem Redis.onlyAt_zremRangeByScore (key : String) (lo hi : Int) (r : Redis) :
    Redis.OnlyAt key r (r.zremRangeByScore key lo hi).2 := by
  unfold Redis.zremRangeByScore
  cases r.live key with
  | none => exact Redis.OnlyAt.refl _ _
  | some e =>
    simp only
    cases e.value with
    | str s => exact Redis.OnlyAt.refl _ _
    | int n => exact Redis.OnlyAt.refl _ _
    | zset ms =>
      simp only
      split
      · exact Redis.onlyAt_remove _ _
      · exact Redis.onlyAt_put _ _ _

theorem Redis.zcount_state (key : String) (lo hi : Int) (r : Redis) :
    (r.zcount key lo hi).2 = r := by
  unfold Redis.zcount
  cases r.live key with
  | none => rfl
  | some e =>
    simp only
    cases e.value <;> rfl

theorem Redis.get_state (key : String) (r : Redis) : (r.get key).2 = r := by
  unfold Redis.get
  cases r.live key with
  | none => rfl
  | some e =>
    simp only
    cases e.value <;> rfl

theorem Redis.getInt64_state (key : String) (r : Redis) : (r.getInt64 key).2 = r := by
  unfold Redis.getInt64
  cases r.live key with
  | none => rfl
  | some e =>
    simp only
    cases e.value <;> rfl

theorem DefaultRepository.requestCountPipeline_state (key : String) (now windowStart : Int)
    (db : Redis) :
    (DefaultRepository.requestCountPipeline key now windowStart db).2 =
      ((((db.zadd key now now).2.zremRangeByScore key 0 windowStart).2.zcount key windowStart
        now).2.expire key (slidingWindowDuration * 2)).2 := by
  unfold DefaultRepository.requestCountPipeline
  simp only
  split <;> rfl

theorem DefaultRepository.onlyAt_requestCountPipeline (key : String) (now windowStart : Int)
    (db : Redis) :
    Redis.OnlyAt key db (DefaultRepository.requestCountPipeline key now windowStart db).2 := by
  rw [DefaultRepository.requestCountPipeline_state, Redis.zcount_state]
  exact ((Redis.onlyAt_zadd key now now db).trans
    (Redis.onlyAt_zremRangeByScore key 0 windowStart _)).trans (Redis.onlyAt_expire key _ _)

theorem DefaultRepository.onlyAt_GetAndIncrementRequestCount (lib : Lib) (ip : String)
    (r : Redis) :
    Redis.OnlyAt (difficultyKey lib ip) r
      (DefaultRepository.GetAndIncrementRequestCount lib ip r).2 := by
  have h := Redis.onlyAt_call (difficultyKey lib ip) r
    (DefaultRepository.requestCountPipeline (difficultyKey lib ip) r.now
      (r.now - slidingWindowDuration))
    (DefaultRepository.onlyAt_requestCountPipeline _ _ _)
  unfold DefaultRepository.GetAndIncrementRequestCount
  simp only
  split
  · rename_i heq; rw [show difficultyKey lib ip = "difficulty:" ++ hashIPAddress lib ip from rfl] at h
    rw [heq] at h; exact h
  · rename_i heq; rw [show difficultyKey lib ip = "difficulty:" ++ hashIPAddress lib ip from rfl] at h
    rw [heq] at h; exact h

theorem DefaultRepository.onlyAt_CreateTask (task : Task) (ttl : Int) (r : Redis) :
    Redis.OnlyAt (taskKey task.ID) r (DefaultRepository.CreateTask task ttl r).2 := by
  have h := Redis.onlyAt_call (taskKey task.ID) r
    (fun db => db.setNX (taskKey task.ID) task.Result ttl)
    (fun db => Redis.onlyAt_setNX _ _ _ db)
  unfold DefaultRepository.CreateTask
  unfold taskKey at h
  split <;> (rename_i heq; rw [heq] at h; exact h)

theorem DefaultRepository.onlyAt_incrementPipeline (key : String) (db : Redis) :
    Redis.OnlyAt key db (DefaultRepository.incrementPipeline key db).2 := by
  have h : (DefaultRepository.incrementPipeline key db).2 =
      ((db.incr key).2.expire key unsolvedCountTTL).2 := by
    unfold DefaultRepository.incrementPipeline
    simp only
    split <;> rfl
  rw [h]
  exact (Redis.onlyAt_incr key db).trans (Redis.onlyAt_expire key _ _)

theorem Redis.live_put_self (r : Redis) (key : String) (e : RedisEntry) :
    (r.put key e).live key =
      match e.expireAt with
      | none => some e
      | some t => if r.now < t then some e else none := by
  simp [Redis.live, Redis.put]

theorem Redis.live_expireAt {r : Redis} {key : String} {e : RedisEntry}
    (h : r.live key = some e) : ∀ t, e.expireAt = some t → r.now < t := by
  intro t ht
  unfold Redis.live at h
  cases hd : r.data key with
  | none => simp [hd] at h
  | some e' =>
    simp only [hd] at h
    cases he : e'.expireAt with
    | none => simp only [he] at h; cases h; simp [he] at ht
    | some t' =>
      simp only [he] at h
      split at h
      · cases h; rw [he] at ht; cases ht; assumption
      · cases h

theorem Redis.live_put_of_live {r : Redis} {key : String} {e : RedisEntry}
    (h : r.live key = some e) (v : RedisValue) :
    (r.put key { e with value := v }).live key = some { e with value := v } := by
  rw [Redis.live_put_self]
  cases he : e.expireAt with
  | none => simp [he]
  | some t => simp [he, Redis.live_expireAt h t he]

theorem Redis.incr_ok {r : Redis} {key : String} {n : Int} (h : (r.incr key).1 = .ok n) :
    ∃ t, (r.incr key).2.live key = some ⟨.int n, t⟩ := by
  unfold Redis.incr at h ⊢
  cases hl : r.live key with
  | none =>
    simp only [hl] at h ⊢
    cases h
    exact ⟨none, by rw [Redis.live_put_self]⟩
  | some e =>
    simp only [hl] at h ⊢
    cases hv : e.value with
    | str s => simp [hv] at h
    | zset ms => simp [hv] at h
    | int m =>
      simp only [hv] at h ⊢
      split at h
      · cases h
      · rename_i hne
        cases h
        simp only [if_neg hne]
        exact ⟨e.expireAt, Redis.live_put_of_live hl _⟩

theorem Redis.expire_live {r : Redis} {key : String} {e : RedisEntry} {d : Int}
    (h : r.live key = some e) (hd : 0 < d) :
    (r.expire key d).1 = .ok true ∧
      (r.expire key d).2.live key = some { e with expireAt := some (r.now + d) } ∧
      (r.expire key d).2.now = r.now ∧ (r.expire key d).2.faults = r.faults := by
  have hne : ¬ d ≤ 0 := not_le.mpr hd
  have e1 : r.expire key d = (.ok true, r.put key { e with expireAt := some (r.now + d) }) := by
    unfold Redis.expire
    simp only [h, if_neg hne]
  rw [e1]
  refine ⟨rfl, ?_, rfl, rfl⟩
  rw [Redis.live_put_self]
  have : r.now < r.now + d := by omega
  simp [this]

theorem DefaultRepository.incrementPipeline_ok {db : Redis} {key : String} {n : Int}
    (h : (DefaultRepository.incrementPipeline key db).1 = .ok n) :
    (DefaultRepository.incrementPipeline key db).2.live key =
      some ⟨.int n, some (db.now + unsolvedCountTTL)⟩ := by
  unfold DefaultRepository.incrementPipeline at h ⊢
  simp only at h ⊢
  cases hi : (db.incr key).1 with
  | error e =>
    have : (db.incr key) = (.error e, (db.incr key).2) := by rw [← hi]
    rw [this] at h
    simp at h
  | ok m =>
    obtain ⟨t, hl⟩ := Redis.incr_ok hi
    have hnow : (db.incr key).2.now = db.now := (Redis.onlyAt_incr key db).1
    have hd : (0 : Int) < unsolvedCountTTL := by decide
    obtain ⟨h1, h2, -, -⟩ := Redis.expire_live hl hd
    have e1 : (db.incr key) = (.ok m, (db.incr key).2) := by rw [← hi]
    have e2 : ((db.incr key).2.expire key unsolvedCountTTL) =
        (.ok true, ((db.incr key).2.expire key unsolvedCountTTL).2) := by rw [← h1]
    rw [e1] at h ⊢
    simp only at h ⊢
    rw [e2] at h ⊢
    simp only at h ⊢
    cases h
    rw [h2, hnow]

theorem Redis.call_cases {α : Type} (r : Redis) (cmd : Redis → Except RedisError α × Redis) :
    (∃ rest, r.call cmd = cmd { r with faults := rest }) ∨
      ∃ text rest, r.call cmd = (.error (.failure text), { r with faults := rest }) := by
  unfold Redis.call
  rcases hf : r.faults with _ | ⟨f, rest⟩
  · left
    refine ⟨[], ?_⟩
    simp only
    congr
    rw [← hf]
  · cases f with
    | none => left; exact ⟨rest, rfl⟩
    | some text => right; exact ⟨text, rest, rfl⟩

theorem Redis.incr_not_nil (r : Redis) (key : String) : (r.incr key).1 ≠ .error .Nil := by
  unfold Redis.incr
  cases r.live key with
  | none => simp
  | some e =>
    simp only
    cases e.value with
    | str s => simp
    | zset ms => simp [Redis.wrongType]
    | int m =>
      simp only
      split <;> simp

theorem Redis.expire_no_error (r : Redis) (key : String) (d : Int) :
    ∃ b, (r.expire key d).1 = .ok b := by
  unfold Redis.expire
  cases r.live key with
  | none => exact ⟨false, rfl⟩
  | some e =>
    simp only
    split
    · exact ⟨true, rfl⟩
    · exact ⟨true, rfl⟩

theorem DefaultRepository.incrementPipeline_not_nil (key : String) (db : Redis) :
    (DefaultRepository.incrementPipeline key db).1 ≠ .error .Nil := by
  unfold DefaultRepository.incrementPipeline
  simp only
  obtain ⟨b, hb⟩ := Redis.expire_no_error (db.incr key).2 key unsolvedCountTTL
  have e2 : ((db.incr key).2.expire key unsolvedCountTTL) =
      (.ok b, ((db.incr key).2.expire key unsolvedCountTTL).2) := by rw [← hb]
  cases hi : (db.incr key).1 with
  | error e =>
    have e1 : (db.incr key) = (.error e, (db.incr key).2) := by rw [← hi]
    have hne := Redis.incr_not_nil db key
    rw [hi] at hne
    rw [e1]
    exact hne
  | ok m =>
    have e1 : (db.incr key) = (.ok m, (db.incr key).2) := by rw [← hi]
    rw [e1]
    simp only
    rw [e2]
    simp

theorem DefaultRepository.IncrementUnsolvedCount_ok {lib : Lib} {ip : String} {r : Redis}
    {n : Int} (h : (DefaultRepository.IncrementUnsolvedCount lib ip r).1 = .ok n) :
    (DefaultRepository.IncrementUnsolvedCount lib ip r).2.live (unsolvedKey lib ip) =
        some ⟨.int n, some (r.now + unsolvedCountTTL)⟩ ∧
      (DefaultRepository.IncrementUnsolvedCount lib ip r).2.now = r.now := by
  unfold DefaultRepository.IncrementUnsolvedCount at h ⊢
  simp only at h ⊢
  rcases Redis.call_cases r (DefaultRepository.incrementPipeline
    ("unsolved:" ++ hashIPAddress lib ip)) with ⟨rest, hc⟩ | ⟨text, rest, hc⟩
  · rw [hc] at h ⊢
    have hnn := DefaultRepository.incrementPipeline_not_nil
      ("unsolved:" ++ hashIPAddress lib ip) { r with faults := rest }
    cases hp : (DefaultRepository.incrementPipeline ("unsolved:" ++ hashIPAddress lib ip)
      { r with faults := rest }).1 with
    | error e =>
      have e1 : DefaultRepository.incrementPipeline ("unsolved:" ++ hashIPAddress lib ip)
          { r with faults := rest } = (.error e, (DefaultRepository.incrementPipeline
            ("unsolved:" ++ hashIPAddress lib ip) { r with faults := rest }).2) := by rw [← hp]
      rw [hp] at hnn
      rw [e1] at h
      cases e with
      | Nil => exact absurd rfl hnn
      | failure t => simp at h
    | ok m =>
      have e1 : DefaultRepository.incrementPipeline ("unsolved:" ++ hashIPAddress lib ip)
          { r with faults := rest } = (.ok m, (DefaultRepository.incrementPipeline
            ("unsolved:" ++ hashIPAddress lib ip) { r with faults := rest }).2) := by rw [← hp]
      have hl := DefaultRepository.incrementPipeline_ok hp
      rw [e1] at h ⊢
      simp only at h ⊢
      cases h
      refine ⟨hl, ?_⟩
      have := (DefaultRepository.onlyAt_incrementPipeline
        ("unsolved:" ++ hashIPAddress lib ip) { r with faults := rest }).1
      exact this
  · rw [hc] at h
    simp at h

theorem outstanding_of_live {lib : Lib} {r : Redis} {ip : String} {n : Int} {t : Option Int}
    (h : r.live (unsolvedKey lib ip) = some ⟨.int n, t⟩) : outstanding lib r ip = n := by
  have h2 : Redis.live { r with faults := [] } ("unsolved:" ++ hashIPAddress lib ip) =
      some ⟨.int n, t⟩ := h
  unfold outstanding DefaultRepository.GetUnsolvedCount Redis.call Redis.getInt64
  simp only [h2]

theorem outstanding_of_absent {lib : Lib} {r : Redis} {ip : String}
    (h : r.live (unsolvedKey lib ip) = none) : outstanding lib r ip = 0 := by
  have h2 : Redis.live { r with faults := [] } ("unsolved:" ++ hashIPAddress lib ip) = none := h
  unfold outstanding DefaultRepository.GetUnsolvedCount Redis.call Redis.getInt64
  simp only [h2]

/-! ## Lemmas on the service -/

theorem Service.CreateChallenge_state {σ : Type} (s : Service σ) (clientIP uuid : String)
    (entropy : Except String (List UInt8)) (st : σ) :
    (s.CreateChallenge clientIP uuid entropy st).state =
        (s.repo.IncrementUnsolvedCount clientIP st).2 ∨
      (s.CreateChallenge clientIP uuid entropy st).state =
        (s.repo.GetAndIncrementRequestCount clientIP
          (s.repo.IncrementUnsolvedCount clientIP st).2).2 ∨
      ∃ task, (s.CreateChallenge clientIP uuid entropy st).state =
        (s.repo.CreateTask task s.config.ChallengeTTL
          (s.repo.GetAndIncrementRequestCount clientIP
            (s.repo.IncrementUnsolvedCount clientIP st).2).2).2 := by
  unfold Service.CreateChallenge
  rcases h1 : s.repo.IncrementUnsolvedCount clientIP st with ⟨_ | n, st1⟩
  · left; rfl
  · simp only
    split
    · left; rfl
    · rcases h2 : s.repo.GetAndIncrementRequestCount clientIP st1 with ⟨_ | c, st2⟩
      · right; left; rfl
      · simp only
        cases s.utils.CalculateDifficultyLevel c with
        | none => right; left; rfl
        | some level =>
          simp only
          cases s.utils.GenerateRandomSeed entropy with
          | error e => right; left; rfl
          | ok seed =>
            simp only
            right; right
            refine ⟨{ ID := uuid, Seed := seed, DifficultyLevel := level, Result := "" }, ?_⟩
            rcases h3 : s.repo.CreateTask
              { ID := uuid, Seed := seed, DifficultyLevel := level, Result := "" }
              s.config.ChallengeTTL st2 with ⟨_ | u, st3⟩
            · rfl
            · rfl

/-- On the server, nothing that `CreateChallenge` does after its first step touches the
outstanding counter of the source: the counter entry and the clock in the final state are
those left by `IncrementUnsolvedCount`. -/
theorem server_CreateChallenge_counter_entry (lib : Lib) (config : PowConfig)
    (clientIP uuid : String) (entropy : Except String (List UInt8)) (r : Redis) :
    ((server lib config).CreateChallenge clientIP uuid entropy r).state.live
        (unsolvedKey lib clientIP) =
      (DefaultRepository.IncrementUnsolvedCount lib clientIP r).2.live
        (unsolvedKey lib clientIP) := by
  have hd : unsolvedKey lib clientIP ≠ difficultyKey lib clientIP :=
    unsolved_ne_difficulty _ _
  have h2 := DefaultRepository.onlyAt_GetAndIncrementRequestCount lib clientIP
    (DefaultRepository.IncrementUnsolvedCount lib clientIP r).2
  rcases Service.CreateChallenge_state (server lib config) clientIP uuid entropy r with
    h | h | ⟨task, h⟩
  · rw [h]; rfl
  · rw [h]
    exact h2.live_eq _ hd
  · rw [h]
    have h3 := DefaultRepository.onlyAt_CreateTask task
      (server lib config).config.ChallengeTTL
      (DefaultRepository.GetAndIncrementRequestCount lib clientIP
        (DefaultRepository.IncrementUnsolvedCount lib clientIP r).2).2
    have ht : unsolvedKey lib clientIP ≠ taskKey task.ID := unsolved_ne_task _ _
    exact (h3.live_eq _ ht).trans (h2.live_eq _ hd)

/-- On the server, whenever the first step of `CreateChallenge` returned the count `n`, the
outstanding counter of the source is `n` when `CreateChallenge` returns, however it ends. -/
theorem server_CreateChallenge_outstanding (lib : Lib) (config : PowConfig)
    (clientIP uuid : String) (entropy : Except String (List UInt8)) (r : Redis) (n : Int)
    (h : (DefaultRepository.IncrementUnsolvedCount lib clientIP r).1 = .ok n) :
    outstanding lib ((server lib config).CreateChallenge clientIP uuid entropy r).state
      clientIP = n := by
  apply outstanding_of_live
  rw [server_CreateChallenge_counter_entry]
  exact (DefaultRepository.IncrementUnsolvedCount_ok h).1

theorem Service.ValidateChallenge_ok {σ : Type} (lib : Lib) (s : Service σ)
    (clientIP challengeID nonce : String) (draw : ℚ) (st : σ)
    (h : (s.ValidateChallenge lib clientIP challengeID nonce draw st).result = .ok ()) :
    lib.uuidParse challengeID = true ∧
      ∃ task, (s.repo.GetTask challengeID st).1 = .ok task ∧
        s.utils.VerifySolution challengeID task.Seed nonce task.DifficultyLevel = some true := by
  unfold Service.ValidateChallenge at h
  split at h
  · cases h
  · rename_i hu
    refine ⟨by simpa using hu, ?_⟩
    rcases h1 : s.repo.GetTask challengeID st with ⟨_ | task, st1⟩
    · rw [h1] at h; cases h
    · rw [h1] at h
      simp only at h
      refine ⟨task, rfl, ?_⟩
      cases hv : s.utils.VerifySolution challengeID task.Seed nonce task.DifficultyLevel with
      | none => rw [hv] at h; cases h
      | some b =>
        cases b with
        | false => rw [hv] at h; cases h
        | true => rfl

theorem DefaultRepository.GetTask_ok {taskID : String} {r : Redis} {task : Task}
    (h : (DefaultRepository.GetTask taskID r).1 = .ok task) :
    task.ID = taskID ∧ task.Seed = "" ∧ task.DifficultyLevel = 0 := by
  unfold DefaultRepository.GetTask at h
  split at h
  · cases h
  · cases h
  · cases h; exact ⟨rfl, rfl, rfl⟩

theorem CreateChallenge_cap_lemma {σ : Type} (s : Service σ)
    (clientIP uuid : String) (entropy : Except String (List UInt8)) (st : σ) (n : Int)
    (hinc : (s.repo.IncrementUnsolvedCount clientIP st).1 = .ok n)
    (hgt : n > s.maxUnsolvedChallenges) :
    (s.CreateChallenge clientIP uuid entropy st).result =
      .error "too many unsolved challenges" := by
  unfold Service.CreateChallenge
  rcases h1 : s.repo.IncrementUnsolvedCount clientIP st with ⟨_ | m, st1⟩
  · rw [h1] at hinc; cases hinc
  · rw [h1] at hinc; cases hinc
    simp only [if_pos hgt]

theorem Service.CreateChallenge_ok_count {σ : Type} (s : Service σ) (clientIP uuid : String)
    (entropy : Except String (List UInt8)) (st : σ) (ch : Challenge)
    (hok : (s.CreateChallenge clientIP uuid entropy st).result = .ok ch) :
    ∃ n, (s.repo.IncrementUnsolvedCount clientIP st).1 = .ok n ∧
      n ≤ s.maxUnsolvedChallenges := by
  unfold Service.CreateChallenge at hok
  rcases h1 : s.repo.IncrementUnsolvedCount clientIP st with ⟨_ | m, st1⟩
  · rw [h1] at hok; cases hok
  · rw [h1] at hok
    simp only at hok
    split at hok
    · cases hok
    · rename_i hcap
      exact ⟨m, rfl, not_lt.mp hcap⟩

theorem Redis.call_of_connected {α : Type} (r : Redis)
    (cmd : Redis → Except RedisError α × Redis)
    (hconn : ∀ text, r.faults.head? ≠ some (some text)) :
    ∃ rest, r.call cmd = cmd { r with faults := rest } := by
  unfold Redis.call
  rcases hf : r.faults with _ | ⟨f, fs⟩
  · refine ⟨[], ?_⟩
    simp only
    congr
    rw [← hf]
  · cases f with
    | none => exact ⟨fs, rfl⟩
    | some t => exact absurd (by rw [hf]; rfl) (hconn t)

theorem Redis.incr_of_absent {r : Redis} {key : String} (h : r.live key = none) :
    (r.incr key).1 = .ok 1 := by
  unfold Redis.incr
  simp only [h]

theorem Redis.incr_of_int {r : Redis} {key : String} {m : Int} {t : Option Int}
    (h : r.live key = some ⟨.int m, t⟩) (hm : m < maxInt64) :
    (r.incr key).1 = .ok (m + 1) := by
  unfold Redis.incr
  simp only [h, if_neg (ne_of_lt hm)]

theorem DefaultRepository.incrementPipeline_fst (key : String) (db : Redis) :
    (DefaultRepository.incrementPipeline key db).1 = (db.incr key).1 := by
  unfold DefaultRepository.incrementPipeline
  simp only
  obtain ⟨b, hb⟩ := Redis.expire_no_error (db.incr key).2 key unsolvedCountTTL
  have e2 : ((db.incr key).2.expire key unsolvedCountTTL) =
      (.ok b, ((db.incr key).2.expire key unsolvedCountTTL).2) := by rw [← hb]
  cases hi : (db.incr key).1 with
  | error e =>
    have e1 : (db.incr key) = (.error e, (db.incr key).2) := by rw [← hi]
    rw [e1]
  | ok m =>
    have e1 : (db.incr key) = (.ok m, (db.incr key).2) := by rw [← hi]
    rw [e1]
    simp only
    rw [e2]

theorem DefaultRepository.IncrementUnsolvedCount_of_connected {lib : Lib} {ip : String}
    {r : Redis} {n : Int} (hconn : ∀ text, r.faults.head? ≠ some (some text))
    (h : ∀ rest, (Redis.incr { r with faults := rest } (unsolvedKey lib ip)).1 = .ok n) :
    (DefaultRepository.IncrementUnsolvedCount lib ip r).1 = .ok n := by
  unfold DefaultRepository.IncrementUnsolvedCount
  simp only
  obtain ⟨rest, hc⟩ := Redis.call_of_connected r
    (DefaultRepository.incrementPipeline ("unsolved:" ++ hashIPAddress lib ip)) hconn
  rw [hc]
  have hp := DefaultRepository.incrementPipeline_fst ("unsolved:" ++ hashIPAddress lib ip)
    { r with faults := rest }
  rw [show (Redis.incr { r with faults := rest } ("unsolved:" ++ hashIPAddress lib ip)).1 =
    .ok n from h rest] at hp
  have e1 : DefaultRepository.incrementPipeline ("unsolved:" ++ hashIPAddress lib ip)
      { r with faults := rest } = (.ok n, (DefaultRepository.incrementPipeline
        ("unsolved:" ++ hashIPAddress lib ip) { r with faults := rest }).2) := by rw [← hp]
  rw [e1]

/-! ## C1: `VerifySolution` -/

/-- C1 (as amended). For every challenge id, seed, nonce and difficulty level `≥ 0`:
when `scrypt.Key` returns a hash for the configured parameters, `VerifySolution` returns
(without panicking) `true` exactly when the first `level` characters of the hex rendering of
the hash exist and are all `'0'`, so level 0 accepts every nonce and a level longer than the hex
string accepts none; when `scrypt.Key` returns an error, `VerifySolution` returns `false` at
every level, level 0 included. -/
theorem VerifySolution_spec (lib : Lib) (config : PowConfig) (challengeID seed nonce : String)
    (level : Int) (hlevel : 0 ≤ level) :
    (∀ hash, lib.scryptKey (bytesOf (challengeID ++ seed ++ nonce)) (bytesOf challengeID)
        config.ScryptN config.ScryptR config.ScryptP config.KeyLen = .ok hash →
      VerifySolution lib config challengeID seed nonce level =
          some (decide ((hexEncodeToString hash).data.take level.toNat =
            List.replicate level.toNat '0')) ∧
        (level = 0 → VerifySolution lib config challengeID seed nonce level = some true) ∧
        ((hexEncodeToString hash).length < level.toNat →
          VerifySolution lib config challengeID seed nonce level = some false)) ∧
    (∀ err, lib.scryptKey (bytesOf (challengeID ++ seed ++ nonce)) (bytesOf challengeID)
        config.ScryptN config.ScryptR config.ScryptP config.KeyLen = .error err →
      VerifySolution lib config challengeID seed nonce level = some false) := by
  refine ⟨fun hash hkey => ?_, fun err hkey => ?_⟩
  · have main : VerifySolution lib config challengeID seed nonce level =
        some (decide ((hexEncodeToString hash).data.take level.toNat =
          List.replicate level.toNat '0')) := by
      unfold VerifySolution
      simp only [hkey, if_neg (not_lt.mpr hlevel), stringsHasPrefix_zeros]
    refine ⟨main, fun h0 => ?_, fun hlen => ?_⟩
    · rw [main, h0]; simp
    · rw [main]
      have hne : (hexEncodeToString hash).data.take level.toNat ≠
          List.replicate level.toNat '0' := by
        intro h
        have h2 := congrArg List.length h
        simp only [List.length_take, List.length_replicate] at h2
        have h3 : (hexEncodeToString hash).data.length < level.toNat := hlen
        omega
      simp [hne]
  · unfold VerifySolution
    simp only [hkey]

/-- Witness of `VerifySolution_spec`: with the sample key derivation, id `"a"`, seed `"b"` and
nonce `"c"` give the hash bytes `[0x26, 0x26]`, whose hex does not begin with `'0'`. -/
theorem VerifySolution_spec_witness :
    VerifySolution sampleLib { DefaultConfig with KeyLen := 2 } "a" "b" "c" 1 = some false :=
  ((VerifySolution_spec sampleLib { DefaultConfig with KeyLen := 2 } "a" "b" "c" 1
    (by decide)).1 [0x26, 0x26] rfl).1.trans (by decide)

/-- C1 (counterexample to the claim as written). With `ScryptN = 1`, a value the configuration
loader accepts and `scrypt.Key` rejects, a nonce submitted at difficulty level 0 is not
accepted. -/
theorem VerifySolution_level_zero_rejected :
    VerifySolution sampleLib { DefaultConfig with ScryptN := 1 } "id" "seed" "nonce" 0 =
      some false := by
  decide

/-! ## C2 and C3: the issued seed and level against the stored record -/

/-- C2 (the code at the failing input). Under the default configuration a source makes ten
requests one millisecond apart; the tenth challenge is issued with difficulty level 1 and seed
`sampleSeed`. The nonce `"nonce"` does not solve it (`VerifySolution` with the issued seed and
level is `false`), yet `ValidateChallenge` accepts it on the record that is still present. -/
theorem server_accepts_nonce_failing_issued_level :
    ((server sampleLib DefaultConfig).CreateChallenge sampleSource sampleUUID (.ok sampleEntropy)
        (runOps sampleLib DefaultConfig sampleBurst (Redis.empty 1700000000000))).result =
        .ok ⟨sampleUUID, sampleSeed, 1, "", 16384, 8, 1, 32⟩ ∧
      VerifySolution sampleLib DefaultConfig sampleUUID sampleSeed "nonce" 1 = some false ∧
      ((server sampleLib DefaultConfig).ValidateChallenge sampleLib sampleSource sampleUUID "nonce"
        (mkRat 1 2)
        ((server sampleLib DefaultConfig).CreateChallenge sampleSource sampleUUID
          (.ok sampleEntropy)
          (runOps sampleLib DefaultConfig sampleBurst (Redis.empty 1700000000000))).state).result =
        .ok () := by
  decide

/-- On the server, a `ValidateChallenge` that succeeds has checked the nonce against an empty
seed at difficulty level 0, whatever seed and level the challenge was issued with. -/
theorem server_ValidateChallenge_checks_empty_seed (lib : Lib) (config : PowConfig)
    (clientIP challengeID nonce : String) (draw : ℚ) (r : Redis)
    (h : ((server lib config).ValidateChallenge lib clientIP challengeID nonce draw r).result =
      .ok ()) :
    VerifySolution lib config challengeID "" nonce 0 = some true := by
  obtain ⟨-, task, hget, hver⟩ := Service.ValidateChallenge_ok lib _ _ _ _ _ _ h
  obtain ⟨-, hseed, hlevel⟩ := DefaultRepository.GetTask_ok hget
  rw [hseed, hlevel] at hver
  exact hver

/-- What `GetTask` returns after `CreateTask`: for every record, a non-negative time to live, a
store with a working connection and no record under the id, and a read `d` milliseconds later
that is before the expiry, `CreateTask` succeeds and `GetTask` returns the id and the stored
`Result` with an empty `Seed` and `DifficultyLevel` 0, whatever seed and level were stored. -/
theorem DefaultRepository.GetTask_after_CreateTask (task : Task) (ttl : Int) (r : Redis)
    (d : Nat) (hconn : r.faults = []) (hfree : r.live (taskKey task.ID) = none)
    (httl : 0 ≤ ttl) (hd : ttl = 0 ∨ (d : Int) < ttl) :
    (DefaultRepository.CreateTask task ttl r).1 = .ok () ∧
      (DefaultRepository.GetTask task.ID
        ((DefaultRepository.CreateTask task ttl r).2.advance d)).1 =
        .ok { ID := task.ID, Seed := "", DifficultyLevel := 0, Result := task.Result } := by
  have hfree2 : r.live ("task:" ++ task.ID) = none := hfree
  have e1 : DefaultRepository.CreateTask task ttl r =
      (.ok (), r.put ("task:" ++ task.ID)
        ⟨.str task.Result, if ttl = 0 then none else some (r.now + ttl)⟩) := by
    unfold DefaultRepository.CreateTask Redis.call Redis.setNX
    simp only [hconn, if_neg (not_lt.mpr httl), hfree2]
  rw [e1]
  refine ⟨rfl, ?_⟩
  have hl : ((r.put ("task:" ++ task.ID)
      ⟨.str task.Result, if ttl = 0 then none else some (r.now + ttl)⟩).advance d).live
        ("task:" ++ task.ID) =
      some ⟨.str task.Result, if ttl = 0 then none else some (r.now + ttl)⟩ := by
    unfold Redis.live Redis.advance Redis.put
    simp only [if_true]
    split
    · rfl
    · rename_i t ht
      rcases hd with h0 | hlt
      · simp [h0] at ht
      · have hne : ¬ ttl = 0 := by omega
        simp only [if_neg hne, Option.some.injEq] at ht
        subst ht
        have : r.now + (d : Int) < r.now + ttl := by omega
        simp [this]
  unfold DefaultRepository.GetTask Redis.call Redis.get
  have hf : ((r.put ("task:" ++ task.ID)
      ⟨.str task.Result, if ttl = 0 then none else some (r.now + ttl)⟩).advance d).faults = [] :=
    hconn
  simp only [hf, hl]

/-- C3 (the code at the failing input). A record with seed `"0102030405060708090a0b0c0d0e0f10"`
and difficulty level 3 is stored in the empty store with the default time to live; read back
one second later, it has the id but an empty seed and level 0. -/
theorem DefaultRepository.GetTask_loses_seed_and_level :
    (DefaultRepository.CreateTask
        ⟨sampleUUID, "0102030405060708090a0b0c0d0e0f10", 3, ""⟩ DefaultConfig.ChallengeTTL
        (Redis.empty 1700000000000)).1 = .ok () ∧
      (DefaultRepository.GetTask sampleUUID
        ((DefaultRepository.CreateTask
          ⟨sampleUUID, "0102030405060708090a0b0c0d0e0f10", 3, ""⟩ DefaultConfig.ChallengeTTL
          (Redis.empty 1700000000000)).2.advance 1000)).1 =
        .ok ⟨sampleUUID, "", 0, ""⟩ :=
  DefaultRepository.GetTask_after_CreateTask
    ⟨sampleUUID, "0102030405060708090a0b0c0d0e0f10", 3, ""⟩ DefaultConfig.ChallengeTTL
    (Redis.empty 1700000000000) 1000 rfl rfl (by decide) (Or.inr (by decide))

/-! ## C4 to C6: `CalculateDifficultyLevel` -/

/-- C4. For every configuration with `RequestsPerDifficultyIncrease > 0` and every request
count `c ≥ 0` (an `int64`), `CalculateDifficultyLevel c` is
`min (floor (c / RequestsPerDifficultyIncrease)) MaxDifficultyLevel`; a quotient above
`MaxDifficultyLevel` is clamped to exactly `MaxDifficultyLevel`. -/
theorem CalculateDifficultyLevel_eq_min (config : PowConfig) (c : Int)
    (hstep : 0 < config.RequestsPerDifficultyIncrease) (hc : 0 ≤ c) (hc64 : c ≤ maxInt64) :
    CalculateDifficultyLevel config c =
        some (min ⌊(c : ℚ) / (config.RequestsPerDifficultyIncrease : ℚ)⌋
          config.MaxDifficultyLevel) ∧
      (config.MaxDifficultyLevel < ⌊(c : ℚ) / (config.RequestsPerDifficultyIncrease : ℚ)⌋ →
        CalculateDifficultyLevel config c = some config.MaxDifficultyLevel) := by
  rw [floor_quotient c _ hstep, CalculateDifficultyLevel_of_pos config c hstep hc hc64]
  refine ⟨rfl, fun h => ?_⟩
  rw [min_eq_right (le_of_lt h)]

/-- Witness of `CalculateDifficultyLevel_eq_min`: the default configuration at 95 requests. -/
theorem CalculateDifficultyLevel_eq_min_witness :
    CalculateDifficultyLevel DefaultConfig 95 =
        some (min ⌊((95 : Int) : ℚ) / (DefaultConfig.RequestsPerDifficultyIncrease : ℚ)⌋
          DefaultConfig.MaxDifficultyLevel) ∧
      (DefaultConfig.MaxDifficultyLevel <
          ⌊((95 : Int) : ℚ) / (DefaultConfig.RequestsPerDifficultyIncrease : ℚ)⌋ →
        CalculateDifficultyLevel DefaultConfig 95 = some DefaultConfig.MaxDifficultyLevel) :=
  CalculateDifficultyLevel_eq_min DefaultConfig 95 (by decide) (by decide) (by decide)

/-- C5 (as amended). With the default configuration `CalculateDifficultyLevel` returns 0 for
every request count `0 ≤ c ≤ 9`, 1 for `c = 10`, and 8 for every `int64` count `c ≥ 80`. -/
theorem CalculateDifficultyLevel_default (c : Int) (hc : 0 ≤ c) (hc64 : c ≤ maxInt64) :
    (c ≤ 9 → CalculateDifficultyLevel DefaultConfig c = some 0) ∧
      (c = 10 → CalculateDifficultyLevel DefaultConfig c = some 1) ∧
      (80 ≤ c → CalculateDifficultyLevel DefaultConfig c = some 8) := by
  have hstep : 0 < DefaultConfig.RequestsPerDifficultyIncrease := by decide
  rw [CalculateDifficultyLevel_of_pos DefaultConfig c hstep hc hc64]
  have e1 : DefaultConfig.RequestsPerDifficultyIncrease = 10 := rfl
  have e2 : DefaultConfig.MaxDifficultyLevel = 8 := rfl
  rw [e1, e2]
  refine ⟨fun h => ?_, fun h => ?_, fun h => ?_⟩
  · congr 1; omega
  · congr 1; omega
  · congr 1; omega

/-- Witness of `CalculateDifficultyLevel_default`, at 9 requests. -/
theorem CalculateDifficultyLevel_default_witness :
    CalculateDifficultyLevel DefaultConfig 9 = some 0 :=
  (CalculateDifficultyLevel_default 9 (by decide) (by decide)).1 (by decide)

/-- C5 (counterexample to the claim as written). With the default configuration a request
count of 10 gives level 1, not 0. -/
theorem CalculateDifficultyLevel_default_at_ten :
    CalculateDifficultyLevel DefaultConfig 10 = some 1 ∧
      CalculateDifficultyLevel DefaultConfig 10 ≠ some 0 := by
  decide

/-- C6. For every configuration with `RequestsPerDifficultyIncrease > 0` and all `int64`
counts `0 ≤ a ≤ b`, both levels are computed and the level for `a` is at most the level for
`b`. -/
theorem CalculateDifficultyLevel_mono (config : PowConfig) (a b : Int)
    (hstep : 0 < config.RequestsPerDifficultyIncrease) (ha : 0 ≤ a) (hab : a ≤ b)
    (hb64 : b ≤ maxInt64) :
    ∃ la lb, CalculateDifficultyLevel config a = some la ∧
      CalculateDifficultyLevel config b = some lb ∧ la ≤ lb := by
  refine ⟨_, _, CalculateDifficultyLevel_of_pos config a hstep ha (le_trans hab hb64),
    CalculateDifficultyLevel_of_pos config b hstep (le_trans ha hab) hb64, ?_⟩
  exact min_le_min (Int.ediv_le_ediv hstep hab) le_rfl

/-- Witness of `CalculateDifficultyLevel_mono`: the default configuration at 9 and 10
requests. -/
theorem CalculateDifficultyLevel_mono_witness :
    ∃ la lb, CalculateDifficultyLevel DefaultConfig 9 = some la ∧
      CalculateDifficultyLevel DefaultConfig 10 = some lb ∧ la ≤ lb :=
  CalculateDifficultyLevel_mono DefaultConfig 9 10 (by decide) (by decide) (by decide)
    (by decide)

/-! ## C7 to C10: `CreateChallenge` -/

/-- C7. Whenever the first step of `CreateChallenge`, `IncrementUnsolvedCount`, returns a count
`n`: if `n` exceeds the cap the call returns no challenge and the error "too many unsolved
challenges"; if `n` is at most the cap (`n` equal to the cap included) and the later steps
(request count, difficulty, seed, `CreateTask`) succeed, it returns a challenge. The cap of a
service built by `NewService` is `MaxUnsolvedChallenges` of its configuration. -/
theorem CreateChallenge_rejected_iff_above_cap {σ : Type} (s : Service σ)
    (clientIP uuid : String) (entropy : Except String (List UInt8)) (st : σ) (n : Int)
    (hinc : (s.repo.IncrementUnsolvedCount clientIP st).1 = .ok n) :
    (n > s.maxUnsolvedChallenges →
      (s.CreateChallenge clientIP uuid entropy st).result =
        .error "too many unsolved challenges") ∧
    (n ≤ s.maxUnsolvedChallenges →
      ∀ count level seed,
        (s.repo.GetAndIncrementRequestCount clientIP
          (s.repo.IncrementUnsolvedCount clientIP st).2).1 = .ok count →
        s.utils.CalculateDifficultyLevel count = some level →
        s.utils.GenerateRandomSeed entropy = .ok seed →
        (s.repo.CreateTask ⟨uuid, seed, level, ""⟩ s.config.ChallengeTTL
          (s.repo.GetAndIncrementRequestCount clientIP
            (s.repo.IncrementUnsolvedCount clientIP st).2).2).1 = .ok () →
        ∃ ch, (s.CreateChallenge clientIP uuid entropy st).result = .ok ch) ∧
    (∀ (lib : Lib) (repo : Repository σ) (config : PowConfig),
      (NewService lib repo config).maxUnsolvedChallenges = config.MaxUnsolvedChallenges) := by
  refine ⟨fun hgt => ?_, fun hle count level seed hcount hlevel hseed htask => ?_,
    fun _ _ _ => rfl⟩
  · unfold Service.CreateChallenge
    rcases h1 : s.repo.IncrementUnsolvedCount clientIP st with ⟨_ | m, st1⟩
    · rw [h1] at hinc; cases hinc
    · rw [h1] at hinc; cases hinc
      simp only [if_pos hgt]
  · unfold Service.CreateChallenge
    rcases h1 : s.repo.IncrementUnsolvedCount clientIP st with ⟨_ | m, st1⟩
    · rw [h1] at hinc; cases hinc
    · rw [h1] at hinc hcount htask; cases hinc
      simp only [if_neg (not_lt.mpr hle)]
      simp only at hcount htask
      rcases h2 : s.repo.GetAndIncrementRequestCount clientIP st1 with ⟨_ | c, st2⟩
      · rw [h2] at hcount; cases hcount
      · rw [h2] at hcount htask; cases hcount
        simp only [hlevel, hseed]
        simp only at htask
        rcases h3 : s.repo.CreateTask ⟨uuid, seed, level, ""⟩ s.config.ChallengeTTL st2 with
          ⟨_ | u, st3⟩
        · rw [h3] at htask; cases htask
        · exact ⟨_, rfl⟩

/-- Witness of `CreateChallenge_rejected_iff_above_cap`: the first request of a source on the
empty store, under the default configuration, where `IncrementUnsolvedCount` returns 1. -/
theorem CreateChallenge_rejected_iff_above_cap_witness :
    ∃ ch, ((server sampleLib DefaultConfig).CreateChallenge sampleSource sampleUUID
      (.ok sampleEntropy) (Redis.empty 1700000000000)).result = .ok ch :=
  (CreateChallenge_rejected_iff_above_cap (server sampleLib DefaultConfig) sampleSource
    sampleUUID (.ok sampleEntropy) (Redis.empty 1700000000000) 1 rfl).2.1 (by decide)
    1 0 sampleSeed rfl rfl rfl rfl

/-! ## C8: the outstanding counter across `CreateChallenge` calls -/

/-- C8 (as amended). On the server, from every store state: the outstanding counter of a source
is at most `MaxUnsolvedChallenges` when a `CreateChallenge` for that source returns a
challenge; a call whose first step returned a count `n` above the cap is rejected and leaves
the counter at `n`; and over a working connection every call, rejected or not, leaves the
counter one above its value before (an absent counter counting as 0), so that rejected calls
raise it beyond `MaxUnsolvedChallenges + 1`. -/
theorem server_outstanding_after_CreateChallenge (lib : Lib) (config : PowConfig)
    (clientIP uuid : String) (entropy : Except String (List UInt8)) (r : Redis) :
    (∀ ch, ((server lib config).CreateChallenge clientIP uuid entropy r).result = .ok ch →
      outstanding lib ((server lib config).CreateChallenge clientIP uuid entropy r).state
        clientIP ≤ config.MaxUnsolvedChallenges) ∧
    (∀ n, (DefaultRepository.IncrementUnsolvedCount lib clientIP r).1 = .ok n →
      n > config.MaxUnsolvedChallenges →
      ((server lib config).CreateChallenge clientIP uuid entropy r).result =
          .error "too many unsolved challenges" ∧
        outstanding lib ((server lib config).CreateChallenge clientIP uuid entropy r).state
          clientIP = n) ∧
    ((∀ text, r.faults.head? ≠ some (some text)) →
      (r.live (unsolvedKey lib clientIP) = none ∨
        ∃ m t, r.live (unsolvedKey lib clientIP) = some ⟨.int m, t⟩ ∧ m < maxInt64) →
      outstanding lib ((server lib config).CreateChallenge clientIP uuid entropy r).state
        clientIP = outstanding lib r clientIP + 1) := by
  refine ⟨fun ch hok => ?_, fun n hinc hgt => ⟨?_, ?_⟩, fun hconn hentry => ?_⟩
  · obtain ⟨n, hinc, hle⟩ := Service.CreateChallenge_ok_count _ _ _ _ _ _ hok
    rw [server_CreateChallenge_outstanding lib config clientIP uuid entropy r n hinc]
    exact hle
  · exact (CreateChallenge_cap_lemma (server lib config) clientIP uuid entropy r n hinc hgt)
  · exact server_CreateChallenge_outstanding lib config clientIP uuid entropy r n hinc
  · rcases hentry with habs | ⟨m, t, hint, hm⟩
    · rw [outstanding_of_absent habs]
      apply server_CreateChallenge_outstanding
      apply DefaultRepository.IncrementUnsolvedCount_of_connected hconn
      intro rest
      exact Redis.incr_of_absent habs
    · rw [outstanding_of_live hint]
      apply server_CreateChallenge_outstanding
      apply DefaultRepository.IncrementUnsolvedCount_of_connected hconn
      intro rest
      exact Redis.incr_of_int hint hm

/-- Witness of `server_outstanding_after_CreateChallenge`: under the default configuration,
after ten calls of `sampleFlood` the eleventh is rejected and leaves the counter at 11, while
the tenth call returned a challenge and left it at most 10. -/
theorem server_outstanding_after_CreateChallenge_witness :
    outstanding sampleLib
        ((server sampleLib DefaultConfig).CreateChallenge sampleSource "00000000-0000-0000-0000-0000000000ff"
          (.ok sampleEntropy)
          (runOps sampleLib DefaultConfig (sampleFlood.take 9)
            (Redis.empty 1700000000000))).state
        sampleSource ≤ DefaultConfig.MaxUnsolvedChallenges ∧
      (((server sampleLib DefaultConfig).CreateChallenge sampleSource "00000000-0000-0000-0000-0000000000ff"
          (.ok sampleEntropy)
          (runOps sampleLib DefaultConfig (sampleFlood.take 10)
            (Redis.empty 1700000000000))).result = .error "too many unsolved challenges" ∧
        outstanding sampleLib
          ((server sampleLib DefaultConfig).CreateChallenge sampleSource "00000000-0000-0000-0000-0000000000ff"
            (.ok sampleEntropy)
            (runOps sampleLib DefaultConfig (sampleFlood.take 10)
              (Redis.empty 1700000000000))).state
          sampleSource = 11) :=
  ⟨(server_outstanding_after_CreateChallenge sampleLib DefaultConfig sampleSource "00000000-0000-0000-0000-0000000000ff"
      (.ok sampleEntropy)
      (runOps sampleLib DefaultConfig (sampleFlood.take 9) (Redis.empty 1700000000000))).1
      ⟨"00000000-0000-0000-0000-0000000000ff", sampleSeed, 0, "", 16384, 8, 1, 32⟩ (by decide),
    (server_outstanding_after_CreateChallenge sampleLib DefaultConfig sampleSource "00000000-0000-0000-0000-0000000000ff"
      (.ok sampleEntropy)
      (runOps sampleLib DefaultConfig (sampleFlood.take 10) (Redis.empty 1700000000000))).2.1
      11 rfl (by decide)⟩

/-- C8 (counterexample to the claim as written). Under the default configuration (cap 10),
twelve `CreateChallenge` calls of one source at one instant leave its outstanding counter at
12, above `MaxUnsolvedChallenges + 1`. -/
theorem outstanding_exceeds_cap_plus_one :
    outstanding sampleLib
        (runOps sampleLib DefaultConfig sampleFlood (Redis.empty 1700000000000))
        sampleSource = 12 ∧
      ¬ outstanding sampleLib
          (runOps sampleLib DefaultConfig sampleFlood (Redis.empty 1700000000000))
          sampleSource ≤ DefaultConfig.MaxUnsolvedChallenges + 1 := by
  decide

/-- C9. In every failing `CreateChallenge` the failing step is the last collaborator call, the
result is an error (no challenge), and the state is the one the failing step left:
rejection by the cap stops after `IncrementUnsolvedCount`; an error of the request count stops
after `GetAndIncrementRequestCount`; an error of the seed generation stops before `CreateTask`;
an error of `CreateTask` is returned as such. No `CreateChallenge`, failing or not, calls a
decrement of the outstanding counter, and on the server the counter of the source still holds
the count `n` of the first step when a failing call returns. -/
theorem CreateChallenge_failure_stops {σ : Type} (s : Service σ) (clientIP uuid : String)
    (entropy : Except String (List UInt8)) (st : σ) :
    (∀ n, (s.repo.IncrementUnsolvedCount clientIP st).1 = .ok n →
      n > s.maxUnsolvedChallenges →
      s.CreateChallenge clientIP uuid entropy st =
        ⟨.error "too many unsolved challenges", (s.repo.IncrementUnsolvedCount clientIP st).2,
          [.IncrementUnsolvedCount clientIP]⟩) ∧
    (∀ n err, (s.repo.IncrementUnsolvedCount clientIP st).1 = .ok n →
      n ≤ s.maxUnsolvedChallenges →
      (s.repo.GetAndIncrementRequestCount clientIP
        (s.repo.IncrementUnsolvedCount clientIP st).2).1 = .error err →
      s.CreateChallenge clientIP uuid entropy st =
        ⟨.error ("failed to get request count: " ++ err),
          (s.repo.GetAndIncrementRequestCount clientIP
            (s.repo.IncrementUnsolvedCount clientIP st).2).2,
          [.IncrementUnsolvedCount clientIP, .uuidNew,
            .GetAndIncrementRequestCount clientIP]⟩) ∧
    (∀ n count level err, (s.repo.IncrementUnsolvedCount clientIP st).1 = .ok n →
      n ≤ s.maxUnsolvedChallenges →
      (s.repo.GetAndIncrementRequestCount clientIP
        (s.repo.IncrementUnsolvedCount clientIP st).2).1 = .ok count →
      s.utils.CalculateDifficultyLevel count = some level →
      s.utils.GenerateRandomSeed entropy = .error err →
      s.CreateChallenge clientIP uuid entropy st =
        ⟨.error ("failed to generate random seed: " ++ err),
          (s.repo.GetAndIncrementRequestCount clientIP
            (s.repo.IncrementUnsolvedCount clientIP st).2).2,
          [.IncrementUnsolvedCount clientIP, .uuidNew, .GetAndIncrementRequestCount clientIP,
            .CalculateDifficultyLevel count, .GenerateRandomSeed]⟩) ∧
    (∀ n count level seed err, (s.repo.IncrementUnsolvedCount clientIP st).1 = .ok n →
      n ≤ s.maxUnsolvedChallenges →
      (s.repo.GetAndIncrementRequestCount clientIP
        (s.repo.IncrementUnsolvedCount clientIP st).2).1 = .ok count →
      s.utils.CalculateDifficultyLevel count = some level →
      s.utils.GenerateRandomSeed entropy = .ok seed →
      (s.repo.CreateTask ⟨uuid, seed, level, ""⟩ s.config.ChallengeTTL
        (s.repo.GetAndIncrementRequestCount clientIP
          (s.repo.IncrementUnsolvedCount clientIP st).2).2).1 = .error err →
      s.CreateChallenge clientIP uuid entropy st =
        ⟨.error ("failed to create challenge task: " ++ err),
          (s.repo.CreateTask ⟨uuid, seed, level, ""⟩ s.config.ChallengeTTL
            (s.repo.GetAndIncrementRequestCount clientIP
              (s.repo.IncrementUnsolvedCount clientIP st).2).2).2,
          [.IncrementUnsolvedCount clientIP, .uuidNew, .GetAndIncrementRequestCount clientIP,
            .CalculateDifficultyLevel count, .GenerateRandomSeed,
            .CreateTask ⟨uuid, seed, level, ""⟩ s.config.ChallengeTTL]⟩) ∧
    (∀ c ∈ (s.CreateChallenge clientIP uuid entropy st).calls, c.isDecrement = false) ∧
    (∀ (lib : Lib) (config : PowConfig) (r : Redis) (n : Int) (text : String),
      (DefaultRepository.IncrementUnsolvedCount lib clientIP r).1 = .ok n →
      ((server lib config).CreateChallenge clientIP uuid entropy r).result = .error text →
      outstanding lib ((server lib config).CreateChallenge clientIP uuid entropy r).state
        clientIP = n) := by
  refine ⟨?_, ?_, ?_, ?_, ?_, ?_⟩
  · intro n hinc hgt
    unfold Service.CreateChallenge
    rcases h1 : s.repo.IncrementUnsolvedCount clientIP st with ⟨_ | m, st1⟩
    · rw [h1] at hinc; cases hinc
    · rw [h1] at hinc; cases hinc
      simp only [if_pos hgt]
  · intro n err hinc hle hcount
    unfold Service.CreateChallenge
    rcases h1 : s.repo.IncrementUnsolvedCount clientIP st with ⟨_ | m, st1⟩
    · rw [h1] at hinc; cases hinc
    · rw [h1] at hinc hcount; cases hinc
      simp only [if_neg (not_lt.mpr hle)]
      simp only at hcount
      rcases h2 : s.repo.GetAndIncrementRequestCount clientIP st1 with ⟨_ | c, st2⟩
      · rw [h2] at hcount; cases hcount; rfl
      · rw [h2] at hcount; cases hcount
  · intro n count level err hinc hle hcount hlevel hseed
    unfold Service.CreateChallenge
    rcases h1 : s.repo.IncrementUnsolvedCount clientIP st with ⟨_ | m, st1⟩
    · rw [h1] at hinc; cases hinc
    · rw [h1] at hinc hcount; cases hinc
      simp only [if_neg (not_lt.mpr hle)]
      simp only at hcount
      rcases h2 : s.repo.GetAndIncrementRequestCount clientIP st1 with ⟨_ | c, st2⟩
      · rw [h2] at hcount; cases hcount
      · rw [h2] at hcount; cases hcount
        simp only [hlevel, hseed]
  · intro n count level seed err hinc hle hcount hlevel hseed htask
    unfold Service.CreateChallenge
    rcases h1 : s.repo.IncrementUnsolvedCount clientIP st with ⟨_ | m, st1⟩
    · rw [h1] at hinc; cases hinc
    · rw [h1] at hinc hcount htask; cases hinc
      simp only [if_neg (not_lt.mpr hle)]
      simp only at hcount htask
      rcases h2 : s.repo.GetAndIncrementRequestCount clientIP st1 with ⟨_ | c, st2⟩
      · rw [h2] at hcount; cases hcount
      · rw [h2] at hcount htask; cases hcount
        simp only [hlevel, hseed]
        simp only at htask
        rcases h3 : s.repo.CreateTask ⟨uuid, seed, level, ""⟩ s.config.ChallengeTTL st2 with
          ⟨_ | u, st3⟩
        · rw [h3] at htask; cases htask; rfl
        · rw [h3] at htask; cases htask
  · intro c hc
    unfold Service.CreateChallenge at hc
    rcases h1 : s.repo.IncrementUnsolvedCount clientIP st with ⟨_ | m, st1⟩
    · rw [h1] at hc
      simp only [List.mem_singleton] at hc
      subst hc; rfl
    · rw [h1] at hc
      simp only at hc
      split at hc
      · simp only [List.mem_singleton] at hc
        subst hc; rfl
      · rcases h2 : s.repo.GetAndIncrementRequestCount clientIP st1 with ⟨_ | cnt, st2⟩
        · rw [h2] at hc
          simp only [List.mem_cons, List.mem_singleton, List.not_mem_nil, or_false] at hc
          rcases hc with rfl | rfl | rfl <;> rfl
        · rw [h2] at hc
          simp only at hc
          cases hl : s.utils.CalculateDifficultyLevel cnt with
          | none =>
            rw [hl] at hc
            simp only [List.mem_cons, List.mem_singleton, List.not_mem_nil, or_false] at hc
            rcases hc with rfl | rfl | rfl | rfl <;> rfl
          | some level =>
            rw [hl] at hc
            simp only at hc
            cases hs : s.utils.GenerateRandomSeed entropy with
            | error e =>
              rw [hs] at hc
              simp only [List.mem_cons, List.mem_singleton, List.not_mem_nil, or_false] at hc
              rcases hc with rfl | rfl | rfl | rfl | rfl <;> rfl
            | ok seed =>
              rw [hs] at hc
              simp only at hc
              rcases h3 : s.repo.CreateTask ⟨uuid, seed, level, ""⟩ s.config.ChallengeTTL st2
                with ⟨_ | u, st3⟩
              · rw [h3] at hc
                simp only [List.mem_cons, List.mem_singleton, List.not_mem_nil, or_false] at hc
                rcases hc with rfl | rfl | rfl | rfl | rfl | rfl <;> rfl
              · rw [h3] at hc
                simp only [List.mem_cons, List.mem_singleton, List.not_mem_nil, or_false] at hc
                rcases hc with rfl | rfl | rfl | rfl | rfl | rfl <;> rfl
  · intro lib config r n text hinc _
    exact server_CreateChallenge_outstanding lib config clientIP uuid entropy r n hinc

/-- Witness of `CreateChallenge_failure_stops`, on the server under the default configuration:
the eleventh call of a flood is rejected by the cap after the single call
`IncrementUnsolvedCount` and leaves the counter at 11; a call whose entropy source fails stops
after `GenerateRandomSeed`, without `CreateTask`, and leaves the counter at 1. -/
theorem CreateChallenge_failure_stops_witness :
    (((server sampleLib DefaultConfig).CreateChallenge sampleSource sampleUUID
          (.ok sampleEntropy)
          (runOps sampleLib DefaultConfig (sampleFlood.take 10)
            (Redis.empty 1700000000000))).calls = [.IncrementUnsolvedCount sampleSource] ∧
      outstanding sampleLib
          ((server sampleLib DefaultConfig).CreateChallenge sampleSource sampleUUID
            (.ok sampleEntropy)
            (runOps sampleLib DefaultConfig (sampleFlood.take 10)
              (Redis.empty 1700000000000))).state
          sampleSource = 11) ∧
    (((server sampleLib DefaultConfig).CreateChallenge sampleSource sampleUUID
          (.error "unexpected EOF") (Redis.empty 1700000000000)).result =
        .error "failed to generate random seed: unexpected EOF" ∧
      ((server sampleLib DefaultConfig).CreateChallenge sampleSource sampleUUID
          (.error "unexpected EOF") (Redis.empty 1700000000000)).calls =
        [.IncrementUnsolvedCount sampleSource, .uuidNew,
          .GetAndIncrementRequestCount sampleSource, .CalculateDifficultyLevel 1,
          .GenerateRandomSeed] ∧
      outstanding sampleLib
          ((server sampleLib DefaultConfig).CreateChallenge sampleSource sampleUUID
            (.error "unexpected EOF") (Redis.empty 1700000000000)).state
          sampleSource = 1) :=
  have h10 := CreateChallenge_failure_stops (server sampleLib DefaultConfig) sampleSource
    sampleUUID (.ok sampleEntropy)
    (runOps sampleLib DefaultConfig (sampleFlood.take 10) (Redis.empty 1700000000000))
  have h0 := CreateChallenge_failure_stops (server sampleLib DefaultConfig) sampleSource
    sampleUUID (.error "unexpected EOF") (Redis.empty 1700000000000)
  have e10 := h10.1 11 rfl (by decide)
  have e0 := h0.2.2.1 1 1 0 "unexpected EOF" rfl (by decide) rfl rfl rfl
  ⟨⟨congrArg Run.calls e10,
      h10.2.2.2.2.2 sampleLib DefaultConfig _ 11 _ rfl (congrArg Run.result e10)⟩,
    congrArg Run.result e0, congrArg Run.calls e0,
    h0.2.2.2.2.2 sampleLib DefaultConfig _ 1 _ rfl (congrArg Run.result e0)⟩

/-- C10. Whenever `CreateChallenge` returns a challenge: its id is the fresh UUID, its seed is
the seed `GenerateRandomSeed` returned, its difficulty level is `CalculateDifficultyLevel` of
the count `GetAndIncrementRequestCount` returned, and its `ScryptN`, `ScryptR`, `ScryptP`,
`KeyLen` are those of the configuration; the one record passed to `CreateTask` carries the same
id, seed and level, with the time to live `ChallengeTTL`, and that call succeeded. -/
theorem CreateChallenge_success_fields {σ : Type} (s : Service σ) (clientIP uuid : String)
    (entropy : Except String (List UInt8)) (st : σ) (ch : Challenge)
    (hok : (s.CreateChallenge clientIP uuid entropy st).result = .ok ch) :
    ch.ID = uuid ∧
    s.utils.GenerateRandomSeed entropy = .ok ch.Seed ∧
    (∃ count, (s.repo.GetAndIncrementRequestCount clientIP
        (s.repo.IncrementUnsolvedCount clientIP st).2).1 = .ok count ∧
      s.utils.CalculateDifficultyLevel count = some ch.DifficultyLevel) ∧
    ch.ScryptN = s.config.ScryptN ∧ ch.ScryptR = s.config.ScryptR ∧
    ch.ScryptP = s.config.ScryptP ∧ ch.KeyLen = s.config.KeyLen ∧
    (∀ task ttl, Call.CreateTask task ttl ∈ (s.CreateChallenge clientIP uuid entropy st).calls ↔
      task = ⟨ch.ID, ch.Seed, ch.DifficultyLevel, ""⟩ ∧ ttl = s.config.ChallengeTTL) ∧
    (s.repo.CreateTask ⟨ch.ID, ch.Seed, ch.DifficultyLevel, ""⟩ s.config.ChallengeTTL
      (s.repo.GetAndIncrementRequestCount clientIP
        (s.repo.IncrementUnsolvedCount clientIP st).2).2).1 = .ok () := by
  unfold Service.CreateChallenge at hok ⊢
  rcases h1 : s.repo.IncrementUnsolvedCount clientIP st with ⟨_ | m, st1⟩
  · rw [h1] at hok; cases hok
  · rw [h1] at hok
    simp only at hok ⊢
    split at hok
    · cases hok
    · rename_i hcap
      simp only [if_neg hcap]
      rcases h2 : s.repo.GetAndIncrementRequestCount clientIP st1 with ⟨_ | cnt, st2⟩
      · rw [h2] at hok; cases hok
      · rw [h2] at hok
        simp only at hok ⊢
        cases hl : s.utils.CalculateDifficultyLevel cnt with
        | none => rw [hl] at hok; cases hok
        | some level =>
          rw [hl] at hok
          simp only at hok ⊢
          cases hs : s.utils.GenerateRandomSeed entropy with
          | error e => rw [hs] at hok; cases hok
          | ok seed =>
            rw [hs] at hok
            simp only at hok ⊢
            rcases h3 : s.repo.CreateTask ⟨uuid, seed, level, ""⟩ s.config.ChallengeTTL st2
              with ⟨_ | u, st3⟩
            · rw [h3] at hok; cases hok
            · rw [h3] at hok
              simp only [Outcome.ok.injEq] at hok
              subst hok
              refine ⟨rfl, rfl, ⟨cnt, rfl, hl⟩, rfl, rfl, rfl, rfl, ?_, ?_⟩
              · intro task ttl
                simp only [List.mem_cons, List.mem_singleton, List.not_mem_nil, or_false,
                  Call.CreateTask.injEq, reduceCtorEq, false_or]
              · rw [h3]

/-- Witness of `CreateChallenge_success_fields`: the first request of a source on the empty
store under the default configuration. -/
theorem CreateChallenge_success_fields_witness :
    (∃ count, (DefaultRepository.GetAndIncrementRequestCount sampleLib sampleSource
        (DefaultRepository.IncrementUnsolvedCount sampleLib sampleSource
          (Redis.empty 1700000000000)).2).1 = .ok count ∧
      CalculateDifficultyLevel DefaultConfig count = some 0) ∧
    (∀ task ttl, Call.CreateTask task ttl ∈
        ((server sampleLib DefaultConfig).CreateChallenge sampleSource sampleUUID
          (.ok sampleEntropy) (Redis.empty 1700000000000)).calls ↔
      task = ⟨sampleUUID, sampleSeed, 0, ""⟩ ∧ ttl = DefaultConfig.ChallengeTTL) :=
  have h := CreateChallenge_success_fields (server sampleLib DefaultConfig) sampleSource
    sampleUUID (.ok sampleEntropy) (Redis.empty 1700000000000)
    ⟨sampleUUID, sampleSeed, 0, "", 16384, 8, 1, 32⟩ (by decide)
  ⟨h.2.2.1, h.2.2.2.2.2.2.2.1⟩

/-! ## C11 and C12: rejected submissions -/

/-- C11. For every challenge id that does not parse as a UUID, `ValidateChallenge` returns the
error "invalid challenge ID format", leaves the store state as it was and makes no call to the
repository (its only collaborator call is the UUID parse). -/
theorem ValidateChallenge_invalid_uuid {σ : Type} (lib : Lib) (s : Service σ)
    (clientIP challengeID nonce : String) (draw : ℚ) (st : σ)
    (hid : lib.uuidParse challengeID = false) :
    (s.ValidateChallenge lib clientIP challengeID nonce draw st).result =
        .error "invalid challenge ID format" ∧
      (s.ValidateChallenge lib clientIP challengeID nonce draw st).state = st ∧
      (s.ValidateChallenge lib clientIP challengeID nonce draw st).calls =
        [.uuidParse challengeID] ∧
      ∀ c ∈ (s.ValidateChallenge lib clientIP challengeID nonce draw st).calls,
        c.isRepository = false := by
  unfold Service.ValidateChallenge
  simp only [hid, if_true]
  refine ⟨trivial, trivial, trivial, ?_⟩
  intro c hc
  simp only [List.mem_singleton] at hc
  subst hc
  rfl

/-- Witness of `ValidateChallenge_invalid_uuid`: the id `"not-a-uuid"` on the server. -/
theorem ValidateChallenge_invalid_uuid_witness :
    ((server sampleLib DefaultConfig).ValidateChallenge sampleLib sampleSource "not-a-uuid" "x"
        (mkRat 1 2) (Redis.empty 1700000000000)).result =
      .error "invalid challenge ID format" :=
  (ValidateChallenge_invalid_uuid sampleLib (server sampleLib DefaultConfig) sampleSource
    "not-a-uuid" "x" (mkRat 1 2) (Redis.empty 1700000000000) (by decide)).1

theorem Redis.call_store {α : Type} (r : Redis) (cmd : Redis → Except RedisError α × Redis)
    (h : ∀ db, (cmd db).2 = db) :
    (r.call cmd).2.data = r.data ∧ (r.call cmd).2.now = r.now := by
  rcases Redis.call_cases r cmd with ⟨rest, hc⟩ | ⟨text, rest, hc⟩
  · rw [hc, h]; exact ⟨rfl, rfl⟩
  · rw [hc]; exact ⟨rfl, rfl⟩

theorem DefaultRepository.GetTask_store (taskID : String) (r : Redis) :
    (DefaultRepository.GetTask taskID r).2.data = r.data ∧
      (DefaultRepository.GetTask taskID r).2.now = r.now := by
  have h := Redis.call_store r (fun db => db.get ("task:" ++ taskID))
    (fun db => Redis.get_state _ db)
  unfold DefaultRepository.GetTask
  split <;> (rename_i heq; rw [heq] at h; exact h)

theorem Service.ValidateChallenge_miss {σ : Type} (lib : Lib) (s : Service σ)
    (clientIP challengeID nonce : String) (draw : ℚ) (st : σ)
    (hid : lib.uuidParse challengeID = true) (err : String)
    (hget : (s.repo.GetTask challengeID st).1 = .error err) :
    s.ValidateChallenge lib clientIP challengeID nonce draw st =
      ⟨.error ("invalid challenge: " ++ err), (s.repo.GetTask challengeID st).2,
        [.uuidParse challengeID, .GetTask challengeID]⟩ := by
  unfold Service.ValidateChallenge
  rcases h1 : s.repo.GetTask challengeID st with ⟨e | task, st1⟩
  · rw [h1] at hget; cases hget
    simp [hid]
  · rw [h1] at hget; cases hget

theorem Service.ValidateChallenge_bad {σ : Type} (lib : Lib) (s : Service σ)
    (clientIP challengeID nonce : String) (draw : ℚ) (st : σ)
    (hid : lib.uuidParse challengeID = true) (task : Task)
    (hget : (s.repo.GetTask challengeID st).1 = .ok task)
    (hver : s.utils.VerifySolution challengeID task.Seed nonce task.DifficultyLevel =
      some false) :
    s.ValidateChallenge lib clientIP challengeID nonce draw st =
      ⟨.error "invalid challenge solution", (s.repo.GetTask challengeID st).2,
        [.uuidParse challengeID, .GetTask challengeID,
          .VerifySolution challengeID task.Seed nonce task.DifficultyLevel]⟩ := by
  unfold Service.ValidateChallenge
  rcases h1 : s.repo.GetTask challengeID st with ⟨e | task1, st1⟩
  · rw [h1] at hget; cases hget
  · rw [h1] at hget; cases hget
    simp [hid, hver]

/-- C12. A submission with a well-formed id that is rejected because `GetTask` returns an error
(no record: "invalid challenge: ...") or because `VerifySolution` on the loaded record's seed
and level is false ("invalid challenge solution") stops there: the collaborator calls are the
UUID parse, `GetTask` and, in the second case, `VerifySolution`; no call changes what the
repository holds (no `DeleteTask`, no decrement); the state is the one `GetTask` left, and on
the server that state has the keyspace (records and counters) and the clock of the state
before. -/
theorem ValidateChallenge_rejected_no_mutation {σ : Type} (lib : Lib) (s : Service σ)
    (clientIP challengeID nonce : String) (draw : ℚ) (st : σ)
    (hid : lib.uuidParse challengeID = true) :
    (∀ err, (s.repo.GetTask challengeID st).1 = .error err →
      s.ValidateChallenge lib clientIP challengeID nonce draw st =
        ⟨.error ("invalid challenge: " ++ err), (s.repo.GetTask challengeID st).2,
          [.uuidParse challengeID, .GetTask challengeID]⟩) ∧
    (∀ task, (s.repo.GetTask challengeID st).1 = .ok task →
      s.utils.VerifySolution challengeID task.Seed nonce task.DifficultyLevel = some false →
      s.ValidateChallenge lib clientIP challengeID nonce draw st =
        ⟨.error "invalid challenge solution", (s.repo.GetTask challengeID st).2,
          [.uuidParse challengeID, .GetTask challengeID,
            .VerifySolution challengeID task.Seed nonce task.DifficultyLevel]⟩) ∧
    (((∃ err, (s.repo.GetTask challengeID st).1 = .error err) ∨
        ∃ task, (s.repo.GetTask challengeID st).1 = .ok task ∧
          s.utils.VerifySolution challengeID task.Seed nonce task.DifficultyLevel =
            some false) →
      ∀ c ∈ (s.ValidateChallenge lib clientIP challengeID nonce draw st).calls,
        c.isMutation = false) ∧
    (∀ (config : PowConfig) (r : Redis),
      ((∃ err, (DefaultRepository.GetTask challengeID r).1 = .error err) ∨
        ∃ task, (DefaultRepository.GetTask challengeID r).1 = .ok task ∧
          VerifySolution lib config challengeID task.Seed nonce task.DifficultyLevel =
            some false) →
      ((server lib config).ValidateChallenge lib clientIP challengeID nonce draw r).state.data =
          r.data ∧
        ((server lib config).ValidateChallenge lib clientIP challengeID nonce draw r).state.now =
          r.now) := by
  have hmiss := Service.ValidateChallenge_miss lib s clientIP challengeID nonce draw st hid
  have hbad := Service.ValidateChallenge_bad lib s clientIP challengeID nonce draw st hid
  refine ⟨hmiss, hbad, ?_, ?_⟩
  · rintro (⟨err, hget⟩ | ⟨task, hget, hver⟩) c hc
    · rw [hmiss err hget] at hc
      simp only [List.mem_cons, List.mem_singleton, List.not_mem_nil, or_false] at hc
      rcases hc with rfl | rfl <;> rfl
    · rw [hbad task hget hver] at hc
      simp only [List.mem_cons, List.mem_singleton, List.not_mem_nil, or_false] at hc
      rcases hc with rfl | rfl | rfl <;> rfl
  · intro config r hcase
    have hst : ((server lib config).ValidateChallenge lib clientIP challengeID nonce draw
        r).state = (DefaultRepository.GetTask challengeID r).2 := by
      rcases hcase with ⟨err, hget⟩ | ⟨task, hget, hver⟩
      · exact congrArg Run.state (Service.ValidateChallenge_miss lib (server lib config)
          clientIP challengeID nonce draw r hid err hget)
      · exact congrArg Run.state (Service.ValidateChallenge_bad lib (server lib config)
          clientIP challengeID nonce draw r hid task hget hver)
    rw [hst]
    exact DefaultRepository.GetTask_store challengeID r

/-- Witness of `ValidateChallenge_rejected_no_mutation`: on the empty store a well-formed id has
no record; the submission fails with "invalid challenge: task not found" after the two calls
UUID parse and `GetTask`. -/
theorem ValidateChallenge_rejected_no_mutation_witness :
    (server sampleLib DefaultConfig).ValidateChallenge sampleLib sampleSource sampleUUID "x"
        (mkRat 1 2) (Redis.empty 1700000000000) =
      ⟨.error "invalid challenge: task not found",
        (DefaultRepository.GetTask sampleUUID (Redis.empty 1700000000000)).2,
        [.uuidParse sampleUUID, .GetTask sampleUUID]⟩ :=
  (ValidateChallenge_rejected_no_mutation sampleLib (server sampleLib DefaultConfig)
    sampleSource sampleUUID "x" (mkRat 1 2) (Redis.empty 1700000000000) (by decide)).1
    "task not found" rfl

/-! ## Lemmas on deletion and decrement in the store -/

theorem taskKey_injective {a b : String} (h : taskKey a = taskKey b) : a = b := by
  unfold taskKey at h
  have h2 := congrArg String.data h
  simp only [String.data_append, List.append_cancel_left_eq] at h2
  exact String.ext h2

theorem Redis.live_remove_none {r : Redis} {k : String} (key : String)
    (h : r.live k = none) : (r.remove key).live k = none := by
  by_cases hk : k = key
  · subst hk
    simp [Redis.live, Redis.remove]
  · rw [(Redis.onlyAt_remove key r).live_eq k hk]
    exact h

theorem Redis.live_remove_self (r : Redis) (key : String) : (r.remove key).live key = none := by
  simp [Redis.live, Redis.remove]

theorem Redis.live_advance_none {r : Redis} {k : String} (d : Nat)
    (h : r.live k = none) : (r.advance d).live k = none := by
  unfold Redis.live Redis.advance at *
  simp only at h ⊢
  cases hd : r.data k with
  | none => simp
  | some e =>
    simp only [hd] at h ⊢
    cases he : e.expireAt with
    | none => simp [he] at h
    | some t =>
      simp only [he] at h ⊢
      split at h
      · cases h
      · rename_i hlt
        have : ¬ r.now + (d : Int) < t := by omega
        simp [this]

theorem Redis.live_faults (r : Redis) (fs : List (Option String)) (k : String) :
    Redis.live { r with faults := fs } k = r.live k := rfl

theorem Redis.del_state (r : Redis) (key : String) :
    (r.del key).2 = r ∨ (r.del key).2 = r.remove key := by
  unfold Redis.del
  cases r.live key with
  | none => left; rfl
  | some e => right; rfl

theorem Redis.del_ok_pos {r : Redis} {key : String} {n : Int} (h : (r.del key).1 = .ok n)
    (hn : n ≠ 0) : (r.del key).2 = r.remove key := by
  unfold Redis.del at h ⊢
  cases hl : r.live key with
  | none => simp [hl] at h; exact absurd h.symm hn
  | some e => rfl

theorem DefaultRepository.DeleteTask_state (taskID : String) (r : Redis) :
    ∃ rest, (DefaultRepository.DeleteTask taskID r).2 = { r with faults := rest } ∨
      (DefaultRepository.DeleteTask taskID r).2 =
        Redis.remove { r with faults := rest } ("task:" ++ taskID) := by
  have hstate : (DefaultRepository.DeleteTask taskID r).2 =
      (r.call fun db => db.del ("task:" ++ taskID)).2 := by
    unfold DefaultRepository.DeleteTask
    simp only
    split
    · rename_i heq; rw [heq]
    · rename_i heq; rw [heq]; split <;> rfl
  rw [hstate]
  rcases Redis.call_cases r (fun db => db.del ("task:" ++ taskID)) with
    ⟨rest, hc⟩ | ⟨text, rest, hc⟩
  · refine ⟨rest, ?_⟩
    rw [hc]
    exact Redis.del_state _ _
  · exact ⟨rest, Or.inl (by rw [hc])⟩

theorem DefaultRepository.DeleteTask_keeps_absent (taskID : String) (r : Redis) (k : String)
    (h : r.live k = none) : (DefaultRepository.DeleteTask taskID r).2.live k = none := by
  obtain ⟨rest, hs | hs⟩ := DefaultRepository.DeleteTask_state taskID r
  · rw [hs]; exact h
  · rw [hs]; exact Redis.live_remove_none _ h

theorem DefaultRepository.DeleteTask_ok {taskID : String} {r : Redis}
    (h : (DefaultRepository.DeleteTask taskID r).1 = .ok ()) :
    (DefaultRepository.DeleteTask taskID r).2.live (taskKey taskID) = none := by
  unfold DefaultRepository.DeleteTask at h ⊢
  simp only at h ⊢
  rcases Redis.call_cases r (fun db => db.del ("task:" ++ taskID)) with
    ⟨rest, hc⟩ | ⟨text, rest, hc⟩
  · rw [hc] at h ⊢
    cases hd : (Redis.del { r with faults := rest } ("task:" ++ taskID)).1 with
    | error e =>
      have e1 : Redis.del { r with faults := rest } ("task:" ++ taskID) =
          (.error e, (Redis.del { r with faults := rest } ("task:" ++ taskID)).2) := by
        rw [← hd]
      rw [e1] at h
      cases h
    | ok n =>
      have e1 : Redis.del { r with faults := rest } ("task:" ++ taskID) =
          (.ok n, (Redis.del { r with faults := rest } ("task:" ++ taskID)).2) := by
        rw [← hd]
      rw [e1] at h ⊢
      simp only at h ⊢
      by_cases hn : n = 0
      · simp [hn] at h
      · simp only [if_neg hn]
        rw [Redis.del_ok_pos hd hn]
        exact Redis.live_remove_self _ _
  · rw [hc] at h
    cases h

theorem Redis.float64Shift_of_lt (fuel n : Nat) (h : n < 2 ^ 53) :
    Redis.float64Shift fuel n = 0 := by
  cases fuel with
  | zero => rfl
  | succ f =>
    unfold Redis.float64Shift
    rw [if_pos h]

theorem Redis.float64OfNat_of_lt {n : Nat} (h : n < 2 ^ 53) : Redis.float64OfNat n = n := by
  unfold Redis.float64OfNat
  rw [Redis.float64Shift_of_lt n n h]
  simp [Nat.mod_one]

theorem Redis.float64Shift_spec (fuel n : Nat) (hf : n ≤ fuel) (hn : 2 ^ 53 ≤ n) :
    1 ≤ Redis.float64Shift fuel n ∧ 2 ^ 52 ≤ n / 2 ^ Redis.float64Shift fuel n := by
  induction fuel generalizing n with
  | zero => omega
  | succ f ih =>
    have hlt : ¬ n < 2 ^ 53 := by omega
    unfold Redis.float64Shift
    rw [if_neg hlt]
    by_cases h2 : n / 2 < 2 ^ 53
    · rw [Redis.float64Shift_of_lt f _ h2]
      refine ⟨le_refl _, ?_⟩
      simp only [zero_add, pow_one]
      omega
    · have h3 : 2 ^ 53 ≤ n / 2 := by omega
      have h4 : n / 2 ≤ f := by omega
      obtain ⟨-, h5⟩ := ih (n / 2) h4 h3
      have h6 : n / 2 ^ (Redis.float64Shift f (n / 2) + 1) =
          n / 2 / 2 ^ Redis.float64Shift f (n / 2) := by
        rw [pow_succ, mul_comm, Nat.div_div_eq_div_mul]
      have h7 : 2 ^ 52 ≤ n / 2 ^ (Redis.float64Shift f (n / 2) + 1) := by
        rw [h6]
        exact h5
      exact ⟨Nat.le_add_left _ _, h7⟩

theorem Redis.float64OfNat_ge {n : Nat} (hn : 2 ^ 53 ≤ n) : 2 ^ 53 ≤ Redis.float64OfNat n := by
  obtain ⟨h1, h2⟩ := Redis.float64Shift_spec n n (le_refl _) hn
  have hk : 2 ≤ 2 ^ Redis.float64Shift n n := by
    calc 2 = 2 ^ 1 := by norm_num
      _ ≤ 2 ^ Redis.float64Shift n n := Nat.pow_le_pow_right (by norm_num) h1
  have hq : 2 ^ 53 ≤ n / 2 ^ Redis.float64Shift n n * 2 ^ Redis.float64Shift n n := by
    calc 2 ^ 53 = 2 ^ 52 * 2 := by norm_num
      _ ≤ n / 2 ^ Redis.float64Shift n n * 2 ^ Redis.float64Shift n n :=
        Nat.mul_le_mul h2 hk
  unfold Redis.float64OfNat
  simp only
  split
  · exact hq
  · split
    · exact hq
    · exact le_trans hq (Nat.mul_le_mul_right _ (Nat.le_succ _))

theorem Redis.float64OfNat_of_le {n : Nat} (h : n ≤ 2 ^ 53) : Redis.float64OfNat n = n := by
  rcases Nat.lt_or_ge n (2 ^ 53) with h1 | h1
  · exact Redis.float64OfNat_of_lt h1
  · have h2 : n = 2 ^ 53 := le_antisymm h h1
    subst h2
    decide

theorem Redis.float64OfInt_of_abs_le {x : Int} (h1 : -(2 ^ 53) ≤ x) (h2 : x ≤ 2 ^ 53) :
    Redis.float64OfInt x = x := by
  have h3 : x.natAbs ≤ 2 ^ 53 := by omega
  unfold Redis.float64OfInt
  rw [Redis.float64OfNat_of_le h3]
  split <;> omega

theorem Redis.float64OfInt_nonpos {x : Int} (h : x ≤ 0) : Redis.float64OfInt x ≤ 0 := by
  unfold Redis.float64OfInt
  split
  · omega
  · have h0 : x = 0 := by omega
    subst h0
    decide

theorem Redis.float64OfInt_ge {x : Int} (h : 2 ^ 53 ≤ x) : 2 ^ 53 ≤ Redis.float64OfInt x := by
  have h3 : 2 ^ 53 ≤ x.natAbs := by omega
  have h4 := Redis.float64OfNat_ge h3
  unfold Redis.float64OfInt
  rw [if_neg (by omega)]
  exact_mod_cast h4

/-- On a counter of at most `2 ^ 53` the arithmetic of the script is exact. -/
theorem Redis.luaDecrement_value {c n : Int} (hc0 : 0 ≤ c) (hc : c ≤ 2 ^ 53) (hn : 0 ≤ n) :
    max 0 (Redis.float64OfInt (Redis.float64OfInt c - Redis.float64OfInt n)) =
      max 0 (c - n) := by
  rw [Redis.float64OfInt_of_abs_le (by omega) hc]
  by_cases h : n ≤ 2 ^ 53
  · rw [Redis.float64OfInt_of_abs_le (by omega) h,
      Redis.float64OfInt_of_abs_le (by omega) (by omega)]
  · have h1 := @Redis.float64OfInt_ge n (by omega)
    have h2 := @Redis.float64OfInt_nonpos (c - Redis.float64OfInt n) (by omega)
    rw [max_eq_left h2, max_eq_left (by omega)]

theorem Redis.decimalValue_append (acc : Nat) (xs ys : List Char) :
    Redis.decimalValue acc (xs ++ ys) =
      (Redis.decimalValue acc xs).bind fun a => Redis.decimalValue a ys := by
  induction xs generalizing acc with
  | nil => rfl
  | cons c cs ih =>
    simp only [List.cons_append, Redis.decimalValue]
    split
    · exact ih _
    · rfl

theorem Redis.digit_toNat {d : Nat} (h : d < 10) : (Char.ofNat (48 + d)).toNat = 48 + d := by
  interval_cases d <;> rfl

theorem Redis.decimalValue_decimalDigits (fuel n acc : Nat) :
    (Redis.decimalValue acc (Redis.decimalDigits fuel n)).isSome = true := by
  induction fuel generalizing n acc with
  | zero => rfl
  | succ f ih =>
    unfold Redis.decimalDigits
    split
    · rename_i h
      simp only [Redis.decimalValue, Redis.digit_toNat h]
      rw [if_pos (by omega)]
      rfl
    · rw [Redis.decimalValue_append]
      have h := ih (n / 10) acc
      obtain ⟨a, ha⟩ := Option.isSome_iff_exists.mp h
      rw [ha]
      have hd : n % 10 < 10 := Nat.mod_lt _ (by norm_num)
      simp only [Option.some_bind, Redis.decimalValue, Redis.digit_toNat hd]
      rw [if_pos (by omega)]
      rfl

theorem Redis.decimalDigits_head (fuel n : Nat) :
    ∃ c cs, Redis.decimalDigits (fuel + 1) n = c :: cs ∧ 48 ≤ c.toNat := by
  induction fuel generalizing n with
  | zero =>
    unfold Redis.decimalDigits
    split
    · rename_i h
      exact ⟨_, [], rfl, by rw [Redis.digit_toNat h]; omega⟩
    · have hd : n % 10 < 10 := Nat.mod_lt _ (by norm_num)
      exact ⟨_, [], rfl, by rw [Redis.digit_toNat hd]; omega⟩
  | succ f ih =>
    unfold Redis.decimalDigits
    split
    · rename_i h
      exact ⟨_, [], rfl, by rw [Redis.digit_toNat h]; omega⟩
    · obtain ⟨c, cs, h1, h2⟩ := ih (n / 10)
      rw [h1]
      exact ⟨c, cs ++ _, rfl, h2⟩

/-- The text the script writes for a number above `2 ^ 62` is read back as a number. -/
theorem Redis.luaToNumber_decimalDigits {m : Nat} (h : 0 < m) :
    ∃ x, Redis.luaToNumber (String.mk (Redis.decimalDigits m m)) = some x := by
  obtain ⟨f, rfl⟩ : ∃ f, m = f + 1 := ⟨m - 1, by omega⟩
  obtain ⟨c, cs, h1, h2⟩ := Redis.decimalDigits_head f (f + 1)
  have h3 := Redis.decimalValue_decimalDigits (f + 1) (f + 1) 0
  obtain ⟨a, ha⟩ := Option.isSome_iff_exists.mp h3
  have hc : c ≠ '-' := by
    intro hc
    rw [hc] at h2
    exact absurd h2 (by decide)
  unfold Redis.luaToNumber
  simp only [h1, if_neg hc]
  rw [← h1, ha]
  exact ⟨_, rfl⟩

theorem Redis.luaNumberValue_numeric (d : Int) (hd : 0 ≤ d) :
    (∃ c, Redis.luaNumberValue d = .int c ∧ 0 ≤ c) ∨
      ∃ s x, Redis.luaNumberValue d = .str s ∧ Redis.luaToNumber s = some x := by
  unfold Redis.luaNumberValue
  split
  · exact Or.inl ⟨d, rfl, hd⟩
  · rename_i h
    have hm : 0 < d.natAbs := by
      have : (2 : Int) ^ 62 > 0 := by norm_num
      omega
    obtain ⟨x, hx⟩ := Redis.luaToNumber_decimalDigits hm
    exact Or.inr ⟨_, x, rfl, hx⟩

theorem Redis.luaDecrement_fst (r : Redis) (key : String) (x count : Int) :
    (r.luaDecrement key x count).1 = .ok () := by
  unfold Redis.luaDecrement
  split <;> rfl

theorem Redis.onlyAt_luaDecrement (key : String) (x count : Int) (r : Redis) :
    Redis.OnlyAt key r (r.luaDecrement key x count).2 := by
  unfold Redis.luaDecrement
  split
  · exact Redis.onlyAt_put _ _ _
  · exact Redis.OnlyAt.refl _ _

theorem Redis.onlyAt_evalDecrement (key : String) (count : Int) (r : Redis) :
    Redis.OnlyAt key r (r.evalDecrement key count).2 := by
  unfold Redis.evalDecrement
  cases r.live key with
  | none => exact Redis.OnlyAt.refl _ _
  | some e =>
    simp only
    cases e.value with
    | str s =>
      simp only
      cases Redis.luaToNumber s with
      | none => exact Redis.OnlyAt.refl _ _
      | some x => exact Redis.onlyAt_luaDecrement _ _ _ _
    | zset ms => exact Redis.OnlyAt.refl _ _
    | int n => exact Redis.onlyAt_luaDecrement _ _ _ _

theorem DefaultRepository.decrementPipeline_state (key : String) (count : Int) (db : Redis) :
    (DefaultRepository.decrementPipeline key count db).2 =
      ((db.evalDecrement key count).2.expire key unsolvedCountTTL).2 := by
  unfold DefaultRepository.decrementPipeline
  simp only
  split <;> rfl

theorem DefaultRepository.onlyAt_decrementPipeline (key : String) (count : Int) (db : Redis) :
    Redis.OnlyAt key db (DefaultRepository.decrementPipeline key count db).2 := by
  rw [DefaultRepository.decrementPipeline_state]
  exact (Redis.onlyAt_evalDecrement key count db).trans (Redis.onlyAt_expire key _ _)

theorem DefaultRepository.DecrementUnsolvedCountBy_state (lib : Lib) (ip : String)
    (count : Int) (r : Redis) :
    (DefaultRepository.DecrementUnsolvedCountBy lib ip count r).2 =
      (r.call (DefaultRepository.decrementPipeline (unsolvedKey lib ip) count)).2 := by
  unfold DefaultRepository.DecrementUnsolvedCountBy unsolvedKey
  simp only
  split <;> (rename_i heq; rw [heq])

theorem DefaultRepository.onlyAt_DecrementUnsolvedCountBy (lib : Lib) (ip : String)
    (count : Int) (r : Redis) :
    Redis.OnlyAt (unsolvedKey lib ip) r
      (DefaultRepository.DecrementUnsolvedCountBy lib ip count r).2 := by
  rw [DefaultRepository.DecrementUnsolvedCountBy_state]
  exact Redis.onlyAt_call _ _ _ (DefaultRepository.onlyAt_decrementPipeline _ _)

theorem DefaultRepository.IncrementUnsolvedCount_state (lib : Lib) (ip : String) (r : Redis) :
    (DefaultRepository.IncrementUnsolvedCount lib ip r).2 =
      (r.call (DefaultRepository.incrementPipeline (unsolvedKey lib ip))).2 := by
  unfold DefaultRepository.IncrementUnsolvedCount unsolvedKey
  simp only
  split <;> (rename_i heq; rw [heq])

theorem DefaultRepository.onlyAt_IncrementUnsolvedCount (lib : Lib) (ip : String) (r : Redis) :
    Redis.OnlyAt (unsolvedKey lib ip) r (DefaultRepository.IncrementUnsolvedCount lib ip r).2 := by
  rw [DefaultRepository.IncrementUnsolvedCount_state]
  exact Redis.onlyAt_call _ _ _ (DefaultRepository.onlyAt_incrementPipeline _)

theorem DefaultRepository.GetTask_of_absent {taskID : String} {r : Redis}
    (h : r.live (taskKey taskID) = none) :
    (DefaultRepository.GetTask taskID r).1 = .error ErrTaskNotFound ∨
      (DefaultRepository.GetTask taskID r).1 = .error ErrRedisOperation := by
  unfold DefaultRepository.GetTask
  rcases Redis.call_cases r (fun db => db.get ("task:" ++ taskID)) with
    ⟨rest, hc⟩ | ⟨text, rest, hc⟩
  · rw [hc]
    have hl : Redis.live { r with faults := rest } ("task:" ++ taskID) = none := h
    left
    simp only [Redis.get, hl]
  · rw [hc]
    right
    rfl

/-! ## C13: one-shot consumption -/

theorem Service.CreateChallenge_state_task {σ : Type} (s : Service σ) (clientIP uuid : String)
    (entropy : Except String (List UInt8)) (st : σ) :
    (s.CreateChallenge clientIP uuid entropy st).state =
        (s.repo.IncrementUnsolvedCount clientIP st).2 ∨
      (s.CreateChallenge clientIP uuid entropy st).state =
        (s.repo.GetAndIncrementRequestCount clientIP
          (s.repo.IncrementUnsolvedCount clientIP st).2).2 ∨
      ∃ seed level, (s.CreateChallenge clientIP uuid entropy st).state =
        (s.repo.CreateTask ⟨uuid, seed, level, ""⟩ s.config.ChallengeTTL
          (s.repo.GetAndIncrementRequestCount clientIP
            (s.repo.IncrementUnsolvedCount clientIP st).2).2).2 := by
  unfold Service.CreateChallenge
  rcases h1 : s.repo.IncrementUnsolvedCount clientIP st with ⟨_ | n, st1⟩
  · left; rfl
  · simp only
    split
    · left; rfl
    · rcases h2 : s.repo.GetAndIncrementRequestCount clientIP st1 with ⟨_ | c, st2⟩
      · right; left; rfl
      · simp only
        cases s.utils.CalculateDifficultyLevel c with
        | none => right; left; rfl
        | some level =>
          simp only
          cases s.utils.GenerateRandomSeed entropy with
          | error e => right; left; rfl
          | ok seed =>
            simp only
            right; right
            refine ⟨seed, level, ?_⟩
            rcases h3 : s.repo.CreateTask
              { ID := uuid, Seed := seed, DifficultyLevel := level, Result := "" }
              s.config.ChallengeTTL st2 with ⟨_ | u, st3⟩
            · rfl
            · rfl

theorem Service.ValidateChallenge_state {σ : Type} (lib : Lib) (s : Service σ)
    (clientIP challengeID nonce : String) (draw : ℚ) (st : σ) :
    (s.ValidateChallenge lib clientIP challengeID nonce draw st).state = st ∨
      (s.ValidateChallenge lib clientIP challengeID nonce draw st).state =
        (s.repo.GetTask challengeID st).2 ∨
      (s.ValidateChallenge lib clientIP challengeID nonce draw st).state =
        (s.repo.DecrementUnsolvedCountBy clientIP 2
          (s.repo.DeleteTask challengeID (s.repo.GetTask challengeID st).2).2).2 ∨
      (s.ValidateChallenge lib clientIP challengeID nonce draw st).state =
        (s.repo.DecrementUnsolvedCount clientIP
          (s.repo.DeleteTask challengeID (s.repo.GetTask challengeID st).2).2).2 := by
  unfold Service.ValidateChallenge
  split
  · left; rfl
  · rcases h1 : s.repo.GetTask challengeID st with ⟨e | task, st1⟩
    · right; left; rfl
    · simp only
      cases s.utils.VerifySolution challengeID task.Seed nonce task.DifficultyLevel with
      | none => right; left; rfl
      | some b =>
        cases b with
        | false => right; left; rfl
        | true =>
          simp only
          split
          · right; right; left
            rcases h3 : s.repo.DecrementUnsolvedCountBy clientIP 2
              (s.repo.DeleteTask challengeID st1).2 with ⟨_ | u, st3⟩ <;> rfl
          · right; right; right
            rcases h3 : s.repo.DecrementUnsolvedCount clientIP
              (s.repo.DeleteTask challengeID st1).2 with ⟨_ | u, st3⟩ <;> rfl

theorem Service.ValidateChallenge_ok_state {σ : Type} (lib : Lib) (s : Service σ)
    (clientIP challengeID nonce : String) (draw : ℚ) (st : σ)
    (hok : (s.ValidateChallenge lib clientIP challengeID nonce draw st).result = .ok ()) :
    (s.ValidateChallenge lib clientIP challengeID nonce draw st).state =
        (s.repo.DecrementUnsolvedCountBy clientIP 2
          (s.repo.DeleteTask challengeID (s.repo.GetTask challengeID st).2).2).2 ∨
      (s.ValidateChallenge lib clientIP challengeID nonce draw st).state =
        (s.repo.DecrementUnsolvedCount clientIP
          (s.repo.DeleteTask challengeID (s.repo.GetTask challengeID st).2).2).2 := by
  unfold Service.ValidateChallenge at hok ⊢
  split at hok
  · cases hok
  · rename_i hu
    simp only [if_neg hu]
    rcases h1 : s.repo.GetTask challengeID st with ⟨e | task, st1⟩
    · rw [h1] at hok; cases hok
    · rw [h1] at hok
      simp only at hok ⊢
      cases hv : s.utils.VerifySolution challengeID task.Seed nonce task.DifficultyLevel with
      | none => rw [hv] at hok; cases hok
      | some b =>
        cases b with
        | false => rw [hv] at hok; cases hok
        | true =>
          simp only
          split
          · left
            rcases h3 : s.repo.DecrementUnsolvedCountBy clientIP 2
              (s.repo.DeleteTask challengeID st1).2 with ⟨_ | u, st3⟩ <;> rfl
          · right
            rcases h3 : s.repo.DecrementUnsolvedCount clientIP
              (s.repo.DeleteTask challengeID st1).2 with ⟨_ | u, st3⟩ <;> rfl

/-- On the server, `ValidateChallenge` never makes an absent record present. -/
theorem server_ValidateChallenge_keeps_absent (lib : Lib) (config : PowConfig)
    (clientIP challengeID nonce : String) (draw : ℚ) (r : Redis) (taskID : String)
    (h : r.live (taskKey taskID) = none) :
    ((server lib config).ValidateChallenge lib clientIP challengeID nonce draw r).state.live
      (taskKey taskID) = none := by
  have hne : taskKey taskID ≠ unsolvedKey lib clientIP := fun e => unsolved_ne_task _ _ e.symm
  have hget : (DefaultRepository.GetTask challengeID r).2.live (taskKey taskID) = none := by
    have hs := DefaultRepository.GetTask_store challengeID r
    unfold Redis.live at h ⊢
    rw [hs.1, hs.2]
    exact h
  have hdel := DefaultRepository.DeleteTask_keeps_absent challengeID
    (DefaultRepository.GetTask challengeID r).2 (taskKey taskID) hget
  rcases Service.ValidateChallenge_state lib (server lib config) clientIP challengeID nonce
    draw r with hs | hs | hs | hs
  · rw [hs]; exact h
  · rw [hs]; exact hget
  · rw [hs]
    exact ((DefaultRepository.onlyAt_DecrementUnsolvedCountBy lib clientIP 2 _).live_eq _
      hne).trans hdel
  · rw [hs]
    exact ((DefaultRepository.onlyAt_DecrementUnsolvedCountBy lib clientIP 1 _).live_eq _
      hne).trans hdel

/-- On the server, a `CreateChallenge` with another fresh UUID leaves an absent record
absent. -/
theorem server_CreateChallenge_keeps_absent (lib : Lib) (config : PowConfig)
    (clientIP uuid : String) (entropy : Except String (List UInt8)) (r : Redis)
    (taskID : String) (hne : uuid ≠ taskID) (h : r.live (taskKey taskID) = none) :
    ((server lib config).CreateChallenge clientIP uuid entropy r).state.live
      (taskKey taskID) = none := by
  have hu : taskKey taskID ≠ unsolvedKey lib clientIP := fun e => unsolved_ne_task _ _ e.symm
  have hd : taskKey taskID ≠ difficultyKey lib clientIP := by
    intro e
    have h2 := congrArg String.data e
    simp [taskKey, difficultyKey, String.data_append] at h2
  have ht : taskKey taskID ≠ taskKey uuid := fun e => hne (taskKey_injective e).symm
  have h1 := (DefaultRepository.onlyAt_IncrementUnsolvedCount lib clientIP r).live_eq _ hu
  have h2 := (DefaultRepository.onlyAt_GetAndIncrementRequestCount lib clientIP
    (DefaultRepository.IncrementUnsolvedCount lib clientIP r).2).live_eq _ hd
  rcases Service.CreateChallenge_state_task (server lib config) clientIP uuid entropy r with
    hs | hs | ⟨seed, level, hs⟩
  · rw [hs]; exact h1.trans h
  · rw [hs]; exact h2.trans (h1.trans h)
  · rw [hs]
    have h3 := (DefaultRepository.onlyAt_CreateTask ⟨uuid, seed, level, ""⟩
      (server lib config).config.ChallengeTTL
      (DefaultRepository.GetAndIncrementRequestCount lib clientIP
        (DefaultRepository.IncrementUnsolvedCount lib clientIP r).2).2).live_eq _ ht
    exact h3.trans (h2.trans (h1.trans h))

theorem runOps_keeps_absent (lib : Lib) (config : PowConfig) (taskID : String)
    (ops : List Op) (r : Redis) (hops : ∀ op ∈ ops, op.creates taskID = false)
    (h : r.live (taskKey taskID) = none) :
    (runOps lib config ops r).live (taskKey taskID) = none := by
  unfold runOps
  induction ops generalizing r with
  | nil => exact h
  | cons op rest ih =>
    simp only [List.foldl_cons]
    apply ih
    · intro o ho
      exact hops o (List.mem_cons_of_mem _ ho)
    · have hop := hops op (List.mem_cons_self _ _)
      cases op with
      | create ip uuid entropy =>
        have hne : uuid ≠ taskID := by
          simpa [Op.creates] using hop
        exact server_CreateChallenge_keeps_absent lib config ip uuid entropy r taskID hne h
      | validate ip cid nonce draw =>
        exact server_ValidateChallenge_keeps_absent lib config ip cid nonce draw r taskID h
      | advance d => exact Redis.live_advance_none d h

/-- C13. On the server, after a `ValidateChallenge` for an id succeeded and its `DeleteTask`
did not fail, the record is gone, and after any further events other than a `CreateChallenge`
whose fresh UUID is that id (calls of either kind for any source, passing of time), every
`ValidateChallenge` for that id, with any nonce, source and draw, fails with the error
"invalid challenge: task not found" (or "invalid challenge: redis operation failed" when the
connection to the store fails). -/
theorem server_one_shot (lib : Lib) (config : PowConfig)
    (clientIP challengeID nonce : String) (draw : ℚ) (r : Redis)
    (hok : ((server lib config).ValidateChallenge lib clientIP challengeID nonce draw
      r).result = .ok ())
    (hdel : (DefaultRepository.DeleteTask challengeID
      (DefaultRepository.GetTask challengeID r).2).1 = .ok ())
    (ops : List Op) (hops : ∀ op ∈ ops, op.creates challengeID = false)
    (clientIP2 nonce2 : String) (draw2 : ℚ) :
    ((server lib config).ValidateChallenge lib clientIP challengeID nonce draw r).state.live
        (taskKey challengeID) = none ∧
      ∃ err, (err = ErrTaskNotFound ∨ err = ErrRedisOperation) ∧
        ((server lib config).ValidateChallenge lib clientIP2 challengeID nonce2 draw2
          (runOps lib config ops
            ((server lib config).ValidateChallenge lib clientIP challengeID nonce draw
              r).state)).result = .error ("invalid challenge: " ++ err) := by
  have hid := (Service.ValidateChallenge_ok lib _ _ _ _ _ _ hok).1
  have hne : taskKey challengeID ≠ unsolvedKey lib clientIP :=
    fun e => unsolved_ne_task _ _ e.symm
  have hgone : ((server lib config).ValidateChallenge lib clientIP challengeID nonce draw
      r).state.live (taskKey challengeID) = none := by
    have hd := DefaultRepository.DeleteTask_ok hdel
    rcases Service.ValidateChallenge_ok_state lib (server lib config) clientIP challengeID
      nonce draw r hok with hs | hs
    · rw [hs]
      exact ((DefaultRepository.onlyAt_DecrementUnsolvedCountBy lib clientIP 2 _).live_eq _
        hne).trans hd
    · rw [hs]
      exact ((DefaultRepository.onlyAt_DecrementUnsolvedCountBy lib clientIP 1 _).live_eq _
        hne).trans hd
  refine ⟨hgone, ?_⟩
  have hlater := runOps_keeps_absent lib config challengeID ops _ hops hgone
  rcases DefaultRepository.GetTask_of_absent hlater with hg | hg
  · exact ⟨ErrTaskNotFound, Or.inl rfl, congrArg Run.result
      (Service.ValidateChallenge_miss lib (server lib config) clientIP2 challengeID nonce2
        draw2 _ hid _ hg)⟩
  · exact ⟨ErrRedisOperation, Or.inr rfl, congrArg Run.result
      (Service.ValidateChallenge_miss lib (server lib config) clientIP2 challengeID nonce2
        draw2 _ hid _ hg)⟩

/-- Witness of `server_one_shot`: the challenge issued in `sampleIssued` is solved once; after
the events `sampleAftermath` a second submission for the same id fails. -/
theorem server_one_shot_witness :
    ((server sampleLib DefaultConfig).ValidateChallenge sampleLib sampleSource sampleUUID
        "nonce" (mkRat 1 2) sampleIssued).state.live (taskKey sampleUUID) = none ∧
      ∃ err, (err = ErrTaskNotFound ∨ err = ErrRedisOperation) ∧
        ((server sampleLib DefaultConfig).ValidateChallenge sampleLib sampleSource sampleUUID
          "nonce" (mkRat 1 2)
          (runOps sampleLib DefaultConfig sampleAftermath
            ((server sampleLib DefaultConfig).ValidateChallenge sampleLib sampleSource
              sampleUUID "nonce" (mkRat 1 2) sampleIssued).state)).result =
          .error ("invalid challenge: " ++ err) :=
  server_one_shot sampleLib DefaultConfig sampleSource sampleUUID "nonce" (mkRat 1 2)
    sampleIssued (by decide) rfl sampleAftermath (by decide) sampleSource "nonce" (mkRat 1 2)

/-! ## Lemmas on the decrement pipeline -/

theorem Redis.expire_of_absent {r : Redis} {key : String} (d : Int)
    (h : r.live key = none) : r.expire key d = (.ok false, r) := by
  unfold Redis.expire
  simp only [h]

theorem DefaultRepository.decrementPipeline_of_absent {db : Redis} {key : String}
    (count : Int) (h : db.live key = none) :
    DefaultRepository.decrementPipeline key count db = (.ok (), db) := by
  unfold DefaultRepository.decrementPipeline
  have e1 : db.evalDecrement key count = (.ok (), db) := by
    unfold Redis.evalDecrement
    simp only [h]
  rw [e1]
  simp only
  rw [Redis.expire_of_absent _ h]

theorem Redis.evalDecrement_of_int {r : Redis} {key : String} {c : Int} {t : Option Int}
    (count : Int) (h : r.live key = some ⟨.int c, t⟩) :
    r.evalDecrement key count = r.luaDecrement key (Redis.float64OfInt c) count := by
  unfold Redis.evalDecrement
  simp only [h]

theorem DefaultRepository.decrementPipeline_of_int {db : Redis} {key : String} {c : Int}
    {t : Option Int} (count : Int) (h : db.live key = some ⟨.int c, t⟩)
    (hc0 : 0 ≤ c) (hc : c ≤ 2 ^ 53) (hn : 0 ≤ count) :
    (DefaultRepository.decrementPipeline key count db).1 = .ok () ∧
      (DefaultRepository.decrementPipeline key count db).2.live key =
        some ⟨.int (max 0 (c - count)), some (db.now + unsolvedCountTTL)⟩ ∧
      (DefaultRepository.decrementPipeline key count db).2.now = db.now ∧
      (DefaultRepository.decrementPipeline key count db).2.faults = db.faults := by
  have hd : (0 : Int) < unsolvedCountTTL := by decide
  have hfc : Redis.float64OfInt c = c := Redis.float64OfInt_of_abs_le (by omega) hc
  have hle : max 0 (c - count) ≤ 2 ^ 62 := by
    have : (2 : Int) ^ 53 ≤ 2 ^ 62 := by norm_num
    rcases le_total 0 (c - count) with h1 | h1
    · rw [max_eq_right h1]; omega
    · rw [max_eq_left h1]; norm_num
  have hv := Redis.luaDecrement_value hc0 hc hn
  rw [hfc] at hv
  unfold DefaultRepository.decrementPipeline
  rw [Redis.evalDecrement_of_int count h, hfc]
  by_cases hpos : c > 0
  · have e1 : db.luaDecrement key c count =
        (.ok (), db.put key ⟨.int (max 0 (c - count)), none⟩) := by
      unfold Redis.luaDecrement
      rw [if_pos hpos, hv]
      unfold Redis.luaNumberValue
      rw [if_pos hle]
    have hl : (db.put key ⟨.int (max 0 (c - count)), none⟩).live key =
        some ⟨.int (max 0 (c - count)), none⟩ := by
      rw [Redis.live_put_self]
    obtain ⟨h1, h2, h3, h4⟩ := Redis.expire_live hl hd
    have e2 : (db.put key ⟨.int (max 0 (c - count)), none⟩).expire key unsolvedCountTTL =
        (.ok true, ((db.put key ⟨.int (max 0 (c - count)), none⟩).expire key
          unsolvedCountTTL).2) := by rw [← h1]
    rw [e1]
    simp only
    rw [e2]
    exact ⟨rfl, h2, h3, h4⟩
  · have e1 : db.luaDecrement key c count = (.ok (), db) := by
      unfold Redis.luaDecrement
      rw [if_neg hpos]
    have hval : max 0 (c - count) = c := by
      rw [max_eq_left (by omega)]
      omega
    obtain ⟨h1, h2, h3, h4⟩ := Redis.expire_live h hd
    have e2 : db.expire key unsolvedCountTTL =
        (.ok true, (db.expire key unsolvedCountTTL).2) := by rw [← h1]
    rw [e1]
    simp only
    rw [e2, hval]
    exact ⟨rfl, h2, h3, h4⟩

theorem DefaultRepository.decrementPipeline_fst (key : String) (count : Int) (db : Redis) :
    (DefaultRepository.decrementPipeline key count db).1 = (db.evalDecrement key count).1 := by
  unfold DefaultRepository.decrementPipeline
  simp only
  obtain ⟨b, hb⟩ := Redis.expire_no_error (db.evalDecrement key count).2 key unsolvedCountTTL
  have e2 : ((db.evalDecrement key count).2.expire key unsolvedCountTTL) =
      (.ok b, ((db.evalDecrement key count).2.expire key unsolvedCountTTL).2) := by rw [← hb]
  cases hi : (db.evalDecrement key count).1 with
  | error e =>
    have e1 : (db.evalDecrement key count) = (.error e, (db.evalDecrement key count).2) := by
      rw [← hi]
    rw [e1]
  | ok m =>
    have e1 : (db.evalDecrement key count) = (.ok m, (db.evalDecrement key count).2) := by
      rw [← hi]
    rw [e1]
    simp only
    rw [e2]

theorem Redis.evalDecrement_ok_entry {r : Redis} {key : String} {count : Int}
    (h : (r.evalDecrement key count).1 = .ok ()) : r.Numeric key := by
  unfold Redis.evalDecrement at h
  unfold Redis.Numeric
  cases hl : r.live key with
  | none => left; rfl
  | some e =>
    right
    rcases e with ⟨v, t⟩
    cases v with
    | int c => exact Or.inl ⟨c, t, rfl⟩
    | str s =>
      cases hx : Redis.luaToNumber s with
      | none => simp [hl, hx] at h
      | some x => exact Or.inr ⟨s, t, x, rfl, hx⟩
    | zset ms => simp [hl, Redis.wrongType] at h

theorem Redis.evalDecrement_of_numeric {r : Redis} {key : String} (count : Int)
    (h : r.Numeric key) : (r.evalDecrement key count).1 = .ok () := by
  unfold Redis.evalDecrement
  rcases h with hl | ⟨c, t, hl⟩ | ⟨s, t, x, hl, hx⟩
  · simp only [hl]
  · simp only [hl]
    exact Redis.luaDecrement_fst _ _ _ _
  · simp only [hl, hx]
    exact Redis.luaDecrement_fst _ _ _ _

theorem Redis.numeric_of_value {r r' : Redis} {key : String}
    (h : ∀ e, r.live key = some e → ∃ t, r'.live key = some ⟨e.value, t⟩)
    (h0 : r.live key = none → r'.live key = none) (hn : r.Numeric key) : r'.Numeric key := by
  rcases hn with hl | ⟨c, t, hl⟩ | ⟨s, t, x, hl, hx⟩
  · exact Or.inl (h0 hl)
  · obtain ⟨t2, h2⟩ := h _ hl
    exact Or.inr (Or.inl ⟨c, t2, h2⟩)
  · obtain ⟨t2, h2⟩ := h _ hl
    exact Or.inr (Or.inr ⟨s, t2, x, h2, hx⟩)

theorem Redis.numeric_of_live_eq {r r' : Redis} {key : String}
    (h : r'.live key = r.live key) (hn : r.Numeric key) : r'.Numeric key := by
  unfold Redis.Numeric at *
  rw [h]
  exact hn

theorem Redis.numeric_luaDecrement {r : Redis} {key : String} (x count : Int)
    (h : r.Numeric key) : (r.luaDecrement key x count).2.Numeric key := by
  unfold Redis.luaDecrement
  split
  · have hl : ∀ v, (r.put key ⟨v, none⟩).live key = some ⟨v, none⟩ := by
      intro v
      rw [Redis.live_put_self]
    rcases Redis.luaNumberValue_numeric
      (max 0 (Redis.float64OfInt (x - Redis.float64OfInt count))) (le_max_left _ _)
      with ⟨c, hc, -⟩ | ⟨s, y, hs, hy⟩
    · rw [hc]
      exact Or.inr (Or.inl ⟨c, none, hl _⟩)
    · rw [hs]
      exact Or.inr (Or.inr ⟨s, none, y, hl _, hy⟩)
  · exact h

theorem Redis.numeric_evalDecrement {r : Redis} {key : String} (count : Int)
    (h : r.Numeric key) : (r.evalDecrement key count).2.Numeric key := by
  unfold Redis.evalDecrement
  rcases h with hl | ⟨c, t, hl⟩ | ⟨s, t, x, hl, hx⟩
  · simp only [hl]
    exact Or.inl hl
  · simp only [hl]
    exact Redis.numeric_luaDecrement _ _ (Or.inr (Or.inl ⟨c, t, hl⟩))
  · simp only [hl, hx]
    exact Redis.numeric_luaDecrement _ _ (Or.inr (Or.inr ⟨s, t, x, hl, hx⟩))

theorem Redis.numeric_expire {r : Redis} {key : String} (h : r.Numeric key) :
    (r.expire key unsolvedCountTTL).2.Numeric key := by
  have hd : (0 : Int) < unsolvedCountTTL := by decide
  apply Redis.numeric_of_value _ _ h
  · intro e he
    exact ⟨_, (Redis.expire_live he hd).2.1⟩
  · intro h0
    rw [Redis.expire_of_absent _ h0]
    exact h0

theorem Redis.evalDecrement_not_nil (r : Redis) (key : String) (count : Int) :
    (r.evalDecrement key count).1 ≠ .error .Nil := by
  unfold Redis.evalDecrement
  cases r.live key with
  | none => simp
  | some e =>
    simp only
    cases e.value with
    | str s =>
      simp only
      cases Redis.luaToNumber s with
      | none => simp
      | some x => rw [Redis.luaDecrement_fst]; simp
    | zset ms => simp [Redis.wrongType]
    | int m => rw [Redis.luaDecrement_fst]; simp

/-- A decrement that returns no error leaves an absent counter or one the script reads as a
number. -/
theorem DefaultRepository.DecrementUnsolvedCountBy_ok_entry {lib : Lib} {ip : String}
    {count : Int} {r : Redis}
    (h : (DefaultRepository.DecrementUnsolvedCountBy lib ip count r).1 = .ok ()) :
    (DefaultRepository.DecrementUnsolvedCountBy lib ip count r).2.Numeric
      (unsolvedKey lib ip) := by
  rw [DefaultRepository.DecrementUnsolvedCountBy_state]
  unfold DefaultRepository.DecrementUnsolvedCountBy at h
  simp only at h
  rcases Redis.call_cases r (DefaultRepository.decrementPipeline (unsolvedKey lib ip) count)
    with ⟨rest, hc⟩ | ⟨text, rest, hc⟩
  · have hc2 : r.call (DefaultRepository.decrementPipeline
        ("unsolved:" ++ hashIPAddress lib ip) count) = _ := hc
    rw [hc2] at h
    rw [hc]
    have hfst := DefaultRepository.decrementPipeline_fst (unsolvedKey lib ip) count
      { r with faults := rest }
    cases hp : (DefaultRepository.decrementPipeline (unsolvedKey lib ip) count
      { r with faults := rest }).1 with
    | error e =>
      have e1 : DefaultRepository.decrementPipeline (unsolvedKey lib ip) count
          { r with faults := rest } = (.error e, (DefaultRepository.decrementPipeline
            (unsolvedKey lib ip) count { r with faults := rest }).2) := by rw [← hp]
      rw [e1] at h
      cases e with
      | Nil =>
        rw [hp] at hfst
        exact absurd hfst.symm (Redis.evalDecrement_not_nil _ _ _)
      | failure t => simp at h
    | ok u =>
      rw [hp] at hfst
      rw [DefaultRepository.decrementPipeline_state]
      exact Redis.numeric_expire
        (Redis.numeric_evalDecrement count (Redis.evalDecrement_ok_entry hfst.symm))
  · have hc2 : r.call (DefaultRepository.decrementPipeline
        ("unsolved:" ++ hashIPAddress lib ip) count) = _ := hc
    rw [hc2] at h
    simp at h

/-- Over a working connection a decrement of an absent counter, or of one the script reads as a
number, returns no error. -/
theorem DefaultRepository.DecrementUnsolvedCountBy_of_numeric {lib : Lib} {ip : String}
    (count : Int) {r : Redis} (hconn : ∀ text, r.faults.head? ≠ some (some text))
    (h : r.Numeric (unsolvedKey lib ip)) :
    (DefaultRepository.DecrementUnsolvedCountBy lib ip count r).1 = .ok () := by
  unfold DefaultRepository.DecrementUnsolvedCountBy
  simp only
  obtain ⟨rest, hc⟩ := Redis.call_of_connected r
    (DefaultRepository.decrementPipeline ("unsolved:" ++ hashIPAddress lib ip) count) hconn
  rw [hc]
  have hp : (DefaultRepository.decrementPipeline ("unsolved:" ++ hashIPAddress lib ip) count
      { r with faults := rest }).1 = .ok () := by
    rw [DefaultRepository.decrementPipeline_fst]
    exact @Redis.evalDecrement_of_numeric { r with faults := rest } _ count h
  have e1 : DefaultRepository.decrementPipeline ("unsolved:" ++ hashIPAddress lib ip) count
      { r with faults := rest } = (.ok (), (DefaultRepository.decrementPipeline
        ("unsolved:" ++ hashIPAddress lib ip) count { r with faults := rest }).2) := by
    rw [← hp]
  rw [e1]

/-- Over a working connection a decrement of an absent or integer counter returns no error. -/
theorem DefaultRepository.DecrementUnsolvedCountBy_of_entry {lib : Lib} {ip : String}
    (count : Int) {r : Redis} (hconn : ∀ text, r.faults.head? ≠ some (some text))
    (h : r.live (unsolvedKey lib ip) = none ∨
      ∃ c t, r.live (unsolvedKey lib ip) = some ⟨.int c, t⟩) :
    (DefaultRepository.DecrementUnsolvedCountBy lib ip count r).1 = .ok () :=
  DefaultRepository.DecrementUnsolvedCountBy_of_numeric count hconn
    (h.elim Or.inl fun h2 => Or.inr (Or.inl h2))

/-! ## Lemmas on the accepting path of `ValidateChallenge` -/

/-- The collaborator calls of a `ValidateChallenge` that reached the decrement by 2. -/
theorem Service.ValidateChallenge_lucky {σ : Type} (lib : Lib) (s : Service σ)
    (clientIP challengeID nonce : String) (draw : ℚ) (st : σ) (task : Task)
    (hid : lib.uuidParse challengeID = true)
    (hget : (s.repo.GetTask challengeID st).1 = .ok task)
    (hver : s.utils.VerifySolution challengeID task.Seed nonce task.DifficultyLevel =
      some true)
    (hdraw : draw < forgiveThreshold) :
    s.ValidateChallenge lib clientIP challengeID nonce draw st =
      ⟨match (s.repo.DecrementUnsolvedCountBy clientIP 2
          (s.repo.DeleteTask challengeID (s.repo.GetTask challengeID st).2).2).1 with
        | .ok _ => .ok ()
        | .error err => .error ("failed to update challenge count: " ++ err),
        (s.repo.DecrementUnsolvedCountBy clientIP 2
          (s.repo.DeleteTask challengeID (s.repo.GetTask challengeID st).2).2).2,
        [.uuidParse challengeID, .GetTask challengeID,
          .VerifySolution challengeID task.Seed nonce task.DifficultyLevel,
          .DeleteTask challengeID, .Float32, .DecrementUnsolvedCountBy clientIP 2]⟩ := by
  unfold Service.ValidateChallenge
  rcases h1 : s.repo.GetTask challengeID st with ⟨e | task1, st1⟩
  · rw [h1] at hget; cases hget
  · rw [h1] at hget; cases hget
    simp only [hid, hver, if_pos hdraw]
    rcases h3 : s.repo.DecrementUnsolvedCountBy clientIP 2
      (s.repo.DeleteTask challengeID st1).2 with ⟨err | u, st3⟩
    · simp
    · simp

/-- The collaborator calls of a `ValidateChallenge` that reached the decrement by 1. -/
theorem Service.ValidateChallenge_regular {σ : Type} (lib : Lib) (s : Service σ)
    (clientIP challengeID nonce : String) (draw : ℚ) (st : σ) (task : Task)
    (hid : lib.uuidParse challengeID = true)
    (hget : (s.repo.GetTask challengeID st).1 = .ok task)
    (hver : s.utils.VerifySolution challengeID task.Seed nonce task.DifficultyLevel =
      some true)
    (hdraw : ¬ draw < forgiveThreshold) :
    s.ValidateChallenge lib clientIP challengeID nonce draw st =
      ⟨match (s.repo.DecrementUnsolvedCount clientIP
          (s.repo.DeleteTask challengeID (s.repo.GetTask challengeID st).2).2).1 with
        | .ok _ => .ok ()
        | .error err => .error ("failed to update challenge count: " ++ err),
        (s.repo.DecrementUnsolvedCount clientIP
          (s.repo.DeleteTask challengeID (s.repo.GetTask challengeID st).2).2).2,
        [.uuidParse challengeID, .GetTask challengeID,
          .VerifySolution challengeID task.Seed nonce task.DifficultyLevel,
          .DeleteTask challengeID, .Float32, .DecrementUnsolvedCount clientIP]⟩ := by
  unfold Service.ValidateChallenge
  rcases h1 : s.repo.GetTask challengeID st with ⟨e | task1, st1⟩
  · rw [h1] at hget; cases hget
  · rw [h1] at hget; cases hget
    simp only [hid, hver, if_neg hdraw]
    rcases h3 : s.repo.DecrementUnsolvedCount clientIP
      (s.repo.DeleteTask challengeID st1).2 with ⟨err | u, st3⟩
    · simp
    · simp

/-- A `ValidateChallenge` that returned success ended with a decrement that returned no
error. -/
theorem Service.ValidateChallenge_ok_decrement {σ : Type} (lib : Lib) (s : Service σ)
    (clientIP challengeID nonce : String) (draw : ℚ) (st : σ)
    (hok : (s.ValidateChallenge lib clientIP challengeID nonce draw st).result = .ok ()) :
    (draw < forgiveThreshold ∧
        (s.repo.DecrementUnsolvedCountBy clientIP 2
          (s.repo.DeleteTask challengeID (s.repo.GetTask challengeID st).2).2).1 = .ok () ∧
        (s.ValidateChallenge lib clientIP challengeID nonce draw st).state =
          (s.repo.DecrementUnsolvedCountBy clientIP 2
            (s.repo.DeleteTask challengeID (s.repo.GetTask challengeID st).2).2).2) ∨
      (¬ draw < forgiveThreshold ∧
        (s.repo.DecrementUnsolvedCount clientIP
          (s.repo.DeleteTask challengeID (s.repo.GetTask challengeID st).2).2).1 = .ok () ∧
        (s.ValidateChallenge lib clientIP challengeID nonce draw st).state =
          (s.repo.DecrementUnsolvedCount clientIP
            (s.repo.DeleteTask challengeID (s.repo.GetTask challengeID st).2).2).2) := by
  obtain ⟨hid, task, hget, hver⟩ := Service.ValidateChallenge_ok lib s _ _ _ _ _ hok
  by_cases hdraw : draw < forgiveThreshold
  · left
    have hrun := Service.ValidateChallenge_lucky lib s clientIP challengeID nonce draw st task
      hid hget hver hdraw
    rw [hrun] at hok ⊢
    refine ⟨hdraw, ?_, rfl⟩
    simp only at hok
    cases hd : (s.repo.DecrementUnsolvedCountBy clientIP 2
      (s.repo.DeleteTask challengeID (s.repo.GetTask challengeID st).2).2).1 with
    | error err => rw [hd] at hok; cases hok
    | ok u => rfl
  · right
    have hrun := Service.ValidateChallenge_regular lib s clientIP challengeID nonce draw st
      task hid hget hver hdraw
    rw [hrun] at hok ⊢
    refine ⟨hdraw, ?_, rfl⟩
    simp only at hok
    cases hd : (s.repo.DecrementUnsolvedCount clientIP
      (s.repo.DeleteTask challengeID (s.repo.GetTask challengeID st).2).2).1 with
    | error err => rw [hd] at hok; cases hok
    | ok u => rfl

theorem Redis.get_fst_of_live {r r' : Redis} {key : String} (h : r'.live key = r.live key) :
    (r'.get key).1 = (r.get key).1 := by
  unfold Redis.get
  rw [h]
  cases r.live key with
  | none => rfl
  | some e =>
    simp only
    cases e.value <;> rfl

theorem DefaultRepository.GetTask_ok_live {taskID : String} {r : Redis} {task : Task}
    (h : (DefaultRepository.GetTask taskID r).1 = .ok task) :
    (r.live (taskKey taskID)).isSome = true := by
  unfold DefaultRepository.GetTask at h
  rcases Redis.call_cases r (fun db => db.get ("task:" ++ taskID)) with
    ⟨rest, hc⟩ | ⟨text, rest, hc⟩
  · rw [hc] at h
    cases hl : r.live (taskKey taskID) with
    | some e => rfl
    | none =>
      have hl2 : Redis.live { r with faults := rest } ("task:" ++ taskID) = none := hl
      simp [Redis.get, hl2] at h
  · rw [hc] at h
    simp at h

/-- The result of `GetTask` over a working connection depends only on the record. -/
theorem DefaultRepository.GetTask_of_same_record {taskID : String} {r r' : Redis} {task : Task}
    (h : (DefaultRepository.GetTask taskID r).1 = .ok task)
    (hlive : r'.live (taskKey taskID) = r.live (taskKey taskID))
    (hconn : ∀ text, r'.faults.head? ≠ some (some text)) :
    (DefaultRepository.GetTask taskID r').1 = .ok task := by
  unfold DefaultRepository.GetTask at h ⊢
  obtain ⟨rest', hc'⟩ := Redis.call_of_connected r' (fun db => db.get ("task:" ++ taskID)) hconn
  rcases Redis.call_cases r (fun db => db.get ("task:" ++ taskID)) with
    ⟨rest, hc⟩ | ⟨text, rest, hc⟩
  · rw [hc] at h
    rw [hc']
    have hfst : (Redis.get { r' with faults := rest' } ("task:" ++ taskID)).1 =
        (Redis.get { r with faults := rest } ("task:" ++ taskID)).1 :=
      Redis.get_fst_of_live hlive
    cases hg : (Redis.get { r with faults := rest } ("task:" ++ taskID)).1 with
    | error e =>
      have e1 : Redis.get { r with faults := rest } ("task:" ++ taskID) =
          (.error e, (Redis.get { r with faults := rest } ("task:" ++ taskID)).2) := by
        rw [← hg]
      rw [e1] at h
      cases e <;> simp at h
    | ok res =>
      have e1 : Redis.get { r with faults := rest } ("task:" ++ taskID) =
          (.ok res, (Redis.get { r with faults := rest } ("task:" ++ taskID)).2) := by
        rw [← hg]
      rw [hg] at hfst
      have e2 : Redis.get { r' with faults := rest' } ("task:" ++ taskID) =
          (.ok res, (Redis.get { r' with faults := rest' } ("task:" ++ taskID)).2) := by
        rw [← hfst]
      rw [e1] at h
      rw [e2]
      exact h
  · rw [hc] at h
    simp at h

theorem Redis.call_faults_nil {α : Type} {r : Redis}
    (cmd : Redis → Except RedisError α × Redis) (hf : r.faults = [])
    (h : ∀ db, (cmd db).2.faults = db.faults) : (r.call cmd).2.faults = [] := by
  unfold Redis.call
  simp only [hf]
  rw [h, hf]

theorem DefaultRepository.GetTask_faults_nil {taskID : String} {r : Redis}
    (hf : r.faults = []) : (DefaultRepository.GetTask taskID r).2.faults = [] := by
  have h := Redis.call_faults_nil (fun db => db.get ("task:" ++ taskID)) hf
    (fun db => by rw [Redis.get_state])
  unfold DefaultRepository.GetTask
  split <;> (rename_i heq; rw [heq] at h; exact h)

theorem Redis.del_faults (r : Redis) (key : String) : (r.del key).2.faults = r.faults := by
  rcases Redis.del_state r key with h | h
  · rw [h]
  · rw [h]; rfl

theorem DefaultRepository.DeleteTask_call_state (taskID : String) (r : Redis) :
    (DefaultRepository.DeleteTask taskID r).2 =
      (r.call fun db => db.del ("task:" ++ taskID)).2 := by
  unfold DefaultRepository.DeleteTask
  simp only
  split
  · rename_i heq; rw [heq]
  · rename_i heq; rw [heq]; split <;> rfl

theorem DefaultRepository.DeleteTask_faults_nil {taskID : String} {r : Redis}
    (hf : r.faults = []) : (DefaultRepository.DeleteTask taskID r).2.faults = [] := by
  rw [DefaultRepository.DeleteTask_call_state]
  exact Redis.call_faults_nil _ hf (fun db => Redis.del_faults db _)

theorem Redis.onlyAt_del (key : String) (r : Redis) : Redis.OnlyAt key r (r.del key).2 := by
  rcases Redis.del_state r key with h | h
  · rw [h]; exact Redis.OnlyAt.refl _ _
  · rw [h]; exact Redis.onlyAt_remove _ _

theorem DefaultRepository.onlyAt_DeleteTask (taskID : String) (r : Redis) :
    Redis.OnlyAt (taskKey taskID) r (DefaultRepository.DeleteTask taskID r).2 := by
  rw [DefaultRepository.DeleteTask_call_state]
  exact Redis.onlyAt_call _ _ _ (fun db => Redis.onlyAt_del _ db)

/-- A `DeleteTask` that returns an error on a present record left the keyspace as it was. -/
theorem DefaultRepository.DeleteTask_error_keeps {taskID : String} {r : Redis} {e : String}
    (h : (DefaultRepository.DeleteTask taskID r).1 = .error e)
    (hlive : (r.live (taskKey taskID)).isSome = true) (k : String) :
    (DefaultRepository.DeleteTask taskID r).2.live k = r.live k := by
  rw [DefaultRepository.DeleteTask_call_state]
  unfold DefaultRepository.DeleteTask at h
  simp only at h
  rcases Redis.call_cases r (fun db => db.del ("task:" ++ taskID)) with
    ⟨rest, hc⟩ | ⟨text, rest, hc⟩
  · exfalso
    rw [hc] at h
    have hl : (Redis.live { r with faults := rest } ("task:" ++ taskID)).isSome = true := hlive
    cases hl2 : Redis.live { r with faults := rest } ("task:" ++ taskID) with
    | none => rw [hl2] at hl; cases hl
    | some en =>
      simp [Redis.del, hl2] at h
  · rw [hc]
    rfl

/-! ## C14: a failing `DeleteTask` -/

/-- On the server, after a `ValidateChallenge` that succeeded although its `DeleteTask`
returned an error, the record is still present, and over a working connection a second
submission of the same nonce for the same id by the same source succeeds, for any draw. -/
theorem server_replay_after_failed_delete (lib : Lib) (config : PowConfig)
    (clientIP challengeID nonce : String) (draw : ℚ) (r : Redis) (e : String)
    (hok : ((server lib config).ValidateChallenge lib clientIP challengeID nonce draw
      r).result = .ok ())
    (hdel : (DefaultRepository.DeleteTask challengeID
      (DefaultRepository.GetTask challengeID r).2).1 = .error e) :
    (((server lib config).ValidateChallenge lib clientIP challengeID nonce draw r).state.live
        (taskKey challengeID) = r.live (taskKey challengeID) ∧
      (r.live (taskKey challengeID)).isSome = true) ∧
    (((server lib config).ValidateChallenge lib clientIP challengeID nonce draw
        r).state.faults = [] →
      ∀ draw2, ((server lib config).ValidateChallenge lib clientIP challengeID nonce draw2
        ((server lib config).ValidateChallenge lib clientIP challengeID nonce draw
          r).state).result = .ok ()) := by
  obtain ⟨hid, task, hget, hver⟩ := Service.ValidateChallenge_ok lib _ _ _ _ _ _ hok
  have hget2 : (DefaultRepository.GetTask challengeID r).1 = .ok task := hget
  have hver2 : VerifySolution lib config challengeID task.Seed nonce task.DifficultyLevel =
      some true := hver
  have hsome := DefaultRepository.GetTask_ok_live hget2
  have hstore := DefaultRepository.GetTask_store challengeID r
  have hlive1 : ∀ k, (DefaultRepository.GetTask challengeID r).2.live k = r.live k := by
    intro k
    unfold Redis.live
    rw [hstore.1, hstore.2]
  have hsome1 : ((DefaultRepository.GetTask challengeID r).2.live
      (taskKey challengeID)).isSome = true := by rw [hlive1]; exact hsome
  have hkeep := DefaultRepository.DeleteTask_error_keeps hdel hsome1
  have hne : taskKey challengeID ≠ unsolvedKey lib clientIP :=
    fun h => unsolved_ne_task _ _ h.symm
  -- the state the first call leaves, and its counter entry
  have hfinal : ∃ n, ((server lib config).ValidateChallenge lib clientIP challengeID nonce draw
        r).state = (DefaultRepository.DecrementUnsolvedCountBy lib clientIP n
          (DefaultRepository.DeleteTask challengeID
            (DefaultRepository.GetTask challengeID r).2).2).2 ∧
      (DefaultRepository.DecrementUnsolvedCountBy lib clientIP n
          (DefaultRepository.DeleteTask challengeID
            (DefaultRepository.GetTask challengeID r).2).2).1 = .ok () := by
    rcases Service.ValidateChallenge_ok_decrement lib (server lib config) clientIP challengeID
      nonce draw r hok with ⟨-, h1, h2⟩ | ⟨-, h1, h2⟩
    · exact ⟨2, h2, h1⟩
    · exact ⟨1, h2, h1⟩
  obtain ⟨n, hstate, hdec⟩ := hfinal
  have hrecord : ((server lib config).ValidateChallenge lib clientIP challengeID nonce draw
      r).state.live (taskKey challengeID) = r.live (taskKey challengeID) := by
    rw [hstate]
    rw [(DefaultRepository.onlyAt_DecrementUnsolvedCountBy lib clientIP n _).live_eq _ hne]
    rw [hkeep, hlive1]
  refine ⟨⟨hrecord, hsome⟩, ?_⟩
  intro hfaults draw2
  have hentry := DefaultRepository.DecrementUnsolvedCountBy_ok_entry hdec
  rw [← hstate] at hentry
  generalize hr2 : ((server lib config).ValidateChallenge lib clientIP challengeID nonce draw
    r).state = r2 at hrecord hfaults hentry ⊢
  -- the second call
  have hconn2 : ∀ text, r2.faults.head? ≠ some (some text) := by
    intro text; rw [hfaults]; simp
  have hgetb : (DefaultRepository.GetTask challengeID r2).1 = .ok task :=
    DefaultRepository.GetTask_of_same_record hget2 hrecord hconn2
  have hf1 := @DefaultRepository.GetTask_faults_nil challengeID _ hfaults
  have hf2 := @DefaultRepository.DeleteTask_faults_nil challengeID _ hf1
  have hconn3 : ∀ text, (DefaultRepository.DeleteTask challengeID
      (DefaultRepository.GetTask challengeID r2).2).2.faults.head? ≠ some (some text) := by
    intro text; rw [hf2]; simp
  have hstore2 := DefaultRepository.GetTask_store challengeID r2
  have hcounter : (DefaultRepository.DeleteTask challengeID
      (DefaultRepository.GetTask challengeID r2).2).2.live (unsolvedKey lib clientIP) =
      r2.live (unsolvedKey lib clientIP) := by
    rw [(DefaultRepository.onlyAt_DeleteTask challengeID _).live_eq _ hne.symm]
    unfold Redis.live
    rw [hstore2.1, hstore2.2]
  have hdecb : ∀ m, (DefaultRepository.DecrementUnsolvedCountBy lib clientIP m
      (DefaultRepository.DeleteTask challengeID
        (DefaultRepository.GetTask challengeID r2).2).2).1 = .ok () := by
    intro m
    exact DefaultRepository.DecrementUnsolvedCountBy_of_numeric m hconn3
      (Redis.numeric_of_live_eq hcounter hentry)
  by_cases hdraw : draw2 < forgiveThreshold
  · rw [Service.ValidateChallenge_lucky lib (server lib config) clientIP challengeID nonce
      draw2 r2 task hid hgetb hver hdraw]
    simp only
    have := hdecb 2
    have h2 : ((server lib config).repo.DecrementUnsolvedCountBy clientIP 2
        ((server lib config).repo.DeleteTask challengeID
          ((server lib config).repo.GetTask challengeID r2).2).2).1 = .ok () := this
    rw [h2]
  · rw [Service.ValidateChallenge_regular lib (server lib config) clientIP challengeID nonce
      draw2 r2 task hid hgetb hver hdraw]
    simp only
    have := hdecb 1
    have h2 : ((server lib config).repo.DecrementUnsolvedCount clientIP
        ((server lib config).repo.DeleteTask challengeID
          ((server lib config).repo.GetTask challengeID r2).2).2).1 = .ok () := this
    rw [h2]

/-- C14. When `DeleteTask` returns an error after a successful `VerifySolution`,
`ValidateChallenge` goes on to the random draw and the decrement of the outstanding counter (by
2 or by 1 according to the draw) and returns success whenever that decrement returns no error.
On the server the record then remains, and over a working connection a second
`ValidateChallenge` with the same id and nonce (same source, any draw) succeeds again. -/
theorem ValidateChallenge_delete_failure {σ : Type} (lib : Lib) (s : Service σ)
    (clientIP challengeID nonce : String) (draw : ℚ) (st : σ) (task : Task) (e : String)
    (hid : lib.uuidParse challengeID = true)
    (hget : (s.repo.GetTask challengeID st).1 = .ok task)
    (hver : s.utils.VerifySolution challengeID task.Seed nonce task.DifficultyLevel =
      some true)
    (hdel : (s.repo.DeleteTask challengeID (s.repo.GetTask challengeID st).2).1 = .error e) :
    (draw < forgiveThreshold →
      (s.ValidateChallenge lib clientIP challengeID nonce draw st).calls =
          [.uuidParse challengeID, .GetTask challengeID,
            .VerifySolution challengeID task.Seed nonce task.DifficultyLevel,
            .DeleteTask challengeID, .Float32, .DecrementUnsolvedCountBy clientIP 2] ∧
        ((s.repo.DecrementUnsolvedCountBy clientIP 2
            (s.repo.DeleteTask challengeID (s.repo.GetTask challengeID st).2).2).1 = .ok () →
          (s.ValidateChallenge lib clientIP challengeID nonce draw st).result = .ok ())) ∧
    (¬ draw < forgiveThreshold →
      (s.ValidateChallenge lib clientIP challengeID nonce draw st).calls =
          [.uuidParse challengeID, .GetTask challengeID,
            .VerifySolution challengeID task.Seed nonce task.DifficultyLevel,
            .DeleteTask challengeID, .Float32, .DecrementUnsolvedCount clientIP] ∧
        ((s.repo.DecrementUnsolvedCount clientIP
            (s.repo.DeleteTask challengeID (s.repo.GetTask challengeID st).2).2).1 = .ok () →
          (s.ValidateChallenge lib clientIP challengeID nonce draw st).result = .ok ())) ∧
    (∀ (config : PowConfig) (r : Redis) (e2 : String),
      ((server lib config).ValidateChallenge lib clientIP challengeID nonce draw r).result =
        .ok () →
      (DefaultRepository.DeleteTask challengeID
        (DefaultRepository.GetTask challengeID r).2).1 = .error e2 →
      (((server lib config).ValidateChallenge lib clientIP challengeID nonce draw
            r).state.live (taskKey challengeID) = r.live (taskKey challengeID) ∧
          (r.live (taskKey challengeID)).isSome = true) ∧
        (((server lib config).ValidateChallenge lib clientIP challengeID nonce draw
            r).state.faults = [] →
          ∀ draw2, ((server lib config).ValidateChallenge lib clientIP challengeID nonce draw2
            ((server lib config).ValidateChallenge lib clientIP challengeID nonce draw
              r).state).result = .ok ())) := by
  have _ := hdel
  refine ⟨fun hdraw => ?_, fun hdraw => ?_, fun config r e2 hok hdel2 =>
    server_replay_after_failed_delete lib config clientIP challengeID nonce draw r e2 hok
      hdel2⟩
  · rw [Service.ValidateChallenge_lucky lib s clientIP challengeID nonce draw st task hid hget
      hver hdraw]
    refine ⟨rfl, fun hdec => ?_⟩
    simp only [hdec]
  · rw [Service.ValidateChallenge_regular lib s clientIP challengeID nonce draw st task hid
      hget hver hdraw]
    refine ⟨rfl, fun hdec => ?_⟩
    simp only [hdec]

/-- Witness of `ValidateChallenge_delete_failure`: on `sampleIssuedFlaky` the round trip of
`DeleteTask` times out; the submission succeeds all the same, and so does the same submission
made again. -/
theorem ValidateChallenge_delete_failure_witness :
    (DefaultRepository.DeleteTask sampleUUID
        (DefaultRepository.GetTask sampleUUID sampleIssuedFlaky).2).1 =
        .error ErrRedisOperation ∧
      ((server sampleLib DefaultConfig).ValidateChallenge sampleLib sampleSource sampleUUID
        "nonce" (mkRat 1 2) sampleIssuedFlaky).result = .ok () ∧
      ((server sampleLib DefaultConfig).ValidateChallenge sampleLib sampleSource sampleUUID
        "nonce" (mkRat 1 2)
        ((server sampleLib DefaultConfig).ValidateChallenge sampleLib sampleSource sampleUUID
          "nonce" (mkRat 1 2) sampleIssuedFlaky).state).result = .ok () :=
  have h := ValidateChallenge_delete_failure sampleLib (server sampleLib DefaultConfig)
    sampleSource sampleUUID "nonce" (mkRat 1 2) sampleIssuedFlaky ⟨sampleUUID, "", 0, ""⟩
    ErrRedisOperation (by decide) rfl (by decide) rfl
  have h1 := (h.2.1 (by decide)).2 rfl
  ⟨rfl, h1, (h.2.2 DefaultConfig sampleIssuedFlaky ErrRedisOperation h1 rfl).2 rfl
    (mkRat 1 2)⟩

/-! ## C15: the decrement chosen by the draw -/

/-- No number with a 24-bit significand lies between 1/20 and the `float32` nearest to it: in
integers, `m * 2 ^ a / 2 ^ b < 13421773 / 2 ^ 28` exactly when `m * 2 ^ a / 2 ^ b < 1 / 20`. -/
theorem float32_gap (m : Int) (a b : Nat) (hm : |m| < 2 ^ 24) :
    m * 2 ^ a * 268435456 < 13421773 * 2 ^ b ↔ 20 * (m * 2 ^ a) < (2 : Int) ^ b := by
  have hW : (0 : Int) < 2 ^ a := by positivity
  have hY : (0 : Int) < 2 ^ b := by positivity
  have hm1 : m < 2 ^ 24 := (abs_lt.mp hm).2
  constructor
  · intro h
    by_contra hcon
    push_neg at hcon
    rcases Nat.lt_or_ge (a + 28) b with hb | hb
    · -- b ≥ a + 29
      obtain ⟨j, rfl⟩ : ∃ j, b = a + 29 + j := ⟨b - (a + 29), by omega⟩
      have hj : (1 : Int) ≤ 2 ^ j := one_le_pow₀ (by norm_num)
      have e : (2 : Int) ^ (a + 29 + j) = 2 ^ a * 536870912 * 2 ^ j := by
        rw [pow_add, pow_add]; norm_num
      rw [e] at hcon
      have h1 : m * 2 ^ a ≤ 16777215 * 2 ^ a := by
        apply mul_le_mul_of_nonneg_right _ hW.le
        norm_num at hm1; omega
      have h2 : (2 : Int) ^ a * 536870912 ≤ 2 ^ a * 536870912 * 2 ^ j := by
        apply le_mul_of_one_le_right _ hj
        positivity
      nlinarith
    · -- b ≤ a + 28
      obtain ⟨k, hk⟩ : ∃ k, a + 28 = b + k := ⟨a + 28 - b, by omega⟩
      have e : (2 : Int) ^ a * 268435456 = 2 ^ b * 2 ^ k := by
        have : (2 : Int) ^ (a + 28) = 2 ^ (b + k) := by rw [hk]
        rw [pow_add, pow_add] at this
        norm_num at this
        exact this
      have h3 : m * 2 ^ k * 2 ^ b < 13421773 * 2 ^ b := by
        calc m * 2 ^ k * 2 ^ b = m * (2 ^ b * 2 ^ k) := by ring
          _ = m * (2 ^ a * 268435456) := by rw [e]
          _ = m * 2 ^ a * 268435456 := by ring
          _ < 13421773 * 2 ^ b := h
      have h4 : m * 2 ^ k < 13421773 := lt_of_mul_lt_mul_right h3 hY.le
      have h5 : 268435456 * 2 ^ b ≤ 20 * (m * 2 ^ k) * (2 : Int) ^ b := by
        calc 268435456 * (2 : Int) ^ b ≤ 268435456 * (20 * (m * 2 ^ a)) := by
              apply mul_le_mul_of_nonneg_left hcon; norm_num
          _ = 20 * (m * (2 ^ a * 268435456)) := by ring
          _ = 20 * (m * (2 ^ b * 2 ^ k)) := by rw [e]
          _ = 20 * (m * 2 ^ k) * 2 ^ b := by ring
      have h6 : 268435456 ≤ 20 * (m * 2 ^ k) := le_of_mul_le_mul_right h5 hY
      omega
  · intro h
    omega

theorem forgiveThreshold_eq : forgiveThreshold = 13421773 / 268435456 := by
  unfold forgiveThreshold
  rw [Rat.mkRat_eq_div]
  norm_num

theorem float32_lt_threshold (q : ℚ) (hq : IsFloat32 q) :
    q < forgiveThreshold ↔ q < 1 / 20 := by
  obtain ⟨m, a, b, hm, rfl⟩ := hq
  rw [forgiveThreshold_eq]
  have hY : (0 : ℚ) < 2 ^ b := by positivity
  rw [div_lt_div_iff₀ hY (by norm_num), div_lt_div_iff₀ hY (by norm_num)]
  have h := float32_gap m a b hm
  constructor
  · intro h1
    have h2 : m * 2 ^ a * 268435456 < 13421773 * (2 : Int) ^ b := by exact_mod_cast h1
    have h3 := h.mp h2
    have h4 : (20 : ℚ) * ((m : ℚ) * 2 ^ a) < 2 ^ b := by exact_mod_cast h3
    linarith
  · intro h1
    have h2 : 20 * (m * 2 ^ a) < (2 : Int) ^ b := by
      have h1' : (20 : ℚ) * ((m : ℚ) * 2 ^ a) < 2 ^ b := by linarith
      exact_mod_cast h1'
    have h3 := h.mpr h2
    exact_mod_cast h3


/-- C15. After a successful verification (well-formed id, record loaded, `VerifySolution`
true), `ValidateChallenge` makes exactly one decrement call, for the submitting source: the
decrement by 2 when the draw is below the `float32` constant 0.05 and the decrement by 1
otherwise, the draw equal to that constant included. For a draw that is a `float32` value this
is: by 2 when the draw is below 1/20, by 1 when it is at least 1/20. (The decrement by 1 of the
repository is `DecrementUnsolvedCountBy` with count 1.) -/
theorem ValidateChallenge_decrement_by_draw {σ : Type} (lib : Lib) (s : Service σ)
    (clientIP challengeID nonce : String) (draw : ℚ) (st : σ) (task : Task)
    (hid : lib.uuidParse challengeID = true)
    (hget : (s.repo.GetTask challengeID st).1 = .ok task)
    (hver : s.utils.VerifySolution challengeID task.Seed nonce task.DifficultyLevel =
      some true) :
    (draw < forgiveThreshold →
      (s.ValidateChallenge lib clientIP challengeID nonce draw st).calls.filter
        Call.isDecrement = [.DecrementUnsolvedCountBy clientIP 2]) ∧
    (¬ draw < forgiveThreshold →
      (s.ValidateChallenge lib clientIP challengeID nonce draw st).calls.filter
        Call.isDecrement = [.DecrementUnsolvedCount clientIP]) ∧
    (draw = forgiveThreshold →
      (s.ValidateChallenge lib clientIP challengeID nonce draw st).calls.filter
        Call.isDecrement = [.DecrementUnsolvedCount clientIP]) ∧
    (IsFloat32 draw →
      (draw < 1 / 20 →
        (s.ValidateChallenge lib clientIP challengeID nonce draw st).calls.filter
          Call.isDecrement = [.DecrementUnsolvedCountBy clientIP 2]) ∧
      (1 / 20 ≤ draw →
        (s.ValidateChallenge lib clientIP challengeID nonce draw st).calls.filter
          Call.isDecrement = [.DecrementUnsolvedCount clientIP])) ∧
    (∀ (ip : String) (r : Redis),
      DefaultRepository.DecrementUnsolvedCount lib ip r =
        DefaultRepository.DecrementUnsolvedCountBy lib ip 1 r) := by
  have hlucky : draw < forgiveThreshold →
      (s.ValidateChallenge lib clientIP challengeID nonce draw st).calls.filter
        Call.isDecrement = [.DecrementUnsolvedCountBy clientIP 2] := by
    intro hdraw
    rw [Service.ValidateChallenge_lucky lib s clientIP challengeID nonce draw st task hid hget
      hver hdraw]
    rfl
  have hregular : ¬ draw < forgiveThreshold →
      (s.ValidateChallenge lib clientIP challengeID nonce draw st).calls.filter
        Call.isDecrement = [.DecrementUnsolvedCount clientIP] := by
    intro hdraw
    rw [Service.ValidateChallenge_regular lib s clientIP challengeID nonce draw st task hid
      hget hver hdraw]
    rfl
  refine ⟨hlucky, hregular, fun heq => hregular (by rw [heq]; exact lt_irrefl _),
    fun hf => ⟨fun hlt => hlucky ((float32_lt_threshold draw hf).mpr hlt),
      fun hge => hregular (fun hlt => ?_)⟩, fun _ _ => rfl⟩
  have := (float32_lt_threshold draw hf).mp hlt
  exact absurd this (not_lt.mpr hge)

/-- Witness of `ValidateChallenge_decrement_by_draw`: on `sampleIssued` the draw 1/2 leads to
the single decrement by 1. -/
theorem ValidateChallenge_decrement_by_draw_witness :
    ((server sampleLib DefaultConfig).ValidateChallenge sampleLib sampleSource sampleUUID
        "nonce" (mkRat 1 2) sampleIssued).calls.filter Call.isDecrement =
      [.DecrementUnsolvedCount sampleSource] :=
  (ValidateChallenge_decrement_by_draw sampleLib (server sampleLib DefaultConfig) sampleSource
    sampleUUID "nonce" (mkRat 1 2) sampleIssued ⟨sampleUUID, "", 0, ""⟩ (by decide) rfl
    (by decide)).2.1 (by decide)

/-! ## C16: the saturating decrement -/

theorem outstanding_eq_counterValue (lib : Lib) (r : Redis) (ip : String) :
    outstanding lib r ip = r.counterValue (unsolvedKey lib ip) := by
  unfold Redis.counterValue
  cases hl : r.live (unsolvedKey lib ip) with
  | none => exact outstanding_of_absent hl
  | some e =>
    rcases e with ⟨v, t⟩
    cases v with
    | int c => exact outstanding_of_live hl
    | str s =>
      have h2 : Redis.live { r with faults := [] } ("unsolved:" ++ hashIPAddress lib ip) =
          some ⟨.str s, t⟩ := hl
      unfold outstanding DefaultRepository.GetUnsolvedCount Redis.call Redis.getInt64
      simp only [h2]
    | zset ms =>
      have h2 : Redis.live { r with faults := [] } ("unsolved:" ++ hashIPAddress lib ip) =
          some ⟨.zset ms, t⟩ := hl
      unfold outstanding DefaultRepository.GetUnsolvedCount Redis.call Redis.getInt64
      simp only [h2, Redis.wrongType]

theorem Redis.counterValue_of_live_eq {r r' : Redis} {key : String}
    (h : r'.live key = r.live key) : r'.counterValue key = r.counterValue key := by
  unfold Redis.counterValue
  rw [h]

theorem Redis.counterValue_expire (r : Redis) (key : String) :
    (r.expire key unsolvedCountTTL).2.counterValue key = r.counterValue key := by
  cases hl : r.live key with
  | none =>
    rw [Redis.expire_of_absent _ hl]
  | some e =>
    have hd : (0 : Int) < unsolvedCountTTL := by decide
    obtain ⟨-, h2, -, -⟩ := Redis.expire_live hl hd
    unfold Redis.counterValue
    rw [h2, hl]
    rcases e with ⟨v, t⟩
    cases v <;> rfl

theorem Redis.counterValue_incr_nonneg (r : Redis) (key : String)
    (h : 0 ≤ r.counterValue key) : 0 ≤ (r.incr key).2.counterValue key := by
  unfold Redis.incr
  cases hl : r.live key with
  | none =>
    simp only
    unfold Redis.counterValue
    rw [Redis.live_put_self]
    simp
  | some e =>
    rcases e with ⟨v, t⟩
    cases v with
    | str s => simpa using h
    | zset ms => simpa using h
    | int m =>
      have hm : 0 ≤ m := by
        unfold Redis.counterValue at h
        rw [hl] at h
        exact h
      simp only
      split
      · exact h
      · unfold Redis.counterValue
        rw [Redis.live_put_of_live hl]
        simp only
        omega

theorem Redis.counterValue_evalDecrement_nonneg (r : Redis) (key : String) (count : Int)
    (h : 0 ≤ r.counterValue key) : 0 ≤ (r.evalDecrement key count).2.counterValue key := by
  have hstep : ∀ x, 0 ≤ (r.luaDecrement key x count).2.counterValue key := by
    intro x
    unfold Redis.luaDecrement
    split
    · unfold Redis.counterValue
      rw [Redis.live_put_self]
      rcases Redis.luaNumberValue_numeric
        (max 0 (Redis.float64OfInt (x - Redis.float64OfInt count))) (le_max_left _ _)
        with ⟨c, hc, hc0⟩ | ⟨s, y, hs, -⟩
      · rw [hc]
        exact hc0
      · rw [hs]
    · exact h
  unfold Redis.evalDecrement
  cases hl : r.live key with
  | none => simpa using h
  | some e =>
    rcases e with ⟨v, t⟩
    cases v with
    | str s =>
      simp only
      cases Redis.luaToNumber s with
      | none => exact h
      | some x => exact hstep x
    | zset ms => simpa using h
    | int m => exact hstep _

theorem DefaultRepository.incrementPipeline_state (key : String) (db : Redis) :
    (DefaultRepository.incrementPipeline key db).2 =
      ((db.incr key).2.expire key unsolvedCountTTL).2 := by
  unfold DefaultRepository.incrementPipeline
  simp only
  split <;> rfl

theorem Redis.counterValue_call_nonneg {α : Type} (r : Redis) (key k : String)
    (cmd : Redis → Except RedisError α × Redis)
    (hframe : ∀ db, Redis.OnlyAt k db (cmd db).2)
    (hstep : ∀ db, 0 ≤ db.counterValue k → 0 ≤ (cmd db).2.counterValue k)
    (h : 0 ≤ r.counterValue key) : 0 ≤ (r.call cmd).2.counterValue key := by
  by_cases hk : key = k
  · subst hk
    rcases Redis.call_cases r cmd with ⟨rest, hc⟩ | ⟨text, rest, hc⟩
    · rw [hc]
      exact hstep _ h
    · rw [hc]
      exact h
  · rw [Redis.counterValue_of_live_eq ((Redis.onlyAt_call k r cmd hframe).live_eq key hk)]
    exact h

theorem CounterCall.apply_nonneg (lib : Lib) (call : CounterCall) (r : Redis) (ip : String)
    (h : 0 ≤ outstanding lib r ip) : 0 ≤ outstanding lib (call.apply lib r) ip := by
  rw [outstanding_eq_counterValue] at h ⊢
  cases call with
  | increment ip2 =>
    show 0 ≤ (DefaultRepository.IncrementUnsolvedCount lib ip2 r).2.counterValue _
    rw [DefaultRepository.IncrementUnsolvedCount_state]
    apply Redis.counterValue_call_nonneg r _ _ _
      (DefaultRepository.onlyAt_incrementPipeline _) _ h
    intro db hdb
    rw [DefaultRepository.incrementPipeline_state, Redis.counterValue_expire]
    exact Redis.counterValue_incr_nonneg db _ hdb
  | decrementBy ip2 count =>
    show 0 ≤ (DefaultRepository.DecrementUnsolvedCountBy lib ip2 count r).2.counterValue _
    rw [DefaultRepository.DecrementUnsolvedCountBy_state]
    apply Redis.counterValue_call_nonneg r _ _ _
      (DefaultRepository.onlyAt_decrementPipeline _ _) _ h
    intro db hdb
    rw [DefaultRepository.decrementPipeline_state, Redis.counterValue_expire]
    exact Redis.counterValue_evalDecrement_nonneg db _ _ hdb

theorem runCounterCalls_nonneg (lib : Lib) (calls : List CounterCall) (r : Redis) (ip : String)
    (h : 0 ≤ outstanding lib r ip) : 0 ≤ outstanding lib (runCounterCalls lib calls r) ip := by
  unfold runCounterCalls
  induction calls generalizing r with
  | nil => exact h
  | cons call rest ih =>
    simp only [List.foldl_cons]
    exact ih _ (CounterCall.apply_nonneg lib call r ip h)

/-- C16 (amended). Over a working connection and for every `n ≥ 0`,
`DecrementUnsolvedCountBy(src, n)` returns no error and leaves a counter that held `c` with
`0 ≤ c ≤ 2 ^ 53` at `max 0 (c - n)` (with a fresh time to live); it leaves an absent counter
absent, which `GetUnsolvedCount` reads as 0. Across any sequence of `IncrementUnsolvedCount`
and `DecrementUnsolvedCountBy` calls, for any sources and counts and whether or not the
connection fails, a counter that is not negative never becomes negative. -/
theorem DecrementUnsolvedCountBy_saturates (lib : Lib) (ip : String) (n : Int) (r : Redis)
    (hconn : ∀ text, r.faults.head? ≠ some (some text)) (hn : 0 ≤ n) :
    (∀ c t, r.live (unsolvedKey lib ip) = some ⟨.int c, t⟩ → 0 ≤ c → c ≤ 2 ^ 53 →
      (DefaultRepository.DecrementUnsolvedCountBy lib ip n r).1 = .ok () ∧
        (DefaultRepository.DecrementUnsolvedCountBy lib ip n r).2.live (unsolvedKey lib ip) =
          some ⟨.int (max 0 (c - n)), some (r.now + unsolvedCountTTL)⟩ ∧
        outstanding lib (DefaultRepository.DecrementUnsolvedCountBy lib ip n r).2 ip =
          max 0 (c - n)) ∧
    (r.live (unsolvedKey lib ip) = none →
      (DefaultRepository.DecrementUnsolvedCountBy lib ip n r).1 = .ok () ∧
        (DefaultRepository.DecrementUnsolvedCountBy lib ip n r).2.live (unsolvedKey lib ip) =
          none ∧
        (DefaultRepository.GetUnsolvedCount lib ip
          { (DefaultRepository.DecrementUnsolvedCountBy lib ip n r).2 with faults := [] }).1 =
          .ok 0) ∧
    (∀ (calls : List CounterCall) (r0 : Redis) (ip0 : String),
      0 ≤ outstanding lib r0 ip0 → 0 ≤ outstanding lib (runCounterCalls lib calls r0) ip0) := by
  obtain ⟨rest, hc⟩ := Redis.call_of_connected r
    (DefaultRepository.decrementPipeline (unsolvedKey lib ip) n) hconn
  have hstate := DefaultRepository.DecrementUnsolvedCountBy_state lib ip n r
  rw [hc] at hstate
  refine ⟨fun c t hl hc0 hc53 => ?_, fun hl => ?_, fun calls r0 ip0 h0 =>
    runCounterCalls_nonneg lib calls r0 ip0 h0⟩
  · have hok := @DefaultRepository.DecrementUnsolvedCountBy_of_entry lib ip n _
      hconn (Or.inr ⟨c, t, hl⟩)
    have hl2 : Redis.live { r with faults := rest } (unsolvedKey lib ip) = some ⟨.int c, t⟩ :=
      hl
    obtain ⟨-, hlive, -, -⟩ := DefaultRepository.decrementPipeline_of_int n hl2 hc0 hc53 hn
    have hlive2 : (DefaultRepository.DecrementUnsolvedCountBy lib ip n r).2.live
        (unsolvedKey lib ip) = some ⟨.int (max 0 (c - n)), some (r.now + unsolvedCountTTL)⟩ := by
      rw [hstate]; exact hlive
    exact ⟨hok, hlive2, outstanding_of_live hlive2⟩
  · have hok := @DefaultRepository.DecrementUnsolvedCountBy_of_entry lib ip n _
      hconn (Or.inl hl)
    have hl2 : Redis.live { r with faults := rest } (unsolvedKey lib ip) = none := hl
    have hlive2 : (DefaultRepository.DecrementUnsolvedCountBy lib ip n r).2.live
        (unsolvedKey lib ip) = none := by
      rw [hstate, DefaultRepository.decrementPipeline_of_absent n hl2]
      exact hl2
    refine ⟨hok, hlive2, ?_⟩
    have h3 : Redis.live { (DefaultRepository.DecrementUnsolvedCountBy lib ip n r).2 with
        faults := [] } ("unsolved:" ++ hashIPAddress lib ip) = none := hlive2
    unfold DefaultRepository.GetUnsolvedCount Redis.call Redis.getInt64
    simp only [h3]

/-- Witness of `DecrementUnsolvedCountBy_saturates`: in `sampleIssued` the counter of
`sampleSource` holds 1; a decrement by 2 leaves it at 0. -/
theorem DecrementUnsolvedCountBy_saturates_witness :
    outstanding sampleLib
        (DefaultRepository.DecrementUnsolvedCountBy sampleLib sampleSource 2 sampleIssued).2
        sampleSource = max 0 (1 - 2) :=
  ((DecrementUnsolvedCountBy_saturates sampleLib sampleSource 2 sampleIssued
    (fun _ h => nomatch h) (by decide)).1 1 (some (1700000000000 + unsolvedCountTTL))
    (by decide) (by decide) (by decide)).2.2

/-- C16, counterexample. In `sampleLargeCounter` the counter of `sampleSource` holds
`2 ^ 53 + 1 = 9007199254740993`. A decrement by 1 returns no error and leaves
`2 ^ 53 - 1 = 9007199254740991`, not `max 0 (c - 1) = 2 ^ 53`: the script reads the counter as
the `float64` `2 ^ 53`. -/
theorem DecrementUnsolvedCountBy_rounds_large_counter :
    sampleLargeCounter.live (unsolvedKey sampleLib sampleSource) =
        some ⟨.int 9007199254740993, none⟩ ∧
      (DefaultRepository.DecrementUnsolvedCountBy sampleLib sampleSource 1
        sampleLargeCounter).1 = .ok () ∧
      (DefaultRepository.DecrementUnsolvedCountBy sampleLib sampleSource 1
        sampleLargeCounter).2.live (unsolvedKey sampleLib sampleSource) =
        some ⟨.int 9007199254740991, some (1700000000000 + unsolvedCountTTL)⟩ ∧
      outstanding sampleLib (DefaultRepository.DecrementUnsolvedCountBy sampleLib sampleSource 1
        sampleLargeCounter).2 sampleSource = 9007199254740991 ∧
      max 0 ((9007199254740993 : Int) - 1) = 9007199254740992 := by
  refine ⟨by decide, rfl, by decide, by decide, by decide⟩

/-! ## Lemmas on the request window -/

theorem mem_windowAdd_now (ms : List (Int × Int)) (now : Int) : (now, now) ∈ windowAdd ms now := by
  unfold windowAdd
  split
  · rename_i h
    rw [List.any_eq_true] at h
    obtain ⟨m, hm, hmem⟩ := h
    rw [List.mem_map]
    refine ⟨m, hm, ?_⟩
    have : m.1 = now := by simpa using hmem
    simp [this]
  · exact List.mem_cons_self _ _

theorem mem_windowKeep_now (ms : List (Int × Int)) (now : Int) : (now, now) ∈ windowKeep ms now := by
  unfold windowKeep
  rw [List.mem_filter]
  refine ⟨mem_windowAdd_now ms now, ?_⟩
  have : ¬ now ≤ now - slidingWindowDuration := by
    have : (0 : Int) < slidingWindowDuration := by decide
    omega
  simp [this]

theorem windowKeep_ne_nil (ms : List (Int × Int)) (now : Int) : windowKeep ms now ≠ [] :=
  List.ne_nil_of_mem (mem_windowKeep_now ms now)

theorem Redis.zadd_of_zset {db : Redis} {key : String} {ms : List (Int × Int)}
    {t : Option Int} (hl : db.live key = some ⟨.zset ms, t⟩) (now : Int) :
    (∃ n, (db.zadd key now now).1 = .ok n) ∧
      (db.zadd key now now).2.live key = some ⟨.zset (windowAdd ms now), t⟩ := by
  unfold Redis.zadd windowAdd
  simp only [hl]
  split
  · exact ⟨⟨0, rfl⟩, Redis.live_put_of_live hl _⟩
  · exact ⟨⟨1, rfl⟩, Redis.live_put_of_live hl _⟩

theorem Redis.zadd_of_absent {db : Redis} {key : String} (hl : db.live key = none)
    (now : Int) :
    (∃ n, (db.zadd key now now).1 = .ok n) ∧
      (db.zadd key now now).2.live key = some ⟨.zset (windowAdd [] now), none⟩ := by
  unfold Redis.zadd
  simp only [hl]
  refine ⟨⟨1, rfl⟩, ?_⟩
  rw [Redis.live_put_self]
  rfl

theorem Redis.zremRangeByScore_of_zset {db : Redis} {key : String} {ms : List (Int × Int)}
    {t : Option Int} (hl : db.live key = some ⟨.zset ms, t⟩) (lo hi : Int)
    (hne : (ms.filter fun m => !(decide (lo ≤ m.2) && decide (m.2 ≤ hi))) ≠ []) :
    (∃ n, (db.zremRangeByScore key lo hi).1 = .ok n) ∧
      (db.zremRangeByScore key lo hi).2.live key =
        some ⟨.zset (ms.filter fun m => !(decide (lo ≤ m.2) && decide (m.2 ≤ hi))), t⟩ := by
  unfold Redis.zremRangeByScore
  simp only [hl]
  have hemp : (ms.filter fun m => !(decide (lo ≤ m.2) && decide (m.2 ≤ hi))).isEmpty = false := by
    cases hf : (ms.filter fun m => !(decide (lo ≤ m.2) && decide (m.2 ≤ hi))) with
    | nil => exact absurd hf hne
    | cons a l => rfl
  rw [hemp]
  simp only [Bool.false_eq_true, if_false]
  exact ⟨⟨_, rfl⟩, Redis.live_put_of_live hl _⟩

theorem Redis.zcount_of_zset {db : Redis} {key : String} {ms : List (Int × Int)}
    {t : Option Int} (hl : db.live key = some ⟨.zset ms, t⟩) (lo hi : Int) :
    (db.zcount key lo hi).1 =
      .ok ((ms.filter fun m => decide (lo ≤ m.2) && decide (m.2 ≤ hi)).length : Int) := by
  unfold Redis.zcount
  simp only [hl]

/-- The pipeline of `GetAndIncrementRequestCount` on a key that holds a sorted set. -/
theorem DefaultRepository.requestCountPipeline_of_zset {db : Redis} {key : String}
    {ms : List (Int × Int)} {t : Option Int}
    (hl : db.live key = some ⟨.zset ms, t⟩ ∨ (db.live key = none ∧ ms = [])) :
    (DefaultRepository.requestCountPipeline key db.now (db.now - slidingWindowDuration) db).1 =
        .ok (((windowKeep ms db.now).filter fun m =>
          decide (db.now - slidingWindowDuration ≤ m.2) && decide (m.2 ≤ db.now)).length : Int) ∧
      (DefaultRepository.requestCountPipeline key db.now (db.now - slidingWindowDuration)
        db).2.live key =
        some ⟨.zset (windowKeep ms db.now), some (db.now + slidingWindowDuration * 2)⟩ := by
  have hadd : ∃ t', (∃ n, (db.zadd key db.now db.now).1 = .ok n) ∧
      (db.zadd key db.now db.now).2.live key = some ⟨.zset (windowAdd ms db.now), t'⟩ := by
    rcases hl with hl | ⟨hl, rfl⟩
    · exact ⟨t, Redis.zadd_of_zset hl _⟩
    · exact ⟨none, Redis.zadd_of_absent hl _⟩
  obtain ⟨t', ⟨n1, h1⟩, hl1⟩ := hadd
  have hnow1 : (db.zadd key db.now db.now).2.now = db.now := (Redis.onlyAt_zadd key _ _ db).1
  obtain ⟨⟨n2, h2⟩, hl2⟩ := Redis.zremRangeByScore_of_zset hl1 0
    (db.now - slidingWindowDuration) (windowKeep_ne_nil ms db.now)
  have hnow2 : ((db.zadd key db.now db.now).2.zremRangeByScore key 0
      (db.now - slidingWindowDuration)).2.now = db.now :=
    ((Redis.onlyAt_zremRangeByScore key _ _ _).1).trans hnow1
  have h3 := Redis.zcount_of_zset hl2 (db.now - slidingWindowDuration) db.now
  have hd : (0 : Int) < slidingWindowDuration * 2 := by decide
  have hl3 : (((db.zadd key db.now db.now).2.zremRangeByScore key 0
      (db.now - slidingWindowDuration)).2.zcount key (db.now - slidingWindowDuration)
        db.now).2.live key = some ⟨.zset (windowKeep ms db.now), t'⟩ := by
    rw [Redis.zcount_state]; exact hl2
  obtain ⟨h4, hl4, -, -⟩ := Redis.expire_live hl3 hd
  rw [Redis.zcount_state] at h4 hl4
  rw [hnow2] at hl4
  have e1 : db.zadd key db.now db.now = (.ok n1, (db.zadd key db.now db.now).2) := by
    rw [← h1]
  have e2 : (db.zadd key db.now db.now).2.zremRangeByScore key 0
      (db.now - slidingWindowDuration) = (.ok n2, ((db.zadd key db.now db.now).2.zremRangeByScore
        key 0 (db.now - slidingWindowDuration)).2) := by rw [← h2]
  have e3 : ((db.zadd key db.now db.now).2.zremRangeByScore key 0
      (db.now - slidingWindowDuration)).2.zcount key (db.now - slidingWindowDuration) db.now =
      (.ok (((windowKeep ms db.now).filter fun m =>
          decide (db.now - slidingWindowDuration ≤ m.2) && decide (m.2 ≤ db.now)).length : Int),
        ((db.zadd key db.now db.now).2.zremRangeByScore key 0
          (db.now - slidingWindowDuration)).2) :=
    Prod.ext h3 (Redis.zcount_state _ _ _ _)
  have e4 : ((db.zadd key db.now db.now).2.zremRangeByScore key 0
      (db.now - slidingWindowDuration)).2.expire key (slidingWindowDuration * 2) =
      (.ok true, (((db.zadd key db.now db.now).2.zremRangeByScore key 0
        (db.now - slidingWindowDuration)).2.expire key (slidingWindowDuration * 2)).2) := by
    rw [← h4]
  unfold DefaultRepository.requestCountPipeline
  rw [e1]
  simp only
  rw [e2]
  simp only
  rw [e3]
  simp only
  rw [e4]
  simp only
  exact ⟨trivial, hl4⟩

theorem slidingWindowDuration_eq : slidingWindowDuration = 60000 := by decide

/-- The whole of `GetAndIncrementRequestCount` over a working connection, on a key that holds
a sorted set or is absent. -/
theorem DefaultRepository.GetAndIncrementRequestCount_of_zset (lib : Lib) (ip : String)
    {r : Redis} {ms : List (Int × Int)} {t : Option Int}
    (hconn : ∀ text, r.faults.head? ≠ some (some text))
    (hl : r.live (difficultyKey lib ip) = some ⟨.zset ms, t⟩ ∨
      (r.live (difficultyKey lib ip) = none ∧ ms = [])) :
    (DefaultRepository.GetAndIncrementRequestCount lib ip r).1 =
        .ok (((windowKeep ms r.now).filter fun m =>
          decide (r.now - slidingWindowDuration ≤ m.2) && decide (m.2 ≤ r.now)).length : Int) ∧
      (DefaultRepository.GetAndIncrementRequestCount lib ip r).2.live (difficultyKey lib ip) =
        some ⟨.zset (windowKeep ms r.now), some (r.now + slidingWindowDuration * 2)⟩ ∧
      (DefaultRepository.GetAndIncrementRequestCount lib ip r).2.now = r.now := by
  obtain ⟨rest, hc⟩ := Redis.call_of_connected r
    (DefaultRepository.requestCountPipeline (difficultyKey lib ip) r.now
      (r.now - slidingWindowDuration)) hconn
  have hp := @DefaultRepository.requestCountPipeline_of_zset { r with faults := rest }
    (difficultyKey lib ip) ms t hl
  have hn := (DefaultRepository.onlyAt_GetAndIncrementRequestCount lib ip r).1
  refine ⟨?_, ?_, hn⟩
  · unfold DefaultRepository.GetAndIncrementRequestCount
    simp only
    show (match r.call (DefaultRepository.requestCountPipeline (difficultyKey lib ip) r.now
      (r.now - slidingWindowDuration)) with
      | (.error _, r1) => (Except.error ErrRedisOperation, r1)
      | (.ok count, r1) => (.ok count, r1)).1 = _
    rw [hc]
    rcases hq : DefaultRepository.requestCountPipeline (difficultyKey lib ip) r.now
      (r.now - slidingWindowDuration) { r with faults := rest } with ⟨_ | c, st⟩
    · have h1 := hp.1
      rw [show ({ r with faults := rest } : Redis).now = r.now from rfl, hq] at h1
      exact absurd h1 (by simp)
    · have h1 := hp.1
      rw [show ({ r with faults := rest } : Redis).now = r.now from rfl, hq] at h1
      simpa using h1
  · unfold DefaultRepository.GetAndIncrementRequestCount
    simp only
    show (match r.call (DefaultRepository.requestCountPipeline (difficultyKey lib ip) r.now
      (r.now - slidingWindowDuration)) with
      | (.error _, r1) => (Except.error ErrRedisOperation, r1)
      | (.ok count, r1) => (.ok count, r1)).2.live (difficultyKey lib ip) = _
    rw [hc]
    rcases hq : DefaultRepository.requestCountPipeline (difficultyKey lib ip) r.now
      (r.now - slidingWindowDuration) { r with faults := rest } with ⟨_ | c, st⟩
    · have h1 := hp.1
      rw [show ({ r with faults := rest } : Redis).now = r.now from rfl, hq] at h1
      exact absurd h1 (by simp)
    · have h2 := hp.2
      rw [show ({ r with faults := rest } : Redis).now = r.now from rfl, hq] at h2
      simpa using h2

theorem windowAdd_of_recorded {ms : List (Int × Int)} (now : Int)
    (hrec : ∀ e ∈ ms, e.1 = e.2) :
    windowAdd ms now = if (now, now) ∈ ms then ms else (now, now) :: ms := by
  unfold windowAdd
  by_cases hmem : (now, now) ∈ ms
  · have hany : ms.any (fun m => m.1 == now) = true := by
      rw [List.any_eq_true]
      exact ⟨(now, now), hmem, by simp⟩
    rw [if_pos hany, if_pos hmem]
    have hid : ∀ m ∈ ms, (if m.1 = now then (now, now) else m) = m := by
      intro m hm
      split
      · rename_i h
        exact Prod.ext h.symm (by rw [← hrec m hm]; exact h.symm)
      · rfl
    calc ms.map (fun m => if m.1 = now then (now, now) else m) = ms.map id :=
          List.map_congr_left hid
      _ = ms := List.map_id ms
  · have hany : ¬ ms.any (fun m => m.1 == now) = true := by
      rw [List.any_eq_true]
      rintro ⟨m, hm, h⟩
      have h1 : m.1 = now := by simpa using h
      have h2 : m = (now, now) := Prod.ext h1 (by rw [← hrec m hm]; exact h1)
      exact hmem (h2 ▸ hm)
    rw [if_neg hany, if_neg hmem]

theorem windowKeep_of_recorded {ms : List (Int × Int)} (now : Int)
    (hrec : ∀ e ∈ ms, e.1 = e.2 ∧ 0 ≤ e.2) :
    windowKeep ms now =
      (if (now, now) ∈ ms then ms else (now, now) :: ms).filter fun e =>
        decide (now - 60000 < e.2) := by
  unfold windowKeep
  rw [windowAdd_of_recorded now fun e he => (hrec e he).1]
  apply List.filter_congr
  intro e he
  have hW := slidingWindowDuration_eq
  have hcase : e = (now, now) ∨ e ∈ ms := by
    split at he
    · exact Or.inr he
    · rcases List.mem_cons.mp he with h | h
      · exact Or.inl h
      · exact Or.inr h
  rcases hcase with h | h
  · subst h
    have h1 : ¬ now ≤ now - slidingWindowDuration := by omega
    have h2 : now - 60000 < now := by omega
    simp [h1, h2]
  · have h0 := (hrec e h).2
    by_cases hb : e.2 ≤ now - slidingWindowDuration
    · have h2 : ¬ now - 60000 < e.2 := by omega
      simp [h0, hb, h2]
    · have h2 : now - 60000 < e.2 := by omega
      simp [hb, h2]

theorem windowCount_of_recorded {ms : List (Int × Int)} (now : Int)
    (hrec : ∀ e ∈ ms, e.1 = e.2 ∧ 0 ≤ e.2) :
    ((windowKeep ms now).filter fun m =>
        decide (now - slidingWindowDuration ≤ m.2) && decide (m.2 ≤ now)) =
      (if (now, now) ∈ ms then ms else (now, now) :: ms).filter fun e =>
        decide (now - 60000 < e.2) && decide (e.2 ≤ now) := by
  rw [windowKeep_of_recorded now hrec, List.filter_filter]
  apply List.filter_congr
  intro e _
  have hW := slidingWindowDuration_eq
  by_cases h1 : now - 60000 < e.2
  · have h2 : now - slidingWindowDuration ≤ e.2 := by omega
    simp [h1, h2]
  · have h2 : ¬ now - slidingWindowDuration ≤ e.2 ∨ now - slidingWindowDuration = e.2 := by omega
    simp [h1]

theorem windowAdd_member_now {ms : List (Int × Int)} {now : Int} {m : Int × Int}
    (hm : m ∈ windowAdd ms now) (h : m.1 = now) : m = (now, now) := by
  unfold windowAdd at hm
  split at hm
  · rw [List.mem_map] at hm
    obtain ⟨a, -, ha⟩ := hm
    split at ha
    · exact ha.symm
    · rename_i hne
      rw [ha] at hne
      exact absurd h hne
  · rename_i hany
    rcases List.mem_cons.mp hm with h1 | h1
    · exact h1
    · exfalso
      apply hany
      rw [List.any_eq_true]
      exact ⟨m, h1, by simp [h]⟩

theorem windowAdd_of_present {l : List (Int × Int)} {now : Int}
    (hmem : (now, now) ∈ l) (hu : ∀ m ∈ l, m.1 = now → m = (now, now)) :
    windowAdd l now = l := by
  unfold windowAdd
  have hany : l.any (fun m => m.1 == now) = true := by
    rw [List.any_eq_true]
    exact ⟨(now, now), hmem, by simp⟩
  rw [if_pos hany]
  have hid : ∀ m ∈ l, (if m.1 = now then (now, now) else m) = m := by
    intro m hm
    split
    · rename_i h
      exact (hu m hm h).symm
    · rfl
  calc l.map (fun m => if m.1 = now then (now, now) else m) = l.map id :=
        List.map_congr_left hid
    _ = l := List.map_id l

theorem windowKeep_idem (ms : List (Int × Int)) (now : Int) :
    windowKeep (windowKeep ms now) now = windowKeep ms now := by
  have hu : ∀ m ∈ windowKeep ms now, m.1 = now → m = (now, now) := by
    intro m hm h
    unfold windowKeep at hm
    exact windowAdd_member_now (List.mem_filter.mp hm).1 h
  have hadd := windowAdd_of_present (mem_windowKeep_now ms now) hu
  have e : windowKeep (windowKeep ms now) now =
      (windowAdd (windowKeep ms now) now).filter fun m =>
        !(decide (0 ≤ m.2) && decide (m.2 ≤ now - slidingWindowDuration)) := rfl
  rw [e, hadd]
  unfold windowKeep
  rw [List.filter_filter]
  apply List.filter_congr
  intro m _
  simp

/-- A second `GetAndIncrementRequestCount` of the same source at the same millisecond returns
the count of the first: the member written by `ZADD` is the timestamp, so the entry of the
first call is written again and no entry is added. -/
theorem DefaultRepository.GetAndIncrementRequestCount_same_instant (lib : Lib) (ip : String)
    {r : Redis} {ms : List (Int × Int)} {t : Option Int}
    (hconn : ∀ text, r.faults.head? ≠ some (some text))
    (hconn2 : ∀ text, (DefaultRepository.GetAndIncrementRequestCount lib ip r).2.faults.head? ≠
      some (some text))
    (hl : r.live (difficultyKey lib ip) = some ⟨.zset ms, t⟩ ∨
      (r.live (difficultyKey lib ip) = none ∧ ms = [])) :
    (DefaultRepository.GetAndIncrementRequestCount lib ip
        (DefaultRepository.GetAndIncrementRequestCount lib ip r).2).1 =
      (DefaultRepository.GetAndIncrementRequestCount lib ip r).1 := by
  obtain ⟨h1, hl1, hn1⟩ := DefaultRepository.GetAndIncrementRequestCount_of_zset lib ip hconn hl
  obtain ⟨h2, -, -⟩ := DefaultRepository.GetAndIncrementRequestCount_of_zset lib ip hconn2
    (Or.inl hl1)
  rw [h2, h1, hn1, windowKeep_idem]

/-! ## C17: the request count of calls in the same millisecond -/

/-- C17 (the code at the failing input): on an empty store, two `GetAndIncrementRequestCount`
calls of one source at the same millisecond both return 1, not 1 and 2, and the window holds a
single entry after them; the same two calls one millisecond apart return 1 and 2. -/
theorem GetAndIncrementRequestCount_same_millisecond :
    (DefaultRepository.GetAndIncrementRequestCount sampleLib sampleSource
        (Redis.empty 1700000000000)).1 = .ok 1 ∧
      (DefaultRepository.GetAndIncrementRequestCount sampleLib sampleSource
        (DefaultRepository.GetAndIncrementRequestCount sampleLib sampleSource
          (Redis.empty 1700000000000)).2).1 = .ok 1 ∧
      (DefaultRepository.GetAndIncrementRequestCount sampleLib sampleSource
        (DefaultRepository.GetAndIncrementRequestCount sampleLib sampleSource
          (Redis.empty 1700000000000)).2).2.entries (difficultyKey sampleLib sampleSource) =
        [(1700000000000, 1700000000000)] ∧
      (DefaultRepository.GetAndIncrementRequestCount sampleLib sampleSource
        ((DefaultRepository.GetAndIncrementRequestCount sampleLib sampleSource
          (Redis.empty 1700000000000)).2.advance 1)).1 = .ok 2 :=
  ⟨rfl, rfl, by decide, rfl⟩

/-! ## C18: the boundary of the request window -/

/-- C18: a `GetAndIncrementRequestCount` call over a working connection, at time `r.now`, on a
window whose entries were recorded by earlier calls (member and score both the timestamp, no
timestamp before the epoch): the entries left are the recorded ones and the current one with a
timestamp above `r.now - 60000`, and the count returned is the number of those not after
`r.now`. So every recorded entry with timestamp at most `r.now - 60000` is removed and is not
counted, one above it is kept; an entry at exactly `r.now - 60000` is excluded and a recorded
one at `r.now - 60000 + 1` is counted. -/
theorem GetAndIncrementRequestCount_window_boundary (lib : Lib) (ip : String) (r : Redis)
    (ms : List (Int × Int)) (t : Option Int)
    (hconn : ∀ text, r.faults.head? ≠ some (some text))
    (hl : r.live (difficultyKey lib ip) = some ⟨.zset ms, t⟩ ∨
      (r.live (difficultyKey lib ip) = none ∧ ms = []))
    (hrec : ∀ e ∈ ms, e.1 = e.2 ∧ 0 ≤ e.2) :
    (DefaultRepository.GetAndIncrementRequestCount lib ip r).1 =
        .ok (((if (r.now, r.now) ∈ ms then ms else (r.now, r.now) :: ms).filter fun e =>
          decide (r.now - 60000 < e.2) && decide (e.2 ≤ r.now)).length : Int) ∧
      (DefaultRepository.GetAndIncrementRequestCount lib ip r).2.entries (difficultyKey lib ip) =
        ((if (r.now, r.now) ∈ ms then ms else (r.now, r.now) :: ms).filter fun e =>
          decide (r.now - 60000 < e.2)) ∧
      (∀ e ∈ ms, e.2 ≤ r.now - 60000 →
        e ∉ (DefaultRepository.GetAndIncrementRequestCount lib ip r).2.entries
            (difficultyKey lib ip) ∧
          e ∉ (if (r.now, r.now) ∈ ms then ms else (r.now, r.now) :: ms).filter fun e =>
            decide (r.now - 60000 < e.2) && decide (e.2 ≤ r.now)) ∧
      (∀ e ∈ ms, r.now - 60000 < e.2 →
        e ∈ (DefaultRepository.GetAndIncrementRequestCount lib ip r).2.entries
          (difficultyKey lib ip)) ∧
      (r.now - 60000, r.now - 60000) ∉
        (DefaultRepository.GetAndIncrementRequestCount lib ip r).2.entries
          (difficultyKey lib ip) ∧
      ((r.now - 60000 + 1, r.now - 60000 + 1) ∈ ms →
        (r.now - 60000 + 1, r.now - 60000 + 1) ∈
          (if (r.now, r.now) ∈ ms then ms else (r.now, r.now) :: ms).filter fun e =>
            decide (r.now - 60000 < e.2) && decide (e.2 ≤ r.now)) := by
  obtain ⟨h1, hl1, -⟩ := DefaultRepository.GetAndIncrementRequestCount_of_zset lib ip hconn hl
  have hent : (DefaultRepository.GetAndIncrementRequestCount lib ip r).2.entries
      (difficultyKey lib ip) =
      ((if (r.now, r.now) ∈ ms then ms else (r.now, r.now) :: ms).filter fun e =>
        decide (r.now - 60000 < e.2)) := by
    unfold Redis.entries
    rw [hl1]
    exact windowKeep_of_recorded r.now hrec
  have hsub : ∀ e ∈ ms, e ∈ (if (r.now, r.now) ∈ ms then ms else (r.now, r.now) :: ms) := by
    intro e he
    split
    · exact he
    · exact List.mem_cons_of_mem _ he
  refine ⟨?_, hent, ?_, ?_, ?_, ?_⟩
  · rw [h1, windowCount_of_recorded r.now hrec]
  · intro e _ hle
    rw [hent]
    constructor
    · intro hm
      have h2 := (List.mem_filter.mp hm).2
      simp only [decide_eq_true_eq] at h2
      omega
    · intro hm
      have h2 := (List.mem_filter.mp hm).2
      simp only [Bool.and_eq_true, decide_eq_true_eq] at h2
      omega
  · intro e he hlt
    rw [hent, List.mem_filter]
    exact ⟨hsub e he, by simpa using hlt⟩
  · rw [hent]
    intro hm
    have h2 := (List.mem_filter.mp hm).2
    simp at h2
  · intro he
    rw [List.mem_filter]
    refine ⟨hsub _ he, ?_⟩
    simp only [Bool.and_eq_true, decide_eq_true_eq]
    constructor <;> omega

/-- Witness of `GetAndIncrementRequestCount_window_boundary`: in `sampleWindow` the requests
recorded at 1700000000000 and 1700000000001 are read at 1700000060000; the call returns 2, the
request at 1700000000001 and itself. -/
theorem GetAndIncrementRequestCount_window_boundary_witness :
    (DefaultRepository.GetAndIncrementRequestCount sampleLib sampleSource sampleWindow).1 =
        .ok 2 ∧
      (DefaultRepository.GetAndIncrementRequestCount sampleLib sampleSource
        sampleWindow).2.entries (difficultyKey sampleLib sampleSource) =
        [(1700000060000, 1700000060000), (1700000000001, 1700000000001)] :=
  have h := GetAndIncrementRequestCount_window_boundary sampleLib sampleSource sampleWindow
    [(1700000000001, 1700000000001), (1700000000000, 1700000000000)]
    (some (1700000000001 + slidingWindowDuration * 2)) (fun _ h => nomatch h)
    (Or.inl (by decide)) (by decide)
  ⟨h.1, h.2.1⟩

/-! ## C19: the keys derived from a source -/

theorem hexDigit_mem (n : Nat) : hexDigit n ∈ "0123456789abcdef".data := by
  unfold hexDigit
  by_cases h : n < 16
  · interval_cases n <;> decide
  · rw [List.getD_eq_default _ _ (by simpa using h)]
    decide

theorem hexEncodeToString_mem (src : List UInt8) :
    ∀ c ∈ (hexEncodeToString src).data, c ∈ "0123456789abcdef".data := by
  intro c hc
  unfold hexEncodeToString at hc
  rw [List.mem_flatMap] at hc
  obtain ⟨b, -, hb⟩ := hc
  simp only [List.mem_cons, List.mem_singleton, List.not_mem_nil, or_false] at hb
  rcases hb with rfl | rfl <;> exact hexDigit_mem _

theorem hexEncodeToString_length (src : List UInt8) :
    (hexEncodeToString src).data.length = 2 * src.length := by
  unfold hexEncodeToString
  induction src with
  | nil => rfl
  | cons b bs ih =>
    simp only [List.flatMap_cons, List.length_append, List.length_cons, List.length_nil] at ih ⊢
    omega

theorem hashIPAddress_length (lib : Lib) (ip : String) : (hashIPAddress lib ip).length = 16 := by
  unfold hashIPAddress hashLength
  show ((hexEncodeToString (lib.sha256Sum256 (bytesOf ip))).data.take 16).length = 16
  rw [List.length_take, hexEncodeToString_length, lib.sha256_size]
  rfl

theorem windowKeep_nil (now : Int) : windowKeep [] now = [(now, now)] := by
  unfold windowKeep windowAdd
  have h : ¬ now ≤ now - slidingWindowDuration := by
    have := slidingWindowDuration_eq
    omega
  simp [h]

/-- C19. For every source string: the key of the request window is `"difficulty:" ++ h` and the
key of the outstanding counter is `"unsolved:" ++ h`, where `h` is the first 16 characters of
the lowercase hex rendering of the SHA-256 of the source's bytes; `h` has exactly 16
characters, each one of `0123456789abcdef`. `GetAndIncrementRequestCount` changes no key other
than the first and writes it, `IncrementUnsolvedCount` changes no key other than the second and
writes it. -/
theorem source_keys (lib : Lib) (src : String) :
    difficultyKey lib src = "difficulty:" ++ hashIPAddress lib src ∧
      unsolvedKey lib src = "unsolved:" ++ hashIPAddress lib src ∧
      (hashIPAddress lib src).data =
        (hexEncodeToString (lib.sha256Sum256 (bytesOf src))).data.take 16 ∧
      (hashIPAddress lib src).length = 16 ∧
      (∀ c ∈ (hashIPAddress lib src).data, c ∈ "0123456789abcdef".data) ∧
      (∀ r, Redis.OnlyAt ("difficulty:" ++ hashIPAddress lib src) r
        (DefaultRepository.GetAndIncrementRequestCount lib src r).2) ∧
      (∀ r, (∀ text, r.faults.head? ≠ some (some text)) →
        r.live ("difficulty:" ++ hashIPAddress lib src) = none →
        (DefaultRepository.GetAndIncrementRequestCount lib src r).2.live
            ("difficulty:" ++ hashIPAddress lib src) =
          some ⟨.zset [(r.now, r.now)], some (r.now + slidingWindowDuration * 2)⟩) ∧
      (∀ r, Redis.OnlyAt ("unsolved:" ++ hashIPAddress lib src) r
        (DefaultRepository.IncrementUnsolvedCount lib src r).2) ∧
      (∀ r n, (DefaultRepository.IncrementUnsolvedCount lib src r).1 = .ok n →
        (DefaultRepository.IncrementUnsolvedCount lib src r).2.live
            ("unsolved:" ++ hashIPAddress lib src) =
          some ⟨.int n, some (r.now + unsolvedCountTTL)⟩) := by
  refine ⟨rfl, rfl, rfl, hashIPAddress_length lib src, ?_,
    DefaultRepository.onlyAt_GetAndIncrementRequestCount lib src, ?_,
    DefaultRepository.onlyAt_IncrementUnsolvedCount lib src,
    fun r n h => (DefaultRepository.IncrementUnsolvedCount_ok h).1⟩
  · intro c hc
    have h2 : c ∈ (hexEncodeToString (lib.sha256Sum256 (bytesOf src))).data.take hashLength :=
      hc
    exact hexEncodeToString_mem _ c (List.mem_of_mem_take h2)
  · intro r hconn hl
    have h := (@DefaultRepository.GetAndIncrementRequestCount_of_zset lib src _ [] none hconn
      (Or.inr ⟨hl, rfl⟩)).2.1
    rw [windowKeep_nil] at h
    exact h

/-! ## C20: the `pow_solution` handler -/

theorem protocol.Conn.Write_of_connected (c : protocol.Conn) (b : List UInt8)
    (hconn : ∀ text, c.faults.head? ≠ some (some text)) :
    (c.Write b).1 = .ok () ∧ (c.Write b).2.written = c.written ++ [b] := by
  unfold protocol.Conn.Write
  rcases hf : c.faults with _ | ⟨f, rest⟩
  · exact ⟨rfl, rfl⟩
  · cases f with
    | none => exact ⟨rfl, rfl⟩
    | some text => exact absurd (by rw [hf]; rfl) (hconn text)

theorem protocol.SendMessage_of_connected (json : protocol.Json) (conn : protocol.Conn)
    (msgType : String) (data : protocol.Payload) (dataBytes msgBytes : List UInt8)
    (hdata : json.marshal data = .ok dataBytes)
    (hmsg : json.marshalMessage ⟨msgType, dataBytes⟩ = .ok msgBytes)
    (hconn : ∀ text, conn.faults.head? ≠ some (some text)) :
    (protocol.SendMessage json conn msgType data).1 = .ok () ∧
      (protocol.SendMessage json conn msgType data).2.written =
        conn.written ++ [msgBytes ++ [10]] := by
  unfold protocol.SendMessage
  simp only [hdata, hmsg]
  exact protocol.Conn.Write_of_connected conn _ hconn

/-- C20. The `pow_solution` handler calls `SendMessage` with the type `quote_response` if and
only if the payload decodes and `ValidateChallenge` returns no error. When the payload decodes
and `ValidateChallenge` returns an error, whatever it is, the handler's calls are the decoding,
`ValidateChallenge` and one `SendMessage` of type `error` with the code `invalid_solution` and
the error text as message; the quote source is not called and keeps its state, and the handler
returns what that `SendError` returns. When the payload decodes and `ValidateChallenge` returns
no error, the quote source is asked once and its quote is sent. A `SendMessage` whose payload
and envelope marshal and whose `Write` does not fail puts exactly one frame on the connection,
the envelope followed by a newline. -/
theorem pow_solution_HandleMessage {σ ρ : Type} (json : protocol.Json)
    (h : powsolution.Handler σ ρ) (conn : protocol.Conn) (clientIP : String)
    (msg : protocol.Message) (st : σ) (qs : ρ) :
    ((∃ d, HandlerCall.SendMessage "quote_response" d ∈
        (h.HandleMessage json conn clientIP msg st qs).calls) ↔
      ∃ sol, json.unmarshalSolution msg.data = .ok sol ∧
        (h.powService.ValidateChallenge clientIP sol.ChallengeID sol.Nonce st).1 = .ok ()) ∧
    (∀ sol err, json.unmarshalSolution msg.data = .ok sol →
      (h.powService.ValidateChallenge clientIP sol.ChallengeID sol.Nonce st).1 = .error err →
      (h.HandleMessage json conn clientIP msg st qs).calls =
          [.Unmarshal msg.data, .ValidateChallenge clientIP sol.ChallengeID sol.Nonce,
            .SendMessage "error" (.Error ⟨"invalid_solution", err⟩)] ∧
        (h.HandleMessage json conn clientIP msg st qs).calls.filter HandlerCall.isSend =
          [.SendMessage "error" (.Error ⟨"invalid_solution", err⟩)] ∧
        HandlerCall.Quote ∉ (h.HandleMessage json conn clientIP msg st qs).calls ∧
        (h.HandleMessage json conn clientIP msg st qs).quotes = qs ∧
        (h.HandleMessage json conn clientIP msg st qs).result =
          .ofExcept (protocol.SendError json conn "invalid_solution" err).1 ∧
        (h.HandleMessage json conn clientIP msg st qs).conn =
          (protocol.SendError json conn "invalid_solution" err).2) ∧
    (∀ sol, json.unmarshalSolution msg.data = .ok sol →
      (h.powService.ValidateChallenge clientIP sol.ChallengeID sol.Nonce st).1 = .ok () →
      (h.HandleMessage json conn clientIP msg st qs).calls =
          [.Unmarshal msg.data, .ValidateChallenge clientIP sol.ChallengeID sol.Nonce, .Quote,
            .SendMessage "quote_response"
              (.QuoteResponse ⟨(h.quoteUsecase.Quote qs).1.Text,
                (h.quoteUsecase.Quote qs).1.Author⟩)] ∧
        (h.HandleMessage json conn clientIP msg st qs).conn =
          (protocol.SendMessage json conn "quote_response"
            (.QuoteResponse ⟨(h.quoteUsecase.Quote qs).1.Text,
              (h.quoteUsecase.Quote qs).1.Author⟩)).2) ∧
    (∀ (c : protocol.Conn) (msgType : String) (data : protocol.Payload)
      (dataBytes msgBytes : List UInt8),
      json.marshal data = .ok dataBytes →
      json.marshalMessage ⟨msgType, dataBytes⟩ = .ok msgBytes →
      (∀ text, c.faults.head? ≠ some (some text)) →
      (protocol.SendMessage json c msgType data).1 = .ok () ∧
        (protocol.SendMessage json c msgType data).2.written =
          c.written ++ [msgBytes ++ [10]]) := by
  refine ⟨?_, ?_, ?_, fun c msgType data dataBytes msgBytes hd hm hc =>
    protocol.SendMessage_of_connected json c msgType data dataBytes msgBytes hd hm hc⟩
  · unfold powsolution.Handler.HandleMessage
    cases hdec : json.unmarshalSolution msg.data with
    | error e =>
      simp only
      constructor
      · rintro ⟨d, hd⟩
        simp [protocol.TypeError] at hd
      · rintro ⟨sol, hsol, -⟩
        cases hsol
    | ok sol =>
      simp only
      rcases hv : h.powService.ValidateChallenge clientIP sol.ChallengeID sol.Nonce st with
        ⟨_ | err | _, st1⟩
      · simp only
        constructor
        · intro _
          exact ⟨sol, rfl, by rw [hv]⟩
        · intro _
          exact ⟨.QuoteResponse ⟨(h.quoteUsecase.Quote qs).1.Text,
            (h.quoteUsecase.Quote qs).1.Author⟩, by simp [protocol.TypeQuoteResponse]⟩
      · simp only
        constructor
        · rintro ⟨d, hd⟩
          simp [protocol.TypeError] at hd
        · rintro ⟨sol2, hsol, hok⟩
          cases hsol
          rw [hv] at hok
          cases hok
      · simp only
        constructor
        · rintro ⟨d, hd⟩
          simp at hd
        · rintro ⟨sol2, hsol, hok⟩
          cases hsol
          rw [hv] at hok
          cases hok
  · intro sol err hdec hval
    unfold powsolution.Handler.HandleMessage
    rcases hv : h.powService.ValidateChallenge clientIP sol.ChallengeID sol.Nonce st with
      ⟨_ | err2 | _, st1⟩
    · rw [hv] at hval; cases hval
    · rw [hv] at hval
      cases hval
      simp only [hdec, hv]
      refine ⟨rfl, rfl, ?_, trivial, rfl, rfl⟩
      simp
    · rw [hv] at hval; cases hval
  · intro sol hdec hval
    unfold powsolution.Handler.HandleMessage
    rcases hv : h.powService.ValidateChallenge clientIP sol.ChallengeID sol.Nonce st with
      ⟨_ | err2 | _, st1⟩
    · simp only [hdec, hv]
      exact ⟨rfl, rfl⟩
    · rw [hv] at hval; cases hval
    · rw [hv] at hval; cases hval

/-- The `pow_solution` handler on the server with the sample codec: a solution whose id is not
a UUID is answered by the single frame of an `invalid_solution` error and the quote source is
not asked; the solution of the challenge issued in `sampleIssued` is answered by the frame of
a `quote_response`. -/
theorem pow_solution_HandleMessage_sample :
    (sampleSolutionHandler.HandleMessage sampleJson sampleConn sampleSource sampleBadSolution
        (Redis.empty 1700000000000) ()).conn.written =
      [bytesOf ("\x7b\"type\":\"error\",\"data\":\x7b\"code\":\"invalid_solution\"," ++
        "\"message\":\"invalid challenge ID format\"\x7d\x7d\n")] ∧
    (sampleSolutionHandler.HandleMessage sampleJson sampleConn sampleSource sampleBadSolution
        (Redis.empty 1700000000000) ()).calls =
      [.Unmarshal sampleBadSolution.data, .ValidateChallenge sampleSource "not-a-uuid" "42",
        .SendMessage "error" (.Error ⟨"invalid_solution", "invalid challenge ID format"⟩)] ∧
    (sampleSolutionHandler.HandleMessage sampleJson sampleConn sampleSource sampleSolution
        sampleIssued ()).conn.written =
      [bytesOf ("\x7b\"type\":\"quote_response\",\"data\":\x7b\"text\":" ++
        "\"The only true wisdom is in knowing you know nothing.\"," ++
        "\"author\":\"Socrates\"\x7d\x7d\n")] := by
  refine ⟨by decide, by decide, by decide⟩

/-! ## C28: a decrement that fails after the record was deleted -/

theorem update_failed_ne_format (err : String) :
    "invalid challenge ID format" ≠ "failed to update challenge count: " ++ err := by
  intro h
  have h2 := congrArg String.data h
  simp [String.data_append] at h2

theorem update_failed_ne_invalid (e err : String) :
    "invalid challenge: " ++ e ≠ "failed to update challenge count: " ++ err := by
  intro h
  have h2 := congrArg String.data h
  simp [String.data_append] at h2

theorem update_failed_ne_solution (err : String) :
    "invalid challenge solution" ≠ "failed to update challenge count: " ++ err := by
  intro h
  have h2 := congrArg String.data h
  simp [String.data_append] at h2

/-- A `ValidateChallenge` that returns "failed to update challenge count: ..." went through the
verification and `DeleteTask`, and its state is the one the decrement left. -/
theorem Service.ValidateChallenge_update_failed {σ : Type} (lib : Lib) (s : Service σ)
    (clientIP challengeID nonce : String) (draw : ℚ) (st : σ) (err : String)
    (h : (s.ValidateChallenge lib clientIP challengeID nonce draw st).result =
      .error ("failed to update challenge count: " ++ err)) :
    lib.uuidParse challengeID = true ∧
      (∃ task, (s.repo.GetTask challengeID st).1 = .ok task ∧
        s.utils.VerifySolution challengeID task.Seed nonce task.DifficultyLevel = some true) ∧
      Call.DeleteTask challengeID ∈
        (s.ValidateChallenge lib clientIP challengeID nonce draw st).calls ∧
      ((s.ValidateChallenge lib clientIP challengeID nonce draw st).state =
          (s.repo.DecrementUnsolvedCountBy clientIP 2
            (s.repo.DeleteTask challengeID (s.repo.GetTask challengeID st).2).2).2 ∨
        (s.ValidateChallenge lib clientIP challengeID nonce draw st).state =
          (s.repo.DecrementUnsolvedCount clientIP
            (s.repo.DeleteTask challengeID (s.repo.GetTask challengeID st).2).2).2) := by
  unfold Service.ValidateChallenge at h ⊢
  split at h
  · exact absurd (Outcome.error.inj h) (update_failed_ne_format err)
  · rename_i hu
    have hid : lib.uuidParse challengeID = true := by simpa using hu
    simp only [if_neg hu]
    rcases h1 : s.repo.GetTask challengeID st with ⟨e | task, st1⟩
    · rw [h1] at h
      exact absurd (Outcome.error.inj h) (update_failed_ne_invalid e err)
    · rw [h1] at h
      simp only at h ⊢
      cases hv : s.utils.VerifySolution challengeID task.Seed nonce task.DifficultyLevel with
      | none => rw [hv] at h; cases h
      | some b =>
        cases b with
        | false =>
          rw [hv] at h
          exact absurd (Outcome.error.inj h) (update_failed_ne_solution err)
        | true =>
          rw [hv] at h
          simp only at h ⊢
          refine ⟨hid, ⟨task, rfl, hv⟩, ?_, ?_⟩
          · split
            · split <;> simp
            · split <;> simp
          · split
            · left; split <;> (rename_i heq; rw [heq])
            · right; split <;> (rename_i heq; rw [heq])

/-- C28. When the decrement of the outstanding counter returns an error after a successful
verification, `ValidateChallenge` returns "failed to update challenge count: " followed by that
error, and `DeleteTask` was called before. On the server, a `ValidateChallenge` that returned
this error has `DeleteTask` among its calls, and when that `DeleteTask` returned no error the
record is gone: after any further events other than a `CreateChallenge` whose fresh UUID is the
id, every `ValidateChallenge` for the id, the same nonce included, fails with
"invalid challenge: ...". -/
theorem ValidateChallenge_decrement_failure {σ : Type} (lib : Lib) (s : Service σ)
    (clientIP challengeID nonce : String) (draw : ℚ) (st : σ) (task : Task)
    (hid : lib.uuidParse challengeID = true)
    (hget : (s.repo.GetTask challengeID st).1 = .ok task)
    (hver : s.utils.VerifySolution challengeID task.Seed nonce task.DifficultyLevel =
      some true) :
    (∀ err, draw < forgiveThreshold →
      (s.repo.DecrementUnsolvedCountBy clientIP 2
        (s.repo.DeleteTask challengeID (s.repo.GetTask challengeID st).2).2).1 = .error err →
      (s.ValidateChallenge lib clientIP challengeID nonce draw st).result =
          .error ("failed to update challenge count: " ++ err) ∧
        (s.ValidateChallenge lib clientIP challengeID nonce draw st).calls =
          [.uuidParse challengeID, .GetTask challengeID,
            .VerifySolution challengeID task.Seed nonce task.DifficultyLevel,
            .DeleteTask challengeID, .Float32, .DecrementUnsolvedCountBy clientIP 2]) ∧
    (∀ err, ¬ draw < forgiveThreshold →
      (s.repo.DecrementUnsolvedCount clientIP
        (s.repo.DeleteTask challengeID (s.repo.GetTask challengeID st).2).2).1 = .error err →
      (s.ValidateChallenge lib clientIP challengeID nonce draw st).result =
          .error ("failed to update challenge count: " ++ err) ∧
        (s.ValidateChallenge lib clientIP challengeID nonce draw st).calls =
          [.uuidParse challengeID, .GetTask challengeID,
            .VerifySolution challengeID task.Seed nonce task.DifficultyLevel,
            .DeleteTask challengeID, .Float32, .DecrementUnsolvedCount clientIP]) ∧
    (∀ (config : PowConfig) (r : Redis) (err : String),
      ((server lib config).ValidateChallenge lib clientIP challengeID nonce draw r).result =
        .error ("failed to update challenge count: " ++ err) →
      Call.DeleteTask challengeID ∈
          ((server lib config).ValidateChallenge lib clientIP challengeID nonce draw r).calls ∧
        ((DefaultRepository.DeleteTask challengeID
            (DefaultRepository.GetTask challengeID r).2).1 = .ok () →
          ((server lib config).ValidateChallenge lib clientIP challengeID nonce draw
              r).state.live (taskKey challengeID) = none ∧
            ∀ (ops : List Op), (∀ op ∈ ops, op.creates challengeID = false) →
              ∀ (clientIP2 nonce2 : String) (draw2 : ℚ),
                ∃ e, (e = ErrTaskNotFound ∨ e = ErrRedisOperation) ∧
                  ((server lib config).ValidateChallenge lib clientIP2 challengeID nonce2 draw2
                    (runOps lib config ops
                      ((server lib config).ValidateChallenge lib clientIP challengeID nonce
                        draw r).state)).result = .error ("invalid challenge: " ++ e))) := by
  refine ⟨fun err hdraw hdec => ?_, fun err hdraw hdec => ?_, fun config r err hfail => ?_⟩
  · rw [Service.ValidateChallenge_lucky lib s clientIP challengeID nonce draw st task hid hget
      hver hdraw]
    simp only [hdec, and_self]
  · rw [Service.ValidateChallenge_regular lib s clientIP challengeID nonce draw st task hid
      hget hver hdraw]
    simp only [hdec, and_self]
  · obtain ⟨hid2, -, hcall, hstate⟩ := Service.ValidateChallenge_update_failed lib
      (server lib config) clientIP challengeID nonce draw r err hfail
    refine ⟨hcall, fun hdel => ?_⟩
    have hne : taskKey challengeID ≠ unsolvedKey lib clientIP :=
      fun e => unsolved_ne_task _ _ e.symm
    have hgone : ((server lib config).ValidateChallenge lib clientIP challengeID nonce draw
        r).state.live (taskKey challengeID) = none := by
      have hd := DefaultRepository.DeleteTask_ok hdel
      rcases hstate with hs | hs
      · rw [hs]
        exact ((DefaultRepository.onlyAt_DecrementUnsolvedCountBy lib clientIP 2 _).live_eq _
          hne).trans hd
      · rw [hs]
        exact ((DefaultRepository.onlyAt_DecrementUnsolvedCountBy lib clientIP 1 _).live_eq _
          hne).trans hd
    refine ⟨hgone, fun ops hops clientIP2 nonce2 draw2 => ?_⟩
    have hlater := runOps_keeps_absent lib config challengeID ops _ hops hgone
    rcases DefaultRepository.GetTask_of_absent hlater with hg | hg
    · exact ⟨ErrTaskNotFound, Or.inl rfl, congrArg Run.result
        (Service.ValidateChallenge_miss lib (server lib config) clientIP2 challengeID nonce2
          draw2 _ hid2 _ hg)⟩
    · exact ⟨ErrRedisOperation, Or.inr rfl, congrArg Run.result
        (Service.ValidateChallenge_miss lib (server lib config) clientIP2 challengeID nonce2
          draw2 _ hid2 _ hg)⟩

/-- Witness of `ValidateChallenge_decrement_failure`: on `sampleIssuedLate` the round trip of
the decrement times out after `DeleteTask` succeeded; the submission is answered with the
error and the same submission made again finds no record. -/
theorem ValidateChallenge_decrement_failure_witness :
    ((server sampleLib DefaultConfig).ValidateChallenge sampleLib sampleSource sampleUUID
        "nonce" (mkRat 1 2) sampleIssuedLate).result =
        .error "failed to update challenge count: redis operation failed" ∧
      ((server sampleLib DefaultConfig).ValidateChallenge sampleLib sampleSource sampleUUID
        "nonce" (mkRat 1 2)
        ((server sampleLib DefaultConfig).ValidateChallenge sampleLib sampleSource sampleUUID
          "nonce" (mkRat 1 2) sampleIssuedLate).state).result =
        .error "invalid challenge: task not found" :=
  have h := ValidateChallenge_decrement_failure sampleLib (server sampleLib DefaultConfig)
    sampleSource sampleUUID "nonce" (mkRat 1 2) sampleIssuedLate ⟨sampleUUID, "", 0, ""⟩
    (by decide) rfl (by decide)
  ⟨(h.2.1 ErrRedisOperation (by decide) rfl).1, by decide⟩

/-! ## C27: the source of a submission -/

theorem DefaultRepository.DecrementUnsolvedCountBy_of_fault (lib : Lib) (ip : String)
    (count : Int) {r : Redis} {text : String} (h : r.faults.head? = some (some text)) :
    (DefaultRepository.DecrementUnsolvedCountBy lib ip count r).1 = .error ErrRedisOperation := by
  unfold DefaultRepository.DecrementUnsolvedCountBy Redis.call
  rcases hf : r.faults with _ | ⟨f, rest⟩
  · rw [hf] at h; cases h
  · rw [hf] at h
    simp only [List.head?_cons, Option.some.injEq] at h
    subst h
    rfl

/-- On counters that are absent or hold an integer, whether `DecrementUnsolvedCountBy` returns
an error depends on the connection only, not on the source or the count. -/
theorem DefaultRepository.DecrementUnsolvedCountBy_result_eq (lib : Lib) (ip1 ip2 : String)
    (n1 n2 : Int) (r : Redis)
    (h1 : r.live (unsolvedKey lib ip1) = none ∨
      ∃ c t, r.live (unsolvedKey lib ip1) = some ⟨.int c, t⟩)
    (h2 : r.live (unsolvedKey lib ip2) = none ∨
      ∃ c t, r.live (unsolvedKey lib ip2) = some ⟨.int c, t⟩) :
    (DefaultRepository.DecrementUnsolvedCountBy lib ip1 n1 r).1 =
      (DefaultRepository.DecrementUnsolvedCountBy lib ip2 n2 r).1 := by
  by_cases hconn : ∀ text, r.faults.head? ≠ some (some text)
  · rw [DefaultRepository.DecrementUnsolvedCountBy_of_entry n1 hconn h1,
      DefaultRepository.DecrementUnsolvedCountBy_of_entry n2 hconn h2]
  · push_neg at hconn
    obtain ⟨text, ht⟩ := hconn
    rw [DefaultRepository.DecrementUnsolvedCountBy_of_fault lib ip1 n1 ht,
      DefaultRepository.DecrementUnsolvedCountBy_of_fault lib ip2 n2 ht]

theorem DefaultRepository.GetTask_live (taskID : String) (r : Redis) (k : String) :
    (DefaultRepository.GetTask taskID r).2.live k = r.live k := by
  obtain ⟨hd, hn⟩ := DefaultRepository.GetTask_store taskID r
  unfold Redis.live
  rw [hd, hn]

/-- The service's result and state for two sources, when the decrements of the two sources
return the same. -/
theorem Service.ValidateChallenge_sources {σ : Type} (lib : Lib) (s : Service σ)
    (s1 s2 challengeID nonce : String) (draw : ℚ) (st : σ)
    (hby : (s.repo.DecrementUnsolvedCountBy s1 2
        (s.repo.DeleteTask challengeID (s.repo.GetTask challengeID st).2).2).1 =
      (s.repo.DecrementUnsolvedCountBy s2 2
        (s.repo.DeleteTask challengeID (s.repo.GetTask challengeID st).2).2).1)
    (hone : (s.repo.DecrementUnsolvedCount s1
        (s.repo.DeleteTask challengeID (s.repo.GetTask challengeID st).2).2).1 =
      (s.repo.DecrementUnsolvedCount s2
        (s.repo.DeleteTask challengeID (s.repo.GetTask challengeID st).2).2).1) :
    (s.ValidateChallenge lib s1 challengeID nonce draw st).result =
      (s.ValidateChallenge lib s2 challengeID nonce draw st).result := by
  unfold Service.ValidateChallenge
  split
  · rfl
  · rcases h1 : s.repo.GetTask challengeID st with ⟨e | task, st1⟩
    · rfl
    · rw [h1] at hby hone
      simp only at hby hone ⊢
      cases hv : s.utils.VerifySolution challengeID task.Seed nonce task.DifficultyLevel with
      | none => rfl
      | some b =>
        cases b with
        | false => rfl
        | true =>
          simp only
          split
          · rcases ha : s.repo.DecrementUnsolvedCountBy s1 2
              (s.repo.DeleteTask challengeID st1).2 with ⟨ea | ua, sta⟩ <;>
            rcases hb : s.repo.DecrementUnsolvedCountBy s2 2
              (s.repo.DeleteTask challengeID st1).2 with ⟨eb | ub, stb⟩ <;>
            rw [ha, hb] at hby <;> simp only at hby ⊢
            · cases hby; rfl
            · cases hby
            · cases hby
          · rcases ha : s.repo.DecrementUnsolvedCount s1
              (s.repo.DeleteTask challengeID st1).2 with ⟨ea | ua, sta⟩ <;>
            rcases hb : s.repo.DecrementUnsolvedCount s2
              (s.repo.DeleteTask challengeID st1).2 with ⟨eb | ub, stb⟩ <;>
            rw [ha, hb] at hone <;> simp only at hone ⊢
            · cases hone; rfl
            · cases hone
            · cases hone

/-- The state a `ValidateChallenge` leaves and its decrement calls, for every source at once:
which of the four cases applies does not depend on the source. -/
theorem Service.ValidateChallenge_branches {σ : Type} (lib : Lib) (s : Service σ)
    (challengeID nonce : String) (draw : ℚ) (st : σ) :
    (∀ ip, (s.ValidateChallenge lib ip challengeID nonce draw st).state = st ∧
        (s.ValidateChallenge lib ip challengeID nonce draw st).calls.filter Call.isDecrement =
          []) ∨
      (∀ ip, (s.ValidateChallenge lib ip challengeID nonce draw st).state =
          (s.repo.GetTask challengeID st).2 ∧
        (s.ValidateChallenge lib ip challengeID nonce draw st).calls.filter Call.isDecrement =
          []) ∨
      (∀ ip, (s.ValidateChallenge lib ip challengeID nonce draw st).state =
          (s.repo.DecrementUnsolvedCountBy ip 2
            (s.repo.DeleteTask challengeID (s.repo.GetTask challengeID st).2).2).2 ∧
        (s.ValidateChallenge lib ip challengeID nonce draw st).calls.filter Call.isDecrement =
          [.DecrementUnsolvedCountBy ip 2]) ∨
      (∀ ip, (s.ValidateChallenge lib ip challengeID nonce draw st).state =
          (s.repo.DecrementUnsolvedCount ip
            (s.repo.DeleteTask challengeID (s.repo.GetTask challengeID st).2).2).2 ∧
        (s.ValidateChallenge lib ip challengeID nonce draw st).calls.filter Call.isDecrement =
          [.DecrementUnsolvedCount ip]) := by
  unfold Service.ValidateChallenge
  by_cases hu : lib.uuidParse challengeID = false
  · left
    intro ip
    rw [if_pos hu]
    exact ⟨rfl, rfl⟩
  · simp only [if_neg hu]
    rcases h1 : s.repo.GetTask challengeID st with ⟨e | task, st1⟩
    · right; left
      intro ip
      exact ⟨rfl, rfl⟩
    · simp only
      cases hv : s.utils.VerifySolution challengeID task.Seed nonce task.DifficultyLevel with
      | none =>
        right; left
        intro ip
        exact ⟨rfl, rfl⟩
      | some b =>
        cases b with
        | false =>
          right; left
          intro ip
          exact ⟨rfl, rfl⟩
        | true =>
          simp only
          by_cases hd : draw < forgiveThreshold
          · right; right; left
            intro ip
            simp only [if_pos hd]
            split <;> (rename_i heq; rw [heq]; exact ⟨rfl, rfl⟩)
          · right; right; right
            intro ip
            simp only [if_neg hd]
            split <;> (rename_i heq; rw [heq]; exact ⟨rfl, rfl⟩)

/-- After `GetTask` and `DeleteTask`, every key but the record's holds what it held. -/
theorem DefaultRepository.onlyAt_GetTask_DeleteTask (taskID : String) (r : Redis) :
    Redis.OnlyAt (taskKey taskID) r
      (DefaultRepository.DeleteTask taskID (DefaultRepository.GetTask taskID r).2).2 := by
  obtain ⟨hd, hn⟩ := DefaultRepository.GetTask_store taskID r
  have h := DefaultRepository.onlyAt_DeleteTask taskID (DefaultRepository.GetTask taskID r).2
  exact ⟨h.1.trans hn, fun k hk => (h.2 k hk).trans (by rw [hd])⟩

/-- C27. On the server, for every store state in which the outstanding counters of two sources
`s1` and `s2` are absent or hold an integer (what the server writes there), every challenge id,
nonce and draw: `ValidateChallenge` returns the same for `s1` and for `s2`; the two states left
have the same clock and hold the same under every key other than the two counters, so the same
challenge records; the run for `s1` leaves the counter of another source as it was; and every
decrement call of the run for `s1` is a decrement for `s1`, the submitter. -/
theorem ValidateChallenge_source_independent (lib : Lib) (config : PowConfig)
    (s1 s2 challengeID nonce : String) (draw : ℚ) (r : Redis)
    (h1 : r.live (unsolvedKey lib s1) = none ∨
      ∃ c t, r.live (unsolvedKey lib s1) = some ⟨.int c, t⟩)
    (h2 : r.live (unsolvedKey lib s2) = none ∨
      ∃ c t, r.live (unsolvedKey lib s2) = some ⟨.int c, t⟩) :
    ((server lib config).ValidateChallenge lib s1 challengeID nonce draw r).result =
        ((server lib config).ValidateChallenge lib s2 challengeID nonce draw r).result ∧
      ((server lib config).ValidateChallenge lib s1 challengeID nonce draw r).state.now =
        ((server lib config).ValidateChallenge lib s2 challengeID nonce draw r).state.now ∧
      (∀ k, k ≠ unsolvedKey lib s1 → k ≠ unsolvedKey lib s2 →
        ((server lib config).ValidateChallenge lib s1 challengeID nonce draw r).state.data k =
          ((server lib config).ValidateChallenge lib s2 challengeID nonce draw r).state.data
            k) ∧
      (∀ id, ((server lib config).ValidateChallenge lib s1 challengeID nonce draw
          r).state.live (taskKey id) =
        ((server lib config).ValidateChallenge lib s2 challengeID nonce draw r).state.live
          (taskKey id)) ∧
      (unsolvedKey lib s2 ≠ unsolvedKey lib s1 →
        ((server lib config).ValidateChallenge lib s1 challengeID nonce draw r).state.live
            (unsolvedKey lib s2) = r.live (unsolvedKey lib s2)) ∧
      (∀ c ∈ ((server lib config).ValidateChallenge lib s1 challengeID nonce draw r).calls,
        c.isDecrement = true →
          c = .DecrementUnsolvedCountBy s1 2 ∨ c = .DecrementUnsolvedCount s1) := by
  have hdel := DefaultRepository.onlyAt_GetTask_DeleteTask challengeID r
  have hlive : ∀ ip, (DefaultRepository.DeleteTask challengeID
      (DefaultRepository.GetTask challengeID r).2).2.live (unsolvedKey lib ip) =
      r.live (unsolvedKey lib ip) :=
    fun ip => hdel.live_eq _ (unsolved_ne_task _ _)
  have hres : ∀ n1 n2, (DefaultRepository.DecrementUnsolvedCountBy lib s1 n1
      (DefaultRepository.DeleteTask challengeID (DefaultRepository.GetTask challengeID r).2).2).1 =
      (DefaultRepository.DecrementUnsolvedCountBy lib s2 n2
        (DefaultRepository.DeleteTask challengeID
          (DefaultRepository.GetTask challengeID r).2).2).1 :=
    fun n1 n2 => DefaultRepository.DecrementUnsolvedCountBy_result_eq lib s1 s2 n1 n2 _
      (by rw [hlive]; exact h1) (by rw [hlive]; exact h2)
  have hframe : ∀ ip n, Redis.OnlyAt (unsolvedKey lib ip)
      (DefaultRepository.DeleteTask challengeID (DefaultRepository.GetTask challengeID r).2).2
      (DefaultRepository.DecrementUnsolvedCountBy lib ip n
        (DefaultRepository.DeleteTask challengeID
          (DefaultRepository.GetTask challengeID r).2).2).2 :=
    fun ip n => DefaultRepository.onlyAt_DecrementUnsolvedCountBy lib ip n _
  have hbr := Service.ValidateChallenge_branches lib (server lib config) challengeID nonce
    draw r
  have hpair : (((server lib config).ValidateChallenge lib s1 challengeID nonce draw
        r).state.now =
        ((server lib config).ValidateChallenge lib s2 challengeID nonce draw r).state.now ∧
      ∀ k, k ≠ unsolvedKey lib s1 → k ≠ unsolvedKey lib s2 →
        ((server lib config).ValidateChallenge lib s1 challengeID nonce draw r).state.data k =
          ((server lib config).ValidateChallenge lib s2 challengeID nonce draw r).state.data
            k) := by
    rcases hbr with h | h | h | h
    · rw [(h s1).1, (h s2).1]
      exact ⟨rfl, fun _ _ _ => rfl⟩
    · rw [(h s1).1, (h s2).1]
      exact ⟨rfl, fun _ _ _ => rfl⟩
    · rw [(h s1).1, (h s2).1]
      exact ⟨(hframe s1 2).1.trans (hframe s2 2).1.symm,
        fun k k1 k2 => ((hframe s1 2).2 k k1).trans ((hframe s2 2).2 k k2).symm⟩
    · rw [(h s1).1, (h s2).1]
      exact ⟨(hframe s1 1).1.trans (hframe s2 1).1.symm,
        fun k k1 k2 => ((hframe s1 1).2 k k1).trans ((hframe s2 1).2 k k2).symm⟩
  refine ⟨?_, hpair.1, hpair.2, ?_, ?_, ?_⟩
  · exact Service.ValidateChallenge_sources lib (server lib config) s1 s2 challengeID nonce
      draw r (hres 2 2) (hres 1 1)
  · intro id
    unfold Redis.live
    rw [hpair.1, hpair.2 (taskKey id) (fun e => unsolved_ne_task _ _ e.symm)
      (fun e => unsolved_ne_task _ _ e.symm)]
  · intro hne
    rcases hbr with h | h | h | h
    · rw [(h s1).1]
    · rw [(h s1).1]
      exact DefaultRepository.GetTask_live challengeID r _
    · rw [(h s1).1]
      exact ((hframe s1 2).live_eq _ hne).trans (hlive s2)
    · rw [(h s1).1]
      exact ((hframe s1 1).live_eq _ hne).trans (hlive s2)
  · intro c hc hdec
    have hmem : c ∈ ((server lib config).ValidateChallenge lib s1 challengeID nonce draw
        r).calls.filter Call.isDecrement := List.mem_filter.mpr ⟨hc, hdec⟩
    rcases hbr with h | h | h | h
    · rw [(h s1).2] at hmem; cases hmem
    · rw [(h s1).2] at hmem; cases hmem
    · rw [(h s1).2] at hmem
      exact Or.inl (List.mem_singleton.mp hmem)
    · rw [(h s1).2] at hmem
      exact Or.inr (List.mem_singleton.mp hmem)

/-- Witness of `ValidateChallenge_source_independent`: the challenge issued to `sampleSource`
in `sampleIssued` is solved by another source; the submission succeeds as it does for
`sampleSource`, and the counter of `sampleSource` stays at 1. -/
theorem ValidateChallenge_source_independent_witness :
    ((server sampleLib DefaultConfig).ValidateChallenge sampleLib "198.51.100.9" sampleUUID
        "nonce" (mkRat 1 2) sampleIssued).result =
        ((server sampleLib DefaultConfig).ValidateChallenge sampleLib sampleSource sampleUUID
          "nonce" (mkRat 1 2) sampleIssued).result ∧
      ((server sampleLib DefaultConfig).ValidateChallenge sampleLib "198.51.100.9" sampleUUID
        "nonce" (mkRat 1 2) sampleIssued).result = .ok () ∧
      outstanding sampleLib
        ((server sampleLib DefaultConfig).ValidateChallenge sampleLib "198.51.100.9" sampleUUID
          "nonce" (mkRat 1 2) sampleIssued).state sampleSource = 1 :=
  ⟨(ValidateChallenge_source_independent sampleLib DefaultConfig "198.51.100.9" sampleSource
    sampleUUID "nonce" (mkRat 1 2) sampleIssued (Or.inl (by decide))
    (Or.inr ⟨1, some (1700000000000 + unsolvedCountTTL), by decide⟩)).1, by decide, by decide⟩

/-! ## C30: the loaded configuration -/

theorem positive_or_default (val : Int) {defaultValue : Int} (h : 1 ≤ defaultValue) :
    1 ≤ (if val > 0 then val else defaultValue) := by
  split
  · omega
  · exact h

/-- C30. For every environment and every behaviour of `strconv.Atoi`, the configuration
`env.LoadFromEnv` produces has `RequestsPerDifficultyIncrease`, `MaxDifficultyLevel`,
`MaxUnsolvedChallenges`, `ScryptN`, `ScryptR`, `ScryptP` and `KeyLen` all at least 1, and
`CalculateDifficultyLevel` under it returns a level for every request count (no division by
zero). -/
theorem LoadFromEnv_positive (lib : Strconv) (getenv : String → String) :
    1 ≤ (env.LoadFromEnv lib getenv).RequestsPerDifficultyIncrease ∧
      1 ≤ (env.LoadFromEnv lib getenv).MaxDifficultyLevel ∧
      1 ≤ (env.LoadFromEnv lib getenv).MaxUnsolvedChallenges ∧
      1 ≤ (env.LoadFromEnv lib getenv).ScryptN ∧
      1 ≤ (env.LoadFromEnv lib getenv).ScryptR ∧
      1 ≤ (env.LoadFromEnv lib getenv).ScryptP ∧
      1 ≤ (env.LoadFromEnv lib getenv).KeyLen ∧
      ∀ requestCount,
        (CalculateDifficultyLevel (env.LoadFromEnv lib getenv) requestCount).isSome = true := by
  have hstep : 1 ≤ (env.LoadFromEnv lib getenv).RequestsPerDifficultyIncrease := by
    exact positive_or_default _ (by decide)
  refine ⟨hstep, ?_, ?_, ?_, ?_, ?_, ?_, ?_⟩
  · exact positive_or_default _ (by decide)
  · exact positive_or_default _ (by decide)
  · exact positive_or_default _ (by decide)
  · exact positive_or_default _ (by decide)
  · exact positive_or_default _ (by decide)
  · exact positive_or_default _ (by decide)
  · intro requestCount
    unfold CalculateDifficultyLevel
    have hne : (env.LoadFromEnv lib getenv).RequestsPerDifficultyIncrease ≠ 0 := by omega
    simp only [if_neg hne]
    split <;> rfl

/-- The loader on `sampleEnviron`: the values "0", "-3" and "many" leave the defaults 10, 8 and
10; the key length 4 is taken. -/
theorem LoadFromEnv_sample :
    (env.LoadFromEnv sampleStrconv sampleEnviron).RequestsPerDifficultyIncrease = 10 ∧
      (env.LoadFromEnv sampleStrconv sampleEnviron).MaxDifficultyLevel = 8 ∧
      (env.LoadFromEnv sampleStrconv sampleEnviron).MaxUnsolvedChallenges = 10 ∧
      (env.LoadFromEnv sampleStrconv sampleEnviron).KeyLen = 4 ∧
      (env.LoadFromEnv sampleStrconv sampleEnviron).ScryptN = 16384 := by
  decide

/-! ## Lemmas on the solver -/

theorem solverImpl.attempts_ok (lib : Lib) (env : SolverEnv) (challengeID seed : String)
    (difficultyLevel n r p keyLen : Int) (fuel : Nat) :
    ∀ (attempt : Nat) (hashed : List String) (nonce : String),
      (solverImpl.attempts lib env challengeID seed difficultyLevel n r p keyLen fuel attempt
        hashed).result = .ok nonce →
      0 ≤ difficultyLevel ∧
        (∃ i, attempt ≤ i ∧ i < attempt + fuel ∧ nonce = generateNonce (env.draws i)) ∧
        ∃ hash, lib.scryptKey (bytesOf (challengeID ++ seed ++ nonce)) (bytesOf challengeID)
            n r p keyLen = .ok hash ∧
          stringsHasPrefix (hexEncodeToString hash)
            (stringsRepeat "0" difficultyLevel.toNat) = true ∧
          16 ≤ (hexEncodeToString hash).length := by
  induction fuel with
  | zero =>
    intro attempt hashed nonce h
    cases h
  | succ fuel ih =>
    intro attempt hashed nonce h
    unfold solverImpl.attempts at h
    split at h
    · cases h
    · simp only at h
      cases hk : lib.scryptKey
          (bytesOf (challengeID ++ seed ++ generateNonce (env.draws attempt)))
          (bytesOf challengeID) n r p keyLen with
      | error err => rw [hk] at h; cases h
      | ok hash =>
        rw [hk] at h
        simp only at h
        split at h
        · cases h
        · rename_i hlevel
          split at h
          · rename_i hpre
            split at h
            · cases h
            · rename_i hlen
              cases h
              exact ⟨not_lt.mp hlevel, ⟨attempt, le_refl _, by omega, rfl⟩, hash, hk, hpre,
                not_lt.mp hlen⟩
          · obtain ⟨h1, ⟨i, hi1, hi2, hi3⟩, h3⟩ := ih _ _ _ h
            exact ⟨h1, ⟨i, by omega, by omega, hi3⟩, h3⟩

theorem solverImpl.attempts_miss (lib : Lib) (env : SolverEnv) (challengeID seed : String)
    (difficultyLevel n r p keyLen : Int) (fuel attempt : Nat) (hashed : List String)
    (hlevel : 0 ≤ difficultyLevel) (hdone : env.done attempt = false)
    (hmiss : solverMisses lib env challengeID seed difficultyLevel n r p keyLen attempt =
      true) :
    solverImpl.attempts lib env challengeID seed difficultyLevel n r p keyLen (fuel + 1)
        attempt hashed =
      solverImpl.attempts lib env challengeID seed difficultyLevel n r p keyLen fuel
        (attempt + 1) (hashed ++ [generateNonce (env.draws attempt)]) := by
  unfold solverMisses at hmiss
  rw [solverImpl.attempts]
  simp only [hdone, Bool.false_eq_true, if_false]
  cases hk : lib.scryptKey
      (bytesOf (challengeID ++ seed ++ generateNonce (env.draws attempt)))
      (bytesOf challengeID) n r p keyLen with
  | error err => rw [hk] at hmiss; cases hmiss
  | ok hash =>
    rw [hk] at hmiss
    simp only [Bool.not_eq_true'] at hmiss
    simp only [if_neg (not_lt.mpr hlevel), hmiss, Bool.false_eq_true, if_false]

theorem solverImpl.attempts_skip (lib : Lib) (env : SolverEnv) (challengeID seed : String)
    (difficultyLevel n r p keyLen : Int) (hlevel : 0 ≤ difficultyLevel) (fuel k : Nat) :
    ∀ (attempt : Nat) (hashed : List String),
      (∀ j, j < k → env.done (attempt + j) = false ∧
        solverMisses lib env challengeID seed difficultyLevel n r p keyLen (attempt + j) =
          true) →
      solverImpl.attempts lib env challengeID seed difficultyLevel n r p keyLen (fuel + k)
          attempt hashed =
        solverImpl.attempts lib env challengeID seed difficultyLevel n r p keyLen fuel
          (attempt + k)
          (hashed ++ (List.range k).map fun j => generateNonce (env.draws (attempt + j))) := by
  induction k with
  | zero =>
    intro attempt hashed _
    simp
  | succ k ih =>
    intro attempt hashed h
    have h0 := h 0 (by omega)
    rw [show fuel + (k + 1) = (fuel + k) + 1 from rfl,
      solverImpl.attempts_miss lib env challengeID seed difficultyLevel n r p keyLen _ attempt
        hashed hlevel h0.1 h0.2,
      ih (attempt + 1) _ (fun j hj => by
        have := h (j + 1) (by omega)
        rw [show attempt + 1 + j = attempt + (j + 1) by omega]
        exact this)]
    congr 1
    · omega
    · rw [List.range_succ_eq_map, List.map_cons, List.map_map, List.append_assoc]
      congr 1
      simp only [List.singleton_append, List.cons.injEq, Nat.add_zero, true_and]
      apply List.map_congr_left
      intro j _
      simp only [Function.comp]
      rw [show attempt + 1 + j = attempt + (j + 1) by omega]

theorem solverImpl.attempts_hashed_length (lib : Lib) (env : SolverEnv)
    (challengeID seed : String) (difficultyLevel n r p keyLen : Int) (fuel : Nat) :
    ∀ (attempt : Nat) (hashed : List String),
      (solverImpl.attempts lib env challengeID seed difficultyLevel n r p keyLen fuel attempt
        hashed).hashed.length ≤ hashed.length + fuel := by
  induction fuel with
  | zero =>
    intro attempt hashed
    exact le_refl _
  | succ fuel ih =>
    intro attempt hashed
    unfold solverImpl.attempts
    split
    · simp only; omega
    · simp only
      split
      · simp only [List.length_append, List.length_singleton]; omega
      · split
        · simp only [List.length_append, List.length_singleton]; omega
        · split
          · split
            · simp only [List.length_append, List.length_singleton]; omega
            · simp only [List.length_append, List.length_singleton]; omega
          · have := ih (attempt + 1) (hashed ++ [generateNonce (env.draws attempt)])
            simp only [List.length_append, List.length_singleton] at this
            omega

/-! ## C23: what the solver returns is accepted by the server -/

/-- C23. Whenever `SolveWithContext` returns a nonce without error, the difficulty level is not
negative, the nonce is one of those drawn, `scrypt.Key` on `id ++ seed ++ nonce` with salt `id`
and the parameters given, each non-positive one replaced by its default (16384, 8, 1, 32),
returns a hash whose hex rendering begins with `level` characters `'0'`, and `VerifySolution`
of a server configured with those parameters returns `true` for the same id, seed, nonce and
level. -/
theorem SolveWithContext_sound (lib : Lib) (env : SolverEnv) (challengeID seed : String)
    (difficultyLevel n r p keyLen : Int) (nonce : String)
    (h : (solverImpl.SolveWithContext lib env challengeID seed difficultyLevel n r p
      keyLen).result = .ok nonce) :
    0 ≤ difficultyLevel ∧
      (∃ i, i < MaxAttempts ∧ nonce = generateNonce (env.draws i)) ∧
      (∃ hash, lib.scryptKey (bytesOf (challengeID ++ seed ++ nonce)) (bytesOf challengeID)
          (if n ≤ 0 then 16384 else n) (if r ≤ 0 then 8 else r) (if p ≤ 0 then 1 else p)
          (if keyLen ≤ 0 then 32 else keyLen) = .ok hash ∧
        (hexEncodeToString hash).data.take difficultyLevel.toNat =
          List.replicate difficultyLevel.toNat '0') ∧
      ∀ config : PowConfig,
        config.ScryptN = (if n ≤ 0 then 16384 else n) →
        config.ScryptR = (if r ≤ 0 then 8 else r) →
        config.ScryptP = (if p ≤ 0 then 1 else p) →
        config.KeyLen = (if keyLen ≤ 0 then 32 else keyLen) →
        VerifySolution lib config challengeID seed nonce difficultyLevel = some true := by
  obtain ⟨hlevel, ⟨i, -, hi, hnonce⟩, hash, hkey, hpre, -⟩ :=
    solverImpl.attempts_ok lib env challengeID seed difficultyLevel _ _ _ _ MaxAttempts 0 []
      nonce h
  have hkey2 : lib.scryptKey (bytesOf (challengeID ++ seed ++ nonce)) (bytesOf challengeID)
      (if n ≤ 0 then 16384 else n) (if r ≤ 0 then 8 else r) (if p ≤ 0 then 1 else p)
      (if keyLen ≤ 0 then 32 else keyLen) = .ok hash := hkey
  refine ⟨hlevel, ⟨i, by omega, hnonce⟩, ⟨hash, hkey2, ?_⟩, ?_⟩
  · rw [stringsHasPrefix_zeros] at hpre
    exact of_decide_eq_true hpre
  · intro config hn hr hp hk
    unfold VerifySolution
    simp only [hn, hr, hp, hk, hkey2, if_neg (not_lt.mpr hlevel), hpre]

/-- Witness of `SolveWithContext_sound`: with the sample libraries and draws, the solver run on
`sampleUUID`, `sampleSeed` at level 1 with all four parameters 0 returns the nonce of its
eleventh attempt, which the server under the default configuration accepts. -/
theorem SolveWithContext_sound_witness :
    (solverImpl.SolveWithContext sampleLib sampleSolverEnv sampleUUID sampleSeed 1 0 0 0
        0).result = .ok "0a0a0a0a0a000000" ∧
      VerifySolution sampleLib DefaultConfig sampleUUID sampleSeed "0a0a0a0a0a000000" 1 =
        some true :=
  ⟨by decide,
    (SolveWithContext_sound sampleLib sampleSolverEnv sampleUUID sampleSeed 1 0 0 0 0
      "0a0a0a0a0a000000" (by decide)).2.2.2 DefaultConfig rfl rfl rfl rfl⟩

/-! ## C24: cancellation of the solver -/

/-- C24. For every input: when the context is done at entry, `SolveWithContext` returns the
error "solving timed out after ..." and computes no hash; when the run reaches an attempt `k`
(the context was not done at the attempts before and each of their nonces was hashed and
missed the prefix) and the context is done as attempt `k` begins, it returns that error having
hashed the nonces of the `k` attempts before and none for attempt `k`. The error text contains
"timed out". -/
theorem SolveWithContext_cancelled (lib : Lib) (env : SolverEnv) (challengeID seed : String)
    (difficultyLevel n r p keyLen : Int) :
    (env.done 0 = true →
      solverImpl.SolveWithContext lib env challengeID seed difficultyLevel n r p keyLen =
        ⟨.error ("solving timed out after " ++ env.timeout), []⟩) ∧
    (∀ k, k < MaxAttempts → 0 ≤ difficultyLevel →
      (∀ j, j < k → env.done j = false ∧
        solverMisses lib env challengeID seed difficultyLevel
          (if n ≤ 0 then 16384 else n) (if r ≤ 0 then 8 else r) (if p ≤ 0 then 1 else p)
          (if keyLen ≤ 0 then 32 else keyLen) j = true) →
      env.done k = true →
      solverImpl.SolveWithContext lib env challengeID seed difficultyLevel n r p keyLen =
        ⟨.error ("solving timed out after " ++ env.timeout),
          (List.range k).map fun j => generateNonce (env.draws j)⟩) ∧
    List.IsInfix "timed out".data ("solving timed out after " ++ env.timeout).data := by
  refine ⟨fun h0 => ?_, fun k hk hlevel hmiss hdone => ?_, ?_⟩
  · unfold solverImpl.SolveWithContext
    simp only
    rw [show MaxAttempts = 999999 + 1 from rfl, solverImpl.attempts]
    simp only [h0, if_true]
  · unfold solverImpl.SolveWithContext
    simp only
    obtain ⟨m, hm⟩ : ∃ m, MaxAttempts = (m + 1) + k := ⟨MaxAttempts - 1 - k, by omega⟩
    rw [hm, solverImpl.attempts_skip lib env challengeID seed difficultyLevel _ _ _ _ hlevel
      (m + 1) k 0 [] (fun j hj => by
        rw [Nat.zero_add]
        exact hmiss j hj)]
    rw [solverImpl.attempts]
    simp only [Nat.zero_add, hdone, if_true, List.nil_append]
  · exact ⟨"solving ".data, (" after " ++ env.timeout).data, by
      simp [String.data_append]⟩

/-- The solver with a context that is done from the third attempt on: two nonces are hashed
and the run ends with the timeout error. -/
theorem SolveWithContext_cancelled_sample :
    solverImpl.SolveWithContext sampleLib sampleSolverEnvTimed sampleUUID sampleSeed 1 16384 8
        1 32 =
      ⟨.error "solving timed out after 30s", ["0000000000000000", "0101010101000000"]⟩ := by
  decide

/-! ## C25: the attempt ceiling of the solver -/

theorem solverImpl.attempts_all_miss (lib : Lib) (env : SolverEnv) (challengeID seed : String)
    (difficultyLevel n r p keyLen : Int) (hlevel : 0 ≤ difficultyLevel) (k : Nat)
    (hmiss : ∀ j, j < k → env.done j = false ∧
      solverMisses lib env challengeID seed difficultyLevel n r p keyLen j = true) :
    solverImpl.attempts lib env challengeID seed difficultyLevel n r p keyLen k 0 [] =
      ⟨.error "failed to find solution after 1000000 attempts",
        (List.range k).map fun j => generateNonce (env.draws j)⟩ := by
  have h := solverImpl.attempts_skip lib env challengeID seed difficultyLevel n r p keyLen
    hlevel 0 k 0 [] (fun j hj => by
      rw [Nat.zero_add]
      exact hmiss j hj)
  rw [Nat.zero_add] at h
  rw [h, solverImpl.attempts]
  simp only [Nat.zero_add, List.nil_append]


/-- C25 (as amended). For every input and every sequence of draws, `SolveWithContext` ends
having computed at most `MaxAttempts = 1000000` hashes. When the difficulty level is not
negative, the context is never done and every drawn nonce is hashed without error with a hash
that lacks the prefix, it returns the error "failed to find solution after 1000000 attempts"
(no nonce) after exactly 1000000 hashes. When `scrypt.Key` returns an error at the first
attempt, it returns "error calculating scrypt: ..." after that one evaluation. -/
theorem SolveWithContext_attempt_ceiling (lib : Lib) (env : SolverEnv)
    (challengeID seed : String) (difficultyLevel n r p keyLen : Int)
    (hlevel : 0 ≤ difficultyLevel)
    (hmiss : ∀ j, j < MaxAttempts → env.done j = false ∧
      solverMisses lib env challengeID seed difficultyLevel
        (if n ≤ 0 then 16384 else n) (if r ≤ 0 then 8 else r) (if p ≤ 0 then 1 else p)
        (if keyLen ≤ 0 then 32 else keyLen) j = true) :
    (solverImpl.SolveWithContext lib env challengeID seed difficultyLevel n r p keyLen).result =
        .error "failed to find solution after 1000000 attempts" ∧
      (solverImpl.SolveWithContext lib env challengeID seed difficultyLevel n r p
        keyLen).hashed.length = 1000000 ∧
      (∀ (lib2 : Lib) (env2 : SolverEnv) (id2 seed2 : String) (level2 n2 r2 p2 keyLen2 : Int),
        (solverImpl.SolveWithContext lib2 env2 id2 seed2 level2 n2 r2 p2
          keyLen2).hashed.length ≤ 1000000) ∧
      (∀ (lib2 : Lib) (env2 : SolverEnv) (id2 seed2 : String) (level2 n2 r2 p2 keyLen2 : Int)
        (err : String), env2.done 0 = false →
        lib2.scryptKey (bytesOf (id2 ++ seed2 ++ generateNonce (env2.draws 0))) (bytesOf id2)
          (if n2 ≤ 0 then 16384 else n2) (if r2 ≤ 0 then 8 else r2) (if p2 ≤ 0 then 1 else p2)
          (if keyLen2 ≤ 0 then 32 else keyLen2) = .error err →
        solverImpl.SolveWithContext lib2 env2 id2 seed2 level2 n2 r2 p2 keyLen2 =
          ⟨.error ("error calculating scrypt: " ++ err), [generateNonce (env2.draws 0)]⟩) := by
  have hrun : solverImpl.SolveWithContext lib env challengeID seed difficultyLevel n r p
      keyLen = ⟨.error "failed to find solution after 1000000 attempts",
        (List.range MaxAttempts).map fun j => generateNonce (env.draws j)⟩ :=
    solverImpl.attempts_all_miss lib env challengeID seed difficultyLevel _ _ _ _ hlevel
      MaxAttempts hmiss
  refine ⟨by rw [hrun], ?_, ?_, ?_⟩
  · rw [hrun]
    simp only [List.length_map, List.length_range]
    rfl
  · intro lib2 env2 id2 seed2 level2 n2 r2 p2 keyLen2
    have h := solverImpl.attempts_hashed_length lib2 env2 id2 seed2 level2
      (if n2 ≤ 0 then DefaultScryptN else n2) (if r2 ≤ 0 then DefaultScryptR else r2)
      (if p2 ≤ 0 then DefaultScryptP else p2)
      (if keyLen2 ≤ 0 then DefaultScryptKeyLen else keyLen2) MaxAttempts 0 []
    exact h
  · intro lib2 env2 id2 seed2 level2 n2 r2 p2 keyLen2 err hdone hkey
    unfold solverImpl.SolveWithContext
    simp only
    rw [show MaxAttempts = 999999 + 1 from rfl, solverImpl.attempts]
    have hkey2 : lib2.scryptKey (bytesOf (id2 ++ seed2 ++ generateNonce (env2.draws 0)))
        (bytesOf id2) (if n2 ≤ 0 then DefaultScryptN else n2)
        (if r2 ≤ 0 then DefaultScryptR else r2) (if p2 ≤ 0 then DefaultScryptP else p2)
        (if keyLen2 ≤ 0 then DefaultScryptKeyLen else keyLen2) = .error err := hkey
    simp only [hdone, Bool.false_eq_true, if_false, hkey2, List.nil_append]

/-- Witness of `SolveWithContext_attempt_ceiling`: with a key derivation that gives bytes of
value 255 for every input, no nonce reaches level 1 and the solver gives up after its million
attempts. -/
theorem SolveWithContext_attempt_ceiling_witness :
    (solverImpl.SolveWithContext stubbornLib sampleSolverEnv sampleUUID sampleSeed 1 16384 8 1
        32).result = .error "failed to find solution after 1000000 attempts" ∧
      (solverImpl.SolveWithContext stubbornLib sampleSolverEnv sampleUUID sampleSeed 1 16384 8
        1 32).hashed.length = 1000000 :=
  have h := SolveWithContext_attempt_ceiling stubbornLib sampleSolverEnv sampleUUID sampleSeed
    1 16384 8 1 32 (by decide) (fun _ _ => ⟨rfl, rfl⟩)
  ⟨h.1, h.2.1⟩

/-- C25 (counterexample to the claim as stated). With a key derivation that rejects `N = 1`,
the context is never done and no drawn nonce has a hash with the prefix (none has a hash), yet
the solver does not return "failed to find solution after 1000000 attempts": it returns the
error of `scrypt.Key` after one evaluation. -/
theorem SolveWithContext_scrypt_error :
    (∀ j, sampleSolverEnv.done j = false) ∧
      (∀ j, ¬ ∃ hash,
        sampleLib.scryptKey
            (bytesOf (sampleUUID ++ sampleSeed ++ generateNonce (sampleSolverEnv.draws j)))
            (bytesOf sampleUUID) 1 8 1 32 = .ok hash ∧
          stringsHasPrefix (hexEncodeToString hash) (stringsRepeat "0" 1) = true) ∧
      solverImpl.SolveWithContext sampleLib sampleSolverEnv sampleUUID sampleSeed 1 1 8 1 32 =
        ⟨.error "error calculating scrypt: scrypt: N must be > 1 and a power of 2",
          ["0000000000000000"]⟩ ∧
      (solverImpl.SolveWithContext sampleLib sampleSolverEnv sampleUUID sampleSeed 1 1 8 1
        32).result ≠ .error "failed to find solution after 1000000 attempts" := by
  refine ⟨fun _ => rfl, ?_, by decide, by decide⟩
  rintro j ⟨hash, hkey, -⟩
  cases hkey

/-! ## C29: the slice of the hash on the success path -/

/-- Whenever the first nonce drawn meets the prefix requirement and the hash has fewer than 8
bytes, `SolveWithContext` panics: the hex string has fewer than 16 characters and the
success path evaluates `hashHex[:16]`. -/
theorem solverImpl.SolveWithContext_short_hash (lib : Lib) (env : SolverEnv)
    (challengeID seed : String) (difficultyLevel n r p keyLen : Int) (hash : List UInt8)
    (hdone : env.done 0 = false) (hlevel : 0 ≤ difficultyLevel)
    (hkey : lib.scryptKey (bytesOf (challengeID ++ seed ++ generateNonce (env.draws 0)))
      (bytesOf challengeID) (if n ≤ 0 then 16384 else n) (if r ≤ 0 then 8 else r)
      (if p ≤ 0 then 1 else p) (if keyLen ≤ 0 then 32 else keyLen) = .ok hash)
    (hpre : stringsHasPrefix (hexEncodeToString hash)
      (stringsRepeat "0" difficultyLevel.toNat) = true)
    (hshort : hash.length < 8) :
    solverImpl.SolveWithContext lib env challengeID seed difficultyLevel n r p keyLen =
      ⟨.panicked, [generateNonce (env.draws 0)]⟩ := by
  have hlen : (hexEncodeToString hash).length < 16 := by
    show (hexEncodeToString hash).data.length < 16
    rw [hexEncodeToString_length]
    omega
  have hkey2 : lib.scryptKey (bytesOf (challengeID ++ seed ++ generateNonce (env.draws 0)))
      (bytesOf challengeID) (if n ≤ 0 then DefaultScryptN else n)
      (if r ≤ 0 then DefaultScryptR else r) (if p ≤ 0 then DefaultScryptP else p)
      (if keyLen ≤ 0 then DefaultScryptKeyLen else keyLen) = .ok hash := hkey
  unfold solverImpl.SolveWithContext
  simp only
  rw [show MaxAttempts = 999999 + 1 from rfl, solverImpl.attempts]
  simp only [hdone, Bool.false_eq_true, if_false, hkey2, if_neg (not_lt.mpr hlevel), hpre,
    if_true, hlen, List.nil_append]

/-- C29 (the code at the failing input): for the challenge `sampleUUID`, `sampleSeed` at level
0 with key length 4, the first nonce drawn meets the requirement (the server configured with
key length 4 accepts it), and `SolveWithContext` panics instead of returning it: the hash has
4 bytes, its hex string 8 characters, and `hashHex[:16]` is out of range. With key length 8
the same run returns the nonce. -/
theorem SolveWithContext_short_key_panics :
    VerifySolution sampleLib { DefaultConfig with KeyLen := 4 } sampleUUID sampleSeed
        (generateNonce (sampleSolverEnv.draws 0)) 0 = some true ∧
      solverImpl.SolveWithContext sampleLib sampleSolverEnv sampleUUID sampleSeed 0 16384 8 1
        4 = ⟨.panicked, ["0000000000000000"]⟩ ∧
      solverImpl.SolveWithContext sampleLib sampleSolverEnv sampleUUID sampleSeed 0 16384 8 1
        8 = ⟨.ok "0000000000000000", ["0000000000000000"]⟩ := by
  refine ⟨by decide, by decide, by decide⟩

/-! ## C21: the `quote_request` handler -/

/-- C21 (as amended). The `quote_request` handler sends `pow_challenge`, with the fields of the
challenge and the challenge id as task, when `CreateChallenge` succeeds. When `CreateChallenge`
returns an error, whatever its cause, the handler sends one `error` message with the code
`rate_limit_exceeded` and the error text as message. No error message the handler sends has
another code, so it never sends `internal_error`. -/
theorem quote_request_HandleMessage {σ ρ : Type} (json : protocol.Json)
    (h : quoterequest.Handler σ) (conn : protocol.Conn) (clientIP : String)
    (msg : protocol.Message) (st : σ) (qs : ρ) :
    (∀ challenge, (h.powService.CreateChallenge clientIP st).1 = .ok challenge →
      (h.HandleMessage json conn clientIP msg st qs).calls =
          [.CreateChallenge clientIP,
            .SendMessage "pow_challenge"
              (.PowChallenge ⟨challenge.ID, challenge.Seed, challenge.DifficultyLevel,
                challenge.ScryptN, challenge.ScryptR, challenge.ScryptP, challenge.KeyLen,
                challenge.ID⟩)] ∧
        (h.HandleMessage json conn clientIP msg st qs).result =
          .ofExcept (protocol.SendMessage json conn "pow_challenge"
            (.PowChallenge ⟨challenge.ID, challenge.Seed, challenge.DifficultyLevel,
              challenge.ScryptN, challenge.ScryptR, challenge.ScryptP, challenge.KeyLen,
              challenge.ID⟩)).1 ∧
        (h.HandleMessage json conn clientIP msg st qs).conn =
          (protocol.SendMessage json conn "pow_challenge"
            (.PowChallenge ⟨challenge.ID, challenge.Seed, challenge.DifficultyLevel,
              challenge.ScryptN, challenge.ScryptR, challenge.ScryptP, challenge.KeyLen,
              challenge.ID⟩)).2) ∧
    (∀ err, (h.powService.CreateChallenge clientIP st).1 = .error err →
      (h.HandleMessage json conn clientIP msg st qs).calls =
          [.CreateChallenge clientIP,
            .SendMessage "error" (.Error ⟨"rate_limit_exceeded", err⟩)] ∧
        (h.HandleMessage json conn clientIP msg st qs).result =
          .ofExcept (protocol.SendError json conn "rate_limit_exceeded" err).1 ∧
        (h.HandleMessage json conn clientIP msg st qs).conn =
          (protocol.SendError json conn "rate_limit_exceeded" err).2) ∧
    (∀ code message, HandlerCall.SendMessage "error" (.Error ⟨code, message⟩) ∈
        (h.HandleMessage json conn clientIP msg st qs).calls →
      code = "rate_limit_exceeded" ∧
        (h.powService.CreateChallenge clientIP st).1 = .error message) ∧
    (h.HandleMessage json conn clientIP msg st qs).service =
      (h.powService.CreateChallenge clientIP st).2 := by
  unfold quoterequest.Handler.HandleMessage
  rcases hc : h.powService.CreateChallenge clientIP st with ⟨challenge | err | _, st1⟩
  · refine ⟨fun c hc2 => ?_, fun e hc2 => ?_, fun code message hm => ?_, rfl⟩
    · cases hc2
      exact ⟨rfl, rfl, rfl⟩
    · cases hc2
    · simp [protocol.TypePowChallenge] at hm
  · refine ⟨fun c hc2 => ?_, fun e hc2 => ?_, fun code message hm => ?_, rfl⟩
    · cases hc2
    · cases hc2
      exact ⟨rfl, rfl, rfl⟩
    · simp only [List.mem_cons, List.mem_singleton, List.not_mem_nil, or_false, false_or,
        reduceCtorEq, HandlerCall.SendMessage.injEq, protocol.Payload.Error.injEq,
        protocol.ErrorData.mk.injEq, true_and] at hm
      obtain ⟨-, h1, h2⟩ := hm
      subst h1 h2
      exact ⟨rfl, rfl⟩
  · refine ⟨fun c hc2 => ?_, fun e hc2 => ?_, fun code message hm => ?_, rfl⟩
    · cases hc2
    · cases hc2
    · simp at hm

/-- C21 (counterexample to the claim as stated). On the server with the sample codec, a
`quote_request` that arrives while the store times out makes `CreateChallenge` fail with a
store error, and the handler answers with the code `rate_limit_exceeded`, not
`internal_error`. -/
theorem quote_request_store_error_code :
    ((server sampleLib DefaultConfig).CreateChallenge sampleSource sampleUUID
        (.ok sampleEntropy) sampleStoreDown).result =
        .error "failed to increment unsolved count: redis operation failed" ∧
      (sampleRequestHandler.HandleMessage sampleJson sampleConn sampleSource sampleRequest
        sampleStoreDown ()).calls =
        [.CreateChallenge sampleSource,
          .SendMessage "error" (.Error ⟨"rate_limit_exceeded",
            "failed to increment unsolved count: redis operation failed"⟩)] ∧
      (sampleRequestHandler.HandleMessage sampleJson sampleConn sampleSource sampleRequest
        sampleStoreDown ()).conn.written =
        [bytesOf ("\x7b\"type\":\"error\",\"data\":\x7b\"code\":\"rate_limit_exceeded\"," ++
          "\"message\":\"failed to increment unsolved count: redis operation failed\"" ++
          "\x7d\x7d\n")] ∧
      ¬ ∃ message, HandlerCall.SendMessage "error" (.Error ⟨"internal_error", message⟩) ∈
        (sampleRequestHandler.HandleMessage sampleJson sampleConn sampleSource sampleRequest
          sampleStoreDown ()).calls := by
  refine ⟨by decide, by decide, by decide, ?_⟩
  rintro ⟨message, hm⟩
  have h : (sampleRequestHandler.HandleMessage sampleJson sampleConn sampleSource
      sampleRequest sampleStoreDown ()).calls =
      [.CreateChallenge sampleSource,
        .SendMessage "error" (.Error ⟨"rate_limit_exceeded",
          "failed to increment unsolved count: redis operation failed"⟩)] := by decide
  rw [h] at hm
  simp at hm

/-! ## C22: framing of a message -/

theorem ReadBytes_of_line (delim : UInt8) (line rest : List UInt8) (h : delim ∉ line) :
    ReadBytes delim (line ++ [delim] ++ rest) = some (line ++ [delim], rest) := by
  induction line with
  | nil => simp [ReadBytes]
  | cons b l ih =>
    have hb : b ≠ delim := fun e => h (e ▸ List.mem_cons_self _ _)
    have hl : delim ∉ l := fun hm => h (List.mem_cons_of_mem _ hm)
    have e : b :: l ++ [delim] ++ rest = b :: (l ++ [delim] ++ rest) := by simp
    rw [e, ReadBytes, if_neg hb, ih hl]
    rfl

theorem ReadBytes_length {delim : UInt8} {input line rest : List UInt8}
    (h : ReadBytes delim input = some (line, rest)) : rest.length < input.length := by
  induction input generalizing line with
  | nil => cases h
  | cons b l ih =>
    rw [ReadBytes] at h
    split at h
    · cases h
      exact Nat.lt_succ_self _
    · cases hr : ReadBytes delim l with
      | none => rw [hr] at h; cases h
      | some p =>
        rcases p with ⟨line2, rest2⟩
        rw [hr] at h
        cases h
        exact Nat.lt_succ_of_lt (ih hr)

/-! ## Lemmas on the model of `encoding/json` -/

theorem gojson.toNat_ofNat_lt {n : Nat} (h : n < 256) : (UInt8.ofNat n).toNat = n := by
  simp [UInt8.toNat, UInt8.ofNat, Nat.mod_eq_of_lt h]

theorem gojson.char_valid (c : Char) :
    c.toNat < 0xD800 ∨ (0xDFFF < c.toNat ∧ c.toNat < 0x110000) := by
  have := c.valid
  simp [UInt32.isValidChar, Nat.isValidChar, Char.toNat] at *
  omega

theorem gojson.decodeRune_encodeRune (c : Char) (rest : List UInt8) :
    gojson.decodeRune (gojson.encodeRune c ++ rest) = (c, rest) := by
  have hv := gojson.char_valid c
  have hc := Char.ofNat_toNat c
  unfold gojson.encodeRune
  by_cases h1 : c.toNat < 0x80
  · rw [if_pos h1]
    simp only [List.singleton_append, gojson.decodeRune]
    rw [gojson.toNat_ofNat_lt (by omega), if_pos h1, hc]
  · rw [if_neg h1]
    by_cases h2 : c.toNat < 0x800
    · rw [if_pos h2]
      simp only [List.cons_append, List.nil_append, gojson.decodeRune]
      rw [gojson.toNat_ofNat_lt (by omega), gojson.toNat_ofNat_lt (by omega)]
      rw [if_neg (by omega), if_pos (by omega), if_pos (by omega)]
      have e : (0xC0 + c.toNat / 64 - 0xC0) * 64 + (0x80 + c.toNat % 64 - 0x80) = c.toNat := by
        omega
      rw [e, hc]
    · rw [if_neg h2]
      by_cases h3 : c.toNat < 0x10000
      · rw [if_pos h3]
        simp only [List.cons_append, List.nil_append, gojson.decodeRune]
        rw [gojson.toNat_ofNat_lt (by omega), gojson.toNat_ofNat_lt (by omega),
          gojson.toNat_ofNat_lt (by omega)]
        rw [if_neg (by omega), if_neg (by omega), if_pos (by omega)]
        have hcond : (if 0xE0 + c.toNat / 4096 = 0xE0 then 0xA0 else 0x80) ≤
              0x80 + c.toNat / 64 % 64 ∧
            0x80 + c.toNat / 64 % 64 ≤ (if 0xE0 + c.toNat / 4096 = 0xED then 0x9F else 0xBF) ∧
            0x80 ≤ 0x80 + c.toNat % 64 ∧ 0x80 + c.toNat % 64 ≤ 0xBF := by
          refine ⟨?_, ?_, by omega, by omega⟩
          · split <;> omega
          · split <;> omega
        rw [if_pos hcond]
        have e : (0xE0 + c.toNat / 4096 - 0xE0) * 4096 + (0x80 + c.toNat / 64 % 64 - 0x80) * 64 +
            (0x80 + c.toNat % 64 - 0x80) = c.toNat := by omega
        rw [e, hc]
      · rw [if_neg h3]
        simp only [List.cons_append, List.nil_append, gojson.decodeRune]
        rw [gojson.toNat_ofNat_lt (by omega), gojson.toNat_ofNat_lt (by omega),
          gojson.toNat_ofNat_lt (by omega), gojson.toNat_ofNat_lt (by omega)]
        rw [if_neg (by omega), if_neg (by omega), if_neg (by omega), if_pos (by omega)]
        have hcond : (if 0xF0 + c.toNat / 262144 = 0xF0 then 0x90 else 0x80) ≤
              0x80 + c.toNat / 4096 % 64 ∧
            0x80 + c.toNat / 4096 % 64 ≤
              (if 0xF0 + c.toNat / 262144 = 0xF4 then 0x8F else 0xBF) ∧
            0x80 ≤ 0x80 + c.toNat / 64 % 64 ∧ 0x80 + c.toNat / 64 % 64 ≤ 0xBF ∧
            0x80 ≤ 0x80 + c.toNat % 64 ∧ 0x80 + c.toNat % 64 ≤ 0xBF := by
          refine ⟨?_, ?_, by omega, by omega, by omega, by omega⟩
          · split <;> omega
          · split <;> omega
        rw [if_pos hcond]
        have e : (0xF0 + c.toNat / 262144 - 0xF0) * 262144 +
            (0x80 + c.toNat / 4096 % 64 - 0x80) * 4096 +
            (0x80 + c.toNat / 64 % 64 - 0x80) * 64 + (0x80 + c.toNat % 64 - 0x80) =
            c.toNat := by omega
        rw [e, hc]

theorem gojson.hexValue_hex {n : Nat} (h : n < 16) : gojson.hexValue (gojson.hex n) = some n := by
  interval_cases n <;> rfl

theorem gojson.encodeRune_head (c : Char) :
    ∃ b tail, gojson.encodeRune c = b :: tail ∧
      ((b.toNat = c.toNat ∧ c.toNat < 0x80) ∨ 0x80 ≤ b.toNat) := by
  have hv := gojson.char_valid c
  unfold gojson.encodeRune
  split
  · exact ⟨_, _, rfl, Or.inl ⟨gojson.toNat_ofNat_lt (by omega), by assumption⟩⟩
  · split
    · exact ⟨_, _, rfl, Or.inr (by rw [gojson.toNat_ofNat_lt (by omega)]; omega)⟩
    · split
      · exact ⟨_, _, rfl, Or.inr (by rw [gojson.toNat_ofNat_lt (by omega)]; omega)⟩
      · exact ⟨_, _, rfl, Or.inr (by rw [gojson.toNat_ofNat_lt (by omega)]; omega)⟩

theorem gojson.unquoteBody_quote (fuel : Nat) (acc : List Char) (b : UInt8) (rest : List UInt8)
    (h : b.toNat = 0x22) : gojson.unquoteBody (fuel + 1) acc (b :: rest) = some (acc, rest) := by
  cases rest <;> simp [gojson.unquoteBody, h]

theorem gojson.unquoteBody_raw (fuel : Nat) (acc : List Char) (b : UInt8) (rest : List UInt8)
    (h1 : ¬ b.toNat = 0x22) (h2 : ¬ b.toNat = 0x5C) (h3 : ¬ b.toNat < 0x20) :
    gojson.unquoteBody (fuel + 1) acc (b :: rest) =
      gojson.unquoteBody fuel (acc ++ [(gojson.decodeRune (b :: rest)).1])
        (gojson.decodeRune (b :: rest)).2 := by
  cases rest <;> simp [gojson.unquoteBody, h1, h2, h3]

theorem gojson.unquoteBody_escape (fuel : Nat) (acc : List Char) (e : UInt8) (c : Char)
    (rest : List UInt8)
    (h : (e.toNat = 0x22 ∨ e.toNat = 0x5C ∨ e.toNat = 0x2F) ∧ Char.ofNat e.toNat = c ∨
      e.toNat = 0x62 ∧ Char.ofNat 8 = c ∨ e.toNat = 0x66 ∧ Char.ofNat 12 = c ∨
      e.toNat = 0x6E ∧ Char.ofNat 10 = c ∨ e.toNat = 0x72 ∧ Char.ofNat 13 = c ∨
      e.toNat = 0x74 ∧ Char.ofNat 9 = c) :
    gojson.unquoteBody (fuel + 1) acc (0x5C :: e :: rest) =
      gojson.unquoteBody fuel (acc ++ [c]) rest := by
  have h5 : (0x5C : UInt8).toNat = 0x5C := rfl
  rw [gojson.unquoteBody]
  rw [if_neg (by rw [h5]; decide), if_pos h5]
  rcases h with ⟨h, hc⟩ | ⟨h, hc⟩ | ⟨h, hc⟩ | ⟨h, hc⟩ | ⟨h, hc⟩ | ⟨h, hc⟩
  · rw [if_pos h, hc]
  · rw [if_neg (by omega), if_pos h, hc]
  · rw [if_neg (by omega), if_neg (by omega), if_pos h, hc]
  · rw [if_neg (by omega), if_neg (by omega), if_neg (by omega), if_pos h, hc]
  · rw [if_neg (by omega), if_neg (by omega), if_neg (by omega), if_neg (by omega), if_pos h,
      hc]
  · rw [if_neg (by omega), if_neg (by omega), if_neg (by omega), if_neg (by omega),
      if_neg (by omega), if_pos h, hc]

theorem gojson.unquoteBody_unicode (fuel : Nat) (acc : List Char) (a b c d : UInt8) (u : Nat)
    (rest : List UInt8)
    (h : gojson.getu4 (a :: b :: c :: d :: rest) = some (u, rest))
    (hu : ¬ (0xD800 ≤ u ∧ u < 0xE000)) :
    gojson.unquoteBody (fuel + 1) acc (0x5C :: 0x75 :: a :: b :: c :: d :: rest) =
      gojson.unquoteBody fuel (acc ++ [Char.ofNat u]) rest := by
  have h5 : (0x5C : UInt8).toNat = 0x5C := rfl
  have h7 : (0x75 : UInt8).toNat = 0x75 := rfl
  rw [gojson.unquoteBody]
  rw [if_neg (by rw [h5]; decide), if_pos h5]
  rw [if_neg (by rw [h7]; decide), if_neg (by rw [h7]; decide), if_neg (by rw [h7]; decide),
    if_neg (by rw [h7]; decide), if_neg (by rw [h7]; decide), if_neg (by rw [h7]; decide),
    if_pos h7, h]
  simp only
  rw [if_neg hu]

theorem gojson.getu4_hex (x y z w : Nat) (hx : x < 16) (hy : y < 16) (hz : z < 16) (hw : w < 16)
    (rest : List UInt8) :
    gojson.getu4 (gojson.hex x :: gojson.hex y :: gojson.hex z :: gojson.hex w :: rest) =
      some (((x * 16 + y) * 16 + z) * 16 + w, rest) := by
  rw [gojson.getu4, gojson.hexValue_hex hx, gojson.hexValue_hex hy, gojson.hexValue_hex hz,
    gojson.hexValue_hex hw]

/-- The scanner reads what `appendString` wrote for a character as that character. -/
theorem gojson.unquoteBody_appendRune (fuel : Nat) (acc : List Char) (c : Char)
    (rest : List UInt8) :
    gojson.unquoteBody (fuel + 1) acc (gojson.appendRune c ++ rest) =
      gojson.unquoteBody fuel (acc ++ [c]) rest := by
  have hv := gojson.char_valid c
  have hc := Char.ofNat_toNat c
  unfold gojson.appendRune
  by_cases h1 : c.toNat = 0x22 ∨ c.toNat = 0x5C
  · rw [if_pos h1]
    have ht : (UInt8.ofNat c.toNat).toNat = c.toNat := gojson.toNat_ofNat_lt (by omega)
    apply gojson.unquoteBody_escape
    left
    rw [ht]
    exact ⟨by omega, hc⟩
  rw [if_neg h1]
  by_cases h2 : c.toNat = 8
  · rw [if_pos h2]
    exact gojson.unquoteBody_escape _ _ _ _ _ (by right; left; exact ⟨rfl, by rw [← h2, hc]⟩)
  rw [if_neg h2]
  by_cases h3 : c.toNat = 12
  · rw [if_pos h3]
    exact gojson.unquoteBody_escape _ _ _ _ _
      (by right; right; left; exact ⟨rfl, by rw [← h3, hc]⟩)
  rw [if_neg h3]
  by_cases h4 : c.toNat = 10
  · rw [if_pos h4]
    exact gojson.unquoteBody_escape _ _ _ _ _
      (by right; right; right; left; exact ⟨rfl, by rw [← h4, hc]⟩)
  rw [if_neg h4]
  by_cases h5 : c.toNat = 13
  · rw [if_pos h5]
    exact gojson.unquoteBody_escape _ _ _ _ _
      (by right; right; right; right; left; exact ⟨rfl, by rw [← h5, hc]⟩)
  rw [if_neg h5]
  by_cases h6 : c.toNat = 9
  · rw [if_pos h6]
    exact gojson.unquoteBody_escape _ _ _ _ _
      (by right; right; right; right; right; exact ⟨rfl, by rw [← h6, hc]⟩)
  rw [if_neg h6]
  by_cases h7 : c.toNat < 0x20 ∨ c.toNat = 0x3C ∨ c.toNat = 0x3E ∨ c.toNat = 0x26
  · rw [if_pos h7]
    have hg := gojson.getu4_hex 0 0 (c.toNat / 16) (c.toNat % 16) (by norm_num) (by norm_num)
      (by omega) (by omega) rest
    have e : ((0 * 16 + 0) * 16 + c.toNat / 16) * 16 + c.toNat % 16 = c.toNat := by omega
    rw [e] at hg
    have := gojson.unquoteBody_unicode fuel acc _ _ _ _ c.toNat rest hg (by omega)
    rw [hc] at this
    exact this
  rw [if_neg h7]
  by_cases h8 : c.toNat = 0x2028 ∨ c.toNat = 0x2029
  · rw [if_pos h8]
    have hg := gojson.getu4_hex 2 0 2 (c.toNat % 16) (by norm_num) (by norm_num)
      (by norm_num) (by omega) rest
    have e : ((2 * 16 + 0) * 16 + 2) * 16 + c.toNat % 16 = c.toNat := by omega
    rw [e] at hg
    have := gojson.unquoteBody_unicode fuel acc _ _ _ _ c.toNat rest hg (by omega)
    rw [hc] at this
    exact this
  rw [if_neg h8]
  obtain ⟨b, tail, hb, hb2⟩ := gojson.encodeRune_head c
  have hd := gojson.decodeRune_encodeRune c rest
  rw [hb] at hd ⊢
  simp only [List.cons_append] at hd ⊢
  have hbn : ¬ b.toNat = 0x22 ∧ ¬ b.toNat = 0x5C ∧ ¬ b.toNat < 0x20 := by
    rcases hb2 with ⟨hb3, -⟩ | hb3 <;> omega
  rw [gojson.unquoteBody_raw _ _ _ _ hbn.1 hbn.2.1 hbn.2.2, hd]

theorem gojson.appendRune_length_pos (c : Char) : 1 ≤ (gojson.appendRune c).length := by
  obtain ⟨b, tail, hb, -⟩ := gojson.encodeRune_head c
  unfold gojson.appendRune
  repeat' split
  all_goals first
    | (rw [hb]; simp)
    | simp

theorem gojson.appendRunes_length (cs : List Char) :
    cs.length ≤ (gojson.appendRunes cs).length := by
  induction cs with
  | nil => simp [gojson.appendRunes]
  | cons c cs ih =>
    have := gojson.appendRune_length_pos c
    simp only [gojson.appendRunes, List.length_append, List.length_cons]
    omega

theorem gojson.unquoteBody_appendRunes (cs : List Char) (fuel : Nat) (acc : List Char)
    (rest : List UInt8) (h : cs.length + 1 ≤ fuel) :
    gojson.unquoteBody fuel acc (gojson.appendRunes cs ++ 0x22 :: rest) =
      some (acc ++ cs, rest) := by
  induction cs generalizing fuel acc with
  | nil =>
    obtain ⟨f, rfl⟩ : ∃ f, fuel = f + 1 := ⟨fuel - 1, by simp at h; omega⟩
    simp only [gojson.appendRunes, List.nil_append, List.append_nil]
    exact gojson.unquoteBody_quote f acc 0x22 rest rfl
  | cons c cs ih =>
    obtain ⟨f, rfl⟩ : ∃ f, fuel = f + 1 := ⟨fuel - 1, by simp at h; omega⟩
    simp only [gojson.appendRunes, List.append_assoc]
    rw [gojson.unquoteBody_appendRune, ih f _ (by simp at h; omega)]
    simp

/-- The scanner reads a string literal written by `appendString` as the string. -/
theorem gojson.scanString_appendString (s : String) (rest : List UInt8) :
    gojson.scanString (gojson.appendString s ++ rest) = some (s, rest) := by
  unfold gojson.appendString
  simp only [List.cons_append, List.append_assoc, List.singleton_append]
  have h2 : (0x22 : UInt8).toNat = 0x22 := rfl
  rw [gojson.scanString, if_pos h2]
  simp only [List.nil_append]
  rw [gojson.unquoteBody_appendRunes s.data _ [] rest]
  · rfl
  · have := gojson.appendRunes_length s.data
    simp only [List.length_append, List.length_cons]
    omega

theorem gojson.natDigits_spec (fuel n : Nat) (h : n ≤ fuel) :
    ∃ d ds, gojson.natDigits fuel n = d :: ds ∧ (48 ≤ d.toNat ∧ d.toNat ≤ 57) ∧
      (∀ x ∈ ds, 48 ≤ x.toNat ∧ x.toNat ≤ 57) ∧ (d.toNat = 48 → n = 0) ∧ (n = 0 → ds = []) := by
  induction fuel generalizing n with
  | zero =>
    have h0 : n = 0 := by omega
    refine ⟨48, [], rfl, by decide, by simp, fun _ => h0, fun _ => rfl⟩
  | succ f ih =>
    unfold gojson.natDigits
    split
    · rename_i hlt
      have ht : (UInt8.ofNat (48 + n)).toNat = 48 + n := gojson.toNat_ofNat_lt (by omega)
      refine ⟨_, [], rfl, by rw [ht]; omega, by simp, fun h0 => by rw [ht] at h0; omega,
        fun _ => rfl⟩
    · rename_i hge
      obtain ⟨d, ds, h1, h2, h3, h4, -⟩ := ih (n / 10) (by omega)
      have ht : (UInt8.ofNat (48 + n % 10)).toNat = 48 + n % 10 :=
        gojson.toNat_ofNat_lt (by omega)
      refine ⟨d, ds ++ [UInt8.ofNat (48 + n % 10)], by rw [h1]; rfl, h2, ?_, ?_, ?_⟩
      · intro x hx
        rcases List.mem_append.mp hx with hx | hx
        · exact h3 x hx
        · rw [List.mem_singleton.mp hx, ht]
          omega
      · intro h0
        have := h4 h0
        omega
      · intro h0
        omega

theorem gojson.skipDigits_digits (ds rest : List UInt8)
    (h : ∀ x ∈ ds, 48 ≤ x.toNat ∧ x.toNat ≤ 57)
    (hrest : ∀ b r, rest = b :: r → ¬ (48 ≤ b.toNat ∧ b.toNat ≤ 57)) :
    gojson.skipDigits (ds ++ rest) = rest := by
  induction ds with
  | nil =>
    cases rest with
    | nil => rfl
    | cons b r =>
      simp only [List.nil_append, gojson.skipDigits]
      rw [if_neg (hrest b r rfl)]
  | cons d ds ih =>
    simp only [List.cons_append, gojson.skipDigits]
    rw [if_pos (h d (List.mem_cons_self _ _))]
    exact ih fun x hx => h x (List.mem_cons_of_mem _ hx)

theorem gojson.scanFraction_stop (rest : List UInt8) (h : gojson.Stops rest) :
    gojson.scanFraction rest = some rest := by
  cases rest with
  | nil => rfl
  | cons b r =>
    have hb := h b r rfl
    simp only [gojson.scanFraction, gojson.scanExponent]
    rw [if_neg (by omega), if_neg (by omega)]

theorem gojson.scanNumber_appendInt (n : Int) (rest : List UInt8) (h : gojson.Stops rest) :
    gojson.scanNumber (gojson.appendInt n ++ rest) = some rest := by
  obtain ⟨d, ds, h1, h2, h3, h4, h5⟩ := gojson.natDigits_spec n.natAbs n.natAbs (le_refl _)
  have hstop : ∀ b r, rest = b :: r → ¬ (48 ≤ b.toNat ∧ b.toNat ≤ 57) := by
    intro b r hr
    have := h b r hr
    omega
  have hdig : gojson.scanDigits (d :: ds ++ rest) = some rest := by
    simp only [List.cons_append, gojson.scanDigits]
    by_cases h0 : d.toNat = 0x30
    · rw [if_pos h0, h5 (h4 h0)]
      exact gojson.scanFraction_stop rest h
    · rw [if_neg h0, if_pos (by omega), gojson.skipDigits_digits ds rest h3 hstop]
      exact gojson.scanFraction_stop rest h
  unfold gojson.appendInt
  split
  · rw [h1]
    simp only [List.cons_append, gojson.scanNumber]
    have h2D : (0x2D : UInt8).toNat = 0x2D := rfl
    rw [if_pos h2D]
    exact hdig
  · rw [h1]
    simp only [List.cons_append, gojson.scanNumber]
    rw [if_neg (by omega)]
    exact hdig

theorem gojson.appendInt_head (n : Int) :
    ∃ b tail, gojson.appendInt n = b :: tail ∧ (b.toNat = 0x2D ∨ (48 ≤ b.toNat ∧ b.toNat ≤ 57)) ∧
      ∀ x ∈ b :: tail, x.toNat = 0x2D ∨ (48 ≤ x.toNat ∧ x.toNat ≤ 57) := by
  obtain ⟨d, ds, h1, h2, h3, -, -⟩ := gojson.natDigits_spec n.natAbs n.natAbs (le_refl _)
  have hall : ∀ x ∈ d :: ds, x.toNat = 0x2D ∨ (48 ≤ x.toNat ∧ x.toNat ≤ 57) := by
    intro x hx
    rcases List.mem_cons.mp hx with hx | hx
    · rw [hx]; exact Or.inr h2
    · exact Or.inr (h3 x hx)
  unfold gojson.appendInt
  split
  · refine ⟨0x2D, gojson.natDigits n.natAbs n.natAbs, rfl, Or.inl rfl, ?_⟩
    intro x hx
    rcases List.mem_cons.mp hx with hx | hx
    · rw [hx]; exact Or.inl rfl
    · rw [h1] at hx; exact hall x hx
  · exact ⟨d, ds, h1, Or.inr h2, hall⟩

theorem gojson.scanValue_literal (depth : Nat) (b : UInt8) (rest : List UInt8)
    (h1 : ¬ b.toNat = 0x7B) (h2 : ¬ b.toNat = 0x5B) :
    gojson.scanValue depth (b :: rest) = gojson.scanLiteral (b :: rest) := by
  cases depth with
  | zero => rfl
  | succ d =>
    simp only [gojson.scanValue]
    rw [if_neg h1, if_neg h2]

theorem gojson.skipSpace_cons (b : UInt8) (rest : List UInt8)
    (h : ¬ (b.toNat = 0x20 ∨ b.toNat = 0x09 ∨ b.toNat = 0x0D ∨ b.toNat = 0x0A)) :
    gojson.skipSpace (b :: rest) = b :: rest := by
  have hs : gojson.isSpace b = false := by
    unfold gojson.isSpace
    simp only [Bool.or_eq_false_iff, decide_eq_false_iff_not]
    omega
  simp [gojson.skipSpace, hs]

theorem gojson.scans_appendString (depth : Nat) (s : String) :
    gojson.Scans depth (gojson.appendString s) := by
  intro rest _
  have hs := gojson.scanString_appendString s rest
  have e : gojson.appendString s ++ rest =
      0x22 :: (gojson.appendRunes s.data ++ [0x22] ++ rest) := by
    simp [gojson.appendString]
  rw [e] at hs ⊢
  have h22 : (0x22 : UInt8).toNat = 0x22 := rfl
  refine ⟨?_, gojson.skipSpace_cons _ _ (by rw [h22]; decide)⟩
  rw [gojson.scanValue_literal _ _ _ (by rw [h22]; decide) (by rw [h22]; decide)]
  rw [gojson.scanLiteral, if_pos h22, hs]
  rfl

theorem gojson.scans_appendInt (depth : Nat) (n : Int) :
    gojson.Scans depth (gojson.appendInt n) := by
  intro rest hrest
  have hn := gojson.scanNumber_appendInt n rest hrest
  obtain ⟨b, tail, hb, hb2, -⟩ := gojson.appendInt_head n
  rw [hb] at hn ⊢
  simp only [List.cons_append] at hn ⊢
  refine ⟨?_, gojson.skipSpace_cons _ _ (by omega)⟩
  rw [gojson.scanValue_literal _ _ _ (by omega) (by omega)]
  rw [gojson.scanLiteral, if_neg (by omega), if_neg (by omega), if_neg (by omega),
    if_neg (by omega), hn]

theorem gojson.consumed_append (v rest : List UInt8) : gojson.consumed (v ++ rest) rest = v := by
  unfold gojson.consumed
  simp

theorem gojson.stops_cons (b : UInt8) (r : List UInt8)
    (h : b.toNat = 0x2C ∨ b.toNat = 0x7D ∨ b.toNat = 0x0A) : gojson.Stops (b :: r) := by
  intro b2 r2 e
  cases e
  exact h

theorem gojson.stops_nil : gojson.Stops [] := by
  intro b r e
  cases e

/-- The scanner reads a member written by `appendMember` as its name and the bytes of its
value. -/
theorem gojson.scanMember_appendMember (depth : Nat) (m : String × List UInt8)
    (rest : List UInt8) (hm : gojson.Scans depth m.2) (hrest : gojson.Stops rest) :
    gojson.scanMember (gojson.scanValue depth) (gojson.appendMember m ++ rest) =
      some (m, rest) := by
  obtain ⟨h1, h2⟩ := hm rest hrest
  unfold gojson.appendMember gojson.scanMember
  rw [List.append_assoc, gojson.scanString_appendString]
  simp only [List.cons_append]
  have h3A : (0x3A : UInt8).toNat = 0x3A := rfl
  rw [gojson.skipSpace_cons _ _ (by rw [h3A]; decide)]
  simp only
  rw [if_pos h3A, h2, h1]
  simp only [gojson.consumed_append]

theorem gojson.appendMember_head (m : String × List UInt8) :
    ∃ tail, gojson.appendMember m = 0x22 :: tail := by
  unfold gojson.appendMember gojson.appendString
  exact ⟨_, rfl⟩

theorem gojson.appendMembers_head (m : String × List UInt8) (ms : List (String × List UInt8)) :
    ∃ tail, gojson.appendMembers (m :: ms) = 0x22 :: tail := by
  obtain ⟨t, ht⟩ := gojson.appendMember_head m
  cases ms with
  | nil => exact ⟨t, by rw [gojson.appendMembers, ht]⟩
  | cons n ns => exact ⟨_, by rw [gojson.appendMembers, ht]; rfl⟩

theorem gojson.appendMembers_length (ms : List (String × List UInt8)) :
    ms.length ≤ (gojson.appendMembers ms).length := by
  induction ms with
  | nil => simp
  | cons m ms ih =>
    obtain ⟨t, ht⟩ := gojson.appendMember_head m
    cases ms with
    | nil => rw [gojson.appendMembers, ht]; simp
    | cons n ns =>
      rw [gojson.appendMembers, ht]
      simp only [List.cons_append, List.length_cons, List.length_append] at ih ⊢
      omega

theorem gojson.scanMembers_appendMembers (depth : Nat) (ms : List (String × List UInt8))
    (m : String × List UInt8) (fuel : Nat) (acc : List (String × List UInt8))
    (rest : List UInt8) (hms : ∀ x ∈ m :: ms, gojson.Scans depth x.2)
    (hfuel : ms.length + 1 ≤ fuel) :
    gojson.scanMembers (gojson.scanValue depth) fuel acc
        (gojson.appendMembers (m :: ms) ++ 0x7D :: rest) = some (acc ++ m :: ms, rest) := by
  have h2C : (0x2C : UInt8).toNat = 0x2C := rfl
  have h7D : (0x7D : UInt8).toNat = 0x7D := rfl
  have h22 : (0x22 : UInt8).toNat = 0x22 := rfl
  induction ms generalizing m fuel acc with
  | nil =>
    obtain ⟨f, rfl⟩ : ∃ f, fuel = f + 1 := ⟨fuel - 1, by simp at hfuel; omega⟩
    rw [gojson.appendMembers, gojson.scanMembers,
      gojson.scanMember_appendMember depth m _ (hms m (List.mem_cons_self _ _))
        (gojson.stops_cons _ _ (Or.inr (Or.inl h7D)))]
    simp only
    rw [gojson.skipSpace_cons _ _ (by rw [h7D]; decide)]
    simp only
    rw [if_neg (by rw [h7D]; decide), if_pos h7D]
  | cons n ns ih =>
    obtain ⟨f, rfl⟩ : ∃ f, fuel = f + 1 := ⟨fuel - 1, by simp at hfuel; omega⟩
    obtain ⟨t, ht⟩ := gojson.appendMembers_head n ns
    have e : gojson.appendMembers (m :: n :: ns) ++ 0x7D :: rest =
        gojson.appendMember m ++ 0x2C :: (gojson.appendMembers (n :: ns) ++ 0x7D :: rest) := by
      rw [gojson.appendMembers]
      simp
    rw [e, gojson.scanMembers,
      gojson.scanMember_appendMember depth m _ (hms m (List.mem_cons_self _ _))
        (gojson.stops_cons _ _ (Or.inl h2C))]
    simp only
    rw [gojson.skipSpace_cons _ _ (by rw [h2C]; decide)]
    simp only
    rw [if_pos h2C]
    have hsk : gojson.skipSpace (gojson.appendMembers (n :: ns) ++ 0x7D :: rest) =
        gojson.appendMembers (n :: ns) ++ 0x7D :: rest := by
      rw [ht]
      exact gojson.skipSpace_cons _ _ (by rw [h22]; decide)
    rw [hsk, ih n f (acc ++ [m]) (fun x hx => hms x (List.mem_cons_of_mem _ hx))
      (by simp at hfuel ⊢; omega)]
    simp

/-- The scanner reads an object written by `appendObject` as its members. -/
theorem gojson.scanObject_appendMembers (depth : Nat) (ms : List (String × List UInt8))
    (rest : List UInt8) (hms : ∀ x ∈ ms, gojson.Scans depth x.2) :
    gojson.scanObject (gojson.scanValue depth) (gojson.appendMembers ms ++ 0x7D :: rest) =
      some (ms, rest) := by
  have h7D : (0x7D : UInt8).toNat = 0x7D := rfl
  have h22 : (0x22 : UInt8).toNat = 0x22 := rfl
  cases ms with
  | nil =>
    simp only [gojson.appendMembers, List.nil_append, gojson.scanObject]
    rw [gojson.skipSpace_cons _ _ (by rw [h7D]; decide)]
    simp only
    rw [if_pos h7D]
  | cons m ms =>
    obtain ⟨t, ht⟩ := gojson.appendMembers_head m ms
    have hlen := gojson.appendMembers_length (m :: ms)
    have hscan := gojson.scanMembers_appendMembers depth ms m
      (gojson.appendMembers (m :: ms) ++ 0x7D :: rest).length [] rest hms
      (by simp only [List.length_append, List.length_cons] at hlen ⊢; omega)
    unfold gojson.scanObject
    rw [ht] at hscan ⊢
    simp only [List.cons_append] at hscan ⊢
    rw [gojson.skipSpace_cons _ _ (by rw [h22]; decide)]
    simp only
    rw [if_neg (by rw [h22]; decide), hscan]
    rfl

theorem gojson.scans_appendObject (depth : Nat) (ms : List (String × List UInt8))
    (hms : ∀ x ∈ ms, gojson.Scans depth x.2) :
    gojson.Scans (depth + 1) (gojson.appendObject ms) := by
  intro rest _
  have h7B : (0x7B : UInt8).toNat = 0x7B := rfl
  have e : gojson.appendObject ms ++ rest = 0x7B :: (gojson.appendMembers ms ++ 0x7D :: rest) := by
    simp [gojson.appendObject]
  rw [e]
  refine ⟨?_, gojson.skipSpace_cons _ _ (by rw [h7B]; decide)⟩
  simp only [gojson.scanValue]
  rw [if_pos h7B, gojson.scanObject_appendMembers depth ms rest hms]
  rfl

theorem gojson.scans_fieldsOf (depth : Nat) (data : protocol.Payload) :
    ∀ x ∈ gojson.fieldsOf data, gojson.Scans depth x.2 := by
  intro x hx
  cases data with
  | PowChallenge d =>
    simp only [gojson.fieldsOf, List.mem_cons, List.mem_singleton, List.not_mem_nil,
      or_false] at hx
    rcases hx with h | h | h | h | h | h | h | h <;> rw [h] <;>
      first
        | exact gojson.scans_appendString _ _
        | exact gojson.scans_appendInt _ _
  | QuoteResponse d =>
    simp only [gojson.fieldsOf, List.mem_cons, List.mem_singleton, List.not_mem_nil,
      or_false] at hx
    rcases hx with h | h <;> rw [h] <;> exact gojson.scans_appendString _ _
  | Error d =>
    simp only [gojson.fieldsOf, List.mem_cons, List.mem_singleton, List.not_mem_nil,
      or_false] at hx
    rcases hx with h | h <;> rw [h] <;> exact gojson.scans_appendString _ _

/-- The JSON of a payload is a value the scanner reads to its end. -/
theorem gojson.scans_marshal (depth : Nat) (data : protocol.Payload) :
    gojson.Scans (depth + 1) (gojson.marshal data) :=
  gojson.scans_appendObject depth _ (gojson.scans_fieldsOf depth data)

theorem gojson.compact_outside_byte (b : UInt8) (rest : List UInt8)
    (h : ¬ (b.toNat = 0x20 ∨ b.toNat = 0x09 ∨ b.toNat = 0x0D ∨ b.toNat = 0x0A))
    (hq : ¬ b.toNat = 0x22) :
    gojson.compact .outside 0 (b :: rest) = b :: gojson.compact .outside 0 rest := by
  have hs : gojson.isSpace b = false := by
    unfold gojson.isSpace
    simp only [Bool.or_eq_false_iff, decide_eq_false_iff_not]
    omega
  simp [gojson.compact, hs, hq]

theorem gojson.compact_outside_bytes (l rest : List UInt8)
    (h : ∀ x ∈ l, ¬ (x.toNat = 0x20 ∨ x.toNat = 0x09 ∨ x.toNat = 0x0D ∨ x.toNat = 0x0A) ∧
      ¬ x.toNat = 0x22) :
    gojson.compact .outside 0 (l ++ rest) = l ++ gojson.compact .outside 0 rest := by
  induction l with
  | nil => rfl
  | cons b l ih =>
    obtain ⟨h1, h2⟩ := h b (List.mem_cons_self _ _)
    rw [List.cons_append, gojson.compact_outside_byte _ _ h1 h2,
      ih fun x hx => h x (List.mem_cons_of_mem _ hx)]
    rfl

theorem gojson.compact_outside_quote (b : UInt8) (rest : List UInt8) (h : b.toNat = 0x22) :
    gojson.compact .outside 0 (b :: rest) = b :: gojson.compact .inString 0 rest := by
  simp [gojson.compact, gojson.isSpace, h]

theorem gojson.compact_inString_quote (b : UInt8) (rest : List UInt8) (h : b.toNat = 0x22) :
    gojson.compact .inString 0 (b :: rest) = b :: gojson.compact .outside 0 rest := by
  simp [gojson.compact, h]

theorem gojson.compact_inString_byte (b : UInt8) (rest : List UInt8)
    (h : ¬ b.toNat = 0x5C ∧ ¬ b.toNat = 0x22 ∧ ¬ b.toNat = 0x3C ∧ ¬ b.toNat = 0x3E ∧
      ¬ b.toNat = 0x26 ∧ ¬ b.toNat = 0xE2) :
    gojson.compact .inString 0 (b :: rest) = b :: gojson.compact .inString 0 rest := by
  simp [gojson.compact, h]

theorem gojson.compact_inString_bytes (l rest : List UInt8)
    (h : ∀ x ∈ l, ¬ x.toNat = 0x5C ∧ ¬ x.toNat = 0x22 ∧ ¬ x.toNat = 0x3C ∧ ¬ x.toNat = 0x3E ∧
      ¬ x.toNat = 0x26 ∧ ¬ x.toNat = 0xE2) :
    gojson.compact .inString 0 (l ++ rest) = l ++ gojson.compact .inString 0 rest := by
  induction l with
  | nil => rfl
  | cons b l ih =>
    rw [List.cons_append, gojson.compact_inString_byte _ _ (h b (List.mem_cons_self _ _)),
      ih fun x hx => h x (List.mem_cons_of_mem _ hx)]
    rfl

theorem gojson.compact_escape (e : UInt8) (rest : List UInt8) :
    gojson.compact .inString 0 (0x5C :: e :: rest) =
      0x5C :: e :: gojson.compact .inString 0 rest := by
  have h5 : (0x5C : UInt8).toNat = 0x5C := rfl
  simp [gojson.compact, h5]

theorem gojson.compact_lead (b : UInt8) (rest : List UInt8) (h : b.toNat = 0xE2)
    (hs : gojson.separatorEscape rest = none) :
    gojson.compact .inString 0 (b :: rest) = b :: gojson.compact .inString 0 rest := by
  simp [gojson.compact, h, hs]

theorem gojson.hex_range {n : Nat} (h : n < 16) :
    (48 ≤ (gojson.hex n).toNat ∧ (gojson.hex n).toNat ≤ 57) ∨
      (97 ≤ (gojson.hex n).toNat ∧ (gojson.hex n).toNat ≤ 102) := by
  interval_cases n <;> decide

/-- Compaction keeps what `appendString` wrote for a character. -/
theorem gojson.compact_appendRune (c : Char) (rest : List UInt8) :
    gojson.compact .inString 0 (gojson.appendRune c ++ rest) =
      gojson.appendRune c ++ gojson.compact .inString 0 rest := by
  have hv := gojson.char_valid c
  unfold gojson.appendRune
  by_cases h1 : c.toNat = 0x22 ∨ c.toNat = 0x5C
  · rw [if_pos h1]
    exact gojson.compact_escape _ _
  rw [if_neg h1]
  by_cases h2 : c.toNat = 8
  · rw [if_pos h2]
    exact gojson.compact_escape _ _
  rw [if_neg h2]
  by_cases h3 : c.toNat = 12
  · rw [if_pos h3]
    exact gojson.compact_escape _ _
  rw [if_neg h3]
  by_cases h4 : c.toNat = 10
  · rw [if_pos h4]
    exact gojson.compact_escape _ _
  rw [if_neg h4]
  by_cases h5 : c.toNat = 13
  · rw [if_pos h5]
    exact gojson.compact_escape _ _
  rw [if_neg h5]
  by_cases h6 : c.toNat = 9
  · rw [if_pos h6]
    exact gojson.compact_escape _ _
  rw [if_neg h6]
  have h30 : (0x30 : UInt8).toNat = 0x30 := rfl
  have h32 : (0x32 : UInt8).toNat = 0x32 := rfl
  have hhex : ∀ n, n < 16 → ¬ (gojson.hex n).toNat = 0x5C ∧ ¬ (gojson.hex n).toNat = 0x22 ∧
      ¬ (gojson.hex n).toNat = 0x3C ∧ ¬ (gojson.hex n).toNat = 0x3E ∧
      ¬ (gojson.hex n).toNat = 0x26 ∧ ¬ (gojson.hex n).toNat = 0xE2 := by
    intro n hn
    have := gojson.hex_range hn
    omega
  by_cases h7 : c.toNat < 0x20 ∨ c.toNat = 0x3C ∨ c.toNat = 0x3E ∨ c.toNat = 0x26
  · rw [if_pos h7]
    have e : [(0x5C : UInt8), 0x75, 0x30, 0x30, gojson.hex (c.toNat / 16),
        gojson.hex (c.toNat % 16)] ++ rest = 0x5C :: 0x75 :: ([0x30, 0x30,
          gojson.hex (c.toNat / 16), gojson.hex (c.toNat % 16)] ++ rest) := rfl
    rw [e, gojson.compact_escape, gojson.compact_inString_bytes]
    · rfl
    · intro x hx
      simp only [List.mem_cons, List.mem_singleton, List.not_mem_nil, or_false] at hx
      rcases hx with h | h | h | h
      · rw [h, h30]; decide
      · rw [h, h30]; decide
      · rw [h]; exact hhex _ (by omega)
      · rw [h]; exact hhex _ (by omega)
  rw [if_neg h7]
  by_cases h8 : c.toNat = 0x2028 ∨ c.toNat = 0x2029
  · rw [if_pos h8]
    have e : [(0x5C : UInt8), 0x75, 0x32, 0x30, 0x32, gojson.hex (c.toNat % 16)] ++ rest =
        0x5C :: 0x75 :: ([0x32, 0x30, 0x32, gojson.hex (c.toNat % 16)] ++ rest) := rfl
    rw [e, gojson.compact_escape, gojson.compact_inString_bytes]
    · rfl
    · intro x hx
      simp only [List.mem_cons, List.mem_singleton, List.not_mem_nil, or_false] at hx
      rcases hx with h | h | h | h
      · rw [h, h32]; decide
      · rw [h, h30]; decide
      · rw [h, h32]; decide
      · rw [h]; exact hhex _ (by omega)
  rw [if_neg h8]
  unfold gojson.encodeRune
  by_cases k1 : c.toNat < 0x80
  · rw [if_pos k1]
    apply gojson.compact_inString_bytes
    intro x hx
    rw [List.mem_singleton.mp hx, gojson.toNat_ofNat_lt (by omega)]
    omega
  rw [if_neg k1]
  by_cases k2 : c.toNat < 0x800
  · rw [if_pos k2]
    apply gojson.compact_inString_bytes
    intro x hx
    simp only [List.mem_cons, List.mem_singleton, List.not_mem_nil, or_false] at hx
    rcases hx with h | h <;> rw [h, gojson.toNat_ofNat_lt (by omega)] <;> omega
  rw [if_neg k2]
  by_cases k3 : c.toNat < 0x10000
  · rw [if_pos k3]
    have t0 : (UInt8.ofNat (0xE0 + c.toNat / 4096)).toNat = 0xE0 + c.toNat / 4096 :=
      gojson.toNat_ofNat_lt (by omega)
    have t1 : (UInt8.ofNat (0x80 + c.toNat / 64 % 64)).toNat = 0x80 + c.toNat / 64 % 64 :=
      gojson.toNat_ofNat_lt (by omega)
    have t2 : (UInt8.ofNat (0x80 + c.toNat % 64)).toNat = 0x80 + c.toNat % 64 :=
      gojson.toNat_ofNat_lt (by omega)
    have htail : gojson.compact .inString 0 ([UInt8.ofNat (0x80 + c.toNat / 64 % 64),
        UInt8.ofNat (0x80 + c.toNat % 64)] ++ rest) =
        [UInt8.ofNat (0x80 + c.toNat / 64 % 64), UInt8.ofNat (0x80 + c.toNat % 64)] ++
          gojson.compact .inString 0 rest := by
      apply gojson.compact_inString_bytes
      intro x hx
      simp only [List.mem_cons, List.mem_singleton, List.not_mem_nil, or_false] at hx
      rcases hx with h | h
      · rw [h, t1]; omega
      · rw [h, t2]; omega
    by_cases k4 : 0xE0 + c.toNat / 4096 = 0xE2
    · have hs : gojson.separatorEscape ([UInt8.ofNat (0x80 + c.toNat / 64 % 64),
          UInt8.ofNat (0x80 + c.toNat % 64)] ++ rest) = none := by
        simp only [List.cons_append, List.nil_append, gojson.separatorEscape]
        rw [t1, t2, if_neg (by omega)]
      have e : [UInt8.ofNat (0xE0 + c.toNat / 4096), UInt8.ofNat (0x80 + c.toNat / 64 % 64),
          UInt8.ofNat (0x80 + c.toNat % 64)] ++ rest = UInt8.ofNat (0xE0 + c.toNat / 4096) ::
            ([UInt8.ofNat (0x80 + c.toNat / 64 % 64), UInt8.ofNat (0x80 + c.toNat % 64)] ++
              rest) := rfl
      rw [e, gojson.compact_lead _ _ (by rw [t0]; exact k4) hs, htail]
      rfl
    · have e : [UInt8.ofNat (0xE0 + c.toNat / 4096), UInt8.ofNat (0x80 + c.toNat / 64 % 64),
          UInt8.ofNat (0x80 + c.toNat % 64)] ++ rest = UInt8.ofNat (0xE0 + c.toNat / 4096) ::
            ([UInt8.ofNat (0x80 + c.toNat / 64 % 64), UInt8.ofNat (0x80 + c.toNat % 64)] ++
              rest) := rfl
      rw [e, gojson.compact_inString_byte _ _ (by rw [t0]; omega), htail]
      rfl
  rw [if_neg k3]
  apply gojson.compact_inString_bytes
  intro x hx
  simp only [List.mem_cons, List.mem_singleton, List.not_mem_nil, or_false] at hx
  rcases hx with h | h | h | h <;> rw [h, gojson.toNat_ofNat_lt (by omega)] <;> omega

theorem gojson.compact_appendRunes (cs : List Char) (rest : List UInt8) :
    gojson.compact .inString 0 (gojson.appendRunes cs ++ rest) =
      gojson.appendRunes cs ++ gojson.compact .inString 0 rest := by
  induction cs with
  | nil => rfl
  | cons c cs ih =>
    simp only [gojson.appendRunes, List.append_assoc]
    rw [gojson.compact_appendRune, ih]

/-- Compaction keeps a string literal written by `appendString`. -/
theorem gojson.compact_appendString (s : String) (rest : List UInt8) :
    gojson.compact .outside 0 (gojson.appendString s ++ rest) =
      gojson.appendString s ++ gojson.compact .outside 0 rest := by
  have h22 : (0x22 : UInt8).toNat = 0x22 := rfl
  have e : gojson.appendString s ++ rest =
      0x22 :: (gojson.appendRunes s.data ++ 0x22 :: rest) := by
    simp [gojson.appendString]
  have e2 : gojson.appendString s ++ gojson.compact .outside 0 rest =
      0x22 :: (gojson.appendRunes s.data ++ 0x22 :: gojson.compact .outside 0 rest) := by
    simp [gojson.appendString]
  rw [e, e2, gojson.compact_outside_quote _ _ h22, gojson.compact_appendRunes,
    gojson.compact_inString_quote _ _ h22]

theorem gojson.compact_appendInt (n : Int) (rest : List UInt8) :
    gojson.compact .outside 0 (gojson.appendInt n ++ rest) =
      gojson.appendInt n ++ gojson.compact .outside 0 rest := by
  obtain ⟨b, tail, hb, -, hall⟩ := gojson.appendInt_head n
  apply gojson.compact_outside_bytes
  intro x hx
  rw [hb] at hx
  have := hall x hx
  omega

theorem gojson.compact_appendMember (m : String × List UInt8) (rest : List UInt8)
    (hm : ∀ r, gojson.compact .outside 0 (m.2 ++ r) = m.2 ++ gojson.compact .outside 0 r) :
    gojson.compact .outside 0 (gojson.appendMember m ++ rest) =
      gojson.appendMember m ++ gojson.compact .outside 0 rest := by
  have h3A : (0x3A : UInt8).toNat = 0x3A := rfl
  unfold gojson.appendMember
  rw [List.append_assoc, gojson.compact_appendString]
  simp only [List.cons_append]
  rw [gojson.compact_outside_byte _ _ (by rw [h3A]; decide) (by rw [h3A]; decide), hm]
  simp

theorem gojson.compact_appendMembers (ms : List (String × List UInt8)) (rest : List UInt8)
    (hms : ∀ m ∈ ms, ∀ r,
      gojson.compact .outside 0 (m.2 ++ r) = m.2 ++ gojson.compact .outside 0 r) :
    gojson.compact .outside 0 (gojson.appendMembers ms ++ rest) =
      gojson.appendMembers ms ++ gojson.compact .outside 0 rest := by
  have h2C : (0x2C : UInt8).toNat = 0x2C := rfl
  induction ms with
  | nil => rfl
  | cons m ms ih =>
    cases ms with
    | nil =>
      rw [gojson.appendMembers]
      exact gojson.compact_appendMember m rest (hms m (List.mem_cons_self _ _))
    | cons n ns =>
      rw [gojson.appendMembers, List.append_assoc,
        gojson.compact_appendMember m _ (hms m (List.mem_cons_self _ _))]
      simp only [List.cons_append]
      rw [gojson.compact_outside_byte _ _ (by rw [h2C]; decide) (by rw [h2C]; decide),
        ih fun x hx => hms x (List.mem_cons_of_mem _ hx)]
      simp

theorem gojson.compact_appendObject (ms : List (String × List UInt8)) (rest : List UInt8)
    (hms : ∀ m ∈ ms, ∀ r,
      gojson.compact .outside 0 (m.2 ++ r) = m.2 ++ gojson.compact .outside 0 r) :
    gojson.compact .outside 0 (gojson.appendObject ms ++ rest) =
      gojson.appendObject ms ++ gojson.compact .outside 0 rest := by
  have h7B : (0x7B : UInt8).toNat = 0x7B := rfl
  have h7D : (0x7D : UInt8).toNat = 0x7D := rfl
  unfold gojson.appendObject
  simp only [List.cons_append, List.append_assoc, List.singleton_append]
  rw [gojson.compact_outside_byte _ _ (by rw [h7B]; decide) (by rw [h7B]; decide),
    gojson.compact_appendMembers ms _ hms,
    gojson.compact_outside_byte _ _ (by rw [h7D]; decide) (by rw [h7D]; decide)]
  simp

theorem gojson.compact_fieldsOf (data : protocol.Payload) :
    ∀ m ∈ gojson.fieldsOf data, ∀ r,
      gojson.compact .outside 0 (m.2 ++ r) = m.2 ++ gojson.compact .outside 0 r := by
  intro x hx r
  cases data with
  | PowChallenge d =>
    simp only [gojson.fieldsOf, List.mem_cons, List.mem_singleton, List.not_mem_nil,
      or_false] at hx
    rcases hx with h | h | h | h | h | h | h | h <;> rw [h] <;>
      first
        | exact gojson.compact_appendString _ _
        | exact gojson.compact_appendInt _ _
  | QuoteResponse d =>
    simp only [gojson.fieldsOf, List.mem_cons, List.mem_singleton, List.not_mem_nil,
      or_false] at hx
    rcases hx with h | h <;> rw [h] <;> exact gojson.compact_appendString _ _
  | Error d =>
    simp only [gojson.fieldsOf, List.mem_cons, List.mem_singleton, List.not_mem_nil,
      or_false] at hx
    rcases hx with h | h <;> rw [h] <;> exact gojson.compact_appendString _ _

/-- Compaction keeps the JSON of a payload. -/
theorem gojson.compact_marshal (data : protocol.Payload) :
    gojson.compact .outside 0 (gojson.marshal data) = gojson.marshal data := by
  have h := gojson.compact_appendObject (gojson.fieldsOf data) []
    (gojson.compact_fieldsOf data)
  have h0 : gojson.compact .outside 0 [] = [] := rfl
  rw [List.append_nil, h0, List.append_nil] at h
  exact h

theorem gojson.encodeRune_ge (c : Char) (h : 0x20 ≤ c.toNat) :
    ∀ x ∈ gojson.encodeRune c, 0x20 ≤ x.toNat := by
  have hv := gojson.char_valid c
  intro x hx
  unfold gojson.encodeRune at hx
  split at hx
  · rw [List.mem_singleton.mp hx, gojson.toNat_ofNat_lt (by omega)]
    exact h
  · split at hx
    · simp only [List.mem_cons, List.mem_singleton, List.not_mem_nil, or_false] at hx
      rcases hx with h | h <;> rw [h, gojson.toNat_ofNat_lt (by omega)] <;> omega
    · split at hx
      · simp only [List.mem_cons, List.mem_singleton, List.not_mem_nil, or_false] at hx
        rcases hx with h | h | h <;> rw [h, gojson.toNat_ofNat_lt (by omega)] <;> omega
      · simp only [List.mem_cons, List.mem_singleton, List.not_mem_nil, or_false] at hx
        rcases hx with h | h | h | h <;> rw [h, gojson.toNat_ofNat_lt (by omega)] <;> omega

/-- No byte that `appendString` writes for a character is a control character: a line feed in
the string is written as an escape. -/
theorem gojson.appendRune_ge (c : Char) : ∀ x ∈ gojson.appendRune c, 0x20 ≤ x.toNat := by
  have hv := gojson.char_valid c
  have hhex : ∀ n, n < 16 → 0x20 ≤ (gojson.hex n).toNat := by
    intro n hn
    have := gojson.hex_range hn
    omega
  intro x hx
  unfold gojson.appendRune at hx
  split at hx
  · rename_i h1
    simp only [List.mem_cons, List.mem_singleton, List.not_mem_nil, or_false] at hx
    rcases hx with h | h
    · rw [h]; decide
    · rw [h, gojson.toNat_ofNat_lt (by omega)]; omega
  iterate 5
    split at hx
    · simp only [List.mem_cons, List.mem_singleton, List.not_mem_nil, or_false] at hx
      rcases hx with h | h <;> rw [h] <;> decide
  split at hx
  · simp only [List.mem_cons, List.mem_singleton, List.not_mem_nil, or_false] at hx
    rcases hx with h | h | h | h | h | h
    · rw [h]; decide
    · rw [h]; decide
    · rw [h]; decide
    · rw [h]; decide
    · rw [h]; exact hhex _ (by omega)
    · rw [h]; exact hhex _ (by omega)
  split at hx
  · simp only [List.mem_cons, List.mem_singleton, List.not_mem_nil, or_false] at hx
    rcases hx with h | h | h | h | h | h
    · rw [h]; decide
    · rw [h]; decide
    · rw [h]; decide
    · rw [h]; decide
    · rw [h]; decide
    · rw [h]; exact hhex _ (by omega)
  · rename_i h1 h2 h3 h4 h5 h6 h7 h8
    exact gojson.encodeRune_ge c (by omega) x hx

theorem gojson.appendRunes_ge (cs : List Char) :
    ∀ x ∈ gojson.appendRunes cs, 0x20 ≤ x.toNat := by
  induction cs with
  | nil => simp [gojson.appendRunes]
  | cons c cs ih =>
    intro x hx
    rw [gojson.appendRunes] at hx
    rcases List.mem_append.mp hx with h | h
    · exact gojson.appendRune_ge c x h
    · exact ih x h

theorem gojson.appendString_ge (s : String) :
    ∀ x ∈ gojson.appendString s, 0x20 ≤ x.toNat := by
  intro x hx
  unfold gojson.appendString at hx
  rcases List.mem_cons.mp hx with h | h
  · rw [h]; decide
  · rcases List.mem_append.mp h with h | h
    · exact gojson.appendRunes_ge _ x h
    · rw [List.mem_singleton.mp h]; decide

theorem gojson.appendInt_ge (n : Int) : ∀ x ∈ gojson.appendInt n, 0x20 ≤ x.toNat := by
  obtain ⟨b, tail, hb, -, hall⟩ := gojson.appendInt_head n
  intro x hx
  rw [hb] at hx
  have := hall x hx
  omega

theorem gojson.appendMember_ge (m : String × List UInt8) (hm : ∀ x ∈ m.2, 0x20 ≤ x.toNat) :
    ∀ x ∈ gojson.appendMember m, 0x20 ≤ x.toNat := by
  intro x hx
  unfold gojson.appendMember at hx
  rcases List.mem_append.mp hx with h | h
  · exact gojson.appendString_ge _ x h
  · rcases List.mem_cons.mp h with h | h
    · rw [h]; decide
    · exact hm x h

theorem gojson.appendMembers_ge (ms : List (String × List UInt8))
    (hms : ∀ m ∈ ms, ∀ x ∈ m.2, 0x20 ≤ x.toNat) :
    ∀ x ∈ gojson.appendMembers ms, 0x20 ≤ x.toNat := by
  induction ms with
  | nil => simp [gojson.appendMembers]
  | cons m ms ih =>
    intro x hx
    cases ms with
    | nil =>
      rw [gojson.appendMembers] at hx
      exact gojson.appendMember_ge m (hms m (List.mem_cons_self _ _)) x hx
    | cons n ns =>
      rw [gojson.appendMembers] at hx
      rcases List.mem_append.mp hx with h | h
      · exact gojson.appendMember_ge m (hms m (List.mem_cons_self _ _)) x h
      · rcases List.mem_cons.mp h with h | h
        · rw [h]; decide
        · exact ih (fun y hy => hms y (List.mem_cons_of_mem _ hy)) x h

theorem gojson.appendObject_ge (ms : List (String × List UInt8))
    (hms : ∀ m ∈ ms, ∀ x ∈ m.2, 0x20 ≤ x.toNat) :
    ∀ x ∈ gojson.appendObject ms, 0x20 ≤ x.toNat := by
  intro x hx
  unfold gojson.appendObject at hx
  rcases List.mem_cons.mp hx with h | h
  · rw [h]; decide
  · rcases List.mem_append.mp h with h | h
    · exact gojson.appendMembers_ge ms hms x h
    · rw [List.mem_singleton.mp h]; decide

theorem gojson.marshal_ge (data : protocol.Payload) :
    ∀ x ∈ gojson.marshal data, 0x20 ≤ x.toNat := by
  apply gojson.appendObject_ge
  intro m hm
  cases data with
  | PowChallenge d =>
    simp only [gojson.fieldsOf, List.mem_cons, List.mem_singleton, List.not_mem_nil,
      or_false] at hm
    rcases hm with h | h | h | h | h | h | h | h <;> rw [h] <;>
      first
        | exact gojson.appendString_ge _
        | exact gojson.appendInt_ge _
  | QuoteResponse d =>
    simp only [gojson.fieldsOf, List.mem_cons, List.mem_singleton, List.not_mem_nil,
      or_false] at hm
    rcases hm with h | h <;> rw [h] <;> exact gojson.appendString_ge _
  | Error d =>
    simp only [gojson.fieldsOf, List.mem_cons, List.mem_singleton, List.not_mem_nil,
      or_false] at hm
    rcases hm with h | h <;> rw [h] <;> exact gojson.appendString_ge _

/-- The JSON of a payload passes `checkValid`. -/
theorem gojson.checkValid_marshal (data : protocol.Payload) :
    gojson.checkValid (gojson.marshal data) = true := by
  obtain ⟨h1, h2⟩ := gojson.scans_marshal 9999 data [] gojson.stops_nil
  rw [List.append_nil] at h1 h2
  unfold gojson.checkValid
  rw [h2]
  have e : gojson.maxNestingDepth = 9999 + 1 := rfl
  rw [e, h1]
  rfl

theorem gojson.marshal_ne_nil (data : protocol.Payload) : gojson.marshal data ≠ [] := by
  unfold gojson.marshal gojson.appendObject
  exact List.cons_ne_nil _ _

/-- The envelope `json.Marshal` writes for a message type and the JSON of a payload. -/
theorem gojson.marshalMessage_marshal (msgType : String) (data : protocol.Payload) :
    gojson.marshalMessage ⟨msgType, gojson.marshal data⟩ =
      .ok (gojson.appendObject [("type", gojson.appendString msgType),
        ("data", gojson.marshal data)]) := by
  unfold gojson.marshalMessage
  simp only
  rw [if_neg (gojson.marshal_ne_nil data), gojson.checkValid_marshal, if_pos rfl,
    gojson.compact_marshal]

theorem gojson.envelope_ge (msgType : String) (data : protocol.Payload) :
    ∀ x ∈ gojson.appendObject [("type", gojson.appendString msgType),
      ("data", gojson.marshal data)], 0x20 ≤ x.toNat := by
  apply gojson.appendObject_ge
  intro m hm
  simp only [List.mem_cons, List.mem_singleton, List.not_mem_nil, or_false] at hm
  rcases hm with h | h
  · rw [h]; exact gojson.appendString_ge _
  · rw [h]; exact gojson.marshal_ge _

theorem gojson.envelope_scans (msgType : String) (data : protocol.Payload) :
    ∀ x ∈ [("type", gojson.appendString msgType), ("data", gojson.marshal data)],
      gojson.Scans 9999 x.2 := by
  intro m hm
  simp only [List.mem_cons, List.mem_singleton, List.not_mem_nil, or_false] at hm
  rcases hm with h | h
  · rw [h]; exact gojson.scans_appendString _ _
  · rw [h]; exact gojson.scans_marshal 9998 data

theorem gojson.stringField_appendString (name s : String) :
    gojson.stringField name (gojson.appendString s) = .ok (some s) := by
  have hs := gojson.scanString_appendString s []
  rw [List.append_nil] at hs
  have h22 : (0x22 : UInt8).toNat = 0x22 := rfl
  have e : gojson.appendString s = 0x22 :: (gojson.appendRunes s.data ++ [0x22]) := rfl
  rw [e] at hs ⊢
  rw [gojson.stringField, if_pos h22, hs]

/-- Decoding the envelope of a message type and the JSON of a payload, followed by a line
feed, gives the message type and the JSON of the payload. -/
theorem gojson.unmarshalMessage_envelope (msgType : String) (data : protocol.Payload) :
    gojson.unmarshalMessage (gojson.appendObject [("type", gojson.appendString msgType),
        ("data", gojson.marshal data)] ++ [10]) = .ok ⟨msgType, gojson.marshal data⟩ := by
  have h7B : (0x7B : UInt8).toNat = 0x7B := rfl
  have hstop : gojson.Stops [10] := gojson.stops_cons _ _ (Or.inr (Or.inr rfl))
  obtain ⟨h1, h2⟩ := gojson.scans_appendObject 9999 _ (gojson.envelope_scans msgType data)
    [10] hstop
  have hvalid : gojson.checkValid (gojson.appendObject [("type", gojson.appendString msgType),
      ("data", gojson.marshal data)] ++ [10]) = true := by
    unfold gojson.checkValid
    rw [h2]
    have e : gojson.maxNestingDepth = 9999 + 1 := rfl
    rw [e, h1]
    rfl
  have hobj := gojson.scanObject_appendMembers 9999
    [("type", gojson.appendString msgType), ("data", gojson.marshal data)] [10]
    (gojson.envelope_scans msgType data)
  have e : gojson.appendObject [("type", gojson.appendString msgType),
      ("data", gojson.marshal data)] ++ [10] =
      0x7B :: (gojson.appendMembers [("type", gojson.appendString msgType),
        ("data", gojson.marshal data)] ++ 0x7D :: [10]) := by
    simp [gojson.appendObject]
  unfold gojson.unmarshalMessage gojson.unmarshalStruct
  rw [if_pos hvalid, h2, e]
  simp only
  have e2 : gojson.maxNestingDepth - 1 = 9999 := rfl
  rw [if_pos h7B, e2, hobj]
  simp only [List.foldl_cons, List.foldl_nil]
  have hs1 : gojson.storeMessageMember (⟨"", []⟩, none) ("type", gojson.appendString msgType) =
      (⟨msgType, []⟩, none) := by
    have f1 : gojson.foldName "type" = "TYPE".data := by decide
    simp only [gojson.storeMessageMember]
    rw [if_pos f1, gojson.stringField_appendString]
  have hs2 : gojson.storeMessageMember (⟨msgType, []⟩, none) ("data", gojson.marshal data) =
      (⟨msgType, gojson.marshal data⟩, none) := by
    have f1 : ¬ gojson.foldName "data" = "TYPE".data := by decide
    have f2 : gojson.foldName "data" = "DATA".data := by decide
    simp only [gojson.storeMessageMember]
    rw [if_neg f1, if_pos f2]
  rw [hs1, hs2]

/-- C22. With `encoding/json` as modelled by `encodingJson`, for every message type and every
payload (their strings being Unicode text, as the strings of this model are), over a
connection whose `Write` does not fail: `json.Marshal` serialises the payload to `dataBytes`
and the envelope of the type and `dataBytes` to `msgBytes`; `SendMessage` returns no error and
makes one `Write`, of `msgBytes` followed by a newline; `msgBytes` holds no newline byte, so
the frame holds exactly one, its last byte; and reading up to the first newline from the
frame, whatever follows it, gives back exactly the frame, whose decoding is the envelope with
the given type and the JSON of the payload as data. -/
theorem SendMessage_framing (conn : protocol.Conn) (msgType : String)
    (data : protocol.Payload) (hconn : ∀ text, conn.faults.head? ≠ some (some text)) :
    ∃ dataBytes msgBytes,
      encodingJson.marshal data = .ok dataBytes ∧
      encodingJson.marshalMessage ⟨msgType, dataBytes⟩ = .ok msgBytes ∧
      (protocol.SendMessage encodingJson conn msgType data).1 = .ok () ∧
      (protocol.SendMessage encodingJson conn msgType data).2.written =
        conn.written ++ [msgBytes ++ [10]] ∧
      (10 : UInt8) ∉ msgBytes ∧
      (msgBytes ++ [10]).count 10 = 1 ∧
      (msgBytes ++ [10]).getLast? = some 10 ∧
      ∀ rest : List UInt8,
        ReadBytes 10 (msgBytes ++ [10] ++ rest) = some (msgBytes ++ [10], rest) ∧
          ∃ line, ReadBytes 10 (msgBytes ++ [10] ++ rest) = some (line, rest) ∧
            encodingJson.unmarshalMessage line = .ok ⟨msgType, dataBytes⟩ := by
  have hdata : encodingJson.marshal data = .ok (gojson.marshal data) := rfl
  have hmsg : encodingJson.marshalMessage ⟨msgType, gojson.marshal data⟩ =
      .ok (gojson.appendObject [("type", gojson.appendString msgType),
        ("data", gojson.marshal data)]) := gojson.marshalMessage_marshal msgType data
  have hnl : (10 : UInt8) ∉ gojson.appendObject [("type", gojson.appendString msgType),
      ("data", gojson.marshal data)] := by
    intro hmem
    have := gojson.envelope_ge msgType data 10 hmem
    exact absurd this (by decide)
  have hdec : encodingJson.unmarshalMessage (gojson.appendObject
      [("type", gojson.appendString msgType), ("data", gojson.marshal data)] ++ [10]) =
      .ok ⟨msgType, gojson.marshal data⟩ := gojson.unmarshalMessage_envelope msgType data
  obtain ⟨h1, h2⟩ := protocol.SendMessage_of_connected encodingJson conn msgType data _ _
    hdata hmsg hconn
  refine ⟨_, _, hdata, hmsg, h1, h2, hnl, ?_, ?_, fun rest => ?_⟩
  · rw [List.count_append, List.count_eq_zero.mpr hnl]
    rfl
  · simp
  · exact ⟨ReadBytes_of_line 10 _ rest hnl, _, ReadBytes_of_line 10 _ rest hnl, hdec⟩

/-- Witness of `SendMessage_framing`: an `invalid_solution` error on a fresh connection. -/
theorem SendMessage_framing_witness :
    ∃ dataBytes msgBytes,
      encodingJson.marshal (.Error ⟨"invalid_solution", "invalid challenge ID format"⟩) =
        .ok dataBytes ∧
      encodingJson.marshalMessage ⟨"error", dataBytes⟩ = .ok msgBytes ∧
      (protocol.SendMessage encodingJson sampleConn "error"
        (.Error ⟨"invalid_solution", "invalid challenge ID format"⟩)).1 = .ok () ∧
      (protocol.SendMessage encodingJson sampleConn "error"
        (.Error ⟨"invalid_solution", "invalid challenge ID format"⟩)).2.written =
        sampleConn.written ++ [msgBytes ++ [10]] ∧
      (10 : UInt8) ∉ msgBytes ∧
      (msgBytes ++ [10]).count 10 = 1 ∧
      (msgBytes ++ [10]).getLast? = some 10 ∧
      ∀ rest : List UInt8,
        ReadBytes 10 (msgBytes ++ [10] ++ rest) = some (msgBytes ++ [10], rest) ∧
          ∃ line, ReadBytes 10 (msgBytes ++ [10] ++ rest) = some (line, rest) ∧
            encodingJson.unmarshalMessage line = .ok ⟨"error", dataBytes⟩ :=
  SendMessage_framing sampleConn "error"
    (.Error ⟨"invalid_solution", "invalid challenge ID format"⟩) (fun _ h => nomatch h)

/-- The frame of an error whose message holds a line feed and a quote: the line feed goes out
as the escape `\n`, and the frame decodes to the message with the line feed. -/
theorem SendMessage_sample_frame :
    (protocol.SendMessage encodingJson sampleConn "error"
        (.Error ⟨"invalid_solution", "no \"id\"\nin <data>"⟩)).2.written =
      [bytesOf ("\x7b\"type\":\"error\",\"data\":\x7b\"code\":\"invalid_solution\"," ++
        "\"message\":\"no \\\"id\\\"\\nin \\u003cdata\\u003e\"\x7d\x7d") ++ [10]] ∧
      encodingJson.unmarshalMessage
        (bytesOf ("\x7b\"type\":\"error\",\"data\":\x7b\"code\":\"invalid_solution\"," ++
          "\"message\":\"no \\\"id\\\"\\nin \\u003cdata\\u003e\"\x7d\x7d") ++ [10]) =
        .ok ⟨"error", bytesOf ("\x7b\"code\":\"invalid_solution\"," ++
          "\"message\":\"no \\\"id\\\"\\nin \\u003cdata\\u003e\"\x7d")⟩ := by
  constructor
  · decide
  · rfl

/-! ## C26: the loop of a connection -/

/-- An iteration after which the loop goes on has read at least one byte. -/
theorem tcp.ConnectionHandler.iteration_input {σ ρ : Type} (json : protocol.Json)
    (registry : tcp.HandlerRegistry σ ρ) (env : tcp.LoopEnv) (clientIP : String) (i : Nat)
    (s s1 : tcp.LoopState σ ρ)
    (h : tcp.ConnectionHandler.iteration json registry env clientIP i s = .next s1) :
    s1.input.length < s.input.length := by
  unfold tcp.ConnectionHandler.iteration at h
  split at h
  · cases h
  · split at h
    · cases h
    · split at h
      · cases h
      · rename_i msgBytes rest hread
        have hlen := ReadBytes_length hread
        split at h
        · cases h
        · split at h
          · split at h
            · cases h
            · cases h; exact hlen
          · split at h
            · split at h
              · cases h
              · cases h; exact hlen
            · split at h
              · cases h
              · cases h; exact hlen
              · cases h; exact hlen

/-- The loop does not depend on its fuel once the fuel is above the number of bytes to
come. -/
theorem tcp.ConnectionHandler.loop_fuel {σ ρ : Type} (json : protocol.Json)
    (registry : tcp.HandlerRegistry σ ρ) (env : tcp.LoopEnv) (clientIP : String)
    (fuel1 : Nat) :
    ∀ (fuel2 i : Nat) (s : tcp.LoopState σ ρ), s.input.length < fuel1 →
      s.input.length < fuel2 →
      tcp.ConnectionHandler.loop json registry env clientIP fuel1 i s =
        tcp.ConnectionHandler.loop json registry env clientIP fuel2 i s := by
  induction fuel1 with
  | zero => intro fuel2 i s h1; omega
  | succ f1 ih =>
    intro fuel2 i s h1 h2
    cases fuel2 with
    | zero => omega
    | succ f2 =>
      rw [tcp.ConnectionHandler.loop, tcp.ConnectionHandler.loop]
      cases hstep : tcp.ConnectionHandler.iteration json registry env clientIP i s with
      | stop run => rfl
      | next s1 =>
        have hlen := tcp.ConnectionHandler.iteration_input json registry env clientIP i s s1
          hstep
        exact ih f2 (i + 1) s1 (by omega) (by omega)

/-- C26 (as amended). In the loop of `HandleConnection`, when the handler invoked for a
received message returns an error, the iteration ends with the loop going on: the error is
recorded (logged) and the next iteration reads the bytes that follow. The loop is left when the
context is done, when setting a deadline fails, when reading fails, when the `SendError` for a
line that does not decode or for an unknown message type itself fails, and when a handler
panics. -/
theorem HandleConnection_handler_error {σ ρ : Type} (json : protocol.Json)
    (registry : tcp.HandlerRegistry σ ρ) (env : tcp.LoopEnv) (clientIP : String) (i : Nat)
    (s : tcp.LoopState σ ρ) :
    (∀ (msgBytes rest : List UInt8) (msg : protocol.Message)
      (handler : tcp.MessageHandler σ ρ) (err : String) (fuel : Nat),
      env.cancelled i = false → env.readDeadline i = none →
      ReadBytes 10 s.input = some (msgBytes, rest) → env.writeDeadline i = none →
      json.unmarshalMessage msgBytes = .ok msg →
      registry.GetHandler msg.msgType = some handler →
      (handler s.conn clientIP msg s.service s.quotes).result = .error err →
      tcp.ConnectionHandler.iteration json registry env clientIP i s =
          .next ⟨(handler s.conn clientIP msg s.service s.quotes).service,
            (handler s.conn clientIP msg s.service s.quotes).quotes,
            (handler s.conn clientIP msg s.service s.quotes).conn, rest,
            s.handled ++ [(msg, .error err)]⟩ ∧
        tcp.ConnectionHandler.loop json registry env clientIP (fuel + 1) i s =
          tcp.ConnectionHandler.loop json registry env clientIP fuel (i + 1)
            ⟨(handler s.conn clientIP msg s.service s.quotes).service,
              (handler s.conn clientIP msg s.service s.quotes).quotes,
              (handler s.conn clientIP msg s.service s.quotes).conn, rest,
              s.handled ++ [(msg, .error err)]⟩) ∧
    (env.cancelled i = true →
      tcp.ConnectionHandler.iteration json registry env clientIP i s =
        .stop ⟨s, .cancelled⟩) ∧
    (∀ e, env.cancelled i = false → env.readDeadline i = some e →
      tcp.ConnectionHandler.iteration json registry env clientIP i s =
        .stop ⟨s, .readDeadline⟩) ∧
    (env.cancelled i = false → env.readDeadline i = none → ReadBytes 10 s.input = none →
      tcp.ConnectionHandler.iteration json registry env clientIP i s =
        .stop ⟨{ s with input := [] }, .readError⟩) ∧
    (∀ (msgBytes rest : List UInt8) (e : String),
      env.cancelled i = false → env.readDeadline i = none →
      ReadBytes 10 s.input = some (msgBytes, rest) → env.writeDeadline i = some e →
      tcp.ConnectionHandler.iteration json registry env clientIP i s =
        .stop ⟨{ s with input := rest }, .writeDeadline⟩) ∧
    (∀ (msgBytes rest : List UInt8) (e e2 : String),
      env.cancelled i = false → env.readDeadline i = none →
      ReadBytes 10 s.input = some (msgBytes, rest) → env.writeDeadline i = none →
      json.unmarshalMessage msgBytes = .error e →
      (protocol.SendError json s.conn "invalid_request" "Invalid JSON format").1 = .error e2 →
      tcp.ConnectionHandler.iteration json registry env clientIP i s =
        .stop ⟨{ s with input := rest,
                        conn := (protocol.SendError json s.conn "invalid_request"
                          "Invalid JSON format").2 }, .sendError⟩) ∧
    (∀ (msgBytes rest : List UInt8) (msg : protocol.Message) (e2 : String),
      env.cancelled i = false → env.readDeadline i = none →
      ReadBytes 10 s.input = some (msgBytes, rest) → env.writeDeadline i = none →
      json.unmarshalMessage msgBytes = .ok msg → registry.GetHandler msg.msgType = none →
      (protocol.SendError json s.conn "invalid_request" "Unknown message type").1 =
        .error e2 →
      tcp.ConnectionHandler.iteration json registry env clientIP i s =
        .stop ⟨{ s with input := rest,
                        conn := (protocol.SendError json s.conn "invalid_request"
                          "Unknown message type").2 }, .sendError⟩) ∧
    (∀ (fuel : Nat) (run : tcp.LoopRun σ ρ),
      tcp.ConnectionHandler.iteration json registry env clientIP i s = .stop run →
      tcp.ConnectionHandler.loop json registry env clientIP (fuel + 1) i s = run) := by
  refine ⟨?_, ?_, ?_, ?_, ?_, ?_, ?_, ?_⟩
  · intro msgBytes rest msg handler err fuel hc hrd hread hwd hdec hreg hres
    have hit : tcp.ConnectionHandler.iteration json registry env clientIP i s =
        .next ⟨(handler s.conn clientIP msg s.service s.quotes).service,
          (handler s.conn clientIP msg s.service s.quotes).quotes,
          (handler s.conn clientIP msg s.service s.quotes).conn, rest,
          s.handled ++ [(msg, .error err)]⟩ := by
      unfold tcp.ConnectionHandler.iteration
      simp only [hc, Bool.false_eq_true, if_false, hrd, hread, hwd, hdec, hreg, hres]
    refine ⟨hit, ?_⟩
    rw [tcp.ConnectionHandler.loop, hit]
  · intro hc
    unfold tcp.ConnectionHandler.iteration
    simp only [hc, if_true]
  · intro e hc hrd
    unfold tcp.ConnectionHandler.iteration
    simp only [hc, Bool.false_eq_true, if_false, hrd]
  · intro hc hrd hread
    unfold tcp.ConnectionHandler.iteration
    simp only [hc, Bool.false_eq_true, if_false, hrd, hread]
  · intro msgBytes rest e hc hrd hread hwd
    unfold tcp.ConnectionHandler.iteration
    simp only [hc, Bool.false_eq_true, if_false, hrd, hread, hwd]
  · intro msgBytes rest e e2 hc hrd hread hwd hdec hsend
    have hs : protocol.SendError json s.conn protocol.ErrInvalidRequest "Invalid JSON format" =
        (.error e2, (protocol.SendError json s.conn protocol.ErrInvalidRequest
          "Invalid JSON format").2) := by
      rw [← show (protocol.SendError json s.conn "invalid_request" "Invalid JSON format").1 =
        .error e2 from hsend]
      rfl
    unfold tcp.ConnectionHandler.iteration
    simp only [hc, Bool.false_eq_true, if_false, hrd, hread, hwd, hdec]
    rw [hs]
    rfl
  · intro msgBytes rest msg e2 hc hrd hread hwd hdec hreg hsend
    have hs : protocol.SendError json s.conn protocol.ErrInvalidRequest
        "Unknown message type" =
        (.error e2, (protocol.SendError json s.conn protocol.ErrInvalidRequest
          "Unknown message type").2) := by
      rw [← show (protocol.SendError json s.conn "invalid_request" "Unknown message type").1 =
        .error e2 from hsend]
      rfl
    unfold tcp.ConnectionHandler.iteration
    simp only [hc, Bool.false_eq_true, if_false, hrd, hread, hwd, hdec, hreg]
    rw [hs]
    rfl
  · intro fuel run hstop
    rw [tcp.ConnectionHandler.loop, hstop]

/-- C26 (counterexample to the claim as stated). A client sends two `pow_solution` lines on a
connection whose first `Write` fails: the handler invoked for the first line returns the error
of the `Write`, and the loop still reads the second line and hands it to the handler, whose
answer is written; the loop ends only when reading fails after the second line. -/
theorem HandleConnection_goes_on_after_handler_error :
    (tcp.ConnectionHandler.HandleConnection sampleJson sampleRegistry sampleLoopEnv
        sampleSource sampleConnFlaky (sampleLine sampleBadSolution ++ sampleLine sampleBadSolution)
        (Redis.empty 1700000000000) ()).state.handled =
      [(sampleBadSolution, .error "write: broken pipe"), (sampleBadSolution, .ok ())] ∧
    (tcp.ConnectionHandler.HandleConnection sampleJson sampleRegistry sampleLoopEnv
        sampleSource sampleConnFlaky (sampleLine sampleBadSolution ++ sampleLine sampleBadSolution)
        (Redis.empty 1700000000000) ()).ended = .readError ∧
    (tcp.ConnectionHandler.HandleConnection sampleJson sampleRegistry sampleLoopEnv
        sampleSource sampleConnFlaky (sampleLine sampleBadSolution ++ sampleLine sampleBadSolution)
        (Redis.empty 1700000000000) ()).state.conn.written =
      [bytesOf ("\x7b\"type\":\"error\",\"data\":\x7b\"code\":\"invalid_solution\"," ++
        "\"message\":\"invalid challenge ID format\"\x7d\x7d\n")] := by
  refine ⟨by decide, by decide, by decide⟩

end WordOfWisdom
